import Mathlib

/-!
# Profit calculator backend: field normalizer and categorizer

A shallow embedding of `utils/dataFormatter.js` (the Field Normalizer and the
Categorizer of the transaction pipeline) together with the part of the
JavaScript runtime these functions observe: JSON-like values, truthiness,
`String(v)`, `parseFloat`, `String.prototype.toLowerCase` and
`String.prototype.includes`.

Modelling conventions.

* A JavaScript number is `NaN`, `±Infinity` or a finite value, a rational.
  The numbers that `parseFloat` returns are binary64 values: the decimal
  literal is rounded to the nearest binary64 value, ties to even, a literal
  beyond the largest finite value gives `Infinity` and a literal below half
  the smallest subnormal gives `0` (`roundToDouble`).  `Math.abs`, unary minus
  and the comparisons are exact on binary64 values.  `-0` is identified with
  `0` (`-0 <= 0`, `-0 >= 0` and `-0 === 0` all hold in JavaScript).
* Strings are sequences of Unicode scalar values.
* The conversion of a value to a primitive (`String(v)`, `parseFloat(v)`,
  `new Date(v)`) throws a `TypeError` on an object that has an own property
  `toString`: such a property of a parsed JSON or XML document is never a
  function, and the inherited `valueOf` returns the object itself.
* What the code reads from its environment (the clock, `Math.random`, the
  `Date` parser, the digits printed for a number that is not a safe integer)
  is passed in explicitly, see `Host` and `Tick`.
* A thrown exception is a result `Except.error msg`.
-/

namespace Profit

/-! ## Numbers -/

/-- The JavaScript Number type: `NaN`, the two infinities, and the finite
values (rationals, `-0` identified with `0`). -/
inductive JSNum where
  | nan
  | posInf
  | negInf
  | fin (q : ℚ)
  deriving DecidableEq

namespace JSNum

/-- The function `Math.abs`. -/
def abs : JSNum → JSNum
  | nan => nan
  | posInf => posInf
  | negInf => posInf
  | fin q => fin |q|

/-- Unary minus. -/
def neg : JSNum → JSNum
  | nan => nan
  | posInf => negInf
  | negInf => posInf
  | fin q => fin (-q)

/-- The global `isNaN` on a number. -/
def isNaN : JSNum → Bool
  | nan => true
  | _ => false

/-- The comparison `a <= b` of two numbers (false as soon as one is `NaN`). -/
def le : JSNum → JSNum → Bool
  | nan, _ => false
  | _, nan => false
  | negInf, _ => true
  | _, posInf => true
  | posInf, _ => false
  | _, negInf => false
  | fin a, fin b => decide (a ≤ b)

/-- The number zero. -/
def zero : JSNum := fin 0

end JSNum

/-! ## Values -/

/-- JavaScript values as the pipeline meets them: the JSON values, `undefined`
and `Date` objects (`date none` is an invalid date, `date (some t)` has time
value `t` milliseconds).  An object is the list of its own properties in
enumeration order. -/
inductive JSVal where
  | undefined
  | null
  | bool (b : Bool)
  | num (n : JSNum)
  | str (s : String)
  | date (t : Option Int)
  | arr (items : List JSVal)
  | obj (props : List (String × JSVal))

/-- What the functions read from the JavaScript host.
`numberToString q` is `String(q)` for a finite `q` that is not a safe integer,
`dateToString t` is `String(d)` for a `Date` object with time value `t`,
`newDate v` is the time value of `new Date(v)`, `none` when the date is
invalid and when the constructor throws (a caller outside a `try` block goes
through `newDate`, which throws),
`isoDate t` is `toISOString().split('T')[0]` for the time value `t`. -/
structure Host where
  numberToString : ℚ → String
  dateToString : Option Int → String
  newDate : JSVal → Option Int
  isoDate : Int → String

/-- The readings of the environment made while one record is normalized:
`now` is `Date.now()`, `random` is `Math.random().toString(36).substr(2, 9)`,
`today` is `new Date().toISOString().split('T')[0]`. -/
structure Tick where
  now : Nat
  random : String
  today : String

/-- Truthiness (`ToBoolean`). -/
def toBoolean : JSVal → Bool
  | .undefined => false
  | .null => false
  | .bool b => b
  | .num .nan => false
  | .num (.fin q) => decide (q ≠ 0)
  | .num _ => true
  | .str s => decide (s ≠ "")
  | .date _ => true
  | .arr _ => true
  | .obj _ => true

/-- Decimal digits of a natural number. -/
def natToString (n : Nat) : String := Nat.repr n

/-- The conversion `String(n)` of a number: a safe integer prints as its
decimal digits; the digits of any other finite number come from the host. -/
def numberToString (h : Host) : JSNum → String
  | .nan => "NaN"
  | .posInf => "Infinity"
  | .negInf => "-Infinity"
  | .fin q =>
    if q.den = 1 ∧ q.num.natAbs ≤ 2 ^ 53 then
      (if q.num < 0 then "-" else "") ++ natToString q.num.natAbs
    else h.numberToString q

/-- Whether an object has an own property `toString`. -/
def hasOwnToString (props : List (String × JSVal)) : Bool :=
  props.any (fun p => p.1 = "toString")

mutual
/-- Whether the conversion of `v` to a primitive throws: an object throws when
it has an own property `toString`, an array (converted by `join`) when the
conversion of one of its elements throws, and no other value does. -/
def throwsToString : JSVal → Bool
  | .arr items => throwsJoin items
  | .obj props => hasOwnToString props
  | _ => false
/-- Whether `Array.prototype.join` throws on these elements. -/
def throwsJoin : List JSVal → Bool
  | [] => false
  | v :: rest => throwsToString v || throwsJoin rest
end

mutual
/-- The string that the conversion `String(v)` returns when it returns. -/
def strOf (h : Host) : JSVal → String
  | .undefined => "undefined"
  | .null => "null"
  | .bool b => if b then "true" else "false"
  | .num n => numberToString h n
  | .str s => s
  | .date t => h.dateToString t
  | .arr items => joinItems h items
  | .obj _ => "[object Object]"
/-- The method `Array.prototype.join` with the separator `","`: `null` and
`undefined` elements print as the empty string. -/
def joinItems (h : Host) : List JSVal → String
  | [] => ""
  | [.undefined] => ""
  | [.null] => ""
  | [v] => strOf h v
  | .undefined :: rest => "," ++ joinItems h rest
  | .null :: rest => "," ++ joinItems h rest
  | v :: rest => strOf h v ++ "," ++ joinItems h rest
end

/-- The conversion `String(v)`: a `TypeError` when the conversion to a
primitive throws, the string form otherwise. -/
def toStr (h : Host) (v : JSVal) : Except String String :=
  if throwsToString v then .error "Cannot convert object to primitive value"
  else .ok (strOf h v)

/-! ## Strings -/

/-- One character of `String.prototype.toLowerCase`.  The ASCII capitals map to
their small letters; `U+0130` and `U+212A` are the only non-ASCII characters
whose lower case contains an ASCII letter.  Every other character is left in
place: its lower case has no ASCII character, and the code only searches the
result for ASCII keywords. -/
def lowerChar (c : Char) : List Char :=
  if 65 ≤ c.toNat ∧ c.toNat ≤ 90 then [Char.ofNat (c.toNat + 32)]
  else if c.toNat = 0x130 then [Char.ofNat 105, Char.ofNat 0x307]
  else if c.toNat = 0x212A then [Char.ofNat 107]
  else [c]

/-- The method `String.prototype.toLowerCase`. -/
def toLowerCase (s : String) : String :=
  String.mk (s.data.flatMap lowerChar)

/-- Whether `t` occurs in `s` as a contiguous run of characters. -/
def includesChars (t : List Char) : List Char → Bool
  | [] => t.isEmpty
  | c :: cs => t.isPrefixOf (c :: cs) || includesChars t cs

/-- The method `String.prototype.includes`: `includes s t` is `s.includes(t)`. -/
def includes (s t : String) : Bool :=
  includesChars t.data s.data

/-- The characters `TrimString` removes (`WhiteSpace` and `LineTerminator`). -/
def isStrWhiteSpace (c : Char) : Bool :=
  let n := c.toNat
  n = 0x9 || n = 0xA || n = 0xB || n = 0xC || n = 0xD || n = 0x20 || n = 0xA0
    || n = 0x1680 || (0x2000 ≤ n && n ≤ 0x200A) || n = 0x2028 || n = 0x2029
    || n = 0x202F || n = 0x205F || n = 0x3000 || n = 0xFEFF

/-- A decimal digit `0`..`9`. -/
def isDecimalDigit (c : Char) : Bool :=
  48 ≤ c.toNat && c.toNat ≤ 57

/-- The longest run of decimal digits at the front of `s`. -/
def takeDigits : List Char → List Char
  | [] => []
  | c :: cs => if isDecimalDigit c then c :: takeDigits cs else []

/-- What follows the longest run of decimal digits at the front of `s`. -/
def dropDigits : List Char → List Char
  | [] => []
  | c :: cs => if isDecimalDigit c then dropDigits cs else c :: cs

/-- The value of a run of decimal digits. -/
def digitsValue (ds : List Char) : Nat :=
  ds.foldl (fun acc c => 10 * acc + (c.toNat - 48)) 0

/-- The value of the `ExponentPart` at the front of `s`, `0` when there is
none (an `e` or `E` not followed by an optionally signed digit is not part of
the number). -/
def exponentValue : List Char → Int
  | [] => 0
  | c :: r =>
    if c.toNat = 101 ∨ c.toNat = 69 then
      match r with
      | [] => 0
      | d :: r2 =>
        if d.toNat = 43 then
          (if takeDigits r2 = [] then 0 else Int.ofNat (digitsValue (takeDigits r2)))
        else if d.toNat = 45 then
          (if takeDigits r2 = [] then 0 else - Int.ofNat (digitsValue (takeDigits r2)))
        else if takeDigits (d :: r2) = [] then 0
        else Int.ofNat (digitsValue (takeDigits (d :: r2)))
    else 0

/-- The number of binary digits of `n`, less one (`0` for `n < 2`); `fuel`
bounds the number of halvings. -/
def log2Fuel : Nat → Nat → Nat
  | 0, _ => 0
  | fuel + 1, n => if n < 2 then 0 else log2Fuel fuel (n / 2) + 1

/-- The exponent `e` with `2 ^ e <= n / d < 2 ^ (e + 1)`, for positive `n`
and `d`. -/
def floorLog2 (n d : Nat) : Int :=
  let e0 : Int := Int.ofNat (log2Fuel n n) - Int.ofNat (log2Fuel d d)
  if (if 0 ≤ e0 then 2 ^ e0.toNat * d ≤ n else d ≤ n * 2 ^ (-e0).toNat) then e0 else e0 - 1

/-- The integer nearest to `num / den`, a tie going to the even one. -/
def roundHalfEven (num den : Nat) : Nat :=
  if 2 * (num % den) < den then num / den
  else if den < 2 * (num % den) then num / den + 1
  else if (num / den) % 2 = 0 then num / den else num / den + 1

/-- The binary64 value nearest to the positive rational `n / d`: the
significand has 53 binary digits, the exponent is at least `-1022` (below it
the values are subnormal), and a result beyond the largest finite value is
`Infinity`. -/
def roundPos (n d : Nat) : JSNum :=
  let e := max (floorLog2 n d) (-1022)
  if 1024 ≤ e then .posInf
  else
    let s := e - 52
    let m :=
      if s < 0 then roundHalfEven (n * 2 ^ (-s).toNat) d else roundHalfEven n (d * 2 ^ s.toNat)
    if e = 1023 ∧ m = 2 ^ 53 then .posInf
    else .fin (if s < 0 then (m : ℚ) / 2 ^ (-s).toNat else (m : ℚ) * 2 ^ s.toNat)

/-- The Number value of a rational: the nearest binary64 value, ties to
even. -/
def roundToDouble (q : ℚ) : JSNum :=
  if q = 0 then .fin 0
  else if 0 < q then roundPos q.num.natAbs q.den
  else (roundPos q.num.natAbs q.den).neg

/-- The longest prefix of `s` that is a `StrUnsignedDecimalLiteral`, as a
number (the Number value of the literal); `NaN` when no prefix is one. -/
def parseUnsigned (s : List Char) : JSNum :=
  if "Infinity".data.isPrefixOf s then .posInf
  else
    let ip := takeDigits s
    let r1 := dropDigits s
    let fp := match r1 with
      | [] => []
      | c :: r => if c.toNat = 46 then takeDigits r else []
    let r2 := match r1 with
      | [] => []
      | c :: r => if c.toNat = 46 then dropDigits r else c :: r
    if ip = [] ∧ fp = [] then .nan
    else
      let m : ℚ := (digitsValue (ip ++ fp) : ℚ)
      let k : Int := exponentValue r2 - Int.ofNat fp.length
      roundToDouble (if 0 ≤ k then m * (10 : ℚ) ^ k.toNat else m / (10 : ℚ) ^ (-k).toNat)

/-- The global `parseFloat` on the characters of a string. -/
def parseFloatChars (s : List Char) : JSNum :=
  match s.dropWhile isStrWhiteSpace with
  | [] => .nan
  | c :: r =>
    if c.toNat = 45 then (parseUnsigned r).neg
    else if c.toNat = 43 then parseUnsigned r
    else parseUnsigned (c :: r)

/-- The global `parseFloat` on a string. -/
def parseFloatStr (s : String) : JSNum :=
  parseFloatChars s.data

/-- The global `parseFloat(v)`: the argument is converted with `String`
first, which may throw. -/
def parseFloat (h : Host) (v : JSVal) : Except String JSNum :=
  match toStr h v with
  | .error e => .error e
  | .ok s => .ok (parseFloatStr s)

/-- The call `new Date(v)`: the time value of the new object, `none` when the
date is invalid.  The argument is converted to a primitive first, which may
throw. -/
def newDate (h : Host) (v : JSVal) : Except String (Option Int) :=
  if throwsToString v then .error "Cannot convert object to primitive value"
  else .ok (h.newDate v)

/-- The call `value.replace(/[$€£¥₹,]/g, '')`. -/
def stripCurrency (s : String) : String :=
  String.mk (s.data.filter (fun c => !("$€£¥₹,".data.contains c)))

/-! ## Objects -/

/-- The value of the own property `k` in a property list, `undefined` when
there is none. -/
def lookupProp (k : String) : List (String × JSVal) → JSVal
  | [] => .undefined
  | (k', v) :: rest => if k' = k then v else lookupProp k rest

/-- The property read `v.k`, for the property names the code reads (`id`,
`date`, `description`, `amount`, `type`, `category`): it throws a `TypeError`
on `undefined` and `null`, and no primitive, array or `Date` has such a
property. -/
def getProp (v : JSVal) (k : String) : Except String JSVal :=
  match v with
  | .undefined => .error "TypeError: Cannot read properties of undefined"
  | .null => .error "TypeError: Cannot read properties of null"
  | .obj props => .ok (lookupProp k props)
  | _ => .ok .undefined

/-- The value of the property read `v.k` when the read does not throw. -/
def propOf (v : JSVal) (k : String) : JSVal :=
  match v with
  | .obj props => lookupProp k props
  | _ => .undefined

/-- The property list after the assignment of `v` to the property `k`: an
existing property keeps its place, a new one goes last. -/
def setProp (k : String) (v : JSVal) : List (String × JSVal) → List (String × JSVal)
  | [] => [(k, v)]
  | (k', v') :: rest => if k' = k then (k, v) :: rest else (k', v') :: setProp k v rest

/-- The call `xs.map(f)` for a callback `f` that may throw, started at index
`i`: the callback runs on the elements in order, and the first exception ends
the call. -/
def mapIdxM (f : Nat → JSVal → Except String JSVal) : Nat → List JSVal → Except String (List JSVal)
  | _, [] => .ok []
  | i, x :: xs =>
    match f i x with
    | .error e => .error e
    | .ok y =>
      match mapIdxM f (i + 1) xs with
      | .error e => .error e
      | .ok ys => .ok (y :: ys)

/-! ## utils/dataFormatter.js -/

/-- The function `ensureValidDate`: a falsy value, an invalid date and an
exception of the `Date` constructor all give the current date. -/
def ensureValidDate (h : Host) (today : String) (date : JSVal) : String :=
  if !toBoolean date then today
  else
    match h.newDate date with
    | none => today
    | some t => h.isoDate t

/-- The function `ensureString`: `String(value)` throws when the conversion of
`value` to a primitive does. -/
def ensureString (h : Host) (value : JSVal) (defaultValue : String) : Except String String :=
  match value with
  | .undefined => .ok defaultValue
  | .null => .ok defaultValue
  | v => toStr h v

/-- The function `ensurePositiveNumber`: on a value that is not a string,
`parseFloat(value)` throws when the conversion of `value` to a primitive
does. -/
def ensurePositiveNumber (h : Host) (value : JSVal) : Except String JSNum :=
  match value with
  | .undefined => .ok JSNum.zero
  | .null => .ok JSNum.zero
  | v =>
    let parsed : Except String JSNum :=
      match v with
      | .str s => .ok (parseFloatStr (stripCurrency s))
      | w => parseFloat h w
    match parsed with
    | .error e => .error e
    | .ok number => .ok (if number.isNaN then JSNum.zero else number.abs)

/-- The function `normalizeTransactionType`: `String(type)` throws when the
conversion of `type` to a primitive does. -/
def normalizeTransactionType (h : Host) (type : JSVal) : Except String String :=
  if !toBoolean type then .ok "expense"
  else
    match toStr h type with
    | .error e => .error e
    | .ok s =>
      let typeStr := toLowerCase s
      if includes typeStr "revenue" || includes typeStr "income" || includes typeStr "credit"
          || includes typeStr "deposit" || includes typeStr "sale" || includes typeStr "inflow"
          || typeStr = "r" || typeStr = "in" then .ok "revenue"
      else if includes typeStr "expense" || includes typeStr "debit"
          || includes typeStr "payment" || includes typeStr "withdrawal"
          || includes typeStr "purchase" || includes typeStr "outflow" || typeStr = "e"
          || typeStr = "out" then .ok "expense"
      else .ok "expense"

/-- The object `normalizedTransaction` once its six property initializers
have returned, after the sign of its amount has been set from its type. -/
def normalizedObject (id : JSVal) (date description : String) (amount : JSNum)
    (type category : String) : JSVal :=
  .obj [
    ("id", id),
    ("date", .str date),
    ("description", .str description),
    ("amount", .num (if type = "expense" then amount.abs.neg else amount.abs)),
    ("type", .str type),
    ("category", .str category)]

/-- The expression `transaction.id || ...` of the callback: a falsy id is
replaced by a generated one. -/
def idOrGenerated (k : Tick) (id : JSVal) : JSVal :=
  if toBoolean id then id else .str ("trans-" ++ natToString k.now ++ "-" ++ k.random)

/-- The object `normalizedTransaction` that the callback of
`normalizeTransactionData` builds from the six properties it has read: the
initializers run in the order of the object literal, and the first one that
throws ends the callback. -/
def normalizedTransaction (h : Host) (k : Tick)
    (id date description amount type category : JSVal) : Except String JSVal :=
  match ensureString h description "Transaction" with
  | .error e => .error e
  | .ok description' =>
    match ensurePositiveNumber h amount with
    | .error e => .error e
    | .ok amount' =>
      match normalizeTransactionType h type with
      | .error e => .error e
      | .ok type' =>
        match ensureString h category "Other" with
        | .error e => .error e
        | .ok category' =>
          .ok (normalizedObject (idOrGenerated k id) (ensureValidDate h k.today date)
            description' amount' type' category')

/-- The callback of `normalizeTransactionData`, on one element of the array:
the property reads throw on `undefined` and `null`. -/
def normalizeTransaction (h : Host) (k : Tick) (transaction : JSVal) : Except String JSVal :=
  match getProp transaction "id", getProp transaction "date",
      getProp transaction "description", getProp transaction "amount",
      getProp transaction "type", getProp transaction "category" with
  | .ok id, .ok date, .ok description, .ok amount, .ok type, .ok category =>
    normalizedTransaction h k id date description amount type category
  | .error e, _, _, _, _, _ => .error e
  | _, .error e, _, _, _, _ => .error e
  | _, _, .error e, _, _, _ => .error e
  | _, _, _, .error e, _, _ => .error e
  | _, _, _, _, .error e, _ => .error e
  | _, _, _, _, _, .error e => .error e

/-- The function `normalizeTransactionData`; `ticks i` holds the readings of
the environment made for the element at index `i`. -/
def normalizeTransactionData (h : Host) (ticks : Nat → Tick) (transactions : JSVal) :
    Except String (List JSVal) :=
  match transactions with
  | .arr items => mapIdxM (fun i t => normalizeTransaction h (ticks i) t) 0 items
  | _ => .error "Input must be an array of transactions"

/-- The category chosen for a revenue transaction from its lower-cased
description. -/
def revenueCategory (description : String) : String :=
  if includes description "sale" || includes description "order"
      || includes description "customer" || includes description "invoice" then "Sales"
  else if includes description "service" || includes description "consulting"
      || includes description "fee" then "Services"
  else if includes description "interest" || includes description "dividend"
      || includes description "investment" then "Investments"
  else "Other"

/-- The category chosen for a transaction that is not a revenue from its
lower-cased description. -/
def expenseCategory (description : String) : String :=
  if includes description "salary" || includes description "payroll"
      || includes description "wage" then "Salaries"
  else if includes description "rent" || includes description "lease" then "Rent"
  else if includes description "electric" || includes description "water"
      || includes description "gas" || includes description "internet"
      || includes description "phone" then "Utilities"
  else if includes description "office" || includes description "supplies"
      || includes description "equipment" then "Supplies"
  else if includes description "ad" || includes description "marketing"
      || includes description "promotion" then "Marketing"
  else if includes description "insurance" then "Insurance"
  else if includes description "tax" then "Taxes"
  else "Other"

/-- The test `v === s` against a string. -/
def strictEqStr (v : JSVal) (s : String) : Bool :=
  match v with
  | .str t => decide (t = s)
  | _ => false

/-- The object `{...transaction, category}`, for an object `transaction` (no
other value reaches the spread: it has no string `description`). -/
def withCategory (transaction : JSVal) (category : String) : JSVal :=
  match transaction with
  | .obj props => .obj (setProp "category" (.str category) props)
  | _ => .obj [("category", .str category)]

/-- The callback of `categorizeTranactions`, on one element of the array.
Calling `toLowerCase` on a description that is not a string throws. -/
def categorizeTransaction (transaction : JSVal) : Except String JSVal :=
  match getProp transaction "category" with
  | .error e => .error e
  | .ok cat =>
    if toBoolean cat && !strictEqStr cat "Other" then .ok transaction
    else
      match getProp transaction "description" with
      | .error e => .error e
      | .ok (.str d) =>
        let description := toLowerCase d
        match getProp transaction "type" with
        | .error e => .error e
        | .ok type =>
          let category :=
            if strictEqStr type "revenue" then revenueCategory description
            else expenseCategory description
          .ok (withCategory transaction category)
      | .ok _ => .error "TypeError: transaction.description.toLowerCase is not a function"

/-- The function `categorizeTranactions`. -/
def categorizeTranactions (transactions : JSVal) : Except String (List JSVal) :=
  match transactions with
  | .arr items => mapIdxM (fun _ t => categorizeTransaction t) 0 items
  | _ => .error "TypeError: transactions.map is not a function"

/-! ## Vocabulary of the statements -/

/-- The revenue test of `normalizeTransactionType` on the lower-cased type. -/
def hasRevenueKeyword (typeStr : String) : Bool :=
  includes typeStr "revenue" || includes typeStr "income" || includes typeStr "credit"
    || includes typeStr "deposit" || includes typeStr "sale" || includes typeStr "inflow"
    || typeStr = "r" || typeStr = "in"

/-- The expense test of `normalizeTransactionType` on the lower-cased type. -/
def hasExpenseKeyword (typeStr : String) : Bool :=
  includes typeStr "expense" || includes typeStr "debit" || includes typeStr "payment"
    || includes typeStr "withdrawal" || includes typeStr "purchase"
    || includes typeStr "outflow" || typeStr = "e" || typeStr = "out"

/-- The revenue rules of the categorizer as the specification lists them:
keywords and the category they give, in order. -/
def revenueRules : List (List String × String) :=
  [(["sale", "order", "customer", "invoice"], "Sales"),
   (["service", "consulting", "fee"], "Services"),
   (["interest", "dividend", "investment"], "Investments")]

/-- The expense rules of the categorizer as the specification lists them. -/
def expenseRules : List (List String × String) :=
  [(["salary", "payroll", "wage"], "Salaries"),
   (["rent", "lease"], "Rent"),
   (["electric", "water", "gas", "internet", "phone"], "Utilities"),
   (["office", "supplies", "equipment"], "Supplies"),
   (["ad", "marketing", "promotion"], "Marketing"),
   (["insurance"], "Insurance"),
   (["tax"], "Taxes")]

/-- The category of the first rule one of whose keywords occurs in the
description, `Other` when no rule matches (the specification's reading of the
categorizer). -/
def firstMatchingRule (rules : List (List String × String)) (description : String) : String :=
  match rules with
  | [] => "Other"
  | (keywords, category) :: rest =>
    if keywords.any (fun kw => includes description kw) then category
    else firstMatchingRule rest description

/-- A host for the concrete examples: it prints every number that is not a
safe integer as `NaN` and its `Date` constructor accepts nothing. -/
def sampleHost : Host where
  numberToString := fun _ => "NaN"
  dateToString := fun _ => "Invalid Date"
  newDate := fun _ => none
  isoDate := fun _ => "1970-01-01"

/-- Clock and random readings for the concrete examples. -/
def sampleTicks (i : Nat) : Tick where
  now := 1700000000000 + i
  random := "k3j9x0q2z"
  today := "2024-03-14"

/-! ## Numbers and values: further operations -/

/-- The comparison `a < b` of two numbers (false as soon as one is `NaN`). -/
def JSNum.lt : JSNum → JSNum → Bool
  | .nan, _ => false
  | _, .nan => false
  | .posInf, _ => false
  | _, .negInf => false
  | .negInf, _ => true
  | _, .posInf => true
  | .fin a, .fin b => decide (a < b)

/-- The test `a !== 0` on a number (`NaN !== 0` holds). -/
def JSNum.neZero : JSNum → Bool
  | .fin q => decide (q ≠ 0)
  | _ => true

/-- The test `v !== undefined`. -/
def isDefined : JSVal → Bool
  | .undefined => false
  | _ => true

/-- The test `typeof v === 'string'`. -/
def isString : JSVal → Bool
  | .str _ => true
  | _ => false

/-- The method call `v.toString()`: it throws on `undefined` and `null` and
on an object whose own property `toString` is not a function (the message
names the expression; the model keeps its end), and it agrees with
`String(v)` on every other value. -/
def callToString (h : Host) (v : JSVal) : Except String String :=
  match v with
  | .undefined => .error "Cannot read properties of undefined (reading toString)"
  | .null => .error "Cannot read properties of null (reading toString)"
  | .obj props =>
    if hasOwnToString props then .error "toString is not a function"
    else .ok "[object Object]"
  | w => toStr h w

/-- The call `s.replace(/[^\d.-]/g, '')`: only the decimal digits, `.` and `-`
are kept. -/
def keepNumeric (s : String) : String :=
  String.mk (s.data.filter (fun c => isDecimalDigit c || c.toNat = 46 || c.toNat = 45))

/-- The expression `a || b`. -/
def orElse (a b : JSVal) : JSVal :=
  if toBoolean a then a else b

/-- The call `xs.map(f)` over a list of any kind, for a callback `f` that may
throw, started at index `i`. -/
def mapIdxE {α : Type} (f : Nat → α → Except String JSVal) :
    Nat → List α → Except String (List JSVal)
  | _, [] => .ok []
  | i, x :: xs =>
    match f i x with
    | .error e => .error e
    | .ok y =>
      match mapIdxE f (i + 1) xs with
      | .error e => .error e
      | .ok ys => .ok (y :: ys)

/-! ## parsers/csvParser.js and parsers/excelParser.js -/

/-- The readings of the clock made by an extractor for one record: `stamp` is
the `Date.now()` of the id, `clock` is the time value of `new Date()`. -/
structure RowClock where
  stamp : Nat
  clock : Nat

/-- The call `Object.keys(row)` on a row object. -/
def objectKeys (row : List (String × JSVal)) : List String :=
  row.map Prod.fst

/-- The callback of the search for the date column. -/
def isDateColumn (col : String) : Bool :=
  includes (toLowerCase col) "date" || includes (toLowerCase col) "time"

/-- The callback of the search for the description column. -/
def isDescriptionColumn (col : String) : Bool :=
  includes (toLowerCase col) "desc" || includes (toLowerCase col) "narration"
    || includes (toLowerCase col) "particular"

/-- The callback of the search for the amount column. -/
def isAmountColumn (col : String) : Bool :=
  includes (toLowerCase col) "amount" || includes (toLowerCase col) "value"
    || includes (toLowerCase col) "sum"

/-- The callback of the search for the type column. -/
def isTypeColumn (col : String) : Bool :=
  includes (toLowerCase col) "type" || includes (toLowerCase col) "category"

/-- The four columns found by `columns.find(...)`; `none` is `undefined`. -/
structure Columns where
  dateColumn : Option String
  descriptionColumn : Option String
  amountColumn : Option String
  typeColumn : Option String
  deriving DecidableEq

/-- The detection of the column structure from the first row. -/
def detectColumns (firstRow : List (String × JSVal)) : Columns :=
  let columns := objectKeys firstRow
  { dateColumn := columns.find? isDateColumn
    descriptionColumn := columns.find? isDescriptionColumn
    amountColumn := columns.find? isAmountColumn
    typeColumn := columns.find? isTypeColumn }

/-- The cell `row[column]` of a found column when the guard
`column && row[column]` holds, `none` otherwise. -/
def truthyCell (column : Option String) (row : List (String × JSVal)) : Option JSVal :=
  match column with
  | none => none
  | some col => if toBoolean (lookupProp col row) then some (lookupProp col row) else none

/-- The type that the row callback reads from the type column: `expense`
unless the guard `typeColumn && row[typeColumn]` holds and the lower-cased
`toString()` of the cell holds `income`, `revenue` or `credit`. -/
def rowType (h : Host) (cols : Columns) (row : List (String × JSVal)) : Except String String :=
  match truthyCell cols.typeColumn row with
  | some cell =>
    match callToString h cell with
    | .error e => .error e
    | .ok s =>
      let typeValue := toLowerCase s
      .ok (if includes typeValue "income" || includes typeValue "revenue"
        || includes typeValue "credit" then "revenue" else "expense")
  | none => .ok "expense"

/-- The amount and the type after the block `Extract amount` of the row
callback, `type1` being the type read from the type column: the amount is `0`
unless the guard `amountColumn && row[amountColumn] !== undefined` holds, and
the sign of a parsed amount other than zero gives the type when no type
column was found. -/
def rowAmount (h : Host) (cols : Columns) (row : List (String × JSVal)) (type1 : String) :
    Except String (JSNum × String) :=
  let amountCell : Option JSVal :=
    match cols.amountColumn with
    | none => none
    | some col => if isDefined (lookupProp col row) then some (lookupProp col row) else none
  match amountCell with
  | none => .ok (JSNum.zero, type1)
  | some cell =>
    match callToString h cell with
    | .error e => .error e
    | .ok s =>
      let amount := parseFloatStr (keepNumeric s)
      .ok (amount,
        if cols.typeColumn.isNone && amount.neZero then
          (if JSNum.lt JSNum.zero amount then "revenue" else "expense")
        else type1)

/-- The time value of the property `date` of the mapped record:
`new Date(row[dateColumn])` under the guard `dateColumn && row[dateColumn]`,
the clock otherwise. -/
def rowDate (h : Host) (cols : Columns) (clocks : Nat → RowClock) (index : Nat)
    (row : List (String × JSVal)) : Except String (Option Int) :=
  match truthyCell cols.dateColumn row with
  | some cell => newDate h cell
  | none => .ok (some (Int.ofNat (clocks index).clock))

/-- The property `description` of the mapped record:
`row[descriptionColumn].toString()` under the guard
`descriptionColumn && row[descriptionColumn]`, the positional placeholder
otherwise. -/
def rowDescription (h : Host) (cols : Columns) (index : Nat) (row : List (String × JSVal)) :
    Except String String :=
  match truthyCell cols.descriptionColumn row with
  | some cell => callToString h cell
  | none => .ok ("Transaction " ++ natToString (index + 1))

/-- The callback that maps one row to the standard format, in
`parseCSVFile` (`tag` is `csv`) and in `parseExcelFile` (`tag` is `excel`):
the type, the amount, then the object literal, whose initializers run in
order.  The calls that can throw are `toString` on a cell (on an amount cell
that is `null`, on a cell that is an object with an own property `toString`)
and `new Date` on a date cell. -/
def tabularRow (h : Host) (tag : String) (cols : Columns) (clocks : Nat → RowClock)
    (index : Nat) (row : List (String × JSVal)) : Except String JSVal :=
  match rowType h cols row with
  | .error e => .error e
  | .ok type1 =>
    match rowAmount h cols row type1 with
    | .error e => .error e
    | .ok (amount, type) =>
      match rowDate h cols clocks index row with
      | .error e => .error e
      | .ok date =>
        match rowDescription h cols index row with
        | .error e => .error e
        | .ok description =>
          .ok (.obj [
            ("id", .str (tag ++ "-" ++ natToString index ++ "-"
              ++ natToString (clocks index).stamp)),
            ("date", .date date),
            ("description", .str description),
            ("amount", .num amount.abs),
            ("type", .str type),
            ("category", orElse (lookupProp "category" row) (.str "Other"))])

/-- The body shared by `parseCSVFile` and `parseExcelFile` once the file is
decoded into `rows`: `tag` is the tag of the ids and `format` the name of the
format in the messages.  Every exception is caught and thrown again with the
prefix `Failed to parse ... file: `. -/
def parseTabular (h : Host) (tag format : String) (clocks : Nat → RowClock)
    (ticks : Nat → Tick) (rows : List (List (String × JSVal))) : Except String (List JSVal) :=
  let body : Except String (List JSVal) :=
    match rows with
    | [] => .error ("No data found in " ++ format ++ " file")
    | firstRow :: _ =>
      match mapIdxE (tabularRow h tag (detectColumns firstRow) clocks) 0 rows with
      | .error e => .error e
      | .ok transactions => normalizeTransactionData h ticks (.arr transactions)
  match body with
  | .error message => .error ("Failed to parse " ++ format ++ " file: " ++ message)
  | .ok result => .ok result

/-- The function `parseCSVFile`, from the rows that `csv-parser` emits. -/
def parseCSVFile (h : Host) (clocks : Nat → RowClock) (ticks : Nat → Tick)
    (results : List (List (String × JSVal))) : Except String (List JSVal) :=
  parseTabular h "csv" "CSV" clocks ticks results

/-- The function `parseExcelFile`, from the rows that `sheet_to_json` returns
for the first sheet. -/
def parseExcelFile (h : Host) (clocks : Nat → RowClock) (ticks : Nat → Tick)
    (rawData : List (List (String × JSVal))) : Except String (List JSVal) :=
  parseTabular h "excel" "Excel" clocks ticks rawData

/-! ## A host with ISO dates -/

/-- The civil date `(year, month, day)` of a day number counted from
1970-01-01 in the proleptic Gregorian calendar. -/
def civilFromDays (z0 : Int) : Int × Int × Int :=
  let z := z0 + 719468
  let era := Int.fdiv z 146097
  let doe := z - era * 146097
  let yoe := Int.fdiv (doe - Int.fdiv doe 1460 + Int.fdiv doe 36524 - Int.fdiv doe 146096) 365
  let doy := doe - (365 * yoe + Int.fdiv yoe 4 - Int.fdiv yoe 100)
  let mp := Int.fdiv (5 * doy + 2) 153
  let d := doy - Int.fdiv (153 * mp + 2) 5 + 1
  let m := if mp < 10 then mp + 3 else mp - 9
  (yoe + era * 400 + (if m ≤ 2 then 1 else 0), m, d)

/-- The day number, counted from 1970-01-01, of a civil date. -/
def daysFromCivil (y0 m d : Int) : Int :=
  let y := if m ≤ 2 then y0 - 1 else y0
  let era := Int.fdiv y 400
  let yoe := y - era * 400
  let doy := Int.fdiv (153 * (if m > 2 then m - 3 else m + 9) + 2) 5 + d - 1
  let doe := yoe * 365 + Int.fdiv yoe 4 - Int.fdiv yoe 100 + doy
  era * 146097 + doe - 719468

/-- The decimal digits of `n`, padded with zeros on the left to `width`. -/
def padDigits (width n : Nat) : String :=
  String.mk (List.replicate (width - (natToString n).length) (Char.ofNat 48)) ++ natToString n

/-- The date part of `toISOString()` for a time value in milliseconds: the
year has four digits, or a sign and six digits outside `0..9999`. -/
def isoDateOf (t : Int) : String :=
  match civilFromDays (Int.fdiv t 86400000) with
  | (y, m, d) =>
    (if 0 ≤ y ∧ y ≤ 9999 then padDigits 4 y.toNat
     else (if y < 0 then "-" else "+") ++ padDigits 6 y.natAbs)
      ++ "-" ++ padDigits 2 m.toNat ++ "-" ++ padDigits 2 d.toNat

/-- The time value of a date-only ISO string `YYYY-MM-DD` (midnight UTC),
`none` for every other string and for a date that is not in the calendar. -/
def parseIsoDate (s : String) : Option Int :=
  match s.data with
  | [y1, y2, y3, y4, s1, m1, m2, s2, d1, d2] =>
    if [y1, y2, y3, y4, m1, m2, d1, d2].all isDecimalDigit && s1.toNat = 45 && s2.toNat = 45 then
      let y := Int.ofNat (digitsValue [y1, y2, y3, y4])
      let m := Int.ofNat (digitsValue [m1, m2])
      let d := Int.ofNat (digitsValue [d1, d2])
      let days := daysFromCivil y m d
      if civilFromDays days = (y, m, d) then some (days * 86400000) else none
    else none
  | _ => none

/-- A host for the concrete examples with dates: `new Date(v)` copies a `Date`
object, reads a date-only ISO string as midnight UTC and accepts nothing else;
`toISOString` follows the calendar. -/
def utcHost : Host where
  numberToString := fun _ => "NaN"
  dateToString := fun _ => "Invalid Date"
  newDate := fun v =>
    match v with
    | .date t => t
    | .str s => parseIsoDate s
    | _ => none
  isoDate := isoDateOf

/-- Clock readings of an extractor for the concrete examples. -/
def sampleClocks (i : Nat) : RowClock where
  stamp := 1710374400000 + i
  clock := 1710374400000 + i

/-! ## Vocabulary of the statements: the column sniffer -/

/-- The column that the specification's sniffer selects for a field: the first
column name, in order, whose lower-cased form contains one of the substrings
of the field; `none` when no column matches. -/
def sniffField (substrings : List String) (columnNames : List String) : Option String :=
  columnNames.find? (fun col => substrings.any (fun sub => includes (toLowerCase col) sub))

/-- The specification's sniffer, a function of the ordered column names. -/
def sniff (columnNames : List String) : Columns where
  dateColumn := sniffField ["date", "time"] columnNames
  descriptionColumn := sniffField ["desc", "narration", "particular"] columnNames
  amountColumn := sniffField ["amount", "value", "sum"] columnNames
  typeColumn := sniffField ["type", "category"] columnNames

/-! ## parsers/jsonParser.js and parsers/xmlParser.js -/

/-- The test `Array.isArray(v)`. -/
def isArray : JSVal → Bool
  | .arr _ => true
  | _ => false

/-- The test `typeof v === 'object'` (it holds for `null`). -/
def isObjectType : JSVal → Bool
  | .null => true
  | .date _ => true
  | .arr _ => true
  | .obj _ => true
  | _ => false

/-- The elements of an array value, none for any other value. -/
def arrayItems : JSVal → List JSVal
  | .arr items => items
  | _ => []

/-- The test `v.amount !== undefined || v.description !== undefined ||
v.date !== undefined` on a value other than `undefined` and `null`. -/
def looksLikeTransaction (v : JSVal) : Bool :=
  isDefined (propOf v "amount") || isDefined (propOf v "description")
    || isDefined (propOf v "date")

/-- The type computed inline by the structured extractors from
`transaction.type`: a string is lower-cased and mapped to `revenue` or
`expense` when it holds one of the keywords; any other truthy value is kept. -/
def inlineType (typeProp : JSVal) : JSVal :=
  match orElse typeProp (.str "expense") with
  | .str s =>
    let type := toLowerCase s
    if includes type "income" || includes type "revenue" || includes type "credit" then
      .str "revenue"
    else if includes type "expense" || includes type "debit" then .str "expense"
    else .str type
  | other => other

/-- The amount parsed inline by the structured extractors from a defined
`transaction.amount`: on a value that is not a string, `parseFloat` throws
when the conversion of the value to a primitive does. -/
def inlineAmount (h : Host) (amountProp : JSVal) : Except String JSNum :=
  match amountProp with
  | .str s => .ok (parseFloatStr (keepNumeric s))
  | w => parseFloat h w

/-- The callback that maps one located element to the standard format, in
`parseJSONFile` (`tag` is `json`) and in `parseXMLFile` (`tag` is `xml`).  The
property reads throw when the element is `undefined` or `null`; `parseFloat`
on the amount and `new Date` on the date throw when the conversion of the
value to a primitive does. -/
def structuredRecord (h : Host) (tag : String) (clocks : Nat → RowClock) (index : Nat)
    (transaction : JSVal) : Except String JSVal :=
  match transaction with
  | .undefined => .error "Cannot read properties of undefined (reading type)"
  | .null => .error "Cannot read properties of null (reading type)"
  | _ =>
    let typeProp := propOf transaction "type"
    let amountProp := propOf transaction "amount"
    let parsed : Except String JSNum :=
      if isDefined amountProp then inlineAmount h amountProp else .ok JSNum.zero
    match parsed with
    | .error e => .error e
    | .ok amount =>
      let type : JSVal :=
        if isDefined amountProp && !toBoolean typeProp && amount.neZero then
          .str (if JSNum.lt JSNum.zero amount then "revenue" else "expense")
        else inlineType typeProp
      let dated : Except String (Option Int) :=
        if toBoolean (propOf transaction "date") then newDate h (propOf transaction "date")
        else .ok (some (Int.ofNat (clocks index).clock))
      match dated with
      | .error e => .error e
      | .ok date =>
        .ok (.obj [
          ("id", orElse (propOf transaction "id")
            (.str (tag ++ "-" ++ natToString index ++ "-"
              ++ natToString (clocks index).stamp))),
          ("date", .date date),
          ("description", orElse (orElse (orElse (propOf transaction "description")
              (propOf transaction "name")) (propOf transaction "title"))
            (.str ("Transaction " ++ natToString (index + 1)))),
          ("amount", .num amount.abs),
          ("type", type),
          ("category", orElse (propOf transaction "category") (.str "Other"))])

/-- The loop `for (const key in data)` of `parseJSONFile` over the property
values of the root object: the first value that is a non-empty array whose
first item is truthy and looks like a transaction. -/
def jsonScan : List (String × JSVal) → List JSVal
  | [] => []
  | (_, value) :: rest =>
    match value with
    | .arr (firstItem :: others) =>
      if toBoolean firstItem && looksLikeTransaction firstItem then firstItem :: others
      else jsonScan rest
    | _ => jsonScan rest

/-- The array `transactions` that `parseJSONFile` locates in truthy `data`. -/
def jsonLocate (data : JSVal) : List JSVal :=
  if isArray data then arrayItems data
  else if toBoolean (propOf data "transactions") && isArray (propOf data "transactions") then
    arrayItems (propOf data "transactions")
  else if toBoolean (propOf data "data") && isArray (propOf data "data") then
    arrayItems (propOf data "data")
  else
    match data with
    | .obj props =>
      match jsonScan props with
      | [] => if looksLikeTransaction data then [data] else []
      | found => found
    | .date _ => if looksLikeTransaction data then [data] else []
    | _ => []

/-- The function `parseJSONFile`, from the value `data` that `JSON.parse`
returns.  Every exception is caught and thrown again with the prefix
`Failed to parse JSON file: `. -/
def parseJSONFile (h : Host) (clocks : Nat → RowClock) (ticks : Nat → Tick) (data : JSVal) :
    Except String (List JSVal) :=
  let body : Except String (List JSVal) :=
    if !toBoolean data then .error "No data found in JSON file"
    else
      match jsonLocate data with
      | [] => .error "No transaction data found in JSON file"
      | transactions =>
        match mapIdxM (structuredRecord h "json" clocks) 0 transactions with
        | .error e => .error e
        | .ok mappedTransactions => normalizeTransactionData h ticks (.arr mappedTransactions)
  match body with
  | .error message => .error ("Failed to parse JSON file: " ++ message)
  | .ok result => .ok result

/-- One step of the loop of `searchForTransactions` on the property value
`value`: `deeper` is the result of the recursive call on `value` and `rest`
the result of the loop on the properties that follow.  Reading `.amount` on a
first item or on a value that is `null` or `undefined` throws. -/
def searchStep (value : JSVal) (deeper rest : Except String (Option (List JSVal))) :
    Except String (Option (List JSVal)) :=
  match value with
  | .arr [] => rest
  | .arr (.undefined :: _) => .error "Cannot read properties of undefined (reading amount)"
  | .arr (.null :: _) => .error "Cannot read properties of null (reading amount)"
  | .arr (first :: others) =>
    if looksLikeTransaction first then .ok (some (first :: others)) else rest
  | .null => .error "Cannot read properties of null (reading amount)"
  | .obj props =>
    if looksLikeTransaction (.obj props) then .ok (some [.obj props])
    else
      match deeper with
      | .error e => .error e
      | .ok (some found) => .ok (some found)
      | .ok none => rest
  | .date _ =>
    match deeper with
    | .error e => .error e
    | .ok (some found) => .ok (some found)
    | .ok none => rest
  | _ => rest

mutual
/-- The function `searchForTransactions` of `parseXMLFile`: `some found` when
it has assigned `found` to `transactions`, `none` when it has returned without
an assignment. -/
def searchForTransactions : JSVal → Except String (Option (List JSVal))
  | .obj props => searchProps props
  | .arr items => searchItems items
  | _ => .ok none
/-- The loop `for (const key in obj)` over the properties of an object. -/
def searchProps : List (String × JSVal) → Except String (Option (List JSVal))
  | [] => .ok none
  | (_, value) :: rest => searchStep value (searchForTransactions value) (searchProps rest)
/-- The loop `for (const key in obj)` over the indices of an array. -/
def searchItems : List JSVal → Except String (Option (List JSVal))
  | [] => .ok none
  | value :: rest => searchStep value (searchForTransactions value) (searchItems rest)
end

/-- The expression `Array.isArray(v) ? v : [v]`. -/
def asArray (v : JSVal) : List JSVal :=
  match v with
  | .arr items => items
  | other => [other]

/-- The array `transactions` that `parseXMLFile` locates in truthy `result`. -/
def xmlLocate (result : JSVal) : Except String (List JSVal) :=
  if toBoolean (propOf result "transactions")
      && toBoolean (propOf (propOf result "transactions") "transaction") then
    .ok (asArray (propOf (propOf result "transactions") "transaction"))
  else if toBoolean (propOf result "data")
      && toBoolean (propOf (propOf result "data") "transaction") then
    .ok (asArray (propOf (propOf result "data") "transaction"))
  else if toBoolean (propOf result "financialData")
      && toBoolean (propOf (propOf result "financialData") "entries") then
    .ok (asArray (propOf (propOf (propOf result "financialData") "entries") "entry"))
  else
    match searchForTransactions result with
    | .error e => .error e
    | .ok (some found) => .ok found
    | .ok none => .ok []

/-- The function `parseXMLFile`, from the value `result` that `xml2js` hands
to the callback.  Every exception is caught and thrown again with the prefix
`Failed to process XML data: `. -/
def parseXMLFile (h : Host) (clocks : Nat → RowClock) (ticks : Nat → Tick) (result : JSVal) :
    Except String (List JSVal) :=
  let body : Except String (List JSVal) :=
    if !toBoolean result then .error "No data found in XML file"
    else
      match xmlLocate result with
      | .error e => .error e
      | .ok [] => .error "No transaction data found in XML file"
      | .ok transactions =>
        match mapIdxM (structuredRecord h "xml" clocks) 0 transactions with
        | .error e => .error e
        | .ok mappedTransactions => normalizeTransactionData h ticks (.arr mappedTransactions)
  match body with
  | .error message => .error ("Failed to process XML data: " ++ message)
  | .ok result => .ok result

/-! ## Vocabulary of the statements: parsed trees -/

/-- Whether a property name is one of `amount`, `description`, `date`. -/
def isTxnKey (key : String) : Bool :=
  key = "amount" || key = "description" || key = "date"

mutual
/-- No object of the tree (array elements included) has any of the keys
`amount`, `description`, `date`. -/
def noTxnKeys : JSVal → Bool
  | .obj props => noTxnKeysProps props
  | .arr items => noTxnKeysItems items
  | _ => true
/-- The same, over the properties of an object. -/
def noTxnKeysProps : List (String × JSVal) → Bool
  | [] => true
  | (key, value) :: rest => !isTxnKey key && noTxnKeys value && noTxnKeysProps rest
/-- The same, over the elements of an array. -/
def noTxnKeysItems : List JSVal → Bool
  | [] => true
  | value :: rest => noTxnKeys value && noTxnKeysItems rest
end

mutual
/-- The tree holds neither `null` nor `undefined`. -/
def noNullish : JSVal → Bool
  | .undefined => false
  | .null => false
  | .obj props => noNullishProps props
  | .arr items => noNullishItems items
  | _ => true
/-- The same, over the properties of an object. -/
def noNullishProps : List (String × JSVal) → Bool
  | [] => true
  | (_, value) :: rest => noNullish value && noNullishProps rest
/-- The same, over the elements of an array. -/
def noNullishItems : List JSVal → Bool
  | [] => true
  | value :: rest => noNullish value && noNullishItems rest
end

mutual
/-- The tree holds no array. -/
def noArrays : JSVal → Bool
  | .arr _ => false
  | .obj props => noArraysProps props
  | _ => true
/-- The same, over the properties of an object. -/
def noArraysProps : List (String × JSVal) → Bool
  | [] => true
  | (_, value) :: rest => noArrays value && noArraysProps rest
end

/-- A subtree in which a search has nothing to find: no array, no object with
one of the keys `amount`, `description`, `date`, no `null`. -/
def plain (v : JSVal) : Bool :=
  noTxnKeys v && noNullish v && noArrays v

/-- The tree `root` is an object that holds exactly one array, `items`,
`depth` levels below it: the objects on the way have none of the keys
`amount`, `description`, `date`, and everything beside the way is plain. -/
inductive NestedArray : JSVal → Nat → List JSVal → Prop where
  | here (before after : List (String × JSVal)) (key : String) (items : List JSVal) :
      (∀ p ∈ before ++ after, plain p.2 = true) →
      (∀ p ∈ before ++ (key, JSVal.arr items) :: after, isTxnKey p.1 = false) →
      NestedArray (.obj (before ++ (key, .arr items) :: after)) 1 items
  | deeper (before after : List (String × JSVal)) (key : String) (child : JSVal)
      (depth : Nat) (items : List JSVal) :
      (∀ p ∈ before ++ after, plain p.2 = true) →
      (∀ p ∈ before ++ (key, child) :: after, isTxnKey p.1 = false) →
      NestedArray child depth items →
      NestedArray (.obj (before ++ (key, child) :: after)) (depth + 1) items

/-- The value that the structured extractors take as the description of an
element: the first truthy one of its `description`, `name` and `title`, the
`title` when none is truthy. -/
def describedBy (x : JSVal) : JSVal :=
  orElse (orElse (propOf x "description") (propOf x "name")) (propOf x "title")

/-- An element that the structured extractors can map and normalize without
an exception: it is neither `undefined` nor `null`, and the conversion to a
primitive throws on none of the values that the two callbacks convert, which
are its `amount`, its `date`, its `type`, its `category` and the value taken
as its description. -/
def convertsCleanly (x : JSVal) : Bool :=
  match x with
  | .undefined => false
  | .null => false
  | _ =>
    !throwsToString (propOf x "amount") && !throwsToString (propOf x "date")
      && !throwsToString (propOf x "type") && !throwsToString (propOf x "category")
      && !throwsToString (describedBy x)

/-- Whether a string has the form `YYYY-MM-DD`: four decimal digits, a
hyphen, two digits, a hyphen and two digits, and nothing else. -/
def isDayString (s : String) : Bool :=
  match s.data with
  | [y1, y2, y3, y4, s1, m1, m2, s2, d1, d2] =>
    [y1, y2, y3, y4, m1, m2, d1, d2].all isDecimalDigit && s1.toNat = 45 && s2.toNat = 45
  | _ => false

/-- The revenue test of the inline type coercion of the structured
extractors, on the lower-cased type. -/
def hasInlineRevenueKeyword (typeStr : String) : Bool :=
  includes typeStr "income" || includes typeStr "revenue" || includes typeStr "credit"

/-- The expense test of the inline type coercion of the structured
extractors, on the lower-cased type. -/
def hasInlineExpenseKeyword (typeStr : String) : Bool :=
  includes typeStr "expense" || includes typeStr "debit"

/-! ## Regular expressions of the free-text extractors -/

/-- The regular expressions that the free-text extractors use, without
capture groups: the empty pattern, one character of a class, a sequence, a
disjunction (the left alternative is tried first), a greedy star and the
assertion `\b`. -/
inductive Regex where
  | empty : Regex
  | char (p : Char → Bool) : Regex
  | seq (a b : Regex) : Regex
  | alt (a b : Regex) : Regex
  | star (a : Regex) : Regex
  | wordBoundary : Regex

/-- A matcher continuation: from the character before the current position
and the rest of the input to the end state of the whole match. -/
abbrev Cont := Option Char → List Char → Option (Option Char × List Char)

/-- A word character of `\b`: `[A-Za-z0-9_]`. -/
def isWordChar (c : Char) : Bool :=
  (48 ≤ c.toNat && c.toNat ≤ 57) || (65 ≤ c.toNat && c.toNat ≤ 90)
    || (97 ≤ c.toNat && c.toNat ≤ 122) || c.toNat = 95

/-- Whether the character at a position is a word character; there is none
before the start and after the end of the input. -/
def isWordAt : Option Char → Bool
  | none => false
  | some c => isWordChar c

/-- The greedy loop of `a*`: one more iteration of the body is tried first,
an iteration that consumes nothing is rejected, and the continuation is tried
when no further iteration leads to a match.  `fuel` bounds the number of
iterations; the length of the input is enough. -/
def starLoop (body : Option Char → List Char → Cont → Option (Option Char × List Char)) :
    Nat → Option Char → List Char → Cont → Option (Option Char × List Char)
  | 0, prev, s, k => k prev s
  | fuel + 1, prev, s, k =>
    match body prev s (fun prev' s' =>
        if s'.length < s.length then starLoop body fuel prev' s' k else none) with
    | some r => some r
    | none => k prev s

/-- The backtracking matcher: `re.run prev s k` matches `re` at the front of
`s`, where `prev` is the character before `s`, and hands the end state to `k`;
the first alternative that lets `k` succeed wins. -/
def Regex.run : Regex → Option Char → List Char → Cont → Option (Option Char × List Char)
  | .empty, prev, s, k => k prev s
  | .char _, _, [], _ => none
  | .char p, _, c :: cs, k => if p c then k (some c) cs else none
  | .seq a b, prev, s, k => a.run prev s (fun prev' s' => b.run prev' s' k)
  | .alt a b, prev, s, k =>
    match a.run prev s k with
    | some r => some r
    | none => b.run prev s k
  | .star a, prev, s, k => starLoop a.run s.length prev s k
  | .wordBoundary, prev, s, k => if isWordAt prev != isWordAt s.head? then k prev s else none

/-- The leftmost match of `re` in `s`, as `RegExp.prototype.exec` finds it
for a pattern without the flags `g` and `y`: the input from the start of the
match on, and the input after the match. -/
def Regex.searchFrom (re : Regex) : Option Char → List Char → Option (List Char × List Char)
  | prev, [] =>
    match re.run prev [] (fun p r => some (p, r)) with
    | some (_, rest) => some ([], rest)
    | none => none
  | prev, c :: cs =>
    match re.run prev (c :: cs) (fun p r => some (p, r)) with
    | some (_, rest) => some (c :: cs, rest)
    | none => re.searchFrom (some c) cs

/-- The matched text `s.match(re)[0]`, `none` when `s.match(re)` is `null`. -/
def Regex.matchIn (re : Regex) (s : String) : Option String :=
  match re.searchFrom none s.data with
  | some (start, rest) => some (String.mk (start.take (start.length - rest.length)))
  | none => none

/-- The call `re.test(s)`. -/
def Regex.test (re : Regex) (s : String) : Bool :=
  (re.searchFrom none s.data).isSome

/-- The call `s.replace(re, '')` for a pattern without the flag `g`: the
leftmost match is removed. -/
def Regex.removeFirst (re : Regex) (s : String) : String :=
  match re.searchFrom none s.data with
  | some (start, rest) => String.mk (s.data.take (s.data.length - start.length) ++ rest)
  | none => s

/-- The pattern `a?`. -/
def Regex.opt (a : Regex) : Regex := .alt a .empty

/-- The class `\d`. -/
def Regex.digit : Regex := .char isDecimalDigit

/-- The class of the date separators: hyphen, slash and dot. -/
def Regex.dateSeparator : Regex :=
  .char (fun c => c.toNat = 45 || c.toNat = 47 || c.toNat = 46)

/-- The pattern `\d{1,2}`. -/
def Regex.digits12 : Regex := .seq .digit (.opt .digit)

/-- The pattern `\d{2,4}`. -/
def Regex.digits24 : Regex := .seq .digit (.seq .digit (.opt (.seq .digit (.opt .digit))))

/-- The pattern `\d{1,3}`. -/
def Regex.digits13 : Regex := .seq .digit (.opt (.seq .digit (.opt .digit)))

/-- The pattern `\d{3}`. -/
def Regex.digits3 : Regex := .seq .digit (.seq .digit .digit)

/-- The pattern `\d{4}`. -/
def Regex.digits4 : Regex := .seq .digit (.seq .digit (.seq .digit .digit))

/-- The pattern `(\.\d{2})?`. -/
def Regex.cents : Regex :=
  .opt (.seq (.char (fun c => c.toNat = 46)) (.seq .digit .digit))

/-- The pattern `dateRegex`: between two `\b`, either `\d{1,2} S \d{1,2} S
\d{2,4}` or `\d{4} S \d{1,2} S \d{1,2}`, where `S` is the class of the
date separators. -/
def dateRegex : Regex :=
  .seq .wordBoundary (.seq
    (.alt
      (.seq .digits12 (.seq .dateSeparator (.seq .digits12 (.seq .dateSeparator .digits24))))
      (.seq .digits4 (.seq .dateSeparator (.seq .digits12 (.seq .dateSeparator .digits12)))))
    .wordBoundary)

/-- The pattern `amountRegex`:
`/\$?\s?(\d{1,3}(,\d{3})*(\.\d{2})?|\d+(\.\d{2})?)/`. -/
def amountRegex : Regex :=
  .seq (.opt (.char (fun c => c.toNat = 36))) (.seq (.opt (.char isStrWhiteSpace))
    (.alt
      (.seq .digits13 (.seq (.star (.seq (.char (fun c => c.toNat = 44)) .digits3)) .cents))
      (.seq .digit (.seq (.star .digit) .cents))))

/-- Whether a character is one of `$€£¥₹`. -/
def isCurrencySymbol (c : Char) : Bool :=
  c.toNat = 36 || c.toNat = 0x20AC || c.toNat = 0xA3 || c.toNat = 0xA5 || c.toNat = 0x20B9

/-- The pattern `currencySymbolRegex`: `/[$€£¥₹]/`. -/
def currencySymbolRegex : Regex := .char isCurrencySymbol

/-- The pattern `/\s{2,}/`. -/
def multipleSpacesRegex : Regex :=
  .seq (.char isStrWhiteSpace) (.seq (.char isStrWhiteSpace) (.star (.char isStrWhiteSpace)))

/-- The pattern `/\t/`. -/
def tabRegex : Regex := .char (fun c => c.toNat = 9)

/-- The pattern `/\s{2,}|\t/`. -/
def columnSeparatorRegex : Regex := .alt multipleSpacesRegex tabRegex

/-! ## String methods of the free-text extractors -/

/-- The method `String.prototype.trim`. -/
def trim (s : String) : String :=
  String.mk ((s.data.dropWhile isStrWhiteSpace).reverse.dropWhile isStrWhiteSpace).reverse

/-- The property `length` of a string: the number of UTF-16 code units. -/
def jsLength (s : String) : Nat :=
  s.data.foldl (fun n c => n + (if 0xFFFF < c.toNat then 2 else 1)) 0

/-- The pieces of a run of characters between the occurrences of `sep`. -/
def splitChars (sep : Char) : List Char → List (List Char)
  | [] => [[]]
  | c :: cs =>
    if c = sep then [] :: splitChars sep cs
    else
      match splitChars sep cs with
      | [] => [[c]]
      | piece :: pieces => (c :: piece) :: pieces

/-- The lines of a text that are not blank:
`text.split('\n').filter(line => line.trim() !== '')`. -/
def textLines (text : String) : List String :=
  ((splitChars (Char.ofNat 10) text.data).map String.mk).filter (fun line => trim line ≠ "")

/-- The call `s.replace(pattern, '')` for a string `pattern`: the first
occurrence is removed. -/
def removeFirstChars (pattern : List Char) : List Char → List Char
  | [] => []
  | c :: cs =>
    if pattern.isPrefixOf (c :: cs) then (c :: cs).drop pattern.length
    else c :: removeFirstChars pattern cs

/-- The call `s.replace(pattern, '')` for a string `pattern`. -/
def removeFirst (s pattern : String) : String :=
  String.mk (removeFirstChars pattern.data s.data)

/-- The call `s.replace(/\s+/g, ' ')` on a run of characters; `inRun` says
that the character before is white space. -/
def collapseChars : Bool → List Char → List Char
  | _, [] => []
  | inRun, c :: cs =>
    if isStrWhiteSpace c then
      (if inRun then collapseChars true cs else Char.ofNat 32 :: collapseChars true cs)
    else c :: collapseChars false cs

/-- The call `s.replace(/\s+/g, ' ')`. -/
def collapseWhitespace (s : String) : String :=
  String.mk (collapseChars false s.data)

/-- The call `s.replace(/[$,]/g, '')`. -/
def removeDollarsAndCommas (s : String) : String :=
  String.mk (s.data.filter (fun c => !(c.toNat = 36 || c.toNat = 44)))

/-- The call `s.replace(/[$€£¥₹]/g, '')`. -/
def removeCurrencySymbols (s : String) : String :=
  String.mk (s.data.filter (fun c => !isCurrencySymbol c))

/-- The expression `description || fallback` on strings. -/
def orDefault (s fallback : String) : String :=
  if s = "" then fallback else s

/-- The amount `parseFloat(amountStr.replace(/[$,]/g, ''))` of a matched
amount. -/
def amountOf (amountStr : String) : JSNum :=
  parseFloatStr (removeDollarsAndCommas amountStr)

/-- The revenue test of the free-text extractors on a line. -/
def hasRevenueWord (line : String) : Bool :=
  includes (toLowerCase line) "income" || includes (toLowerCase line) "revenue"
    || includes (toLowerCase line) "credit" || includes (toLowerCase line) "deposit"
    || includes (toLowerCase line) "received"

/-- The transaction object that the free-text extractors push. -/
def candidate (id : String) (date : Option Int) (description : String) (amount : JSNum)
    (type : String) : JSVal :=
  .obj [("id", .str id), ("date", .date date), ("description", .str description),
    ("amount", .num amount.abs), ("type", .str type), ("category", .str "Other")]

/-- The id of a pushed transaction: the tag, the index and `Date.now()`. -/
def candidateId (tag : String) (clocks : Nat → RowClock) (i : Nat) : String :=
  tag ++ "-" ++ natToString i ++ "-" ++ natToString (clocks i).stamp

/-! ## parsers/imageParser.js and the tiers it shares with parsers/pdfParser.js -/

/-- The description of the line-local tier: the line without the first
occurrence of the date, of the amount and of a currency symbol, with white
space collapsed and trimmed. -/
def lineDescription (line dateStr amountStr : String) : String :=
  trim (collapseWhitespace (currencySymbolRegex.removeFirst
    (removeFirst (removeFirst line dateStr) amountStr)))

/-- One iteration of the first loop of `parseImageFile`, on the line at index
`i`: the transaction it pushes, if any. -/
def imageLineCandidate (h : Host) (clocks : Nat → RowClock) (i : Nat) (rawLine : String) :
    Option JSVal :=
  let line := trim rawLine
  if jsLength line < 10 then none
  else
    match dateRegex.matchIn line, amountRegex.matchIn line with
    | some dateStr, some amountStr =>
      some (candidate (candidateId "image" clocks i) (h.newDate (.str dateStr))
        (orDefault (lineDescription line dateStr amountStr)
          ("Transaction " ++ natToString (i + 1)))
        (amountOf amountStr)
        (if hasRevenueWord line then "revenue" else "expense"))
    | _, _ => none

/-- The transactions of a loop that pushes at most one transaction per line,
from the line at index `i` on. -/
def collectFrom (f : Nat → String → Option JSVal) : Nat → List String → List JSVal
  | _, [] => []
  | i, line :: rest =>
    match f i line with
    | some t => t :: collectFrom f (i + 1) rest
    | none => collectFrom f (i + 1) rest

/-- The look-ahead loop of the windowed tier, entered with `lineOffset` and
without an amount match: up to `budget` further lines are tried.  The result
is the amount match, the line it was found in and the final `lineOffset`. -/
def lookAhead (lines : List String) (i : Nat) : Nat → Nat → String →
    Option String × String × Nat
  | 0, lineOffset, amountLine => (none, amountLine, lineOffset)
  | budget + 1, lineOffset, amountLine =>
    if i + lineOffset + 1 < lines.length then
      match amountRegex.matchIn (trim (lines.getD (i + lineOffset + 1) "")) with
      | some amountStr => (some amountStr, trim (lines.getD (i + lineOffset + 1) ""),
          lineOffset + 1)
      | none => lookAhead lines i budget (lineOffset + 1)
          (trim (lines.getD (i + lineOffset + 1) ""))
    else (none, amountLine, lineOffset)

/-- The amount search of the windowed tier for the line at index `i`: the
line itself, then up to three lines after it. -/
def findAmount (lines : List String) (i : Nat) (line : String) :
    Option String × String × Nat :=
  match amountRegex.matchIn line with
  | some amountStr => (some amountStr, line, 0)
  | none => lookAhead lines i 3 0 line

/-- The windowed tier (the loop that looks for a date and then for an amount
on the same or on the next lines), from the index `i` on; `tag` is the tag of
the ids.  A pushed transaction skips the lines up to the line of its amount.
`fuel` bounds the number of iterations. -/
def windowedFrom (h : Host) (tag : String) (clocks : Nat → RowClock) (lines : List String) :
    Nat → Nat → List JSVal
  | 0, _ => []
  | fuel + 1, i =>
    if i < lines.length then
      let line := trim (lines.getD i "")
      if jsLength line < 10 then windowedFrom h tag clocks lines fuel (i + 1)
      else
        match dateRegex.matchIn line with
        | none => windowedFrom h tag clocks lines fuel (i + 1)
        | some dateStr =>
          match findAmount lines i line with
          | (some amountStr, amountLine, lineOffset) =>
            let first := trim (removeFirst line dateStr)
            let description :=
              if 0 < lineOffset then first ++ " " ++ trim (removeFirst amountLine amountStr)
              else trim (removeFirst first amountStr)
            candidate (candidateId tag clocks i) (h.newDate (.str dateStr))
                (orDefault description ("Transaction " ++ natToString (i + 1)))
                (amountOf amountStr) "expense"
              :: windowedFrom h tag clocks lines fuel (i + lineOffset + 1)
          | (none, _, _) => windowedFrom h tag clocks lines fuel (i + 1)
    else []

/-- The windowed tier over all the lines. -/
def windowedTier (h : Host) (tag : String) (clocks : Nat → RowClock) (lines : List String) :
    List JSVal :=
  windowedFrom h tag clocks lines lines.length 0

/-- The amount-only tier of `parseImageFile`, from the line at index `i` on;
`transactionCount` counts the descriptions `Item n` given so far. -/
def basicFrom (clocks : Nat → RowClock) : Nat → Nat → List String → List JSVal
  | _, _, [] => []
  | transactionCount, i, rawLine :: rest =>
    let line := trim rawLine
    if jsLength line < 5 then basicFrom clocks transactionCount (i + 1) rest
    else
      match amountRegex.matchIn line with
      | none => basicFrom clocks transactionCount (i + 1) rest
      | some amountStr =>
        let description := trim (removeFirst line amountStr)
        if description = "" then
          candidate (candidateId "image-basic" clocks i) (some (Int.ofNat (clocks i).clock))
              ("Item " ++ natToString (transactionCount + 1)) (amountOf amountStr) "expense"
            :: basicFrom clocks (transactionCount + 1) (i + 1) rest
        else
          candidate (candidateId "image-basic" clocks i) (some (Int.ofNat (clocks i).clock))
              description (amountOf amountStr) "expense"
            :: basicFrom clocks transactionCount (i + 1) rest

/-- The first tier of `parseImageFile`: the line-local pattern match. -/
def imageTier1 (h : Host) (clocks : Nat → RowClock) (lines : List String) : List JSVal :=
  collectFrom (imageLineCandidate h clocks) 0 lines

/-- The second tier of `parseImageFile`: the windowed search. -/
def imageTier2 (h : Host) (clocks : Nat → RowClock) (lines : List String) : List JSVal :=
  windowedTier h "image-scan" clocks lines

/-- The third tier of `parseImageFile`: the amount-only scan. -/
def imageTier3 (clocks : Nat → RowClock) (lines : List String) : List JSVal :=
  basicFrom clocks 0 0 lines

/-- The transactions of `parseImageFile` before normalization: each tier runs
only when the tiers before it have pushed nothing. -/
def imageTransactions (h : Host) (clocks : Nat → RowClock) (lines : List String) :
    List JSVal :=
  match imageTier1 h clocks lines with
  | t :: ts => t :: ts
  | [] =>
    match imageTier2 h clocks lines with
    | t :: ts => t :: ts
    | [] => imageTier3 clocks lines

/-- The function `parseImageFile`, from the text that the OCR worker returns.
Every exception is caught and thrown again with the prefix
`Failed to parse image file: `. -/
def parseImageFile (h : Host) (clocks : Nat → RowClock) (ticks : Nat → Tick) (text : String) :
    Except String (List JSVal) :=
  let body : Except String (List JSVal) :=
    if text = "" || trim text = "" then .error "No text content extracted from image"
    else
      match imageTransactions h clocks (textLines text) with
      | [] => .error "No transaction data could be extracted from image"
      | transactions => normalizeTransactionData h ticks (.arr transactions)
  match body with
  | .error message => .error ("Failed to parse image file: " ++ message)
  | .ok result => .ok result

/-! ## parsers/pdfParser.js -/

/-- The loop of `String.prototype.split` for a pattern: `cur` holds, in
reverse, the characters of the current piece, and the pattern is tried at the
front of the rest; a match that ends where the current piece starts is not a
separator.  `fuel` bounds the number of iterations. -/
def splitLoop (re : Regex) : Nat → Option Char → List Char → List Char → List (List Char)
  | 0, _, cur, rest => [cur.reverse ++ rest]
  | _ + 1, _, cur, [] => [cur.reverse]
  | fuel + 1, prev, cur, c :: cs =>
    match re.run prev (c :: cs) (fun p r => some (p, r)) with
    | some (prev', rest) =>
      if rest.length = (c :: cs).length && cur.isEmpty then
        splitLoop re fuel (some c) (c :: cur) cs
      else cur.reverse :: splitLoop re fuel prev' [] rest
    | none => splitLoop re fuel (some c) (c :: cur) cs

/-- The call `s.split(re)` for a pattern without capture groups. -/
def splitRegex (re : Regex) (s : String) : List String :=
  (splitLoop re (2 * s.data.length + 2) none [] s.data).map String.mk

/-- The header row that `parsePDFFile` looks for among the lines from the
index `i` on, `budget` lines at most: the index of the first line whose lower
case holds `date` and `amount`, `date` and `description`, or `transaction`
and `amount`. -/
def findHeaderRow : Nat → Nat → List String → Option Nat
  | 0, _, _ => none
  | _ + 1, _, [] => none
  | budget + 1, i, rawLine :: rest =>
    let line := toLowerCase rawLine
    if (includes line "date" && includes line "amount")
        || (includes line "date" && includes line "description")
        || (includes line "transaction" && includes line "amount") then some i
    else findHeaderRow budget (i + 1) rest

/-- One iteration of the first loop of `parsePDFFile`, on the line at index
`i`: the transaction it pushes, if any. -/
def pdfLineCandidate (h : Host) (clocks : Nat → RowClock) (i : Nat) (rawLine : String) :
    Option JSVal :=
  let line := trim rawLine
  if jsLength line < 10 || includes line "page" || includes line "total" then none
  else
    match dateRegex.matchIn line, amountRegex.matchIn line with
    | some dateStr, some amountStr =>
      let type1 := if hasRevenueWord line then "revenue" else "expense"
      let type :=
        if includes line ("-" ++ amountStr) || includes line ("(" ++ amountStr ++ ")")
            || includes line ("- " ++ amountStr) then "expense"
        else type1
      some (candidate (candidateId "pdf" clocks i) (h.newDate (.str dateStr))
        (orDefault (trim (removeCurrencySymbols (lineDescription line dateStr amountStr)))
          ("Transaction " ++ natToString (i + 1)))
        (amountOf amountStr) type)
    | _, _ => none

/-- The first tier of `parsePDFFile`: the line-local pattern match on the
lines after the header row, or on all the lines when there is no header
row. -/
def pdfTier1 (h : Host) (clocks : Nat → RowClock) (lines : List String) : List JSVal :=
  match findHeaderRow 10 0 lines with
  | some headerRow =>
    collectFrom (pdfLineCandidate h clocks) (headerRow + 1) (lines.drop (headerRow + 1))
  | none => collectFrom (pdfLineCandidate h clocks) 0 lines

/-- The columns of a table row:
`row.split(/\s{2,}|\t/).filter(col => col.trim() !== '')`. -/
def tableColumns (row : String) : List String :=
  (splitRegex columnSeparatorRegex row).filter (fun col => trim col ≠ "")

/-- The indices `dateCol`, `amountCol` and `descCol` after the loop over the
columns from the index `k` on: a column with a date is the date column,
otherwise a column with an amount is the amount column, otherwise a column of
more than five characters is the description column; a later column
replaces an earlier one. -/
def classifyColumns : Nat → List String → Option Nat × Option Nat × Option Nat →
    Option Nat × Option Nat × Option Nat
  | _, [], found => found
  | k, col :: rest, (dateCol, amountCol, descCol) =>
    if dateRegex.test col then classifyColumns (k + 1) rest (some k, amountCol, descCol)
    else if amountRegex.test col then classifyColumns (k + 1) rest (dateCol, some k, descCol)
    else if 5 < jsLength col then classifyColumns (k + 1) rest (dateCol, amountCol, some k)
    else classifyColumns (k + 1) rest (dateCol, amountCol, descCol)

/-- The columns other than the date and the amount column, from the index
`k` on. -/
def otherColumns (dateCol amountCol : Nat) : Nat → List String → List String
  | _, [] => []
  | k, col :: rest =>
    if k ≠ dateCol && k ≠ amountCol then col :: otherColumns dateCol amountCol (k + 1) rest
    else otherColumns dateCol amountCol (k + 1) rest

/-- The description of a table row with a date and an amount column: the
description column when there is one, the other columns joined by a space
otherwise. -/
def tableDescription (columns : List String) (dateCol amountCol : Nat) (descCol : Option Nat) :
    String :=
  match descCol with
  | some k => columns.getD k ""
  | none => " ".intercalate (otherColumns dateCol amountCol 0 columns)

/-- The transaction that `parsePDFFile` pushes for the row `j` of a table, if
any: the row needs two columns at least, a date column and an amount
column. -/
def tableRowCandidate (h : Host) (clocks : Nat → RowClock) (j : Nat) (row : String) :
    Option JSVal :=
  let columns := tableColumns row
  if 2 ≤ columns.length then
    match classifyColumns 0 columns (none, none, none) with
    | (some dateCol, some amountCol, descCol) =>
      match dateRegex.matchIn (columns.getD dateCol ""),
          amountRegex.matchIn (columns.getD amountCol "") with
      | some dateStr, some amountStr =>
        some (candidate (candidateId "pdf-table" clocks j) (h.newDate (.str dateStr))
          (orDefault (tableDescription columns dateCol amountCol descCol)
            ("Transaction " ++ natToString j))
          (amountOf amountStr) "expense")
      | _, _ => none
    | _ => none
  else none

/-- The transactions of one table: the rows after the first one. -/
def processTable (h : Host) (clocks : Nat → RowClock) (tableRows : List String) : List JSVal :=
  collectFrom (tableRowCandidate h clocks) 1 tableRows.tail

/-- The table tier of `parsePDFFile` from the line at index `i` on, with the
rows collected so far and the flag `inTable`.  A table is processed at the
first line after it that is not like a table row, and only when it has more
than one row; the collected rows are cleared only then.  `tableClocks i` are
the clock readings for the table that ends at the line `i`. -/
def tableFrom (h : Host) (tableClocks : Nat → Nat → RowClock) :
    List String → Bool → Nat → List String → List JSVal
  | _, _, _, [] => []
  | tableRows, inTable, i, rawLine :: rest =>
    let line := trim rawLine
    if line = "" then tableFrom h tableClocks tableRows inTable (i + 1) rest
    else if multipleSpacesRegex.test line || tabRegex.test line then
      tableFrom h tableClocks (tableRows ++ [line]) true (i + 1) rest
    else if inTable then
      if 1 < tableRows.length then
        processTable h (tableClocks i) tableRows ++ tableFrom h tableClocks [] false (i + 1) rest
      else tableFrom h tableClocks tableRows false (i + 1) rest
    else tableFrom h tableClocks tableRows inTable (i + 1) rest

/-- The table tier of `parsePDFFile`. -/
def pdfTableTier (h : Host) (tableClocks : Nat → Nat → RowClock) (lines : List String) :
    List JSVal :=
  tableFrom h tableClocks [] false 0 lines

/-- The transactions of `parsePDFFile` before normalization: the line-local
tier, the table tier, the windowed tier; each runs only when the tiers before
it have pushed nothing.  There is no amount-only tier. -/
def pdfTransactions (h : Host) (clocks : Nat → RowClock) (tableClocks : Nat → Nat → RowClock)
    (lines : List String) : List JSVal :=
  match pdfTier1 h clocks lines with
  | t :: ts => t :: ts
  | [] =>
    match pdfTableTier h tableClocks lines with
    | t :: ts => t :: ts
    | [] => windowedTier h "pdf-scan" clocks lines

/-- The function `parsePDFFile`, from the text that `pdf-parse` returns.
Every exception is caught and thrown again with the prefix
`Failed to parse PDF file: `. -/
def parsePDFFile (h : Host) (clocks : Nat → RowClock) (tableClocks : Nat → Nat → RowClock)
    (ticks : Nat → Tick) (text : String) : Except String (List JSVal) :=
  let body : Except String (List JSVal) :=
    if text = "" || trim text = "" then .error "No text content found in PDF file"
    else
      match pdfTransactions h clocks tableClocks (textLines text) with
      | [] => .error "No transaction data could be extracted from PDF"
      | transactions => normalizeTransactionData h ticks (.arr transactions)
  match body with
  | .error message => .error ("Failed to parse PDF file: " ++ message)
  | .ok result => .ok result

/-- Clock readings of the table tier for the concrete examples. -/
def sampleTableClocks (_ : Nat) (j : Nat) : RowClock where
  stamp := 1710374400000 + j
  clock := 1710374400000 + j

/-! ## Vocabulary of the statements: table rows -/

/-- A column of a table row that holds neither a date nor an amount. -/
def isTextColumn (col : String) : Bool :=
  !dateRegex.test col && !amountRegex.test col

/-- A column that holds neither a date nor an amount and has more than five
characters. -/
def isLongTextColumn (col : String) : Bool :=
  isTextColumn col && decide (5 < jsLength col)

/-- A pattern without a star. -/
def Regex.starFree : Regex → Bool
  | .empty => true
  | .char _ => true
  | .seq a b => a.starFree && b.starFree
  | .alt a b => a.starFree && b.starFree
  | .star _ => false
  | .wordBoundary => true

/-- The character before a position: the last character of the run `before`
when there is one, `prev` otherwise. -/
def lastOr (prev : Option Char) (before : List Char) : Option Char :=
  match before.getLast? with
  | some c => some c
  | none => prev

/-! ## controllers/fileController.js -/

/-- The six extractors that `processFile` can call. -/
inductive Extractor where
  | excel | csv | json | xml | pdf | image
  deriving DecidableEq

/-- The calls of `processFile` that are observed, in the order they are
made: an extractor, the categorizer, `fs.unlinkSync`. -/
inductive Effect where
  | parse (extractor : Extractor)
  | categorize
  | unlink (path : String)
  deriving DecidableEq

/-- The uploaded file `req.file`. -/
structure Upload where
  path : String
  originalname : String

/-- What the libraries give for the uploaded file: `extname` is
`path.extname`; the next six fields are what the decoder of each extractor
reads from the file, or the message with which the extractor fails when its
decoder fails; `unlink` is the outcome of the first `fs.unlinkSync`. -/
structure FileWorld where
  extname : String → String
  sheetRows : Except String (List (List (String × JSVal)))
  csvRows : Except String (List (List (String × JSVal)))
  jsonData : Except String JSVal
  xmlResult : Except String JSVal
  pdfText : Except String String
  imageText : Except String String
  unlink : Except String Unit

/-- The clock readings of a call of `processFile`. -/
structure Clocks where
  rows : Nat → RowClock
  tables : Nat → Nat → RowClock
  ticks : Nat → Tick

/-- The property `summary` of the response. -/
structure Summary where
  total : Nat
  revenue : Nat
  expenses : Nat
  deriving DecidableEq

/-- The response of `processFile`: the status, the message, and on success
the transactions and the summary. -/
structure Response where
  status : Nat
  message : String
  payload : Option (List JSVal × Summary)

/-- The `switch` of `processFile` on the lower-cased extension. -/
def dispatch (fileExtension : String) : Option Extractor :=
  if fileExtension = ".xlsx" then some .excel
  else if fileExtension = ".xls" then some .excel
  else if fileExtension = ".csv" then some .csv
  else if fileExtension = ".json" then some .json
  else if fileExtension = ".xml" then some .xml
  else if fileExtension = ".pdf" then some .pdf
  else if fileExtension = ".jpg" then some .image
  else if fileExtension = ".jpeg" then some .image
  else none

/-- The call of an extractor on the uploaded file. -/
def runExtractor (h : Host) (c : Clocks) (w : FileWorld) : Extractor →
    Except String (List JSVal)
  | .excel =>
    match w.sheetRows with
    | .error message => .error message
    | .ok rawData => parseExcelFile h c.rows c.ticks rawData
  | .csv =>
    match w.csvRows with
    | .error message => .error message
    | .ok results => parseCSVFile h c.rows c.ticks results
  | .json =>
    match w.jsonData with
    | .error message => .error message
    | .ok data => parseJSONFile h c.rows c.ticks data
  | .xml =>
    match w.xmlResult with
    | .error message => .error message
    | .ok result => parseXMLFile h c.rows c.ticks result
  | .pdf =>
    match w.pdfText with
    | .error message => .error message
    | .ok text => parsePDFFile h c.rows c.tables c.ticks text
  | .image =>
    match w.imageText with
    | .error message => .error message
    | .ok text => parseImageFile h c.rows c.ticks text

/-- The number of transactions whose `type` is strictly equal to `type`. -/
def countType (type : String) (transactions : List JSVal) : Nat :=
  transactions.countP (fun t => strictEqStr (propOf t "type") type)

/-- The `catch` block of `processFile`: the file is deleted when it has a
path, whatever comes of it, and the response has the status 500 and the
message of the error. -/
def failure (file : Upload) (message : String) (effects : List Effect) :
    Response × List Effect :=
  ({ status := 500,
     message := if message = "" then "Error processing file" else message,
     payload := none },
   if file.path = "" then effects else effects ++ [.unlink file.path])

/-- The function `processFile`: the response that it sends and the calls
that it makes. -/
def processFile (h : Host) (c : Clocks) (w : FileWorld) (file : Option Upload) :
    Response × List Effect :=
  match file with
  | none => ({ status := 400, message := "No file uploaded", payload := none }, [])
  | some file =>
    match dispatch (toLowerCase (w.extname file.originalname)) with
    | none =>
      match w.unlink with
      | .error message => failure file message [.unlink file.path]
      | .ok _ =>
        ({ status := 400, message := "Unsupported file format", payload := none },
          [.unlink file.path])
    | some extractor =>
      match runExtractor h c w extractor with
      | .error message => failure file message [.parse extractor]
      | .ok transactions =>
        match categorizeTranactions (.arr transactions) with
        | .error message => failure file message [.parse extractor, .categorize]
        | .ok categorizedTransactions =>
          match w.unlink with
          | .error message =>
            failure file message [.parse extractor, .categorize, .unlink file.path]
          | .ok _ =>
            ({ status := 200, message := "File processed successfully",
               payload := some (categorizedTransactions,
                 { total := categorizedTransactions.length,
                   revenue := countType "revenue" categorizedTransactions,
                   expenses := countType "expense" categorizedTransactions }) },
              [.parse extractor, .categorize, .unlink file.path])

/-- An `extname` for the concrete examples: the name from its last dot on,
for a name with a dot that is not its first character and without a slash. -/
def sampleExtname (name : String) : String :=
  match (splitChars (Char.ofNat 46) name.data).getLast? with
  | some ext => String.mk (Char.ofNat 46 :: ext)
  | none => ""

/-- A file world for the concrete examples: every decoder gives an empty
content and the file can be deleted. -/
def sampleWorld : FileWorld where
  extname := sampleExtname
  sheetRows := .ok []
  csvRows := .ok []
  jsonData := .ok .null
  xmlResult := .ok .null
  pdfText := .ok ""
  imageText := .ok ""
  unlink := .ok ()

/-- The clock readings of the concrete examples. -/
def sampleAllClocks : Clocks where
  rows := sampleClocks
  tables := sampleTableClocks
  ticks := sampleTicks

/-- The calls `effects` start with the extractor `extractor` and hold no
call of another extractor. -/
def callsOnly (extractor : Extractor) (effects : List Effect) : Prop :=
  effects.head? = some (.parse extractor)
    ∧ ∀ other : Extractor, Effect.parse other ∈ effects → other = extractor

/-- The response and the calls `out` of `processFile` are those of a run in
which the extractor `extractor` was called, alone and first, with the outcome
`result`: when the extractor threw, the response has the status 500 and the
message of the error, and the categorizer was not called; when it returned
`transactions`, the categorizer returned `categorized` for them and the file
was deleted, the response is the success response built from `categorized`,
after the three calls in order. -/
def handledBy (w : FileWorld) (file : Upload) (extractor : Extractor)
    (result : Except String (List JSVal)) (out : Response × List Effect) : Prop :=
  callsOnly extractor out.2
  ∧ (∀ message : String, result = .error message →
      out.1.status = 500
      ∧ out.1.message = (if message = "" then "Error processing file" else message)
      ∧ out.1.payload = none
      ∧ Effect.categorize ∉ out.2)
  ∧ (∀ transactions categorized : List JSVal, result = .ok transactions →
      categorizeTranactions (.arr transactions) = .ok categorized →
      ∀ u : Unit, w.unlink = .ok u →
        out.1.status = 200
        ∧ out.1.message = "File processed successfully"
        ∧ out.1.payload = some (categorized,
            { total := categorized.length,
              revenue := countType "revenue" categorized,
              expenses := countType "expense" categorized })
        ∧ out.2 = [.parse extractor, .categorize, .unlink file.path])

/-- The response and the calls `out` of `processFile` are those of a run
that handed the file to the extractor `extractor`, whose decoder gave
`decoded` and whose function is `parse`: a decoder that fails makes the
extractor throw, and a decoded content is passed to `parse`. -/
def dispatchedTo {α : Type} (w : FileWorld) (file : Upload) (extractor : Extractor)
    (decoded : Except String α) (parse : α → Except String (List JSVal))
    (out : Response × List Effect) : Prop :=
  (∀ message : String, decoded = .error message →
    handledBy w file extractor (.error message) out)
  ∧ (∀ content : α, decoded = .ok content → handledBy w file extractor (parse content) out)

/-- A file world for the concrete examples whose CSV decoder gives one row. -/
def sampleCsvWorld : FileWorld where
  extname := sampleExtname
  sheetRows := .ok []
  csvRows := .ok [[("Date", .str "2024-01-05"), ("Description", .str "Office Rent"),
    ("Amount", .str "-1200")]]
  jsonData := .ok .null
  xmlResult := .ok .null
  pdfText := .ok ""
  imageText := .ok ""
  unlink := .ok ()

/-- The canonical shape of a transaction: a number `amount` and a `type`
that is `revenue` or `expense`, with the amount `<= 0` for an expense and
`>= 0` for a revenue. -/
def Canonical (t : JSVal) : Prop :=
  ∃ (a : JSNum) (ty : String),
    getProp t "amount" = .ok (.num a) ∧ getProp t "type" = .ok (.str ty)
    ∧ (ty = "revenue" ∨ ty = "expense")
    ∧ (ty = "expense" → JSNum.le a .zero = true)
    ∧ (ty = "revenue" → JSNum.le .zero a = true)

/-! ## Theorems -/

/-- The binary digits counted by `log2Fuel`, given enough fuel. -/
theorem log2Fuel_spec : ∀ (fuel n : Nat), n ≤ fuel → 0 < n →
    2 ^ log2Fuel fuel n ≤ n ∧ n < 2 ^ (log2Fuel fuel n + 1) := by
  intro fuel
  induction fuel with
  | zero => intro n h1 h2; omega
  | succ f ih =>
    intro n h1 h2
    simp only [log2Fuel]
    by_cases hn : n < 2
    · simp only [hn, if_true]
      constructor
      · simpa using h2
      · simpa using hn
    · simp only [hn, if_false]
      have hh := ih (n / 2) (by omega) (by omega)
      constructor
      · have := hh.1
        rw [pow_succ]; omega
      · have := hh.2
        rw [pow_succ]; omega

/-- A positive rational below half of the smallest subnormal rounds to zero. -/
theorem roundPos_underflow (n d : Nat) (hn : 0 < n) (hd : 0 < d)
    (h : n * 2 ^ 1075 < d) : roundPos n d = .fin 0 := by
  obtain ⟨ha, -⟩ := log2Fuel_spec n n (le_refl _) hn
  obtain ⟨-, hb⟩ := log2Fuel_spec d d (le_refl _) hd
  have hlt : 2 ^ (log2Fuel n n + 1075) < 2 ^ (log2Fuel d d + 1) := by
    calc 2 ^ (log2Fuel n n + 1075) = 2 ^ log2Fuel n n * 2 ^ 1075 := pow_add _ _ _
      _ ≤ n * 2 ^ 1075 := Nat.mul_le_mul_right _ ha
      _ < d := h
      _ < 2 ^ (log2Fuel d d + 1) := hb
  have hexp : log2Fuel n n + 1075 < log2Fuel d d + 1 :=
    (Nat.pow_lt_pow_iff_right (by decide)).mp hlt
  have hfl : floorLog2 n d ≤ -1022 := by
    have he0 : Int.ofNat (log2Fuel n n) - Int.ofNat (log2Fuel d d) ≤ -1075 := by
      simp only [Int.ofNat_eq_coe]; omega
    clear h hlt ha hb
    simp only [floorLog2]
    split_ifs <;> omega
  have hmax : max (floorLog2 n d) (-1022) = -1022 := max_eq_right hfl
  have h2 : 2 * (n * 2 ^ 1074) = n * 2 ^ 1075 := by rw [pow_succ]; ring
  have hm : roundHalfEven (n * 2 ^ 1074) d = 0 := by
    rw [← h2] at h
    generalize n * 2 ^ 1074 = x at h
    have hsmall : x < d := by omega
    simp only [roundHalfEven, Nat.mod_eq_of_lt hsmall, Nat.div_eq_of_lt hsmall, h, if_true]
  have hs : ((-1022 : Int) - 52 < 0) := by decide
  have hs2 : (-((-1022 : Int) - 52)).toNat = 1074 := rfl
  simp only [roundPos, hmax, hs, hs2, if_true, hm]
  rw [if_neg (by decide), if_neg (fun hc => absurd hc.1 (by decide))]
  simp only [Nat.cast_zero, zero_div]

/-- A positive rational of at least `2 ^ 1024` rounds to `Infinity`. -/
theorem roundPos_overflow (n d : Nat) (hn : 0 < n) (hd : 0 < d)
    (h : 2 ^ 1024 * d ≤ n) : roundPos n d = .posInf := by
  obtain ⟨-, ha⟩ := log2Fuel_spec n n (le_refl _) hn
  obtain ⟨hb, -⟩ := log2Fuel_spec d d (le_refl _) hd
  have hlt : 2 ^ (1024 + log2Fuel d d) < 2 ^ (log2Fuel n n + 1) := by
    calc 2 ^ (1024 + log2Fuel d d) = 2 ^ 1024 * 2 ^ log2Fuel d d := pow_add _ _ _
      _ ≤ 2 ^ 1024 * d := Nat.mul_le_mul_left _ hb
      _ ≤ n := h
      _ < 2 ^ (log2Fuel n n + 1) := ha
  have hexp : 1024 + log2Fuel d d < log2Fuel n n + 1 :=
    (Nat.pow_lt_pow_iff_right (by decide)).mp hlt
  have hfl : 1024 ≤ floorLog2 n d := by
    have he0 : (1024 : Int) ≤ Int.ofNat (log2Fuel n n) - Int.ofNat (log2Fuel d d) := by
      simp only [Int.ofNat_eq_coe]; omega
    simp only [floorLog2]
    by_cases hc : Int.ofNat (log2Fuel n n) - Int.ofNat (log2Fuel d d) = 1024
    · rw [hc]
      have h1 : (1024 : Int).toNat = 1024 := rfl
      simp only [h1, h, show (0 : Int) ≤ 1024 from by decide, if_true, le_refl]
    · clear h hlt ha hb
      split_ifs <;> omega
  have hmax : (1024 : Int) ≤ max (floorLog2 n d) (-1022) := le_max_of_le_left hfl
  simp only [roundPos, hmax, if_true]

/-- An inequality of naturals read off from the rationals. -/
theorem cast_mul_pow_lt (a b k : Nat) (h : (a : ℚ) * 2 ^ k < (b : ℚ)) : a * 2 ^ k < b := by
  exact_mod_cast h

/-- An inequality of naturals read off from the rationals. -/
theorem cast_pow_mul_le (a b k : Nat) (h : (2 : ℚ) ^ k * (b : ℚ) ≤ (a : ℚ)) :
    2 ^ k * b ≤ a := by
  exact_mod_cast h

/-- A positive rational is its numerator over its denominator, as natural
numbers. -/
theorem natAbs_div_den (q : ℚ) (hnum : 0 < q.num) :
    q = (q.num.natAbs : ℚ) / (q.den : ℚ) := by
  have hcast : ((q.num.natAbs : ℕ) : ℚ) = (q.num : ℚ) := by
    rw [← Int.cast_natCast, Int.natAbs_of_nonneg (le_of_lt hnum)]
  rw [hcast]
  exact (Rat.num_div_den q).symm

/-- The Number value of a positive rational below `2 ^ (-1075)` is zero. -/
theorem roundToDouble_underflow (q : ℚ) (h0 : 0 < q) (h : q * 2 ^ 1075 < 1) :
    roundToDouble q = .fin 0 := by
  have hnum : 0 < q.num := Rat.num_pos.mpr h0
  have hq : q = (q.num.natAbs : ℚ) / (q.den : ℚ) := natAbs_div_den q hnum
  have hlt : q.num.natAbs * 2 ^ 1075 < q.den := by
    have hden : (0 : ℚ) < q.den := by exact_mod_cast q.den_pos
    rw [hq, div_mul_eq_mul_div, div_lt_one hden] at h
    exact cast_mul_pow_lt _ _ 1075 h
  simp only [roundToDouble, ne_of_gt h0, h0, if_false, if_true]
  exact roundPos_underflow _ _ (Int.natAbs_pos.mpr (ne_of_gt hnum)) q.den_pos hlt

/-- The Number value of a rational of at least `2 ^ 1024` is `Infinity`. -/
theorem roundToDouble_overflow (q : ℚ) (h : 2 ^ 1024 ≤ q) :
    roundToDouble q = .posInf := by
  have h0 : 0 < q := lt_of_lt_of_le (by positivity) h
  have hnum : 0 < q.num := Rat.num_pos.mpr h0
  have hq : q = (q.num.natAbs : ℚ) / (q.den : ℚ) := natAbs_div_den q hnum
  have hle : 2 ^ 1024 * q.den ≤ q.num.natAbs := by
    have hden : (0 : ℚ) < q.den := by exact_mod_cast q.den_pos
    rw [hq, le_div_iff₀ hden] at h
    exact cast_pow_mul_le _ _ 1024 h
  simp only [roundToDouble, ne_of_gt h0, h0, if_false, if_true]
  exact roundPos_overflow _ _ (Int.natAbs_pos.mpr (ne_of_gt hnum)) q.den_pos hle


/-- The literal `1e-400` is read as `roundToDouble (1 / 10 ^ 400)`. -/
theorem parseFloatStr_tiny : parseFloatStr "1e-400" = roundToDouble ((1 : ℚ) / 10 ^ 400) := by
  have hc : parseFloatStr "1e-400" = parseUnsigned ['1', 'e', '-', '4', '0', '0'] := by
    simp only [parseFloatStr, parseFloatChars]
    rfl
  have h1 : "Infinity".data.isPrefixOf ['1', 'e', '-', '4', '0', '0'] = false := rfl
  have h2 : takeDigits ['1', 'e', '-', '4', '0', '0'] = ['1'] := rfl
  have h3 : dropDigits ['1', 'e', '-', '4', '0', '0'] = ['e', '-', '4', '0', '0'] := rfl
  have h4 : exponentValue ['e', '-', '4', '0', '0'] = -400 := rfl
  have h5 : digitsValue ['1'] = 1 := rfl
  have h7 : ¬ ('e'.toNat = 46) := by decide
  have h8 : ¬ ((0 : Int) ≤ -400 - Int.ofNat 0) := by decide
  have h9 : (-((-400 : Int) - Int.ofNat 0)).toNat = 400 := rfl
  rw [hc]
  simp only [parseUnsigned, h1, h2, h3, h4, h5, h7, h8, h9, if_false, Bool.false_eq_true,
    List.append_nil, List.length_nil, Nat.cast_one, List.cons_ne_nil, false_and]

/-- The literal `1e400` is read as `roundToDouble (1 * 10 ^ 400)`. -/
theorem parseFloatStr_huge : parseFloatStr "1e400" = roundToDouble ((1 : ℚ) * 10 ^ 400) := by
  have hc : parseFloatStr "1e400" = parseUnsigned ['1', 'e', '4', '0', '0'] := by
    simp only [parseFloatStr, parseFloatChars]
    rfl
  have h1 : "Infinity".data.isPrefixOf ['1', 'e', '4', '0', '0'] = false := rfl
  have h2 : takeDigits ['1', 'e', '4', '0', '0'] = ['1'] := rfl
  have h3 : dropDigits ['1', 'e', '4', '0', '0'] = ['e', '4', '0', '0'] := rfl
  have h4 : exponentValue ['e', '4', '0', '0'] = 400 := rfl
  have h5 : digitsValue ['1'] = 1 := rfl
  have h7 : ¬ ('e'.toNat = 46) := by decide
  have h8 : (0 : Int) ≤ 400 - Int.ofNat 0 := by decide
  have h9 : ((400 : Int) - Int.ofNat 0).toNat = 400 := rfl
  rw [hc]
  simp only [parseUnsigned, h1, h2, h3, h4, h5, h7, h8, h9, if_false, if_true, Bool.false_eq_true,
    List.append_nil, List.length_nil, Nat.cast_one, List.cons_ne_nil, false_and]

/-- A literal below half of the smallest subnormal is read as zero. -/
theorem parseFloatStr_underflow : parseFloatStr "1e-400" = .fin 0 := by
  rw [parseFloatStr_tiny]
  apply roundToDouble_underflow
  · positivity
  · rw [div_mul_eq_mul_div, one_mul, div_lt_one (by positivity)]
    norm_num

/-- A literal beyond the largest finite Number is read as `Infinity`. -/
theorem parseFloatStr_overflow : parseFloatStr "1e400" = .posInf := by
  rw [parseFloatStr_huge]
  apply roundToDouble_overflow
  norm_num

/-- A run of zeros followed by `1` is a run of digits. -/
theorem takeDigits_zeros_one (n : Nat) :
    takeDigits (List.replicate n '0' ++ ['1']) = List.replicate n '0' ++ ['1'] := by
  induction n with
  | zero => rfl
  | succ n ih =>
    have h0 : isDecimalDigit '0' = true := by decide
    rw [List.replicate_succ, List.cons_append]
    simp only [takeDigits, h0, if_true]
    rw [ih]

/-- Nothing follows a run of zeros followed by `1`. -/
theorem dropDigits_zeros_one (n : Nat) :
    dropDigits (List.replicate n '0' ++ ['1']) = [] := by
  induction n with
  | zero => rfl
  | succ n ih =>
    have h0 : isDecimalDigit '0' = true := by decide
    rw [List.replicate_succ, List.cons_append]
    simp only [dropDigits, h0, if_true]
    exact ih

/-- The value of a run of zeros followed by `1`. -/
theorem digitsValue_zeros_one (n : Nat) :
    digitsValue (List.replicate n '0' ++ ['1']) = 1 := by
  have hz : ∀ m : Nat, List.foldl (fun acc c => 10 * acc + (c.toNat - 48)) 0
      (List.replicate m '0') = 0 := by
    intro m
    induction m with
    | zero => rfl
    | succ m ih =>
      rw [List.replicate_succ, List.foldl_cons]
      exact ih
  simp only [digitsValue, List.foldl_append, hz]
  rfl

/-- The decimal `0.0…01` with `n` zeros after the point is read as the Number
value of `1 / 10 ^ (n + 1)`. -/
theorem parseFloatStr_small_decimal (n : Nat) :
    parseFloatStr (String.mk ('0' :: '.' :: (List.replicate n '0' ++ ['1'])))
      = roundToDouble ((1 : ℚ) / 10 ^ (n + 1)) := by
  have hc : parseFloatStr (String.mk ('0' :: '.' :: (List.replicate n '0' ++ ['1'])))
      = parseUnsigned ('0' :: '.' :: (List.replicate n '0' ++ ['1'])) := by
    simp only [parseFloatStr, parseFloatChars]
    rfl
  have h1 : "Infinity".data.isPrefixOf ('0' :: '.' :: (List.replicate n '0' ++ ['1']))
      = false := rfl
  have h2 : takeDigits ('0' :: '.' :: (List.replicate n '0' ++ ['1'])) = ['0'] := rfl
  have h3 : dropDigits ('0' :: '.' :: (List.replicate n '0' ++ ['1']))
      = '.' :: (List.replicate n '0' ++ ['1']) := rfl
  have h4 : exponentValue [] = 0 := rfl
  have h5 : digitsValue ('0' :: (List.replicate n '0' ++ ['1'])) = 1 :=
    digitsValue_zeros_one (n + 1)
  have h7 : '.'.toNat = 46 := by decide
  have h8 : ¬ ((0 : Int) ≤ 0 - Int.ofNat (n + 1)) := by
    simp only [Int.ofNat_eq_coe]; omega
  have h9 : (-((0 : Int) - Int.ofNat (n + 1))).toNat = n + 1 := by
    simp only [Int.ofNat_eq_coe]; omega
  rw [hc]
  simp only [parseUnsigned, h1, h2, h3, h4, h7, if_true, if_false, Bool.false_eq_true,
    takeDigits_zeros_one, dropDigits_zeros_one, List.singleton_append, h5, List.length_append,
    List.length_replicate, List.length_singleton, h8, h9, Nat.cast_one, List.cons_ne_nil,
    false_and]

/-- The call `s.replace(/[^\d.-]/g, '')` keeps the decimal `0.0…01`. -/
theorem keepNumeric_small_decimal (n : Nat) :
    keepNumeric (String.mk ('0' :: '.' :: (List.replicate n '0' ++ ['1'])))
      = String.mk ('0' :: '.' :: (List.replicate n '0' ++ ['1'])) := by
  simp only [keepNumeric]
  congr 1
  rw [List.filter_eq_self]
  intro c hc
  simp only [List.mem_cons, List.mem_append, List.mem_replicate, List.mem_singleton,
    List.not_mem_nil, or_false] at hc
  rcases hc with rfl | rfl | ⟨-, rfl⟩ | rfl <;> decide

/-- The decimal `0.0…01` with 400 zeros after the point lies below half of the
smallest subnormal: `parseFloat` reads it as `0`. -/
theorem parseFloatStr_small_decimal_underflow :
    parseFloatStr (keepNumeric (String.mk ('0' :: '.' :: (List.replicate 400 '0' ++ ['1']))))
      = .fin 0 := by
  rw [keepNumeric_small_decimal, parseFloatStr_small_decimal]
  apply roundToDouble_underflow
  · positivity
  · rw [div_mul_eq_mul_div, one_mul, div_lt_one (by positivity)]
    norm_num

/-! ### Shared lemmas -/
/-- A property read that does not throw returns `propOf`. -/
theorem getProp_ok (v : JSVal) (k : String) (r : JSVal) (hr : getProp v k = .ok r) :
    r = propOf v k := by
  cases v <;> simp_all [getProp, propOf]

/-- A property read on an object never throws. -/
theorem getProp_obj (props : List (String × JSVal)) (k : String) :
    getProp (.obj props) k = .ok (lookupProp k props) := rfl

/-- The conversion of a value to a string returns exactly when the conversion
to a primitive does not throw, and then it returns the string form. -/
theorem toStr_ok (h : Host) (v : JSVal) (s : String) (hs : toStr h v = .ok s) :
    throwsToString v = false ∧ s = strOf h v := by
  unfold toStr at hs
  cases ht : throwsToString v
  · rw [ht] at hs
    simp only [Bool.false_eq_true, if_false] at hs
    injection hs with hs
    exact ⟨rfl, hs.symm⟩
  · rw [ht] at hs
    simp at hs

/-- The conversion of a value whose conversion to a primitive does not throw. -/
theorem toStr_of_not_throws (h : Host) (v : JSVal) (hv : throwsToString v = false) :
    toStr h v = .ok (strOf h v) := by
  unfold toStr
  rw [hv]
  rfl

/-- The conversion of a value whose conversion to a primitive throws. -/
theorem toStr_of_throws (h : Host) (v : JSVal) (hv : throwsToString v = true) :
    toStr h v = .error "Cannot convert object to primitive value" := by
  unfold toStr
  rw [hv]
  rfl

/-- The conversion of a string to a primitive does not throw. -/
theorem throwsToString_str (s : String) : throwsToString (.str s) = false := by
  unfold throwsToString
  rfl

/-- The conversion of a number to a primitive does not throw. -/
theorem throwsToString_num (n : JSNum) : throwsToString (.num n) = false := by
  unfold throwsToString
  rfl

/-- The conversion of a `Date` object to a primitive does not throw. -/
theorem throwsToString_date (t : Option Int) : throwsToString (.date t) = false := by
  unfold throwsToString
  rfl

/-- The conversion of a boolean to a primitive does not throw. -/
theorem throwsToString_bool (b : Bool) : throwsToString (.bool b) = false := by
  unfold throwsToString
  rfl

/-- The string form of a string is the string. -/
theorem strOf_str (h : Host) (s : String) : strOf h (.str s) = s := by
  unfold strOf
  rfl

/-- The string form of a number. -/
theorem strOf_num (h : Host) (n : JSNum) : strOf h (.num n) = numberToString h n := by
  unfold strOf
  rfl

/-- The conversion `String(s)` of a string returns the string. -/
theorem toStr_str (h : Host) (s : String) : toStr h (.str s) = .ok s := by
  rw [toStr_of_not_throws h _ (throwsToString_str s), strOf_str]

/-- The conversion `String(n)` of a number returns its digits. -/
theorem toStr_num (h : Host) (n : JSNum) : toStr h (.num n) = .ok (numberToString h n) := by
  rw [toStr_of_not_throws h _ (throwsToString_num n), strOf_num]

/-- When the callback of the normalizer returns, the object literal built from
the six properties of its argument has returned the same object. -/
theorem normalizeTransaction_ok (h : Host) (k : Tick) (x t : JSVal)
    (hx : normalizeTransaction h k x = .ok t) :
    normalizedTransaction h k (propOf x "id") (propOf x "date") (propOf x "description")
      (propOf x "amount") (propOf x "type") (propOf x "category") = .ok t := by
  cases x <;> simp_all [normalizeTransaction, getProp, propOf]

/-- On an object the callback of the normalizer is the object literal built
from its six properties. -/
theorem normalizeTransaction_obj (h : Host) (k : Tick) (props : List (String × JSVal)) :
    normalizeTransaction h k (.obj props) =
      normalizedTransaction h k (lookupProp "id" props) (lookupProp "date" props)
        (lookupProp "description" props) (lookupProp "amount" props)
        (lookupProp "type" props) (lookupProp "category" props) := rfl

/-- When the object literal of the normalizer returns, its four initializers
that can throw have returned, and the object is built from their results. -/
theorem normalizedTransaction_ok (h : Host) (k : Tick)
    (id date description amount type category t : JSVal)
    (ht : normalizedTransaction h k id date description amount type category = .ok t) :
    ∃ (d : String) (a : JSNum) (ty c : String),
      ensureString h description "Transaction" = .ok d
      ∧ ensurePositiveNumber h amount = .ok a
      ∧ normalizeTransactionType h type = .ok ty
      ∧ ensureString h category "Other" = .ok c
      ∧ t = normalizedObject (idOrGenerated k id) (ensureValidDate h k.today date) d a ty c := by
  unfold normalizedTransaction at ht
  cases hd : ensureString h description "Transaction" with
  | error e => rw [hd] at ht; simp at ht
  | ok d =>
    cases ha : ensurePositiveNumber h amount with
    | error e => rw [hd, ha] at ht; simp at ht
    | ok a =>
      cases hty : normalizeTransactionType h type with
      | error e => rw [hd, ha, hty] at ht; simp at ht
      | ok ty =>
        cases hc : ensureString h category "Other" with
        | error e => rw [hd, ha, hty, hc] at ht; simp at ht
        | ok c =>
          rw [hd, ha, hty, hc] at ht
          injection ht with ht
          exact ⟨d, a, ty, c, rfl, rfl, rfl, rfl, ht.symm⟩

/-- The object literal of the normalizer returns as soon as its four
initializers that can throw return. -/
theorem normalizedTransaction_of_ok (h : Host) (k : Tick)
    (id date description amount type category : JSVal) (d : String) (a : JSNum)
    (ty c : String)
    (hd : ensureString h description "Transaction" = .ok d)
    (ha : ensurePositiveNumber h amount = .ok a)
    (hty : normalizeTransactionType h type = .ok ty)
    (hc : ensureString h category "Other" = .ok c) :
    normalizedTransaction h k id date description amount type category =
      .ok (normalizedObject (idOrGenerated k id) (ensureValidDate h k.today date) d a ty c) := by
  unfold normalizedTransaction
  rw [hd, ha, hty, hc]

/-- A `map` that returns keeps the length. -/
theorem mapIdxM_length (f : Nat → JSVal → Except String JSVal) :
    ∀ (xs : List JSVal) (i : Nat) (ys : List JSVal),
      mapIdxM f i xs = .ok ys → ys.length = xs.length := by
  intro xs
  induction xs with
  | nil => intro i ys hy; simp [mapIdxM] at hy; simp [← hy]
  | cons x xs ih =>
    intro i ys hy
    unfold mapIdxM at hy
    cases hfx : f i x with
    | error e => simp [hfx] at hy
    | ok y =>
      cases hrest : mapIdxM f (i + 1) xs with
      | error e => simp [hfx, hrest] at hy
      | ok zs =>
        simp [hfx, hrest] at hy
        subst hy
        simp [ih (i + 1) zs hrest]

/-- A `map` that returns holds, at each index, the result of the callback on
the element at that index. -/
theorem mapIdxM_getElem? (f : Nat → JSVal → Except String JSVal) :
    ∀ (xs : List JSVal) (i : Nat) (ys : List JSVal),
      mapIdxM f i xs = .ok ys →
      ∀ (j : Nat) (x : JSVal), xs[j]? = some x →
        ∃ y, ys[j]? = some y ∧ f (i + j) x = .ok y := by
  intro xs
  induction xs with
  | nil => intro i ys _ j x hj; simp at hj
  | cons x0 xs ih =>
    intro i ys hy j x hj
    unfold mapIdxM at hy
    cases hfx : f i x0 with
    | error e => simp [hfx] at hy
    | ok y =>
      cases hrest : mapIdxM f (i + 1) xs with
      | error e => simp [hfx, hrest] at hy
      | ok zs =>
        simp [hfx, hrest] at hy
        subst hy
        cases j with
        | zero =>
          simp at hj
          subst hj
          exact ⟨y, by simp, by simpa using hfx⟩
        | succ j =>
          simp at hj
          obtain ⟨y', h1, h2⟩ := ih (i + 1) zs hrest j x hj
          refine ⟨y', by simpa using h1, ?_⟩
          have : i + (j + 1) = i + 1 + j := by omega
          rw [this]; exact h2

/-- Every element of the result of a `map` is the result of the callback on
some element of the input. -/
theorem mapIdxM_mem (f : Nat → JSVal → Except String JSVal) :
    ∀ (xs : List JSVal) (i : Nat) (ys : List JSVal),
      mapIdxM f i xs = .ok ys →
      ∀ y ∈ ys, ∃ (j : Nat) (x : JSVal), xs[j]? = some x ∧ f (i + j) x = .ok y := by
  intro xs
  induction xs with
  | nil => intro i ys hy y hmem; simp [mapIdxM] at hy; subst hy; simp at hmem
  | cons x0 xs ih =>
    intro i ys hy y hmem
    unfold mapIdxM at hy
    cases hfx : f i x0 with
    | error e => simp [hfx] at hy
    | ok y0 =>
      cases hrest : mapIdxM f (i + 1) xs with
      | error e => simp [hfx, hrest] at hy
      | ok zs =>
        simp [hfx, hrest] at hy
        subst hy
        rcases List.mem_cons.mp hmem with rfl | hmem'
        · exact ⟨0, x0, by simp, by simpa using hfx⟩
        · obtain ⟨j, x, h1, h2⟩ := ih (i + 1) zs hrest y hmem'
          refine ⟨j + 1, x, by simpa using h1, ?_⟩
          have : i + (j + 1) = i + 1 + j := by omega
          rw [this]; exact h2

/-- A `map` whose callback returns on every element returns. -/
theorem mapIdxM_total (f : Nat → JSVal → Except String JSVal) (g : Nat → JSVal → JSVal) :
    ∀ (xs : List JSVal) (i : Nat), (∀ (j : Nat) (x : JSVal), x ∈ xs → f j x = .ok (g j x)) →
      mapIdxM f i xs = .ok ((xs.enumFrom i).map (fun p => g p.1 p.2)) := by
  intro xs
  induction xs with
  | nil => intro i _; rfl
  | cons x xs ih =>
    intro i hf
    unfold mapIdxM
    rw [hf i x (by simp), ih (i + 1) (fun j y hy => hf j y (by simp [hy]))]
    simp [List.enumFrom]
/-- The absolute value of a number that is not `NaN` is `>= 0`. -/
theorem JSNum.abs_nonneg (n : JSNum) (hn : n.isNaN = false) : JSNum.le .zero n.abs = true := by
  cases n <;> simp_all [JSNum.abs, JSNum.le, JSNum.zero, JSNum.isNaN]

/-- The opposite of an absolute value is `<= 0`. -/
theorem JSNum.neg_abs_nonpos (n : JSNum) (hn : n.isNaN = false) :
    JSNum.le n.abs.neg .zero = true := by
  cases n <;> simp_all [JSNum.abs, JSNum.neg, JSNum.le, JSNum.zero, JSNum.isNaN]

/-- The function `Math.abs` is idempotent. -/
theorem JSNum.abs_abs (n : JSNum) : n.abs.abs = n.abs := by
  cases n <;> simp [JSNum.abs]

/-- The function `Math.abs` forgets the sign. -/
theorem JSNum.abs_neg (n : JSNum) : n.neg.abs = n.abs := by
  cases n <;> simp [JSNum.abs, JSNum.neg]

/-- The function `Math.abs` keeps `NaN` apart. -/
theorem JSNum.isNaN_abs (n : JSNum) : n.abs.isNaN = n.isNaN := by
  cases n <;> rfl

/-- Unary minus keeps `NaN` apart. -/
theorem JSNum.isNaN_neg (n : JSNum) : n.neg.isNaN = n.isNaN := by
  cases n <;> rfl

/-- What `ensurePositiveNumber` returns is zero or the absolute value of the
number it has parsed. -/
theorem ensurePositiveNumber_ok (h : Host) (v : JSVal) (a : JSNum)
    (ha : ensurePositiveNumber h v = .ok a) :
    a = .zero ∨ ∃ n : JSNum, n.isNaN = false ∧ a = n.abs
      ∧ ((∃ s, v = .str s ∧ n = parseFloatStr (stripCurrency s))
        ∨ ((∀ s, v ≠ .str s) ∧ throwsToString v = false ∧ n = parseFloatStr (strOf h v))) := by
  have key : ∀ n : JSNum,
      (Except.ok (if n.isNaN then JSNum.zero else n.abs) : Except String JSNum) = Except.ok a →
      (∃ s, v = .str s ∧ n = parseFloatStr (stripCurrency s))
        ∨ ((∀ s, v ≠ .str s) ∧ throwsToString v = false ∧ n = parseFloatStr (strOf h v)) →
      a = .zero ∨ ∃ n : JSNum, n.isNaN = false ∧ a = n.abs
      ∧ ((∃ s, v = .str s ∧ n = parseFloatStr (stripCurrency s))
        ∨ ((∀ s, v ≠ .str s) ∧ throwsToString v = false ∧ n = parseFloatStr (strOf h v))) := by
    intro n hn hsrc
    injection hn with hn
    cases hnan : n.isNaN
    · rw [hnan] at hn
      exact Or.inr ⟨n, hnan, by simpa using hn.symm, hsrc⟩
    · rw [hnan] at hn
      exact Or.inl (by simpa using hn.symm)
  have other : (∀ s, v ≠ .str s) → v ≠ .undefined → v ≠ .null →
      ensurePositiveNumber h v =
        (match parseFloat h v with
          | .error e => .error e
          | .ok number => .ok (if number.isNaN then JSNum.zero else number.abs)) := by
    intro h1 h2 h3
    cases v <;> first | rfl | exact absurd rfl h2 | exact absurd rfl h3 | exact absurd rfl (h1 _)
  cases v with
  | undefined => exact Or.inl (by injection ha with ha; exact ha.symm)
  | null => exact Or.inl (by injection ha with ha; exact ha.symm)
  | str s => exact key _ ha (Or.inl ⟨s, rfl, rfl⟩)
  | _ =>
    rw [other (by intro s; simp) (by simp) (by simp)] at ha
    unfold parseFloat at ha
    cases hs : toStr h _ with
    | error e => rw [hs] at ha; simp at ha
    | ok s =>
      rw [hs] at ha
      obtain ⟨hnt, hstr⟩ := toStr_ok h _ s hs
      exact key _ ha (Or.inr ⟨by intro s; simp, hnt, by rw [hstr]⟩)

/-- What `ensurePositiveNumber` returns is zero or an absolute value. -/
theorem ensurePositiveNumber_eq (h : Host) (v : JSVal) (a : JSNum)
    (ha : ensurePositiveNumber h v = .ok a) :
    a = .zero ∨ ∃ n : JSNum, n.isNaN = false ∧ a = n.abs := by
  rcases ensurePositiveNumber_ok h v a ha with h0 | ⟨n, hn, hv, -⟩
  · exact Or.inl h0
  · exact Or.inr ⟨n, hn, hv⟩

/-- What `ensurePositiveNumber` returns is never `NaN`. -/
theorem ensurePositiveNumber_not_nan (h : Host) (v : JSVal) (a : JSNum)
    (ha : ensurePositiveNumber h v = .ok a) : a.isNaN = false := by
  rcases ensurePositiveNumber_eq h v a ha with h0 | ⟨n, hn, hv⟩
  · rw [h0]; rfl
  · rw [hv, JSNum.isNaN_abs]; exact hn

/-- What `ensurePositiveNumber` returns is its own absolute value. -/
theorem ensurePositiveNumber_abs (h : Host) (v : JSVal) (a : JSNum)
    (ha : ensurePositiveNumber h v = .ok a) : a.abs = a := by
  rcases ensurePositiveNumber_eq h v a ha with h0 | ⟨n, _, hv⟩
  · rw [h0]; simp [JSNum.zero, JSNum.abs]
  · rw [hv, JSNum.abs_abs]

/-- The six properties of a normalized transaction. -/
theorem normalizedObject_props (id : JSVal) (date description : String) (amount : JSNum)
    (type category : String) :
    getProp (normalizedObject id date description amount type category) "amount"
        = .ok (.num (if type = "expense" then amount.abs.neg else amount.abs))
    ∧ getProp (normalizedObject id date description amount type category) "type"
        = .ok (.str type)
    ∧ getProp (normalizedObject id date description amount type category) "description"
        = .ok (.str description)
    ∧ getProp (normalizedObject id date description amount type category) "category"
        = .ok (.str category)
    ∧ getProp (normalizedObject id date description amount type category) "id" = .ok id
    ∧ getProp (normalizedObject id date description amount type category) "date"
        = .ok (.str date) := by
  refine ⟨?_, ?_, ?_, ?_, ?_, ?_⟩ <;> simp [normalizedObject, getProp, lookupProp]

/-- What the type coercion returns is `revenue` or `expense`. -/
theorem normalizeTransactionType_ok (h : Host) (v : JSVal) (ty : String)
    (hty : normalizeTransactionType h v = .ok ty) : ty = "revenue" ∨ ty = "expense" := by
  unfold normalizeTransactionType at hty
  cases hb : toBoolean v
  · rw [hb] at hty
    simp only [Bool.not_false, if_true] at hty
    injection hty with hty
    exact Or.inr hty.symm
  · rw [hb] at hty
    simp only [Bool.not_true, Bool.false_eq_true, if_false] at hty
    cases hs : toStr h v with
    | error e => rw [hs] at hty; simp at hty
    | ok s =>
      rw [hs] at hty
      simp only at hty
      split at hty
      · injection hty with hty; exact Or.inl hty.symm
      · split at hty <;> (injection hty with hty; exact Or.inr hty.symm)

/-- The parts of a transaction that the callback of the normalizer has
returned: its amount, type, description and category are the results of the
four coercions, and the sign of the amount follows the type. -/
theorem normalizeTransaction_parts (h : Host) (k : Tick) (x t : JSVal)
    (hx : normalizeTransaction h k x = .ok t) :
    ∃ (d : String) (a : JSNum) (ty c : String),
      ensureString h (propOf x "description") "Transaction" = .ok d
      ∧ ensurePositiveNumber h (propOf x "amount") = .ok a
      ∧ normalizeTransactionType h (propOf x "type") = .ok ty
      ∧ ensureString h (propOf x "category") "Other" = .ok c
      ∧ t = normalizedObject (idOrGenerated k (propOf x "id"))
          (ensureValidDate h k.today (propOf x "date")) d a ty c
      ∧ getProp t "amount" = .ok (.num (if ty = "expense" then a.abs.neg else a.abs))
      ∧ getProp t "type" = .ok (.str ty)
      ∧ getProp t "description" = .ok (.str d)
      ∧ getProp t "category" = .ok (.str c)
      ∧ getProp t "id" = .ok (idOrGenerated k (propOf x "id"))
      ∧ getProp t "date" = .ok (.str (ensureValidDate h k.today (propOf x "date"))) := by
  obtain ⟨d, a, ty, c, hd, ha, hty, hc, ht⟩ :=
    normalizedTransaction_ok h k _ _ _ _ _ _ t (normalizeTransaction_ok h k x t hx)
  obtain ⟨p1, p2, p3, p4, p5, p6⟩ := normalizedObject_props (idOrGenerated k (propOf x "id"))
    (ensureValidDate h k.today (propOf x "date")) d a ty c
  rw [← ht] at p1 p2 p3 p4 p5 p6
  exact ⟨d, a, ty, c, hd, ha, hty, hc, ht, p1, p2, p3, p4, p5, p6⟩


/-! ### The claims -/

/-- C1: every transaction returned by `normalizeTransactionData` has a number
`amount` and a string `type` that satisfy the sign invariant: the amount is
`<= 0` when the type is `expense` and `>= 0` when the type is `revenue`. -/
theorem normalizeTransactionData_sign_invariant (h : Host) (ticks : Nat → Tick)
    (input : JSVal) (out : List JSVal)
    (hres : normalizeTransactionData h ticks input = .ok out) :
    ∀ t ∈ out, ∃ (a : JSNum) (ty : String),
      getProp t "amount" = .ok (.num a) ∧ getProp t "type" = .ok (.str ty)
      ∧ (ty = "expense" → JSNum.le a .zero = true)
      ∧ (ty = "revenue" → JSNum.le .zero a = true) := by
  intro t ht
  cases input with
  | arr items =>
    obtain ⟨j, x, _, hx⟩ := mapIdxM_mem _ items 0 out hres t ht
    obtain ⟨d, a, ty, c, -, hav, -, -, -, ha, hty, -⟩ :=
      normalizeTransaction_parts h _ x t hx
    refine ⟨_, _, ha, hty, ?_, ?_⟩
    · intro he
      rw [if_pos he]
      exact JSNum.neg_abs_nonpos _ (ensurePositiveNumber_not_nan h _ a hav)
    · intro hr
      have hne : ty ≠ "expense" := by
        rw [hr]; decide
      rw [if_neg hne]
      exact JSNum.abs_nonneg _ (ensurePositiveNumber_not_nan h _ a hav)
  | _ => simp [normalizeTransactionData] at hres

/-- C1, at a concrete batch: the revenue `-50` comes out as `50 >= 0` and the
expense `75` comes out as `-75 <= 0`. -/
theorem normalizeTransactionData_sign_invariant_witness :
    normalizeTransactionData sampleHost sampleTicks
        (.arr [.obj [("amount", .str "-50"), ("type", .str "Income")],
               .obj [("amount", .num (.fin 75)), ("type", .str "debit")]]) =
      .ok [.obj [("id", .str "trans-1700000000000-k3j9x0q2z"),
               ("date", .str "2024-03-14"), ("description", .str "Transaction"),
               ("amount", .num (.fin 50)), ("type", .str "revenue"),
               ("category", .str "Other")],
           .obj [("id", .str "trans-1700000000001-k3j9x0q2z"),
               ("date", .str "2024-03-14"), ("description", .str "Transaction"),
               ("amount", .num (.fin (-75))), ("type", .str "expense"),
               ("category", .str "Other")]]
    ∧ JSNum.le .zero (.fin 50) = true
    ∧ JSNum.le (.fin (-75)) .zero = true := by
  have hrun : normalizeTransactionData sampleHost sampleTicks
        (.arr [.obj [("amount", .str "-50"), ("type", .str "Income")],
               .obj [("amount", .num (.fin 75)), ("type", .str "debit")]]) =
      .ok [.obj [("id", .str "trans-1700000000000-k3j9x0q2z"),
               ("date", .str "2024-03-14"), ("description", .str "Transaction"),
               ("amount", .num (.fin 50)), ("type", .str "revenue"),
               ("category", .str "Other")],
           .obj [("id", .str "trans-1700000000001-k3j9x0q2z"),
               ("date", .str "2024-03-14"), ("description", .str "Transaction"),
               ("amount", .num (.fin (-75))), ("type", .str "expense"),
               ("category", .str "Other")]] := by
    with_unfolding_all rfl
  have hall := normalizeTransactionData_sign_invariant sampleHost sampleTicks _ _ hrun
  refine ⟨hrun, ?_, ?_⟩
  · obtain ⟨a, ty, ha, hty, -, hr⟩ := hall _ (List.mem_cons_self _ _)
    have ha2 : a = .fin 50 := by
      injection ha with ha
      injection ha with ha
      exact ha.symm
    have hty2 : ty = "revenue" := by
      injection hty with hty
      injection hty with hty
      exact hty.symm
    rw [← ha2]
    exact hr hty2
  · obtain ⟨a, ty, ha, hty, he, -⟩ := hall _ (List.mem_cons_of_mem _ (List.mem_cons_self _ _))
    have ha2 : a = .fin (-75) := by
      injection ha with ha
      injection ha with ha
      exact ha.symm
    have hty2 : ty = "expense" := by
      injection hty with hty
      injection hty with hty
      exact hty.symm
    rw [← ha2]
    exact he hty2

/-- A value whose conversion to a primitive throws is an object or an array,
so it is truthy, it is not a string and it is neither `undefined` nor
`null`. -/
theorem throws_shape (v : JSVal) (hv : throwsToString v = true) :
    toBoolean v = true ∧ (∀ s, v ≠ .str s) ∧ v ≠ .undefined ∧ v ≠ .null := by
  cases v with
  | arr items => exact ⟨rfl, by intro s; simp, by simp, by simp⟩
  | obj props => exact ⟨rfl, by intro s; simp, by simp, by simp⟩
  | _ => unfold throwsToString at hv; simp at hv

/-- The function `ensureString` throws exactly on the values whose conversion
to a primitive throws, and returns the string form of every other value that
is neither `undefined` nor `null`. -/
theorem ensureString_cases (h : Host) (v : JSVal) (d : String) :
    (throwsToString v = true →
      ensureString h v d = .error "Cannot convert object to primitive value")
    ∧ (throwsToString v = false →
      ensureString h v d = .ok (match v with
        | .undefined => d
        | .null => d
        | w => strOf h w)) := by
  constructor
  · intro hv
    obtain ⟨-, -, hu, hn⟩ := throws_shape v hv
    have : ensureString h v d = toStr h v := by
      cases v <;> first | rfl | exact absurd rfl hu | exact absurd rfl hn
    rw [this, toStr_of_throws h v hv]
  · intro hv
    cases v with
    | undefined => rfl
    | null => rfl
    | _ => exact toStr_of_not_throws h _ hv

/-- The function `ensurePositiveNumber` throws exactly on the values whose
conversion to a primitive throws, and on every other value it returns zero
or the absolute value of the number parsed. -/
theorem ensurePositiveNumber_cases (h : Host) (v : JSVal) :
    (throwsToString v = true →
      ensurePositiveNumber h v = .error "Cannot convert object to primitive value")
    ∧ (throwsToString v = false →
      ensurePositiveNumber h v = .ok (match v with
        | .undefined => JSNum.zero
        | .null => JSNum.zero
        | .str s =>
          if (parseFloatStr (stripCurrency s)).isNaN then JSNum.zero
          else (parseFloatStr (stripCurrency s)).abs
        | w =>
          if (parseFloatStr (strOf h w)).isNaN then JSNum.zero
          else (parseFloatStr (strOf h w)).abs)) := by
  constructor
  · intro hv
    cases v with
    | arr items => simp only [ensurePositiveNumber, parseFloat, toStr_of_throws h _ hv]
    | obj props => simp only [ensurePositiveNumber, parseFloat, toStr_of_throws h _ hv]
    | _ => unfold throwsToString at hv; simp at hv
  · intro hv
    cases v with
    | undefined => rfl
    | null => rfl
    | str s => rfl
    | _ => simp only [ensurePositiveNumber, parseFloat, toStr_of_not_throws h _ hv]

/-- The function `normalizeTransactionType` throws exactly on the values whose
conversion to a primitive throws, and on every other value it returns
`revenue` when the value is truthy and its lower-cased string form passes the
revenue test, `expense` otherwise. -/
theorem normalizeTransactionType_cases (h : Host) (v : JSVal) :
    (throwsToString v = true →
      normalizeTransactionType h v = .error "Cannot convert object to primitive value")
    ∧ (throwsToString v = false →
      normalizeTransactionType h v =
        .ok (if toBoolean v && hasRevenueKeyword (toLowerCase (strOf h v)) then "revenue"
          else "expense")) := by
  constructor
  · intro hv
    obtain ⟨hb, -⟩ := throws_shape v hv
    unfold normalizeTransactionType
    rw [hb, toStr_of_throws h v hv]
    rfl
  · intro hv
    unfold normalizeTransactionType hasRevenueKeyword
    rw [toStr_of_not_throws h v hv]
    cases hb : toBoolean v
    · rfl
    · simp only [Bool.not_true, Bool.false_eq_true, if_false, Bool.true_and]
      split
      · rfl
      · split <;> rfl

/-- The type coercion of a string in closed form. -/
theorem normalizeTransactionType_str (h : Host) (s : String) :
    normalizeTransactionType h (.str s) =
      .ok (if toBoolean (.str s) && hasRevenueKeyword (toLowerCase s) then "revenue"
        else "expense") := by
  rw [(normalizeTransactionType_cases h (.str s)).2 (throwsToString_str s), strOf_str]

/-- The string form of a falsy value (`undefined`, `null`, `false`, `NaN`, `0`,
the empty string) passes no revenue test. -/
theorem falsy_no_revenue_keyword (h : Host) (v : JSVal) (hv : toBoolean v = false) :
    hasRevenueKeyword (toLowerCase (strOf h v)) = false := by
  cases v with
  | undefined => show hasRevenueKeyword (toLowerCase "undefined") = false; decide
  | null => show hasRevenueKeyword (toLowerCase "null") = false; decide
  | bool b =>
    cases b with
    | false => show hasRevenueKeyword (toLowerCase "false") = false; decide
    | true => simp [toBoolean] at hv
  | num n =>
    cases n with
    | nan => show hasRevenueKeyword (toLowerCase "NaN") = false; decide
    | posInf => simp [toBoolean] at hv
    | negInf => simp [toBoolean] at hv
    | fin q =>
      have hq : q = 0 := by simpa [toBoolean] using hv
      subst hq
      show hasRevenueKeyword (toLowerCase "0") = false; decide
  | str s =>
    have hs : s = "" := by simpa [toBoolean] using hv
    subst hs
    show hasRevenueKeyword (toLowerCase "") = false; decide
  | date t => simp [toBoolean] at hv
  | arr xs => simp [toBoolean] at hv
  | obj ps => simp [toBoolean] at hv

/-- The four conversions of the normalizer return on a record exactly when
the conversion to a primitive of its description, amount, type and category
does not throw. -/
theorem normalizedTransaction_returns (h : Host) (k : Tick)
    (id date description amount type category : JSVal) :
    (∃ t, normalizedTransaction h k id date description amount type category = .ok t) ↔
      (throwsToString description = false ∧ throwsToString amount = false
        ∧ throwsToString type = false ∧ throwsToString category = false) := by
  have hb : ∀ v : JSVal, throwsToString v = false ∨ throwsToString v = true := by
    intro v; cases throwsToString v <;> simp
  constructor
  · rintro ⟨t, ht⟩
    obtain ⟨d, a, ty, c, hd, ha, hty, hc, -⟩ := normalizedTransaction_ok h k _ _ _ _ _ _ t ht
    refine ⟨?_, ?_, ?_, ?_⟩
    · rcases hb description with h1 | h1
      · exact h1
      · rw [(ensureString_cases h description "Transaction").1 h1] at hd; cases hd
    · rcases hb amount with h1 | h1
      · exact h1
      · rw [(ensurePositiveNumber_cases h amount).1 h1] at ha; cases ha
    · rcases hb type with h1 | h1
      · exact h1
      · rw [(normalizeTransactionType_cases h type).1 h1] at hty; cases hty
    · rcases hb category with h1 | h1
      · exact h1
      · rw [(ensureString_cases h category "Other").1 h1] at hc; cases hc
  · rintro ⟨h1, h2, h3, h4⟩
    exact ⟨_, normalizedTransaction_of_ok h k id date description amount type category _ _ _ _
      ((ensureString_cases h description "Transaction").2 h1)
      ((ensurePositiveNumber_cases h amount).2 h2)
      ((normalizeTransactionType_cases h type).2 h3)
      ((ensureString_cases h category "Other").2 h4)⟩

/-- A `map` returns exactly when its callback returns on every element. -/
theorem mapIdxM_returns (f : Nat → JSVal → Except String JSVal) :
    ∀ (xs : List JSVal) (i : Nat),
      (∃ ys, mapIdxM f i xs = .ok ys) ↔
        ∀ (j : Nat) (x : JSVal), xs[j]? = some x → ∃ y, f (i + j) x = .ok y := by
  intro xs
  induction xs with
  | nil =>
    intro i
    constructor
    · intro _ j x hj; simp at hj
    · intro _; exact ⟨[], rfl⟩
  | cons x0 xs ih =>
    intro i
    constructor
    · rintro ⟨ys, hys⟩ j x hj
      obtain ⟨y, -, hy⟩ := mapIdxM_getElem? f (x0 :: xs) i ys hys j x hj
      exact ⟨y, hy⟩
    · intro hall
      obtain ⟨y0, hy0⟩ := hall 0 x0 (by simp)
      have hrest : ∀ (j : Nat) (x : JSVal), xs[j]? = some x → ∃ y, f (i + 1 + j) x = .ok y := by
        intro j x hj
        have := hall (j + 1) x (by simpa using hj)
        have he : i + (j + 1) = i + 1 + j := by omega
        rw [he] at this
        exact this
      obtain ⟨ys, hys⟩ := (ih (i + 1)).mpr hrest
      refine ⟨y0 :: ys, ?_⟩
      unfold mapIdxM
      simp only [Nat.add_zero] at hy0
      rw [hy0, hys]

/-- C4, evaluated on the code: `normalizeTransactionData` is not total on
lists of records.  On the one-record list whose record has the description
`{toString: null}` (a JSON upload can hold it) it throws a `TypeError`,
because `String(value)` throws in `ensureString`.  It returns on a list of
records exactly when in no record the conversion to a primitive of the
description, the amount, the type or the category throws; and when it
returns, the result has one transaction per record, in the order of the
records: the transaction at index `i` is the one the callback builds from
the record at index `i`.  The record without properties gives the defaults,
and so do `null` fields and an amount that is not numeric. -/
theorem normalizeTransactionData_total (h : Host) (ticks : Nat → Tick) :
    normalizeTransactionData h ticks
        (.arr [.obj [("description", .obj [("toString", .null)])]])
      = .error "Cannot convert object to primitive value"
    ∧ (∀ records : List (List (String × JSVal)),
        (∃ out, normalizeTransactionData h ticks (.arr (records.map .obj)) = .ok out) ↔
          ∀ r ∈ records, throwsToString (lookupProp "description" r) = false
            ∧ throwsToString (lookupProp "amount" r) = false
            ∧ throwsToString (lookupProp "type" r) = false
            ∧ throwsToString (lookupProp "category" r) = false)
    ∧ (∀ (records : List (List (String × JSVal))) (out : List JSVal),
        normalizeTransactionData h ticks (.arr (records.map .obj)) = .ok out →
        out.length = records.length
        ∧ ∀ i : Nat, (out[i]?).map Except.ok =
            (records[i]?).map (fun r => normalizeTransaction h (ticks i) (.obj r)))
    ∧ normalizeTransaction h (ticks 0) (.obj []) = .ok (.obj [
        ("id", .str ("trans-" ++ natToString (ticks 0).now ++ "-" ++ (ticks 0).random)),
        ("date", .str (ticks 0).today), ("description", .str "Transaction"),
        ("amount", .num (.fin 0)), ("type", .str "expense"),
        ("category", .str "Other")])
    ∧ normalizeTransaction h (ticks 0) (.obj [("id", .null), ("date", .null),
          ("description", .null), ("amount", .str "n/a"), ("type", .null),
          ("category", .null)]) = .ok (.obj [
        ("id", .str ("trans-" ++ natToString (ticks 0).now ++ "-" ++ (ticks 0).random)),
        ("date", .str (ticks 0).today), ("description", .str "Transaction"),
        ("amount", .num (.fin 0)), ("type", .str "expense"),
        ("category", .str "Other")]) := by
  refine ⟨?_, ?_, ?_, ?_, ?_⟩
  · with_unfolding_all rfl
  · intro records
    show (∃ out, mapIdxM (fun i t => normalizeTransaction h (ticks i) t) 0
        (records.map JSVal.obj) = .ok out) ↔ _
    rw [mapIdxM_returns]
    constructor
    · intro hall r hr
      obtain ⟨j, hj⟩ := List.mem_iff_getElem?.mp hr
      obtain ⟨y, hy⟩ := hall j (.obj r) (by simp [hj])
      rw [normalizeTransaction_obj] at hy
      exact (normalizedTransaction_returns h _ _ _ _ _ _ _).mp ⟨y, hy⟩
    · intro hall j x hx
      have hx2 : ∃ r, records[j]? = some r ∧ x = .obj r := by
        simp only [List.getElem?_map, Option.map_eq_some'] at hx
        obtain ⟨r, h1, h2⟩ := hx
        exact ⟨r, h1, h2.symm⟩
      obtain ⟨r, hr, rfl⟩ := hx2
      rw [normalizeTransaction_obj]
      exact (normalizedTransaction_returns h _ _ _ _ _ _ _).mpr
        (hall r (List.mem_iff_getElem?.mpr ⟨j, hr⟩))
  · intro records out hres
    have hres2 : mapIdxM (fun i t => normalizeTransaction h (ticks i) t) 0
        (records.map JSVal.obj) = .ok out := hres
    refine ⟨by simp [mapIdxM_length _ _ 0 _ hres2], ?_⟩
    intro i
    cases hr : records[i]? with
    | none =>
      have hlen := mapIdxM_length _ _ 0 _ hres2
      have hi : records.length ≤ i := by
        simpa using List.getElem?_eq_none_iff.mp hr
      have : out[i]? = none := by
        apply List.getElem?_eq_none_iff.mpr
        rw [hlen]; simpa using hi
      rw [this]; rfl
    | some r =>
      have hx : (records.map JSVal.obj)[i]? = some (.obj r) := by simp [hr]
      obtain ⟨y, hy, hfy⟩ := mapIdxM_getElem? _ _ 0 _ hres2 i _ hx
      rw [hy]
      simp only [Nat.zero_add] at hfy
      simp [hfy]
  · with_unfolding_all rfl
  · with_unfolding_all rfl

/-- C2, evaluated on the code: on the object `{toString: 1}` (a JSON upload
can hold it as the type of a record) `normalizeTransactionType` returns
neither `revenue` nor `expense`: `String(type)` throws a `TypeError`, and the
function throws exactly on the values whose conversion to a primitive
throws.  On every other value the claim holds: the result is `revenue` or
`expense`; it is `revenue` whenever the lower-cased string form of the value
contains `revenue`, `income`, `credit`, `deposit`, `sale` or `inflow` or
equals `r` or `in`; it is `expense` for every falsy value (missing, empty
string) and for every string whose lower-cased form has none of the revenue
and none of the expense keywords. -/
theorem normalizeTransactionType_spec (h : Host) :
    normalizeTransactionType h (.obj [("toString", .num (.fin 1))])
      = .error "Cannot convert object to primitive value"
    ∧ (∀ v : JSVal,
        (∃ e, normalizeTransactionType h v = .error e) ↔ throwsToString v = true)
    ∧ (∀ (v : JSVal) (ty : String), normalizeTransactionType h v = .ok ty →
        ty = "revenue" ∨ ty = "expense")
    ∧ (∀ v : JSVal, throwsToString v = false →
        (normalizeTransactionType h v = .ok "revenue"
          ∨ normalizeTransactionType h v = .ok "expense")
        ∧ (hasRevenueKeyword (toLowerCase (strOf h v)) = true →
            normalizeTransactionType h v = .ok "revenue")
        ∧ (toBoolean v = false → normalizeTransactionType h v = .ok "expense"))
    ∧ normalizeTransactionType h .undefined = .ok "expense"
    ∧ normalizeTransactionType h .null = .ok "expense"
    ∧ normalizeTransactionType h (.str "") = .ok "expense"
    ∧ (∀ s : String, hasRevenueKeyword (toLowerCase s) = false →
        hasExpenseKeyword (toLowerCase s) = false →
        normalizeTransactionType h (.str s) = .ok "expense")
    ∧ normalizeTransactionType h (.str "Cash DEPOSIT") = .ok "revenue"
    ∧ normalizeTransactionType h (.str "misc") = .ok "expense" := by
  refine ⟨?_, ?_, normalizeTransactionType_ok h, ?_, rfl, rfl, ?_, ?_, ?_, ?_⟩
  · with_unfolding_all rfl
  · intro v
    constructor
    · rintro ⟨e, he⟩
      cases ht : throwsToString v
      · rw [(normalizeTransactionType_cases h v).2 ht] at he; cases he
      · rfl
    · intro ht
      exact ⟨_, (normalizeTransactionType_cases h v).1 ht⟩
  · intro v ht
    rw [(normalizeTransactionType_cases h v).2 ht]
    refine ⟨?_, ?_, ?_⟩
    · split <;> simp
    · intro hk
      cases hb : toBoolean v with
      | true => simp [hk]
      | false => rw [falsy_no_revenue_keyword h v hb] at hk; cases hk
    · intro hb; simp [hb]
  · rw [normalizeTransactionType_str]; simp [toBoolean]
  · intro s hr _
    rw [normalizeTransactionType_str]
    simp [hr]
  · rw [normalizeTransactionType_str]; exact congrArg Except.ok (by decide)
  · rw [normalizeTransactionType_str]; exact congrArg Except.ok (by decide)

/-- C3, refuted as stated: `Credit card payment` contains the expense keyword
`payment`, and `normalizeTransactionType` returns `revenue` for it, because the
revenue keywords (here `credit`) are tested first. -/
theorem normalizeTransactionType_expense_keyword_counterexample :
    ¬ (∀ (h : Host) (s : String), hasExpenseKeyword (toLowerCase s) = true →
        normalizeTransactionType h (.str s) = .ok "expense") := by
  intro hall
  have h1 := hall sampleHost "Credit card payment" (by decide)
  rw [normalizeTransactionType_str] at h1
  injection h1 with h1
  revert h1
  decide

/-- C3, amended: a type string whose lower-cased form has an expense keyword
and no revenue keyword is an expense, and one that has a revenue keyword is a
revenue even when it also has an expense keyword (`Credit card payment`,
`Sales expense`). -/
theorem normalizeTransactionType_expense_keyword (h : Host) (s : String)
    (hexp : hasExpenseKeyword (toLowerCase s) = true) :
    (hasRevenueKeyword (toLowerCase s) = false →
        normalizeTransactionType h (.str s) = .ok "expense")
    ∧ (hasRevenueKeyword (toLowerCase s) = true →
        normalizeTransactionType h (.str s) = .ok "revenue")
    ∧ normalizeTransactionType h (.str "Credit card payment") = .ok "revenue"
    ∧ normalizeTransactionType h (.str "Sales expense") = .ok "revenue" := by
  refine ⟨?_, ?_, ?_, ?_⟩
  · intro hr; rw [normalizeTransactionType_str]; simp [hr]
  · intro hr
    have hne : s ≠ "" := by
      rintro rfl
      revert hexp
      decide
    rw [normalizeTransactionType_str]; simp [hr, toBoolean, hne]
  · rw [normalizeTransactionType_str]; exact congrArg Except.ok (by decide)
  · rw [normalizeTransactionType_str]; exact congrArg Except.ok (by decide)

/-- C3 amended, at concrete inputs: `Debit Card Purchase` is an expense. -/
theorem normalizeTransactionType_expense_keyword_witness :
    normalizeTransactionType sampleHost (.str "Debit Card Purchase") = .ok "expense" :=
  (normalizeTransactionType_expense_keyword sampleHost "Debit Card Purchase"
    (by decide)).1 (by decide)

/-- The call `value.replace(/[$€£¥₹,]/g, '')` removes every `$`, `€`, `£`, `¥`,
`₹` and `,` and keeps every other character, in place. -/
theorem stripCurrency_spec (s : String) :
    (∀ c : Char, c ∈ (stripCurrency s).data ↔ c ∈ s.data ∧ c ∉ "$€£¥₹,".data)
    ∧ (stripCurrency s).data.Sublist s.data
    ∧ (∀ c : Char, c ∉ "$€£¥₹,".data → (stripCurrency s).data.count c = s.data.count c) := by
  refine ⟨?_, ?_, ?_⟩
  · intro c
    simp only [stripCurrency, List.mem_filter, Bool.not_eq_true', List.contains_eq_any_beq,
      List.any_eq_false, beq_iff_eq]
    constructor
    · rintro ⟨h1, h2⟩
      exact ⟨h1, fun hc => h2 c hc rfl⟩
    · rintro ⟨h1, h2⟩
      exact ⟨h1, fun x hx hxc => h2 (hxc ▸ hx)⟩
  · exact List.filter_sublist _
  · intro c hc
    simp only [stripCurrency]
    rw [List.count_filter]
    simp only [Bool.not_eq_true', List.contains_eq_any_beq, List.any_eq_false, beq_iff_eq]
    intro x hx hxc
    exact hc (hxc ▸ hx)

/-- C5, evaluated on the code: on the object `{toString: 1}` (a JSON upload
can hold it as the amount of a record) `ensurePositiveNumber` returns no
number: `parseFloat(value)` throws a `TypeError`, and the function throws
exactly on the values whose conversion to a primitive throws.  On every
other value the claim holds: the result is a number `>= 0`; it is `0` for
`undefined` and `null` and whenever the value does not parse as a number;
for a string it is the absolute value of the number parsed once every `$`,
`€`, `£`, `¥`, `₹` and `,` is removed, so `$1,234.56` gives the Number
`1234.56` and `-50` gives `50`.  Numbers are binary64 values: `1e400` gives
`Infinity` and `1e-400` gives `0`. -/
theorem ensurePositiveNumber_spec (h : Host) :
    ensurePositiveNumber h (.obj [("toString", .num (.fin 1))])
      = .error "Cannot convert object to primitive value"
    ∧ (∀ v : JSVal, (∃ e, ensurePositiveNumber h v = .error e) ↔ throwsToString v = true)
    ∧ (∀ (v : JSVal) (a : JSNum), ensurePositiveNumber h v = .ok a →
        JSNum.le .zero a = true)
    ∧ ensurePositiveNumber h .undefined = .ok (.fin 0)
    ∧ ensurePositiveNumber h .null = .ok (.fin 0)
    ∧ (∀ s : String,
        (∀ c : Char, c ∈ (stripCurrency s).data ↔ c ∈ s.data ∧ c ∉ "$€£¥₹,".data)
        ∧ (stripCurrency s).data.Sublist s.data
        ∧ (∀ c : Char, c ∉ "$€£¥₹,".data →
            (stripCurrency s).data.count c = s.data.count c)
        ∧ ensurePositiveNumber h (.str s) =
          .ok (if (parseFloatStr (stripCurrency s)).isNaN then .fin 0
            else (parseFloatStr (stripCurrency s)).abs))
    ∧ (∀ v : JSVal, (∀ s : String, v ≠ .str s) → v ≠ .undefined → v ≠ .null →
        throwsToString v = false →
        ensurePositiveNumber h v =
          .ok (if (parseFloatStr (strOf h v)).isNaN then .fin 0
            else (parseFloatStr (strOf h v)).abs))
    ∧ stripCurrency "$1,234.56" = "1234.56"
    ∧ ensurePositiveNumber h (.str "$1,234.56") = .ok (roundToDouble (123456 / 100))
    ∧ roundToDouble (123456 / 100) = .fin (2714826150374277 / 2199023255552)
    ∧ ensurePositiveNumber h (.str "-50") = .ok (.fin 50)
    ∧ ensurePositiveNumber h (.str "n/a") = .ok (.fin 0)
    ∧ ensurePositiveNumber h (.num (.fin (-3))) = .ok (.fin 3)
    ∧ ensurePositiveNumber h (.bool true) = .ok (.fin 0)
    ∧ ensurePositiveNumber h (.str "1e400") = .ok .posInf
    ∧ ensurePositiveNumber h (.str "1e-400") = .ok (.fin 0) := by
  refine ⟨?_, ?_, ?_, rfl, rfl, ?_, ?_, by decide, ?_, ?_, ?_, ?_, ?_, ?_, ?_, ?_⟩
  · with_unfolding_all rfl
  · intro v
    constructor
    · rintro ⟨e, he⟩
      cases ht : throwsToString v
      · rw [(ensurePositiveNumber_cases h v).2 ht] at he; cases he
      · rfl
    · intro ht
      exact ⟨_, (ensurePositiveNumber_cases h v).1 ht⟩
  · intro v a ha
    rcases ensurePositiveNumber_eq h v a ha with h0 | ⟨n, hn, hv⟩
    · rw [h0]; simp [JSNum.le, JSNum.zero]
    · rw [hv]; exact JSNum.abs_nonneg n hn
  · intro s
    obtain ⟨h1, h2, h3⟩ := stripCurrency_spec s
    exact ⟨h1, h2, h3, rfl⟩
  · intro v hs hu hn ht
    rw [(ensurePositiveNumber_cases h v).2 ht]
    cases v with
    | undefined => exact absurd rfl hu
    | null => exact absurd rfl hn
    | str s => exact absurd rfl (hs s)
    | _ => rfl
  · with_unfolding_all rfl
  · with_unfolding_all rfl
  · with_unfolding_all rfl
  · with_unfolding_all rfl
  · with_unfolding_all rfl
  · with_unfolding_all rfl
  · have hs : stripCurrency "1e400" = "1e400" := by decide
    simp only [ensurePositiveNumber, hs, parseFloatStr_overflow]
    rfl
  · have hs : stripCurrency "1e-400" = "1e-400" := by decide
    simp only [ensurePositiveNumber, hs, parseFloatStr_underflow]
    rfl

/-- C6, refuted as stated: the record whose description is the empty string is
normalized to a transaction whose description is the empty string. -/
theorem normalizeTransactionData_description_counterexample :
    ¬ (∀ (h : Host) (ticks : Nat → Tick) (records : List (List (String × JSVal)))
        (out : List JSVal),
        normalizeTransactionData h ticks (.arr (records.map .obj)) = .ok out →
        ∀ t ∈ out, ∃ s : String, getProp t "description" = .ok (.str s) ∧ s ≠ "") := by
  intro hall
  have hrun : normalizeTransactionData sampleHost sampleTicks
      (.arr ([[("description", JSVal.str "")]].map .obj)) =
      .ok [.obj [("id", .str "trans-1700000000000-k3j9x0q2z"),
        ("date", .str "2024-03-14"), ("description", .str ""),
        ("amount", .num (.fin 0)), ("type", .str "expense"),
        ("category", .str "Other")]] := by
    with_unfolding_all rfl
  obtain ⟨s, hs, hne⟩ := hall sampleHost sampleTicks [[("description", .str "")]] _ hrun _
    (List.mem_singleton.mpr rfl)
  have hd : getProp (.obj [("id", .str "trans-1700000000000-k3j9x0q2z"),
        ("date", .str "2024-03-14"), ("description", .str ""),
        ("amount", .num (.fin 0)), ("type", .str "expense"),
        ("category", .str "Other")]) "description" = .ok (.str "") := rfl
  rw [hd] at hs
  injection hs with hs
  injection hs with hs
  exact hne hs.symm

/-- C6, amended: every transaction returned by `normalizeTransactionData` has
a string description; it is `Transaction` when the raw description is missing
(`undefined` or `null`), and the string form of the raw description otherwise,
so it is empty exactly when the raw description is present with an empty
string form; a raw description that is the empty string is returned as the
empty string. -/
theorem normalizeTransactionData_description (h : Host) (ticks : Nat → Tick)
    (items out : List JSVal) (i : Nat) (x : JSVal)
    (hres : normalizeTransactionData h ticks (.arr items) = .ok out)
    (hx : items[i]? = some x) :
    ∃ (t : JSVal) (s : String), out[i]? = some t
      ∧ getProp t "description" = .ok (.str s)
      ∧ (propOf x "description" = .undefined ∨ propOf x "description" = .null →
          s = "Transaction")
      ∧ (∀ d : String, propOf x "description" = .str d → s = d)
      ∧ (s = "" ↔ (propOf x "description" ≠ .undefined ∧ propOf x "description" ≠ .null
          ∧ toStr h (propOf x "description") = .ok "")) := by
  obtain ⟨t, ht, hft⟩ := mapIdxM_getElem? _ items 0 out hres i x hx
  obtain ⟨d, a, ty, c, hd, -, -, -, -, -, -, hdesc, -⟩ := normalizeTransaction_parts h _ x t hft
  refine ⟨t, d, ht, hdesc, ?_, ?_, ?_⟩
  · rintro (hu | hn)
    · rw [hu] at hd; injection hd with hd; exact hd.symm
    · rw [hn] at hd; injection hd with hd; exact hd.symm
  · intro d' hdesc'
    rw [hdesc'] at hd
    have : ensureString h (.str d') "Transaction" = .ok d' := toStr_str h d'
    rw [this] at hd
    injection hd with hd
    exact hd.symm
  · cases hp : propOf x "description" with
    | undefined =>
      rw [hp] at hd; injection hd with hd
      subst hd
      simp
    | null =>
      rw [hp] at hd; injection hd with hd
      subst hd
      simp
    | _ =>
      rw [hp] at hd
      simp only [ensureString] at hd
      rw [hd]
      simp

/-- C6 amended, at a concrete batch: the record without description gets
`Transaction`, the record whose description is `Office Rent` keeps it. -/
theorem normalizeTransactionData_description_witness :
    ∃ (t : JSVal) (s : String),
      [JSVal.obj [("id", .str "trans-1700000000000-k3j9x0q2z"),
          ("date", .str "2024-03-14"), ("description", .str "Transaction"),
          ("amount", .num (.fin 0)), ("type", .str "expense"), ("category", .str "Other")],
        JSVal.obj [("id", .str "trans-1700000000001-k3j9x0q2z"),
          ("date", .str "2024-03-14"), ("description", .str "Office Rent"),
          ("amount", .num (.fin 0)), ("type", .str "expense"),
          ("category", .str "Other")]][1]? = some t
      ∧ getProp t "description" = .ok (.str s)
      ∧ (propOf (.obj [("description", .str "Office Rent")]) "description" = .undefined
          ∨ propOf (.obj [("description", .str "Office Rent")]) "description" = .null →
          s = "Transaction")
      ∧ (∀ d : String,
          propOf (.obj [("description", .str "Office Rent")]) "description" = .str d → s = d)
      ∧ (s = "" ↔ (propOf (.obj [("description", .str "Office Rent")]) "description"
            ≠ .undefined
          ∧ propOf (.obj [("description", .str "Office Rent")]) "description" ≠ .null
          ∧ toStr sampleHost (propOf (.obj [("description", .str "Office Rent")])
              "description") = .ok "")) :=
  normalizeTransactionData_description sampleHost sampleTicks
    [.obj [], .obj [("description", .str "Office Rent")]] _ 1 _
    (by with_unfolding_all rfl) rfl

/-- The type of a normalized transaction is a fixed point of the type
coercion. -/
theorem normalizeTransactionType_idem (h : Host) (v : JSVal) (ty : String)
    (hty : normalizeTransactionType h v = .ok ty) :
    normalizeTransactionType h (.str ty) = .ok ty := by
  rcases normalizeTransactionType_ok h v ty hty with rfl | rfl
  · rw [normalizeTransactionType_str]; exact congrArg Except.ok (by decide)
  · rw [normalizeTransactionType_str]; exact congrArg Except.ok (by decide)

/-- A generated id is a non-empty string. -/
theorem generated_id_truthy (k : Tick) :
    toBoolean (.str ("trans-" ++ natToString k.now ++ "-" ++ k.random)) = true := by
  have hne : "trans-" ++ natToString k.now ++ "-" ++ k.random ≠ "" := by
    intro heq
    have hlen := congrArg String.length heq
    simp only [String.length_append] at hlen
    have h6 : "trans-".length = 6 := by decide
    have h0 : "".length = 0 := by decide
    omega
  simp [toBoolean, hne]

/-- The id of a normalized transaction is truthy. -/
theorem normalized_id_truthy (k : Tick) (id : JSVal) :
    toBoolean (idOrGenerated k id) = true := by
  unfold idOrGenerated
  cases hb : toBoolean id
  · simpa using generated_id_truthy k
  · simpa using hb

/-- A truthy id is kept. -/
theorem idOrGenerated_truthy (k : Tick) (id : JSVal) (hid : toBoolean id = true) :
    idOrGenerated k id = id := by
  unfold idOrGenerated
  rw [if_pos hid]

/-- The function `ensurePositiveNumber` on a number: it reads the number back
from its printed form. -/
theorem ensurePositiveNumber_num (h : Host) (a : JSNum) :
    ensurePositiveNumber h (.num a) =
      .ok (if (parseFloatStr (numberToString h a)).isNaN then JSNum.zero
        else (parseFloatStr (numberToString h a)).abs) := by
  simp only [ensurePositiveNumber, parseFloat, toStr_num]

/-- The function `ensureString` on a string returns the string. -/
theorem ensureString_str (h : Host) (s d : String) : ensureString h (.str s) d = .ok s :=
  toStr_str h s

/-- Reading an amount back through `ensurePositiveNumber` gives the absolute
value it was built from, when its printed form parses back to it. -/
theorem ensurePositiveNumber_signed (h : Host) (amount : JSVal) (a : JSNum) (b : Bool)
    (ha : ensurePositiveNumber h amount = .ok a)
    (hround : parseFloatStr (numberToString h (if b then a.abs.neg else a.abs)) =
      (if b then a.abs.neg else a.abs)) :
    ensurePositiveNumber h (.num (if b then a.abs.neg else a.abs)) = .ok a := by
  have hnan := ensurePositiveNumber_not_nan h amount a ha
  have habs := ensurePositiveNumber_abs h amount a ha
  rw [ensurePositiveNumber_num, hround]
  cases b
  · simp [JSNum.isNaN_abs, hnan, JSNum.abs_abs, habs]
  · simp [JSNum.isNaN_neg, JSNum.isNaN_abs, hnan, JSNum.abs_neg, JSNum.abs_abs, habs]

/-- C7: sign reconciliation is idempotent.  When `t` is the transaction that
`normalizeTransactionData` produces for a raw record `r`, normalizing `t`
again returns a transaction with the same amount, type, id, description and
category.  The hypothesis `hround` is the guarantee of the language that a
number printed by `String` reads back as itself. -/
theorem normalizeTransactionData_idempotent (h : Host) (ticks ticks' : Nat → Tick)
    (r t : JSVal)
    (ht : normalizeTransactionData h ticks (.arr [r]) = .ok [t])
    (hround : ∀ a : JSNum, getProp t "amount" = .ok (.num a) →
      parseFloatStr (numberToString h a) = a) :
    ∃ t' : JSVal, normalizeTransactionData h ticks' (.arr [t]) = .ok [t']
      ∧ getProp t' "amount" = getProp t "amount"
      ∧ getProp t' "type" = getProp t "type"
      ∧ getProp t' "id" = getProp t "id"
      ∧ getProp t' "description" = getProp t "description"
      ∧ getProp t' "category" = getProp t "category" := by
  obtain ⟨t0, ht0, hft⟩ := mapIdxM_getElem? (fun i x => normalizeTransaction h (ticks i) x)
    [r] 0 [t] ht 0 r rfl
  have ht0' : t0 = t := by simpa using ht0.symm
  subst ht0'
  obtain ⟨d, a, ty, c, hd, hav, hty, hc, hform, ha, htyp, hdesc, hcat, hid, -⟩ :=
    normalizeTransaction_parts h _ r t0 hft
  have hrt := hround _ ha
  have hepn : ensurePositiveNumber h (.num (if ty = "expense" then a.abs.neg else a.abs))
      = .ok a := by
    have := ensurePositiveNumber_signed h (propOf r "amount") a (decide (ty = "expense")) hav
      (by simpa using hrt)
    simpa using this
  have hsecond : normalizedTransaction h (ticks' 0)
      (idOrGenerated (ticks (0 + 0)) (propOf r "id"))
      (.str (ensureValidDate h (ticks (0 + 0)).today (propOf r "date")))
      (.str d) (.num (if ty = "expense" then a.abs.neg else a.abs)) (.str ty) (.str c) =
      .ok (normalizedObject (idOrGenerated (ticks' 0)
          (idOrGenerated (ticks (0 + 0)) (propOf r "id")))
        (ensureValidDate h (ticks' 0).today
          (.str (ensureValidDate h (ticks (0 + 0)).today (propOf r "date"))))
        d a ty c) :=
    normalizedTransaction_of_ok h _ _ _ _ _ _ _ d a ty c (ensureString_str h d _) hepn
      (normalizeTransactionType_idem h _ ty hty) (ensureString_str h c _)
  obtain ⟨p1, p2, p3, p4, p5, -⟩ := normalizedObject_props (idOrGenerated (ticks' 0)
      (idOrGenerated (ticks (0 + 0)) (propOf r "id")))
    (ensureValidDate h (ticks' 0).today
      (.str (ensureValidDate h (ticks (0 + 0)).today (propOf r "date")))) d a ty c
  refine ⟨normalizedObject (idOrGenerated (ticks' 0)
      (idOrGenerated (ticks (0 + 0)) (propOf r "id")))
    (ensureValidDate h (ticks' 0).today
      (.str (ensureValidDate h (ticks (0 + 0)).today (propOf r "date")))) d a ty c,
    ?_, ?_, ?_, ?_, ?_, ?_⟩
  · rw [hform]
    have : normalizeTransaction h (ticks' 0) (normalizedObject
        (idOrGenerated (ticks (0 + 0)) (propOf r "id"))
        (ensureValidDate h (ticks (0 + 0)).today (propOf r "date")) d a ty c) = _ := hsecond
    simp only [normalizeTransactionData, mapIdxM, this]
  · rw [ha]; exact p1
  · rw [htyp]; exact p2
  · rw [hid, p5, idOrGenerated_truthy _ _ (normalized_id_truthy _ _)]
  · rw [hdesc]; exact p3
  · rw [hcat]; exact p4

/-- C7, at a concrete record: the revenue `-50` is normalized to `50`, and
normalizing the result again changes none of the five properties. -/
theorem normalizeTransactionData_idempotent_witness :
    ∃ t' : JSVal, normalizeTransactionData sampleHost sampleTicks
        (.arr [.obj [("id", .str "trans-1700000000000-k3j9x0q2z"),
          ("date", .str "2024-03-14"), ("description", .str "Refund"),
          ("amount", .num (.fin 50)), ("type", .str "revenue"),
          ("category", .str "Other")]]) = .ok [t']
      ∧ getProp t' "amount" = .ok (.num (.fin 50))
      ∧ getProp t' "type" = .ok (.str "revenue")
      ∧ getProp t' "id" = .ok (.str "trans-1700000000000-k3j9x0q2z")
      ∧ getProp t' "description" = .ok (.str "Refund")
      ∧ getProp t' "category" = .ok (.str "Other") :=
  normalizeTransactionData_idempotent sampleHost sampleTicks sampleTicks
    (.obj [("description", .str "Refund"), ("amount", .str "-50"), ("type", .str "Income")])
    (.obj [("id", .str "trans-1700000000000-k3j9x0q2z"),
      ("date", .str "2024-03-14"), ("description", .str "Refund"),
      ("amount", .num (.fin 50)), ("type", .str "revenue"), ("category", .str "Other")])
    (by with_unfolding_all rfl)
    (fun a ha => by
      have hval : a = .fin 50 := by
        simp only [getProp_obj, Except.ok.injEq] at ha
        have h2 : lookupProp "amount" [("id", JSVal.str "trans-1700000000000-k3j9x0q2z"),
            ("date", .str "2024-03-14"), ("description", .str "Refund"),
            ("amount", .num (.fin 50)), ("type", .str "revenue"),
            ("category", .str "Other")] = .num (.fin 50) := by rfl
        rw [h2] at ha
        injection ha with ha
        exact ha.symm
      subst hval
      with_unfolding_all rfl)

/-- Reading back the property just assigned. -/
theorem lookupProp_setProp_self (k : String) (v : JSVal) (props : List (String × JSVal)) :
    lookupProp k (setProp k v props) = v := by
  induction props with
  | nil => simp [setProp, lookupProp]
  | cons p rest ih =>
    obtain ⟨k', v'⟩ := p
    by_cases hk : k' = k
    · simp [setProp, lookupProp, hk]
    · simp [setProp, lookupProp, hk, ih]

/-- An assignment leaves the other properties alone. -/
theorem lookupProp_setProp_ne (k k2 : String) (v : JSVal) (props : List (String × JSVal))
    (hne : k2 ≠ k) : lookupProp k2 (setProp k v props) = lookupProp k2 props := by
  induction props with
  | nil => simp [setProp, lookupProp, Ne.symm hne]
  | cons p rest ih =>
    obtain ⟨k', v'⟩ := p
    by_cases hk : k' = k
    · subst hk
      simp [setProp, lookupProp, Ne.symm hne]
    · by_cases hk2 : k' = k2
      · subst hk2
        simp [setProp, lookupProp, hk]
      · simp [setProp, lookupProp, hk, hk2, ih]

/-- Assigning the same value twice is assigning it once. -/
theorem setProp_idem (k : String) (v : JSVal) (props : List (String × JSVal)) :
    setProp k v (setProp k v props) = setProp k v props := by
  induction props with
  | nil => simp [setProp]
  | cons p rest ih =>
    obtain ⟨k', v'⟩ := p
    by_cases hk : k' = k
    · simp [setProp, hk]
    · simp [setProp, hk, ih]

/-- The callback of the categorizer on an object, in closed form. -/
theorem categorizeTransaction_obj (props : List (String × JSVal)) :
    categorizeTransaction (.obj props) =
      if toBoolean (lookupProp "category" props)
          && !strictEqStr (lookupProp "category" props) "Other" then .ok (.obj props)
      else
        match lookupProp "description" props with
        | .str d =>
          .ok (.obj (setProp "category"
            (.str (if strictEqStr (lookupProp "type" props) "revenue"
              then revenueCategory (toLowerCase d) else expenseCategory (toLowerCase d)))
            props))
        | _ => .error "TypeError: transaction.description.toLowerCase is not a function" := by
  simp only [categorizeTransaction, getProp]
  split
  · rfl
  · cases lookupProp "description" props <;> rfl

/-- A category computed by the categorizer is `Other` or a truthy string
other than `Other`. -/
theorem computed_category (b : Bool) (d : String) :
    (if b then revenueCategory d else expenseCategory d) = "Other" ∨
    (toBoolean (.str (if b then revenueCategory d else expenseCategory d))
      && !strictEqStr (.str (if b then revenueCategory d else expenseCategory d)) "Other")
      = true := by
  cases b
  · simp only [expenseCategory, Bool.false_eq_true, if_false]
    repeat' split
    all_goals first | exact Or.inl rfl | exact Or.inr (by decide)
  · simp only [revenueCategory, if_true]
    repeat' split
    all_goals first | exact Or.inl rfl | exact Or.inr (by decide)

/-- The callback of the categorizer returns only on objects. -/
theorem categorizeTransaction_ok_obj (x y : JSVal) (hxy : categorizeTransaction x = .ok y) :
    ∃ props, x = .obj props := by
  cases x <;> first | exact ⟨_, rfl⟩ | simp [categorizeTransaction, getProp, toBoolean] at hxy

/-- What the callback of the categorizer returns, it returns unchanged when
run again. -/
theorem categorizeTransaction_idem (x y : JSVal) (hxy : categorizeTransaction x = .ok y) :
    categorizeTransaction y = .ok y := by
  obtain ⟨props, rfl⟩ := categorizeTransaction_ok_obj x y hxy
  rw [categorizeTransaction_obj] at hxy
  by_cases hskip : (toBoolean (lookupProp "category" props)
      && !strictEqStr (lookupProp "category" props) "Other") = true
  · rw [if_pos hskip] at hxy
    injection hxy with hxy
    subst hxy
    rw [categorizeTransaction_obj, if_pos hskip]
  · rw [if_neg hskip] at hxy
    cases hd : lookupProp "description" props with
    | str d =>
      rw [hd] at hxy
      injection hxy with hxy
      subst hxy
      rw [categorizeTransaction_obj, lookupProp_setProp_self,
        lookupProp_setProp_ne _ _ _ _ (by decide), lookupProp_setProp_ne _ _ _ _ (by decide), hd]
      rcases computed_category (strictEqStr (lookupProp "type" props) "revenue")
        (toLowerCase d) with hother | htruthy
      · have hno : (toBoolean (.str (if strictEqStr (lookupProp "type" props) "revenue" = true
              then revenueCategory (toLowerCase d) else expenseCategory (toLowerCase d)))
            && !strictEqStr (.str (if strictEqStr (lookupProp "type" props) "revenue" = true
              then revenueCategory (toLowerCase d) else expenseCategory (toLowerCase d)))
              "Other") = false := by
          rw [hother]; decide
        rw [hno]
        simp only [Bool.false_eq_true, if_false, setProp_idem]
      · rw [if_pos htruthy]
    | _ => rw [hd] at hxy; cases hxy

/-- A `map` whose callback fixes its own results is idempotent. -/
theorem mapIdxM_idem (g : JSVal → Except String JSVal)
    (hg : ∀ x y, g x = .ok y → g y = .ok y) :
    ∀ (xs : List JSVal) (i j : Nat) (ys : List JSVal),
      mapIdxM (fun _ t => g t) i xs = .ok ys → mapIdxM (fun _ t => g t) j ys = .ok ys := by
  intro xs
  induction xs with
  | nil => intro i j ys hy; simp [mapIdxM] at hy; subst hy; rfl
  | cons x xs ih =>
    intro i j ys hy
    unfold mapIdxM at hy
    cases hfx : g x with
    | error e => simp [hfx] at hy
    | ok y =>
      cases hrest : mapIdxM (fun _ t => g t) (i + 1) xs with
      | error e => simp [hfx, hrest] at hy
      | ok zs =>
        simp [hfx, hrest] at hy
        subst hy
        unfold mapIdxM
        simp only [hg x y hfx, ih (i + 1) (j + 1) zs hrest]

/-- C8: categorization is idempotent.  On every list of transactions with
string descriptions `categorizeTranactions` returns, and categorizing its
result again returns that result. -/
theorem categorizeTranactions_idempotent (xs : List JSVal)
    (hdesc : ∀ x ∈ xs, ∃ d : String, getProp x "description" = .ok (.str d)) :
    ∃ ys : List JSVal, categorizeTranactions (.arr xs) = .ok ys
      ∧ categorizeTranactions (.arr ys) = .ok ys := by
  have hok : ∀ (j : Nat) (x : JSVal), x ∈ xs →
      (fun (_ : Nat) t => categorizeTransaction t) j x =
        .ok ((fun (_ : Nat) t => match categorizeTransaction t with
          | .ok y => y
          | .error _ => t) j x) := by
    intro j x hx
    obtain ⟨d, hd⟩ := hdesc x hx
    cases x with
    | obj props =>
      simp only [getProp, Except.ok.injEq] at hd
      simp only [categorizeTransaction_obj, hd]
      split <;> rfl
    | undefined => simp [getProp] at hd
    | null => simp [getProp] at hd
    | _ => simp [getProp] at hd
  have hres := mapIdxM_total _ _ xs 0 hok
  exact ⟨_, hres, mapIdxM_idem categorizeTransaction categorizeTransaction_idem xs 0 0 _ hres⟩

/-- C8, at a concrete batch: the rent payment is categorized as `Rent`, the
sale keeps its category, and a second pass changes nothing. -/
theorem categorizeTranactions_idempotent_witness :
    ∃ ys : List JSVal,
      categorizeTranactions (.arr [
        .obj [("type", .str "expense"), ("description", .str "Monthly Rent Payment"),
          ("category", .str "Other")],
        .obj [("type", .str "revenue"), ("description", .str "Invoice 17"),
          ("category", .str "Sales")]]) = .ok ys
      ∧ categorizeTranactions (.arr ys) = .ok ys :=
  categorizeTranactions_idempotent _ (fun x hx => by
    simp only [List.mem_cons, List.mem_singleton, List.not_mem_nil, or_false] at hx
    rcases hx with rfl | rfl
    · exact ⟨"Monthly Rent Payment", rfl⟩
    · exact ⟨"Invoice 17", rfl⟩)

/-- C9, refuted as stated: the empty string is a category other than `Other`,
and `categorizeTranactions` replaces it (here by `Other`). -/
theorem categorizeTranactions_keeps_category_counterexample :
    ¬ (∀ (x : JSVal) (c : String), getProp x "category" = .ok (.str c) → c ≠ "Other" →
        categorizeTranactions (.arr [x]) = .ok [x]) := by
  intro hall
  have h1 := hall (.obj [("type", .str "expense"), ("description", .str "Coffee"),
    ("category", .str "")]) "" rfl (by decide)
  have h2 : categorizeTranactions (.arr [.obj [("type", .str "expense"),
      ("description", .str "Coffee"), ("category", .str "")]]) =
      .ok [.obj [("type", .str "expense"), ("description", .str "Coffee"),
        ("category", .str "Other")]] := by rfl
  rw [h2] at h1
  simp at h1

/-- C9, amended: a transaction whose category is a non-empty string other
than `Other` is returned unchanged by the callback of `categorizeTranactions`,
and so stands unchanged at its index in every batch that is returned. -/
theorem categorizeTranactions_keeps_category (xs : List JSVal) (i : Nat) (x : JSVal)
    (c : String) (hx : xs[i]? = some x)
    (hc : getProp x "category" = .ok (.str c)) (hne : c ≠ "") (hother : c ≠ "Other") :
    categorizeTransaction x = .ok x
    ∧ (∀ ys : List JSVal, categorizeTranactions (.arr xs) = .ok ys → ys[i]? = some x)
    ∧ categorizeTranactions (.arr [x]) = .ok [x] := by
  have hself : categorizeTransaction x = .ok x := by
    cases x with
    | obj props =>
      simp only [getProp, Except.ok.injEq] at hc
      rw [categorizeTransaction_obj, hc]
      simp [toBoolean, strictEqStr, hne, hother]
    | undefined => simp [getProp] at hc
    | null => simp [getProp] at hc
    | _ => simp [getProp] at hc
  refine ⟨hself, ?_, ?_⟩
  · intro ys hys
    obtain ⟨y, hy, hfy⟩ := mapIdxM_getElem? (fun _ t => categorizeTransaction t) xs 0 ys hys
      i x hx
    rw [hself] at hfy
    injection hfy with hfy
    rw [hy, hfy]
  · simp only [categorizeTranactions, mapIdxM, hself]

/-- C9 amended, at a concrete batch: the transaction categorized `Travel` is
returned as it is. -/
theorem categorizeTranactions_keeps_category_witness :
    categorizeTranactions (.arr [.obj [("type", .str "expense"),
        ("description", .str "Office rent"), ("category", .str "Travel")]]) =
      .ok [.obj [("type", .str "expense"), ("description", .str "Office rent"),
        ("category", .str "Travel")]] :=
  (categorizeTranactions_keeps_category
    [.obj [("type", .str "expense"), ("description", .str "Office rent"),
      ("category", .str "Travel")]] 0 _ "Travel" rfl rfl (by decide) (by decide)).2.2

/-- The revenue branch of the categorizer is the first matching revenue rule
of the specification. -/
theorem revenueCategory_eq_firstMatchingRule (d : String) :
    revenueCategory d = firstMatchingRule revenueRules d := by
  simp only [revenueCategory, firstMatchingRule, revenueRules, List.any_cons, List.any_nil,
    Bool.or_false, Bool.or_assoc]

/-- The expense branch of the categorizer is the first matching expense rule
of the specification. -/
theorem expenseCategory_eq_firstMatchingRule (d : String) :
    expenseCategory d = firstMatchingRule expenseRules d := by
  simp only [expenseCategory, firstMatchingRule, expenseRules, List.any_cons, List.any_nil,
    Bool.or_false, Bool.or_assoc]

/-- C10: a transaction whose category is `Other` or missing, with a string
description `d`, gets the category of the first rule of the specification
that matches the lower-cased description, the revenue rules for the type
`revenue` and the expense rules for the type `expense`, and `Other` when no
rule matches; the other properties stay.  The expense `Monthly Rent Payment`
becomes `Rent`. -/
theorem categorizeTranactions_first_rule (props : List (String × JSVal)) (d : String)
    (hcat : lookupProp "category" props = .str "Other"
      ∨ lookupProp "category" props = .undefined)
    (hdesc : lookupProp "description" props = .str d) :
    (lookupProp "type" props = .str "revenue" →
      categorizeTranactions (.arr [.obj props]) = .ok [.obj (setProp "category"
        (.str (firstMatchingRule revenueRules (toLowerCase d))) props)])
    ∧ (lookupProp "type" props = .str "expense" →
      categorizeTranactions (.arr [.obj props]) = .ok [.obj (setProp "category"
        (.str (firstMatchingRule expenseRules (toLowerCase d))) props)])
    ∧ (∀ (xs ys : List JSVal) (i : Nat), categorizeTranactions (.arr xs) = .ok ys →
        xs[i]? = some (.obj props) →
        ∃ c : String, ys[i]? = some (.obj (setProp "category" (.str c) props))
          ∧ (lookupProp "type" props = .str "revenue" →
              c = firstMatchingRule revenueRules (toLowerCase d))
          ∧ (lookupProp "type" props = .str "expense" →
              c = firstMatchingRule expenseRules (toLowerCase d)))
    ∧ firstMatchingRule expenseRules (toLowerCase "no keyword here") = "Other"
    ∧ categorizeTranactions (.arr [.obj [("type", .str "expense"),
        ("description", .str "Monthly Rent Payment"), ("category", .str "Other")]]) =
      .ok [.obj [("type", .str "expense"), ("description", .str "Monthly Rent Payment"),
        ("category", .str "Rent")]] := by
  have hskip : (toBoolean (lookupProp "category" props)
      && !strictEqStr (lookupProp "category" props) "Other") = false := by
    rcases hcat with hc | hc <;> rw [hc] <;> decide
  have hcb : categorizeTransaction (.obj props) = .ok (.obj (setProp "category"
      (.str (if strictEqStr (lookupProp "type" props) "revenue"
        then revenueCategory (toLowerCase d) else expenseCategory (toLowerCase d)))
      props)) := by
    rw [categorizeTransaction_obj, hskip, hdesc]
    simp
  refine ⟨?_, ?_, ?_, by decide, by rfl⟩
  · intro hty
    simp only [categorizeTranactions, mapIdxM, hcb, hty, strictEqStr, decide_True, if_true,
      revenueCategory_eq_firstMatchingRule]
  · intro hty
    have hne : strictEqStr (.str "expense") "revenue" = false := by decide
    simp only [categorizeTranactions, mapIdxM, hcb, hty, hne, Bool.false_eq_true, if_false,
      expenseCategory_eq_firstMatchingRule]
  · intro xs ys i hys hx
    obtain ⟨y, hy, hfy⟩ := mapIdxM_getElem? (fun _ t => categorizeTransaction t) xs 0 ys hys
      i _ hx
    rw [hcb] at hfy
    injection hfy with hfy
    refine ⟨_, by rw [hy, ← hfy], ?_, ?_⟩
    · intro hty
      simp only [hty, strictEqStr, decide_True, if_true, revenueCategory_eq_firstMatchingRule]
    · intro hty
      have hne : strictEqStr (.str "expense") "revenue" = false := by decide
      simp only [hty, hne, Bool.false_eq_true, if_false, expenseCategory_eq_firstMatchingRule]

/-- C10, at a concrete transaction: the revenue `Consulting Fee` without
category becomes `Services`. -/
theorem categorizeTranactions_first_rule_witness :
    categorizeTranactions (.arr [.obj [("type", .str "revenue"),
        ("description", .str "Consulting Fee")]]) =
      .ok [.obj [("type", .str "revenue"), ("description", .str "Consulting Fee"),
        ("category", .str "Services")]] :=
  (categorizeTranactions_first_rule [("type", .str "revenue"),
    ("description", .str "Consulting Fee")] "Consulting Fee" (Or.inr rfl) rfl).1 rfl

/-- A `map` over any list that returns keeps the length. -/
theorem mapIdxE_length {α : Type} (f : Nat → α → Except String JSVal) :
    ∀ (xs : List α) (i : Nat) (ys : List JSVal),
      mapIdxE f i xs = .ok ys → ys.length = xs.length := by
  intro xs
  induction xs with
  | nil => intro i ys hy; simp [mapIdxE] at hy; simp [← hy]
  | cons x xs ih =>
    intro i ys hy
    unfold mapIdxE at hy
    cases hfx : f i x with
    | error e => simp [hfx] at hy
    | ok y =>
      cases hrest : mapIdxE f (i + 1) xs with
      | error e => simp [hfx, hrest] at hy
      | ok zs =>
        simp [hfx, hrest] at hy
        subst hy
        simp [ih (i + 1) zs hrest]

/-- A `map` over any list that returns holds, at each index, the result of the
callback on the element at that index. -/
theorem mapIdxE_getElem? {α : Type} (f : Nat → α → Except String JSVal) :
    ∀ (xs : List α) (i : Nat) (ys : List JSVal),
      mapIdxE f i xs = .ok ys →
      ∀ (j : Nat) (x : α), xs[j]? = some x →
        ∃ y, ys[j]? = some y ∧ f (i + j) x = .ok y := by
  intro xs
  induction xs with
  | nil => intro i ys _ j x hj; simp at hj
  | cons x0 xs ih =>
    intro i ys hy j x hj
    unfold mapIdxE at hy
    cases hfx : f i x0 with
    | error e => simp [hfx] at hy
    | ok y =>
      cases hrest : mapIdxE f (i + 1) xs with
      | error e => simp [hfx, hrest] at hy
      | ok zs =>
        simp [hfx, hrest] at hy
        subst hy
        cases j with
        | zero =>
          simp at hj
          subst hj
          exact ⟨y, by simp, by simpa using hfx⟩
        | succ j =>
          simp at hj
          obtain ⟨y', h1, h2⟩ := ih (i + 1) zs hrest j x hj
          refine ⟨y', by simpa using h1, ?_⟩
          have : i + (j + 1) = i + 1 + j := by omega
          rw [this]; exact h2

/-- A `map` over any list whose callback returns on every element returns. -/
theorem mapIdxE_total {α : Type} (f : Nat → α → Except String JSVal) (g : Nat → α → JSVal) :
    ∀ (xs : List α) (i : Nat), (∀ (j : Nat) (x : α), x ∈ xs → f j x = .ok (g j x)) →
      mapIdxE f i xs = .ok ((xs.enumFrom i).map (fun p => g p.1 p.2)) := by
  intro xs
  induction xs with
  | nil => intro i _; rfl
  | cons x xs ih =>
    intro i hf
    unfold mapIdxE
    rw [hf i x (by simp), ih (i + 1) (fun j y hy => hf j y (by simp [hy]))]
    simp [List.enumFrom]

/-- The column detection of the extractors is the specification's sniffer on
the column names of the first row. -/
theorem detectColumns_eq_sniff (firstRow : List (String × JSVal)) :
    detectColumns firstRow = sniff (objectKeys firstRow) := by
  have hd : isDateColumn = fun col =>
      ["date", "time"].any (fun sub => includes (toLowerCase col) sub) := by
    funext col; simp [isDateColumn]
  have hn : isDescriptionColumn = fun col =>
      ["desc", "narration", "particular"].any (fun sub => includes (toLowerCase col) sub) := by
    funext col; simp [isDescriptionColumn, Bool.or_assoc]
  have ha : isAmountColumn = fun col =>
      ["amount", "value", "sum"].any (fun sub => includes (toLowerCase col) sub) := by
    funext col; simp [isAmountColumn, Bool.or_assoc]
  have ht : isTypeColumn = fun col =>
      ["type", "category"].any (fun sub => includes (toLowerCase col) sub) := by
    funext col; simp [isTypeColumn]
  simp only [detectColumns, sniff, sniffField, hd, hn, ha, ht]

/-- C11: the column sniffer of the tabular extractors is a function of the
ordered column names of the first row only.  It selects for each field the
first column whose lower-cased name contains one of the substrings of the
field, and nothing when no column matches; two first rows with the same column
names give the same selection whatever their cells, and the selection made on
the first row is the one used for every row. -/
theorem sniffer_first_match (firstRow : List (String × JSVal)) :
    detectColumns firstRow = sniff (objectKeys firstRow)
    ∧ (∀ other : List (String × JSVal), objectKeys other = objectKeys firstRow →
        detectColumns other = detectColumns firstRow)
    ∧ (∀ (substrings columnNames : List String) (c : String),
        sniffField substrings columnNames = some c ↔
          (∃ sub ∈ substrings, includes (toLowerCase c) sub = true)
          ∧ ∃ before after : List String, columnNames = before ++ c :: after
            ∧ ∀ x ∈ before, ∀ sub ∈ substrings, includes (toLowerCase x) sub = false)
    ∧ (∀ (substrings columnNames : List String),
        sniffField substrings columnNames = none ↔
          ∀ x ∈ columnNames, ∀ sub ∈ substrings, includes (toLowerCase x) sub = false)
    ∧ (∀ (h : Host) (tag format : String) (clocks : Nat → RowClock) (ticks : Nat → Tick)
        (rest : List (List (String × JSVal))) (transactions : List JSVal),
        mapIdxE (tabularRow h tag (sniff (objectKeys firstRow)) clocks) 0 (firstRow :: rest)
          = .ok transactions →
        parseTabular h tag format clocks ticks (firstRow :: rest) =
          (match normalizeTransactionData h ticks (.arr transactions) with
           | .error message => .error ("Failed to parse " ++ format ++ " file: " ++ message)
           | .ok result => .ok result)) := by
  refine ⟨detectColumns_eq_sniff firstRow, ?_, ?_, ?_, ?_⟩
  · intro other hkeys
    rw [detectColumns_eq_sniff, detectColumns_eq_sniff, hkeys]
  · intro substrings columnNames c
    simp only [sniffField, List.find?_eq_some, List.any_eq_true, Bool.not_eq_true',
      List.any_eq_false, Bool.not_eq_true]
  · intro substrings columnNames
    simp only [sniffField, List.find?_eq_none, List.any_eq_true, not_exists, not_and,
      Bool.not_eq_true]
  · intro h tag format clocks ticks rest transactions hmap
    simp only [parseTabular, detectColumns_eq_sniff, hmap]
    try rfl

/-- C11, at concrete column names: in `Value Date, Narration, Amount` the
amount column is the first one, `Value Date`, and no type column is found. -/
theorem sniffer_first_match_witness :
    sniffField ["amount", "value", "sum"] ["Value Date", "Narration", "Amount"]
        = some "Value Date"
    ∧ sniffField ["type", "category"] ["Value Date", "Narration", "Amount"] = none :=
  ⟨((sniffer_first_match []).2.2.1 ["amount", "value", "sum"]
      ["Value Date", "Narration", "Amount"] "Value Date").mpr
      ⟨⟨"value", by decide, by decide⟩, [], ["Narration", "Amount"], rfl, by simp⟩,
   ((sniffer_first_match []).2.2.2.1 ["type", "category"]
      ["Value Date", "Narration", "Amount"]).mpr (by decide)⟩

/-- C13: on an empty row list the CSV and the Excel extractor throw; the
message holds `No data found` after the prefix of the extractor, and no
transaction is returned. -/
theorem tabular_empty_fails (h : Host) (clocks : Nat → RowClock) (ticks : Nat → Tick) :
    parseCSVFile h clocks ticks [] = .error "Failed to parse CSV file: No data found in CSV file"
    ∧ parseExcelFile h clocks ticks []
        = .error "Failed to parse Excel file: No data found in Excel file"
    ∧ "Failed to parse CSV file: No data found in CSV file"
        = "Failed to parse CSV file: " ++ "No data found in CSV file"
    ∧ "Failed to parse Excel file: No data found in Excel file"
        = "Failed to parse Excel file: " ++ "No data found in Excel file"
    ∧ includes "No data found in CSV file" "No data found" = true
    ∧ includes "No data found in Excel file" "No data found" = true :=
  ⟨rfl, rfl, by decide, by decide, by decide, by decide⟩

/-- The absolute value of a positive number is the number. -/
theorem JSNum.abs_eq_self_of_pos (a : JSNum) (ha : JSNum.lt .zero a = true) : a.abs = a := by
  cases a with
  | fin q =>
    have hq : 0 < q := by simpa [JSNum.lt, JSNum.zero] using ha
    simp [JSNum.abs, abs_of_pos hq]
  | _ => simp_all [JSNum.lt, JSNum.abs, JSNum.zero]

/-- The strings `revenue` and `expense` are fixed points of the type coercion. -/
theorem normalizeTransactionType_fixed (h : Host) (b : Bool) :
    normalizeTransactionType h (.str (if b then "revenue" else "expense")) =
      .ok (if b then "revenue" else "expense") := by
  cases b
  · simp only [Bool.false_eq_true, if_false]
    rw [normalizeTransactionType_str]; exact congrArg Except.ok (by decide)
  · simp only [if_true]
    rw [normalizeTransactionType_str]; exact congrArg Except.ok (by decide)

/-- The callback of the normalizer on an object with the six properties. -/
theorem normalizeTransaction_fields (h : Host) (k : Tick)
    (id date description amount type category : JSVal) :
    normalizeTransaction h k (.obj [("id", id), ("date", date), ("description", description),
      ("amount", amount), ("type", type), ("category", category)]) =
      normalizedTransaction h k id date description amount type category := by
  rw [normalizeTransaction_obj]
  simp [lookupProp]

/-- The parts of the transaction that the callback of the normalizer returns
on an object with the six properties. -/
theorem normalizeTransaction_fields_parts (h : Host) (k : Tick)
    (id date description amount type category t : JSVal)
    (ht : normalizeTransaction h k (.obj [("id", id), ("date", date),
      ("description", description), ("amount", amount), ("type", type),
      ("category", category)]) = .ok t) :
    ∃ (d : String) (a : JSNum) (ty c : String),
      ensureString h description "Transaction" = .ok d
      ∧ ensurePositiveNumber h amount = .ok a
      ∧ normalizeTransactionType h type = .ok ty
      ∧ ensureString h category "Other" = .ok c
      ∧ t = normalizedObject (idOrGenerated k id) (ensureValidDate h k.today date) d a ty c
      ∧ getProp t "amount" = .ok (.num (if ty = "expense" then a.abs.neg else a.abs))
      ∧ getProp t "type" = .ok (.str ty)
      ∧ getProp t "description" = .ok (.str d)
      ∧ getProp t "category" = .ok (.str c)
      ∧ getProp t "id" = .ok (idOrGenerated k id)
      ∧ getProp t "date" = .ok (.str (ensureValidDate h k.today date)) := by
  rw [normalizeTransaction_fields] at ht
  obtain ⟨d, a, ty, c, hd, ha, hty, hc, hform⟩ := normalizedTransaction_ok h k _ _ _ _ _ _ t ht
  obtain ⟨p1, p2, p3, p4, p5, p6⟩ := normalizedObject_props (idOrGenerated k id)
    (ensureValidDate h k.today date) d a ty c
  rw [← hform] at p1 p2 p3 p4 p5 p6
  exact ⟨d, a, ty, c, hd, ha, hty, hc, hform, p1, p2, p3, p4, p5, p6⟩

/-- What the method call `toString()` returns is the string form. -/
theorem callToString_ok (h : Host) (v : JSVal) (s : String) (hs : callToString h v = .ok s) :
    s = strOf h v ∧ v ≠ .undefined ∧ v ≠ .null ∧ throwsToString v = false := by
  cases v with
  | undefined => simp [callToString] at hs
  | null => simp [callToString] at hs
  | obj props =>
    simp only [callToString] at hs
    cases hown : hasOwnToString props
    · rw [hown] at hs
      simp only [Bool.false_eq_true, if_false] at hs
      injection hs with hs
      refine ⟨?_, by simp, by simp, ?_⟩
      · rw [← hs]; unfold strOf; rfl
      · unfold throwsToString; exact hown
    · rw [hown] at hs
      simp at hs
  | _ =>
    simp only [callToString] at hs
    obtain ⟨h1, h2⟩ := toStr_ok h _ s hs
    exact ⟨h2, by simp, by simp, h1⟩

/-- The method call `toString()` returns on every value other than
`undefined` and `null` whose conversion to a primitive does not throw. -/
theorem callToString_of_not_throws (h : Host) (v : JSVal) (hu : v ≠ .undefined)
    (hn : v ≠ .null) (hv : throwsToString v = false) :
    callToString h v = .ok (strOf h v) := by
  cases v with
  | undefined => exact absurd rfl hu
  | null => exact absurd rfl hn
  | obj props =>
    have hown : hasOwnToString props = false := by
      unfold throwsToString at hv; exact hv
    simp only [callToString, hown, Bool.false_eq_true, if_false]
    unfold strOf
    rfl
  | _ => exact toStr_of_not_throws h _ hv

/-- What the call `new Date(v)` returns is the time value read by the host. -/
theorem newDate_ok (h : Host) (v : JSVal) (d : Option Int) (hd : newDate h v = .ok d) :
    d = h.newDate v ∧ throwsToString v = false := by
  unfold newDate at hd
  cases ht : throwsToString v
  · rw [ht] at hd
    simp only [Bool.false_eq_true, if_false] at hd
    injection hd with hd
    exact ⟨hd.symm, rfl⟩
  · rw [ht] at hd
    simp at hd

/-- The call `new Date(v)` returns when the conversion of `v` to a primitive
does not throw. -/
theorem newDate_of_not_throws (h : Host) (v : JSVal) (hv : throwsToString v = false) :
    newDate h v = .ok (h.newDate v) := by
  unfold newDate
  rw [hv]
  rfl

/-- A truthy cell is neither `undefined` nor `null`. -/
theorem truthyCell_some (column : Option String) (row : List (String × JSVal)) (cell : JSVal)
    (hc : truthyCell column row = some cell) : cell ≠ .undefined ∧ cell ≠ .null := by
  cases column with
  | none => simp [truthyCell] at hc
  | some col =>
    simp only [truthyCell] at hc
    split at hc
    · rename_i htruthy
      injection hc with hc
      subst hc
      constructor
      · intro hu; rw [hu] at htruthy; simp [toBoolean] at htruthy
      · intro hn; rw [hn] at htruthy; simp [toBoolean] at htruthy
    · cases hc

/-- What the type read from the type column is, when the read returns. -/
theorem rowType_ok (h : Host) (cols : Columns) (row : List (String × JSVal)) (type1 : String)
    (ht : rowType h cols row = .ok type1) :
    type1 = (match truthyCell cols.typeColumn row with
      | some cell =>
        if includes (toLowerCase (strOf h cell)) "income"
            || includes (toLowerCase (strOf h cell)) "revenue"
            || includes (toLowerCase (strOf h cell)) "credit" then "revenue"
        else "expense"
      | none => "expense") := by
  unfold rowType at ht
  cases htc : truthyCell cols.typeColumn row with
  | none =>
    simp only [htc] at ht
    injection ht with ht
    exact ht.symm
  | some cell =>
    simp only [htc] at ht
    cases hts : callToString h cell with
    | error e => simp only [hts] at ht; cases ht
    | ok s =>
      simp only [hts] at ht
      obtain ⟨hs, -⟩ := callToString_ok h cell s hts
      subst hs
      injection ht with ht
      exact ht.symm

/-- What the date of the mapped record is, when `new Date` returns. -/
theorem rowDate_ok (h : Host) (cols : Columns) (clocks : Nat → RowClock) (index : Nat)
    (row : List (String × JSVal)) (date : Option Int)
    (hd : rowDate h cols clocks index row = .ok date) :
    date = (match truthyCell cols.dateColumn row with
      | some cell => h.newDate cell
      | none => some (Int.ofNat (clocks index).clock)) := by
  unfold rowDate at hd
  cases hdc : truthyCell cols.dateColumn row with
  | none =>
    simp only [hdc] at hd
    injection hd with hd
    exact hd.symm
  | some cell =>
    simp only [hdc] at hd
    exact (newDate_ok h cell date hd).1

/-- What the description of the mapped record is, when `toString` returns. -/
theorem rowDescription_ok (h : Host) (cols : Columns) (index : Nat)
    (row : List (String × JSVal)) (description : String)
    (hd : rowDescription h cols index row = .ok description) :
    description = (match truthyCell cols.descriptionColumn row with
      | some cell => strOf h cell
      | none => "Transaction " ++ natToString (index + 1)) := by
  unfold rowDescription at hd
  cases hdc : truthyCell cols.descriptionColumn row with
  | none =>
    simp only [hdc] at hd
    injection hd with hd
    exact hd.symm
  | some cell =>
    simp only [hdc] at hd
    exact (callToString_ok h cell description hd).1

/-- What the amount and the type of the mapped record are, when the amount
block returns. -/
theorem rowAmount_ok (h : Host) (cols : Columns) (row : List (String × JSVal))
    (type1 : String) (amount : JSNum) (type : String)
    (ha : rowAmount h cols row type1 = .ok (amount, type)) :
    (type = type1 ∨ type = "revenue" ∨ type = "expense")
    ∧ (cols.amountColumn = none → amount = JSNum.zero)
    ∧ (cols.typeColumn ≠ none ∨ cols.amountColumn = none → type = type1)
    ∧ (∀ col : String, cols.amountColumn = some col → lookupProp col row ≠ .undefined →
        amount = parseFloatStr (keepNumeric (strOf h (lookupProp col row)))
        ∧ (cols.typeColumn = none → type1 = "expense" →
            type = if JSNum.lt .zero amount then "revenue" else "expense")) := by
  have hsign : ∀ a : JSNum, (if a.neZero = true then
        (if JSNum.lt JSNum.zero a = true then "revenue" else "expense") else "expense")
      = (if JSNum.lt JSNum.zero a = true then "revenue" else "expense") := by
    intro a
    cases a with
    | fin q =>
      by_cases hq : q = 0
      · simp [JSNum.neZero, JSNum.lt, JSNum.zero, hq]
      · simp [JSNum.neZero, hq]
    | _ => simp [JSNum.neZero]
  unfold rowAmount at ha
  cases hac : cols.amountColumn with
  | none =>
    simp only [hac] at ha
    injection ha with ha
    injection ha with h1 h2
    refine ⟨Or.inl h2.symm, fun _ => h1.symm, fun _ => h2.symm, ?_⟩
    intro col hc; cases hc
  | some col =>
    simp only [hac] at ha
    by_cases hdef : isDefined (lookupProp col row) = true
    · simp only [hdef, if_true] at ha
      cases hts : callToString h (lookupProp col row) with
      | error e => simp [hts] at ha
      | ok s =>
        obtain ⟨hs, -⟩ := callToString_ok h _ s hts
        simp only [hts] at ha
        injection ha with ha
        injection ha with h1 h2
        subst h1
        refine ⟨?_, ?_, ?_, ?_⟩
        · rw [← h2]
          split
          · split
            · exact Or.inr (Or.inl rfl)
            · exact Or.inr (Or.inr rfl)
          · exact Or.inl rfl
        · intro hc; cases hc
        · intro hcol
          rcases hcol with hcol | hcol
          · have hsome : cols.typeColumn.isNone = false := by
              cases htc : cols.typeColumn with
              | none => exact absurd htc hcol
              | some c => rfl
            rw [← h2]
            simp only [hsome, Bool.false_and, Bool.false_eq_true, if_false]
          · cases hcol
        · intro col2 hc2 _
          injection hc2 with hc2
          subst hc2
          refine ⟨by rw [hs], ?_⟩
          intro htn ht1
          rw [← h2, ht1]
          simp only [htn, Option.isNone_none, Bool.true_and]
          exact hsign _
    · simp only [hdef, Bool.false_eq_true, if_false] at ha
      injection ha with ha
      injection ha with h1 h2
      refine ⟨Or.inl h2.symm, ?_, fun _ => h2.symm, ?_⟩
      · intro hc; cases hc
      intro col2 hc2 hne
      injection hc2 with hc2
      subst hc2
      exfalso
      apply hdef
      cases hl : lookupProp col row <;> simp_all [isDefined]

/-- The mapped record of one row of the tabular extractors, when the row
callback returns. -/
theorem tabularRow_ok (h : Host) (tag : String) (cols : Columns) (clocks : Nat → RowClock)
    (index : Nat) (row : List (String × JSVal)) (y : JSVal)
    (hy : tabularRow h tag cols clocks index row = .ok y) :
    ∃ (amount : JSNum) (type : String),
      y = .obj [
        ("id", .str (tag ++ "-" ++ natToString index ++ "-"
          ++ natToString (clocks index).stamp)),
        ("date", .date (match truthyCell cols.dateColumn row with
          | some cell => h.newDate cell
          | none => some (Int.ofNat (clocks index).clock))),
        ("description", .str (match truthyCell cols.descriptionColumn row with
          | some cell => strOf h cell
          | none => "Transaction " ++ natToString (index + 1))),
        ("amount", .num amount.abs),
        ("type", .str type),
        ("category", orElse (lookupProp "category" row) (.str "Other"))]
      ∧ (type = "revenue" ∨ type = "expense")
      ∧ (cols.amountColumn = none → amount = JSNum.zero)
      ∧ (cols.typeColumn ≠ none ∨ cols.amountColumn = none →
          type = (match truthyCell cols.typeColumn row with
            | some cell =>
              if includes (toLowerCase (strOf h cell)) "income"
                  || includes (toLowerCase (strOf h cell)) "revenue"
                  || includes (toLowerCase (strOf h cell)) "credit" then "revenue"
              else "expense"
            | none => "expense"))
      ∧ (∀ col : String, cols.amountColumn = some col → lookupProp col row ≠ .undefined →
          amount = parseFloatStr (keepNumeric (strOf h (lookupProp col row)))
          ∧ (cols.typeColumn = none →
              type = if JSNum.lt .zero amount then "revenue" else "expense")) := by
  unfold tabularRow at hy
  cases h1 : rowType h cols row with
  | error e => simp only [h1] at hy; cases hy
  | ok type1 =>
    simp only [h1] at hy
    cases h2 : rowAmount h cols row type1 with
    | error e => simp only [h2] at hy; cases hy
    | ok p =>
      obtain ⟨amount, type⟩ := p
      simp only [h2] at hy
      cases h3 : rowDate h cols clocks index row with
      | error e => simp only [h3] at hy; cases hy
      | ok date =>
        simp only [h3] at hy
        cases h4 : rowDescription h cols index row with
        | error e => simp only [h4] at hy; cases hy
        | ok description =>
          simp only [h4] at hy
          injection hy with hy
          have e1 := rowType_ok h cols row type1 h1
          have e3 := rowDate_ok h cols clocks index row date h3
          have e4 := rowDescription_ok h cols index row description h4
          obtain ⟨a1, a2, a3, a4⟩ := rowAmount_ok h cols row type1 amount type h2
          have htype1 : type1 = "revenue" ∨ type1 = "expense" := by
            rw [e1]
            cases truthyCell cols.typeColumn row with
            | none => exact Or.inr rfl
            | some cell =>
              simp only
              split
              · exact Or.inl rfl
              · exact Or.inr rfl
          refine ⟨amount, type, ?_, ?_, a2, ?_, ?_⟩
          · rw [← hy, e3, e4]
          · rcases a1 with a1 | a1
            · rw [a1]; exact htype1
            · exact a1
          · intro hcol
            rw [a3 hcol, e1]
          · intro col hc hdef
            obtain ⟨b1, b2⟩ := a4 col hc hdef
            refine ⟨b1, fun htn => b2 htn ?_⟩
            rw [e1]
            simp [truthyCell, htn]

/-- The row callback of the tabular extractors when no type column was found
and the amount cell is present: the type comes from the sign of the parsed
amount. -/
theorem tabularRow_untyped (h : Host) (tag : String) (cols : Columns)
    (clocks : Nat → RowClock) (index : Nat) (row : List (String × JSVal)) (col : String)
    (htype : cols.typeColumn = none) (hcol : cols.amountColumn = some col)
    (hdef : lookupProp col row ≠ .undefined) (y : JSVal)
    (hy : tabularRow h tag cols clocks index row = .ok y) :
    y = .obj [
        ("id", .str (tag ++ "-" ++ natToString index ++ "-"
          ++ natToString (clocks index).stamp)),
        ("date", .date (match truthyCell cols.dateColumn row with
          | some cell => h.newDate cell
          | none => some (Int.ofNat (clocks index).clock))),
        ("description", .str (match truthyCell cols.descriptionColumn row with
          | some cell => strOf h cell
          | none => "Transaction " ++ natToString (index + 1))),
        ("amount", .num (parseFloatStr (keepNumeric (strOf h (lookupProp col row)))).abs),
        ("type", .str (if JSNum.lt .zero
            (parseFloatStr (keepNumeric (strOf h (lookupProp col row))))
          then "revenue" else "expense")),
        ("category", orElse (lookupProp "category" row) (.str "Other"))] := by
  obtain ⟨amount, type, hyform, -, -, -, hamount⟩ := tabularRow_ok h tag cols clocks index row y hy
  obtain ⟨ha, hty⟩ := hamount col hcol hdef
  rw [hyform, hty htype, ha]

/-- The sign rule of the tabular extractors, for any tag and format name. -/
theorem parseTabular_amount_sign (h : Host) (tag format : String) (clocks : Nat → RowClock)
    (ticks : Nat → Tick) (firstRow : List (String × JSVal))
    (rest : List (List (String × JSVal))) (out : List JSVal) (i : Nat)
    (row : List (String × JSVal)) (col : String)
    (hres : parseTabular h tag format clocks ticks (firstRow :: rest) = .ok out)
    (htype : (detectColumns firstRow).typeColumn = none)
    (hcol : (detectColumns firstRow).amountColumn = some col)
    (hrow : (firstRow :: rest)[i]? = some row)
    (hdef : lookupProp col row ≠ .undefined) (_hnull : lookupProp col row ≠ .null)
    (hnum : (parseFloatStr (keepNumeric (strOf h (lookupProp col row)))).isNaN = false) :
    ∃ t : JSVal, out[i]? = some t
      ∧ getProp t "type" = .ok (.str
          (if JSNum.lt .zero (parseFloatStr (keepNumeric (strOf h (lookupProp col row))))
            then "revenue" else "expense"))
      ∧ (parseFloatStr (numberToString h
            (parseFloatStr (keepNumeric (strOf h (lookupProp col row)))).abs)
          = (parseFloatStr (keepNumeric (strOf h (lookupProp col row)))).abs →
        getProp t "amount" = .ok (.num
          (if JSNum.lt .zero (parseFloatStr (keepNumeric (strOf h (lookupProp col row))))
            then parseFloatStr (keepNumeric (strOf h (lookupProp col row)))
            else (parseFloatStr (keepNumeric (strOf h (lookupProp col row)))).abs.neg))) := by
  generalize ha : parseFloatStr (keepNumeric (strOf h (lookupProp col row))) = a at hnum ⊢
  simp only [parseTabular] at hres
  cases hmap : mapIdxE (tabularRow h tag (detectColumns firstRow) clocks) 0 (firstRow :: rest) with
  | error e => simp [hmap] at hres
  | ok transactions =>
    cases hnorm : normalizeTransactionData h ticks (.arr transactions) with
    | error e => simp [hmap, hnorm] at hres
    | ok result =>
      simp [hmap, hnorm] at hres
      subst hres
      obtain ⟨y, hy, hfy⟩ := mapIdxE_getElem? _ _ 0 _ hmap i row hrow
      obtain ⟨t, ht, hft⟩ := mapIdxM_getElem? (fun j x => normalizeTransaction h (ticks j) x)
        transactions 0 result hnorm i y hy
      have hrowval := tabularRow_untyped h tag
        (detectColumns firstRow) clocks (0 + i) row col htype hcol hdef y hfy
      rw [ha] at hrowval
      subst hrowval
      obtain ⟨d, n, ty, c, -, hn, hty, -, -, hamount, htypeProp, -⟩ :=
        normalizeTransaction_fields_parts h _ _ _ _ _ _ _ t hft
      have hfix := normalizeTransactionType_fixed h (JSNum.lt .zero a)
      rw [hfix] at hty
      injection hty with hty
      subst hty
      refine ⟨t, ht, htypeProp, ?_⟩
      intro hround
      rw [hamount]
      rw [ensurePositiveNumber_num, hround] at hn
      injection hn with hn
      subst hn
      simp only [JSNum.isNaN_abs, hnum, Bool.false_eq_true, if_false, JSNum.abs_abs]
      cases hpos : JSNum.lt .zero a
      · simp
      · simp [JSNum.abs_eq_self_of_pos a hpos]

/-- Scenario A in the CSV extractor, on a host that reads `2024-01-05` as
midnight UTC of that day. -/
theorem parseCSVFile_scenario_a (h : Host) (clocks : Nat → RowClock) (ticks : Nat → Tick)
    (hparse : h.newDate (.str "2024-01-05") = some 1704412800000)
    (hcopy : h.newDate (.date (some 1704412800000)) = some 1704412800000)
    (hiso : h.isoDate 1704412800000 = "2024-01-05") :
    parseCSVFile h clocks ticks [[("Txn Date", .str "2024-01-05"),
        ("Narration", .str "Office Rent"), ("Amount", .str "-1200.00")]] =
      .ok [.obj [("id", .str ("csv-0-" ++ natToString (clocks 0).stamp)),
        ("date", .str "2024-01-05"), ("description", .str "Office Rent"),
        ("amount", .num (.fin (-1200))), ("type", .str "expense"),
        ("category", .str "Other")]] := by
  have hcomp : parseCSVFile h clocks ticks [[("Txn Date", .str "2024-01-05"),
        ("Narration", .str "Office Rent"), ("Amount", .str "-1200.00")]] =
      .ok [.obj [("id", .str ("csv-0-" ++ natToString (clocks 0).stamp)),
        ("date", .str (ensureValidDate h (ticks 0).today
          (.date (h.newDate (.str "2024-01-05"))))),
        ("description", .str "Office Rent"),
        ("amount", .num (.fin (-1200))), ("type", .str "expense"),
        ("category", .str "Other")]] := by
    with_unfolding_all rfl
  rw [hcomp]
  simp [ensureValidDate, newDate, throwsToString_date, toBoolean, hparse, hcopy, hiso]

/-- Scenario A in the Excel extractor, on a host that reads `2024-01-05` as
midnight UTC of that day. -/
theorem parseExcelFile_scenario_a (h : Host) (clocks : Nat → RowClock) (ticks : Nat → Tick)
    (hparse : h.newDate (.str "2024-01-05") = some 1704412800000)
    (hcopy : h.newDate (.date (some 1704412800000)) = some 1704412800000)
    (hiso : h.isoDate 1704412800000 = "2024-01-05") :
    parseExcelFile h clocks ticks [[("Txn Date", .str "2024-01-05"),
        ("Narration", .str "Office Rent"), ("Amount", .str "-1200.00")]] =
      .ok [.obj [("id", .str ("excel-0-" ++ natToString (clocks 0).stamp)),
        ("date", .str "2024-01-05"), ("description", .str "Office Rent"),
        ("amount", .num (.fin (-1200))), ("type", .str "expense"),
        ("category", .str "Other")]] := by
  have hcomp : parseExcelFile h clocks ticks [[("Txn Date", .str "2024-01-05"),
        ("Narration", .str "Office Rent"), ("Amount", .str "-1200.00")]] =
      .ok [.obj [("id", .str ("excel-0-" ++ natToString (clocks 0).stamp)),
        ("date", .str (ensureValidDate h (ticks 0).today
          (.date (h.newDate (.str "2024-01-05"))))),
        ("description", .str "Office Rent"),
        ("amount", .num (.fin (-1200))), ("type", .str "expense"),
        ("category", .str "Other")]] := by
    with_unfolding_all rfl
  rw [hcomp]
  simp [ensureValidDate, newDate, throwsToString_date, toBoolean, hparse, hcopy, hiso]

/-- C12: in the tabular extractors, when the first row has no type column and
the amount cell of a row parses to a number `a`, the type of the transaction
of that row is `revenue` if `a > 0` and `expense` otherwise, and its amount is
`a` if `a > 0` and `-|a|` otherwise (the amount passes through `String` once
more in the normalizer: the premise on `numberToString` says that it reads
back as itself).  The row of Scenario A gives, in both extractors, one
transaction dated 2024-01-05, described `Office Rent`, of type `expense` and
amount `-1200`, on every host that reads `2024-01-05` as that day.  The
amount is a binary64 value: a cell `0.0…01` with 400 zeros after the point
parses to `0`, and the row is an `expense`. -/
theorem tabular_amount_sign (h : Host) (clocks : Nat → RowClock)
    (ticks : Nat → Tick) (firstRow : List (String × JSVal))
    (rest : List (List (String × JSVal))) (i : Nat)
    (row : List (String × JSVal)) (col : String)
    (htype : (detectColumns firstRow).typeColumn = none)
    (hcol : (detectColumns firstRow).amountColumn = some col)
    (hrow : (firstRow :: rest)[i]? = some row)
    (hdef : lookupProp col row ≠ .undefined) (hnull : lookupProp col row ≠ .null)
    (hnum : (parseFloatStr (keepNumeric (strOf h (lookupProp col row)))).isNaN = false) :
    (∀ (parse : Host → (Nat → RowClock) → (Nat → Tick) → List (List (String × JSVal)) →
          Except String (List JSVal)) (out : List JSVal),
        parse = parseCSVFile ∨ parse = parseExcelFile →
        parse h clocks ticks (firstRow :: rest) = .ok out →
        ∃ t : JSVal, out[i]? = some t
          ∧ getProp t "type" = .ok (.str
              (if JSNum.lt .zero (parseFloatStr (keepNumeric (strOf h (lookupProp col row))))
                then "revenue" else "expense"))
          ∧ (parseFloatStr (numberToString h
                (parseFloatStr (keepNumeric (strOf h (lookupProp col row)))).abs)
              = (parseFloatStr (keepNumeric (strOf h (lookupProp col row)))).abs →
            getProp t "amount" = .ok (.num
              (if JSNum.lt .zero (parseFloatStr (keepNumeric (strOf h (lookupProp col row))))
                then parseFloatStr (keepNumeric (strOf h (lookupProp col row)))
                else (parseFloatStr (keepNumeric (strOf h (lookupProp col row)))).abs.neg))))
    ∧ (h.newDate (.str "2024-01-05") = some 1704412800000 →
        h.newDate (.date (some 1704412800000)) = some 1704412800000 →
        h.isoDate 1704412800000 = "2024-01-05" →
        parseCSVFile h clocks ticks [[("Txn Date", .str "2024-01-05"),
            ("Narration", .str "Office Rent"), ("Amount", .str "-1200.00")]] =
          .ok [.obj [("id", .str ("csv-0-" ++ natToString (clocks 0).stamp)),
            ("date", .str "2024-01-05"), ("description", .str "Office Rent"),
            ("amount", .num (.fin (-1200))), ("type", .str "expense"),
            ("category", .str "Other")]]
        ∧ parseExcelFile h clocks ticks [[("Txn Date", .str "2024-01-05"),
            ("Narration", .str "Office Rent"), ("Amount", .str "-1200.00")]] =
          .ok [.obj [("id", .str ("excel-0-" ++ natToString (clocks 0).stamp)),
            ("date", .str "2024-01-05"), ("description", .str "Office Rent"),
            ("amount", .num (.fin (-1200))), ("type", .str "expense"),
            ("category", .str "Other")]])
    ∧ (lookupProp col row = .str (String.mk ('0' :: '.' :: (List.replicate 400 '0' ++ ['1']))) →
        parseFloatStr (keepNumeric (strOf h (lookupProp col row))) = .fin 0
        ∧ ∀ (parse : Host → (Nat → RowClock) → (Nat → Tick) → List (List (String × JSVal)) →
            Except String (List JSVal)) (out : List JSVal),
          parse = parseCSVFile ∨ parse = parseExcelFile →
          parse h clocks ticks (firstRow :: rest) = .ok out →
          ∃ t : JSVal, out[i]? = some t ∧ getProp t "type" = .ok (.str "expense")) := by
  have hsign : ∀ (parse : Host → (Nat → RowClock) → (Nat → Tick) →
      List (List (String × JSVal)) → Except String (List JSVal)) (out : List JSVal),
      parse = parseCSVFile ∨ parse = parseExcelFile →
      parse h clocks ticks (firstRow :: rest) = .ok out →
      ∃ t : JSVal, out[i]? = some t
        ∧ getProp t "type" = .ok (.str
            (if JSNum.lt .zero (parseFloatStr (keepNumeric (strOf h (lookupProp col row))))
              then "revenue" else "expense"))
        ∧ (parseFloatStr (numberToString h
              (parseFloatStr (keepNumeric (strOf h (lookupProp col row)))).abs)
            = (parseFloatStr (keepNumeric (strOf h (lookupProp col row)))).abs →
          getProp t "amount" = .ok (.num
            (if JSNum.lt .zero (parseFloatStr (keepNumeric (strOf h (lookupProp col row))))
              then parseFloatStr (keepNumeric (strOf h (lookupProp col row)))
              else (parseFloatStr (keepNumeric (strOf h (lookupProp col row)))).abs.neg))) := by
    intro parse out hparse hres
    rcases hparse with rfl | rfl
    · exact parseTabular_amount_sign h "csv" "CSV" clocks ticks firstRow rest out i row col
        hres htype hcol hrow hdef hnull hnum
    · exact parseTabular_amount_sign h "excel" "Excel" clocks ticks firstRow rest out i row col
        hres htype hcol hrow hdef hnull hnum
  refine ⟨hsign, ?_, ?_⟩
  rotate_left
  · intro hcell
    have hzero : parseFloatStr (keepNumeric (strOf h (lookupProp col row))) = .fin 0 := by
      rw [hcell, strOf_str, parseFloatStr_small_decimal_underflow]
    refine ⟨hzero, ?_⟩
    intro parse out hparse hres
    obtain ⟨t, ht, hty, -⟩ := hsign parse out hparse hres
    rw [hzero] at hty
    exact ⟨t, ht, hty⟩
  · intro hparse hcopy hiso
    exact ⟨parseCSVFile_scenario_a h clocks ticks hparse hcopy hiso,
      parseExcelFile_scenario_a h clocks ticks hparse hcopy hiso⟩

/-- C12, at the row of Scenario A on the host with ISO dates: the amount cell
`-1200.00` gives the type `expense` and the amount `-1200`. -/
theorem tabular_amount_sign_witness :
    (∃ t : JSVal,
      [JSVal.obj [("id", .str "csv-0-1710374400000"), ("date", .str "2024-01-05"),
        ("description", .str "Office Rent"), ("amount", .num (.fin (-1200))),
        ("type", .str "expense"), ("category", .str "Other")]][0]? = some t
      ∧ getProp t "type" = .ok (.str "expense")
      ∧ getProp t "amount" = .ok (.num (.fin (-1200))))
    ∧ parseExcelFile utcHost sampleClocks sampleTicks [[("Txn Date", .str "2024-01-05"),
        ("Narration", .str "Office Rent"), ("Amount", .str "-1200.00")]] =
      .ok [.obj [("id", .str "excel-0-1710374400000"),
        ("date", .str "2024-01-05"), ("description", .str "Office Rent"),
        ("amount", .num (.fin (-1200))), ("type", .str "expense"),
        ("category", .str "Other")]] := by
  have hthm := tabular_amount_sign utcHost sampleClocks sampleTicks
    [("Txn Date", .str "2024-01-05"), ("Narration", .str "Office Rent"),
      ("Amount", .str "-1200.00")] [] 0
    [("Txn Date", .str "2024-01-05"), ("Narration", .str "Office Rent"),
      ("Amount", .str "-1200.00")] "Amount"
    (by decide) (by decide) rfl (by simp [lookupProp]) (by simp [lookupProp])
    (by with_unfolding_all rfl)
  refine ⟨?_, ?_⟩
  · obtain ⟨t, ht, hty, hamt⟩ := hthm.1 parseCSVFile _ (Or.inl rfl)
      (show parseCSVFile utcHost sampleClocks sampleTicks [[("Txn Date", .str "2024-01-05"),
        ("Narration", .str "Office Rent"), ("Amount", .str "-1200.00")]] =
      .ok [.obj [("id", .str "csv-0-1710374400000"), ("date", .str "2024-01-05"),
        ("description", .str "Office Rent"), ("amount", .num (.fin (-1200))),
        ("type", .str "expense"), ("category", .str "Other")]] by with_unfolding_all rfl)
    refine ⟨t, ht, ?_, ?_⟩
    · rw [hty]; with_unfolding_all rfl
    · rw [hamt (by with_unfolding_all rfl)]; with_unfolding_all rfl
  · exact (hthm.2.1 (by with_unfolding_all rfl) (by with_unfolding_all rfl)
      (by with_unfolding_all rfl)).2

/-- The amount parsed inline returns exactly when the conversion of the value
to a primitive does not throw. -/
theorem inlineAmount_cases (h : Host) (v : JSVal) :
    (throwsToString v = true →
      inlineAmount h v = .error "Cannot convert object to primitive value")
    ∧ (throwsToString v = false →
      inlineAmount h v = .ok (match v with
        | .str s => parseFloatStr (keepNumeric s)
        | w => parseFloatStr (strOf h w))) := by
  constructor
  · intro hv
    cases v with
    | arr items => simp only [inlineAmount, parseFloat, toStr_of_throws h _ hv]
    | obj props => simp only [inlineAmount, parseFloat, toStr_of_throws h _ hv]
    | _ => unfold throwsToString at hv; simp at hv
  · intro hv
    cases v with
    | str s => rfl
    | _ => simp only [inlineAmount, parseFloat, toStr_of_not_throws h _ hv]

/-- The mapped record of one element of the structured extractors, when the
record callback returns. -/
theorem structuredRecord_ok (h : Host) (tag : String) (clocks : Nat → RowClock)
    (index : Nat) (x y : JSVal) (hy : structuredRecord h tag clocks index x = .ok y) :
    ∃ a : JSNum,
      (if isDefined (propOf x "amount") then inlineAmount h (propOf x "amount")
        else .ok JSNum.zero) = .ok a
      ∧ y = .obj [
        ("id", orElse (propOf x "id")
          (.str (tag ++ "-" ++ natToString index ++ "-" ++ natToString (clocks index).stamp))),
        ("date", .date (if toBoolean (propOf x "date") then h.newDate (propOf x "date")
          else some (Int.ofNat (clocks index).clock))),
        ("description", orElse (orElse (orElse (propOf x "description") (propOf x "name"))
          (propOf x "title")) (.str ("Transaction " ++ natToString (index + 1)))),
        ("amount", .num a.abs),
        ("type", if isDefined (propOf x "amount") && !toBoolean (propOf x "type") && a.neZero
          then .str (if JSNum.lt JSNum.zero a then "revenue" else "expense")
          else inlineType (propOf x "type")),
        ("category", orElse (propOf x "category") (.str "Other"))] := by
  have key : (match ((if isDefined (propOf x "amount") then inlineAmount h (propOf x "amount")
        else .ok JSNum.zero) : Except String JSNum) with
      | .error e => (Except.error e : Except String JSVal)
      | .ok amount =>
        match ((if toBoolean (propOf x "date") then newDate h (propOf x "date")
          else .ok (some (Int.ofNat (clocks index).clock))) : Except String (Option Int)) with
        | .error e => (Except.error e : Except String JSVal)
        | .ok date =>
          (Except.ok (.obj [
            ("id", orElse (propOf x "id")
              (.str (tag ++ "-" ++ natToString index ++ "-"
                ++ natToString (clocks index).stamp))),
            ("date", .date date),
            ("description", orElse (orElse (orElse (propOf x "description")
                (propOf x "name")) (propOf x "title"))
              (.str ("Transaction " ++ natToString (index + 1)))),
            ("amount", .num amount.abs),
            ("type", if isDefined (propOf x "amount") && !toBoolean (propOf x "type")
                && amount.neZero
              then .str (if JSNum.lt JSNum.zero amount then "revenue" else "expense")
              else inlineType (propOf x "type")),
            ("category", orElse (propOf x "category") (.str "Other"))]) :
            Except String JSVal)) = .ok y := by
    cases x with
    | undefined => simp [structuredRecord] at hy
    | null => simp [structuredRecord] at hy
    | _ => exact hy
  cases ha : (if isDefined (propOf x "amount") then inlineAmount h (propOf x "amount")
      else .ok JSNum.zero) with
  | error e => rw [ha] at key; cases key
  | ok a =>
    rw [ha] at key
    simp only at key
    by_cases hd : toBoolean (propOf x "date") = true
    · simp only [hd, if_true] at key ⊢
      cases hnd : newDate h (propOf x "date") with
      | error e => rw [hnd] at key; cases key
      | ok d =>
        rw [hnd] at key
        obtain ⟨hdv, -⟩ := newDate_ok h _ d hnd
        subst hdv
        injection key with key
        exact ⟨a, rfl, key.symm⟩
    · simp only [hd, Bool.false_eq_true, if_false] at key ⊢
      injection key with key
      exact ⟨a, rfl, key.symm⟩

/-- The record callback of the structured extractors on a record without
type whose amount is present and not zero: the type comes from the sign of
the parsed amount. -/
theorem structuredRecord_untyped (h : Host) (tag : String) (clocks : Nat → RowClock)
    (index : Nat) (x : JSVal) (a : JSNum) (hno : propOf x "type" = .undefined)
    (hdef : isDefined (propOf x "amount") = true)
    (ha : inlineAmount h (propOf x "amount") = .ok a)
    (hnz : a.neZero = true) (y : JSVal)
    (hy : structuredRecord h tag clocks index x = .ok y) :
    y = .obj [
      ("id", orElse (propOf x "id")
        (.str (tag ++ "-" ++ natToString index ++ "-" ++ natToString (clocks index).stamp))),
      ("date", .date (if toBoolean (propOf x "date") then h.newDate (propOf x "date")
        else some (Int.ofNat (clocks index).clock))),
      ("description", orElse (orElse (orElse (propOf x "description") (propOf x "name"))
        (propOf x "title")) (.str ("Transaction " ++ natToString (index + 1)))),
      ("amount", .num a.abs),
      ("type", .str (if JSNum.lt JSNum.zero a then "revenue" else "expense")),
      ("category", orElse (propOf x "category") (.str "Other"))] := by
  obtain ⟨a2, ha2, hyform⟩ := structuredRecord_ok h tag clocks index x y hy
  rw [hdef, if_pos rfl, ha] at ha2
  injection ha2 with ha2
  subst ha2
  rw [hyform]
  simp [hno, hdef, hnz, toBoolean]

/-- The sign rule of the structured extractors on one mapped and normalized
record. -/
theorem structured_sign_step (h : Host) (tag : String) (clocks : Nat → RowClock)
    (ticks : Nat → Tick) (transactions mapped out : List JSVal) (i : Nat) (x : JSVal)
    (a : JSNum)
    (hmap : mapIdxM (structuredRecord h tag clocks) 0 transactions = .ok mapped)
    (hnorm : normalizeTransactionData h ticks (.arr mapped) = .ok out)
    (hx : transactions[i]? = some x)
    (hno : propOf x "type" = .undefined)
    (hdef : isDefined (propOf x "amount") = true)
    (ha : inlineAmount h (propOf x "amount") = .ok a)
    (hnz : a.neZero = true) :
    ∃ t : JSVal, out[i]? = some t
      ∧ getProp t "type" = .ok (.str
          (if JSNum.lt JSNum.zero a then "revenue" else "expense")) := by
  obtain ⟨y, hy, hfy⟩ := mapIdxM_getElem? _ transactions 0 mapped hmap i x hx
  obtain ⟨t, ht, hft⟩ := mapIdxM_getElem? (fun j v => normalizeTransaction h (ticks j) v)
    mapped 0 out hnorm i y hy
  have hyform := structuredRecord_untyped h tag clocks (0 + i) x a hno hdef ha hnz y hfy
  subst hyform
  obtain ⟨d, n, ty, c, -, -, hty, -, -, -, htypeProp, -⟩ :=
    normalizeTransaction_fields_parts h _ _ _ _ _ _ _ t hft
  rw [normalizeTransactionType_fixed h (JSNum.lt JSNum.zero a)] at hty
  injection hty with hty
  subst hty
  exact ⟨t, ht, htypeProp⟩

/-- C14, refuted as stated: the tree
`{transactions: {transaction: [{amount: "500", description: "Consulting Fee"}]}}`
yields no transaction in the JSON extractor.  Its property `transactions` is
an object, not an array, so the JSON extractor locates nothing and throws
`No transaction data found in JSON file`. -/
theorem structured_sign_rule_counterexample :
    ¬ (∀ (h : Host) (clocks : Nat → RowClock) (ticks : Nat → Tick),
        ∃ t : JSVal, parseJSONFile h clocks ticks (.obj [("transactions",
            .obj [("transaction", .arr [.obj [("amount", .str "500"),
              ("description", .str "Consulting Fee")]])])]) = .ok [t]
          ∧ getProp t "type" = .ok (.str "revenue")
          ∧ getProp t "amount" = .ok (.num (.fin 500))) := by
  intro hall
  obtain ⟨t, ht, -⟩ := hall sampleHost sampleClocks sampleTicks
  have hrun : parseJSONFile sampleHost sampleClocks sampleTicks (.obj [("transactions",
      .obj [("transaction", .arr [.obj [("amount", .str "500"),
        ("description", .str "Consulting Fee")]])])]) =
      .error "Failed to parse JSON file: No transaction data found in JSON file" := by
    with_unfolding_all rfl
  rw [hrun] at ht
  cases ht

/-- C14, amended: in the structured-document extractors (JSON and XML) a
located record without type whose amount parses to a number `a` other than
zero gets the type `revenue` when `a > 0` and `expense` when `a < 0`.  The
tree `transactions.transaction = [{amount: "500", description: "Consulting
Fee"}]` is located by the XML extractor only, where it yields exactly one
transaction, of type `revenue` and amount `500`; the JSON extractor throws
`No transaction data found in JSON file` on it, and yields that transaction
for the tree `transactions = [{amount: "500", description: "Consulting
Fee"}]`. -/
theorem structured_sign_rule (h : Host) (clocks : Nat → RowClock) (ticks : Nat → Tick)
    (out : List JSVal) (i : Nat) (x : JSVal) (a : JSNum)
    (hno : propOf x "type" = .undefined)
    (hdef : isDefined (propOf x "amount") = true)
    (ha : inlineAmount h (propOf x "amount") = .ok a)
    (hnum : a.isNaN = false)
    (hnz : a.neZero = true) :
    (∀ data : JSVal, parseJSONFile h clocks ticks data = .ok out →
        (jsonLocate data)[i]? = some x →
        ∃ t : JSVal, out[i]? = some t
          ∧ (JSNum.lt .zero a = true → getProp t "type" = .ok (.str "revenue"))
          ∧ (JSNum.lt a .zero = true → getProp t "type" = .ok (.str "expense")))
    ∧ (∀ (result : JSVal) (located : List JSVal),
        parseXMLFile h clocks ticks result = .ok out →
        xmlLocate result = .ok located → located[i]? = some x →
        ∃ t : JSVal, out[i]? = some t
          ∧ (JSNum.lt .zero a = true → getProp t "type" = .ok (.str "revenue"))
          ∧ (JSNum.lt a .zero = true → getProp t "type" = .ok (.str "expense")))
    ∧ parseXMLFile h clocks ticks (.obj [("transactions", .obj [("transaction",
        .arr [.obj [("amount", .str "500"), ("description", .str "Consulting Fee")]])])]) =
      .ok [.obj [("id", .str ("xml-0-" ++ natToString (clocks 0).stamp)),
        ("date", .str (ensureValidDate h (ticks 0).today
          (.date (some (Int.ofNat (clocks 0).clock))))),
        ("description", .str "Consulting Fee"), ("amount", .num (.fin 500)),
        ("type", .str "revenue"), ("category", .str "Other")]]
    ∧ parseJSONFile h clocks ticks (.obj [("transactions", .obj [("transaction",
        .arr [.obj [("amount", .str "500"), ("description", .str "Consulting Fee")]])])]) =
      .error "Failed to parse JSON file: No transaction data found in JSON file"
    ∧ parseJSONFile h clocks ticks (.obj [("transactions",
        .arr [.obj [("amount", .str "500"), ("description", .str "Consulting Fee")]])]) =
      .ok [.obj [("id", .str ("json-0-" ++ natToString (clocks 0).stamp)),
        ("date", .str (ensureValidDate h (ticks 0).today
          (.date (some (Int.ofNat (clocks 0).clock))))),
        ("description", .str "Consulting Fee"), ("amount", .num (.fin 500)),
        ("type", .str "revenue"), ("category", .str "Other")]] := by
  have hsplit : ∀ t : JSVal,
      getProp t "type" = .ok (.str
        (if JSNum.lt JSNum.zero a then "revenue" else "expense")) →
      (JSNum.lt .zero a = true → getProp t "type" = .ok (.str "revenue"))
      ∧ (JSNum.lt a .zero = true → getProp t "type" = .ok (.str "expense")) := by
    intro t ht
    constructor
    · intro hpos; rw [ht, if_pos hpos]
    · intro hneg
      have hnot : JSNum.lt JSNum.zero a = false := by
        cases a with
        | fin q =>
          have h1 : q < 0 := by simpa [JSNum.lt, JSNum.zero] using hneg
          simp [JSNum.lt, JSNum.zero, le_of_lt h1]
        | _ => simp_all [JSNum.lt, JSNum.zero, JSNum.isNaN]
      rw [ht, hnot]; rfl
  refine ⟨?_, ?_, by with_unfolding_all rfl, by with_unfolding_all rfl,
    by with_unfolding_all rfl⟩
  · intro data hres hx
    simp only [parseJSONFile] at hres
    cases hdata : toBoolean data with
    | false => simp [hdata] at hres
    | true =>
      cases hloc : jsonLocate data with
      | nil => rw [hloc] at hx; simp at hx
      | cons x0 xs =>
        cases hmap : mapIdxM (structuredRecord h "json" clocks) 0 (x0 :: xs) with
        | error e => simp [hdata, hloc, hmap] at hres
        | ok mapped =>
          cases hnorm : normalizeTransactionData h ticks (.arr mapped) with
          | error e => simp [hdata, hloc, hmap, hnorm] at hres
          | ok result =>
            simp [hdata, hloc, hmap, hnorm] at hres
            subst hres
            rw [hloc] at hx
            obtain ⟨t, ht, hty⟩ := structured_sign_step h "json" clocks ticks (x0 :: xs) mapped
              result i x a hmap hnorm hx hno hdef ha hnz
            exact ⟨t, ht, hsplit t hty⟩
  · intro result located hres hlocated hx
    simp only [parseXMLFile] at hres
    cases hdata : toBoolean result with
    | false => simp [hdata] at hres
    | true =>
      cases located with
      | nil => simp at hx
      | cons x0 xs =>
        cases hmap : mapIdxM (structuredRecord h "xml" clocks) 0 (x0 :: xs) with
        | error e => simp [hdata, hlocated, hmap] at hres
        | ok mapped =>
          cases hnorm : normalizeTransactionData h ticks (.arr mapped) with
          | error e => simp [hdata, hlocated, hmap, hnorm] at hres
          | ok res2 =>
            simp [hdata, hlocated, hmap, hnorm] at hres
            subst hres
            obtain ⟨t, ht, hty⟩ := structured_sign_step h "xml" clocks ticks (x0 :: xs) mapped
              res2 i x a hmap hnorm hx hno hdef ha hnz
            exact ⟨t, ht, hsplit t hty⟩

/-- C14 amended, at a concrete record: the JSON array `[{amount: "-75"}]`
gives one transaction of type `expense`. -/
theorem structured_sign_rule_witness :
    ∃ t : JSVal,
      [JSVal.obj [("id", .str "json-0-1710374400000"), ("date", .str "2024-03-14"),
        ("description", .str "Transaction 1"), ("amount", .num (.fin (-75))),
        ("type", .str "expense"), ("category", .str "Other")]][0]? = some t
      ∧ getProp t "type" = .ok (.str "expense") := by
  have hthm := structured_sign_rule utcHost sampleClocks sampleTicks
    [JSVal.obj [("id", .str "json-0-1710374400000"), ("date", .str "2024-03-14"),
        ("description", .str "Transaction 1"), ("amount", .num (.fin (-75))),
        ("type", .str "expense"), ("category", .str "Other")]] 0
    (.obj [("amount", .str "-75")]) (.fin (-75)) rfl rfl
    (by with_unfolding_all rfl) (by with_unfolding_all rfl) (by with_unfolding_all rfl)
  obtain ⟨t, ht, -, hneg⟩ := hthm.1 (.arr [.obj [("amount", .str "-75")]])
    (by with_unfolding_all rfl) rfl
  exact ⟨t, ht, hneg (by with_unfolding_all rfl)⟩

/-- A property list none of whose keys is `amount`, `description` or `date`
has none of the three properties. -/
theorem lookupProp_of_no_key (props : List (String × JSVal))
    (hkeys : ∀ p ∈ props, isTxnKey p.1 = false) (key : String) (hkey : isTxnKey key = true) :
    lookupProp key props = .undefined := by
  induction props with
  | nil => rfl
  | cons p rest ih =>
    obtain ⟨k, v⟩ := p
    have hk : isTxnKey k = false := hkeys (k, v) (by simp)
    have hne : k ≠ key := by
      rintro rfl
      rw [hkey] at hk
      cases hk
    simp only [lookupProp, hne, if_false]
    exact ih (fun p hp => hkeys p (by simp [hp]))

/-- An object none of whose keys is `amount`, `description` or `date` does
not look like a transaction. -/
theorem looksLikeTransaction_of_no_key (props : List (String × JSVal))
    (hkeys : ∀ p ∈ props, isTxnKey p.1 = false) :
    looksLikeTransaction (.obj props) = false := by
  simp [looksLikeTransaction, propOf, isDefined,
    lookupProp_of_no_key props hkeys "amount" (by decide),
    lookupProp_of_no_key props hkeys "description" (by decide),
    lookupProp_of_no_key props hkeys "date" (by decide)]

/-- The keys of an object in a tree without transaction keys. -/
theorem noTxnKeysProps_keys (props : List (String × JSVal))
    (hp : noTxnKeysProps props = true) : ∀ p ∈ props, isTxnKey p.1 = false := by
  induction props with
  | nil => intro p hp; simp at hp
  | cons q rest ih =>
    obtain ⟨k, v⟩ := q
    simp only [noTxnKeysProps, Bool.and_eq_true, Bool.not_eq_true'] at hp
    intro p hmem
    rcases List.mem_cons.mp hmem with rfl | hmem
    · exact hp.1.1
    · exact ih hp.2 p hmem

/-- In a tree without transaction keys nothing looks like a transaction. -/
theorem looksLikeTransaction_of_noTxnKeys (v : JSVal) (hv : noTxnKeys v = true) :
    looksLikeTransaction v = false := by
  cases v with
  | obj props =>
    exact looksLikeTransaction_of_no_key props
      (noTxnKeysProps_keys props (by simpa [noTxnKeys] using hv))
  | _ => rfl

/-- The flat scan of the JSON extractor finds nothing in an object of a tree
without transaction keys. -/
theorem jsonScan_of_noTxnKeys (props : List (String × JSVal))
    (hp : noTxnKeysProps props = true) : jsonScan props = [] := by
  induction props with
  | nil => rfl
  | cons q rest ih =>
    obtain ⟨k, v⟩ := q
    simp only [noTxnKeysProps, Bool.and_eq_true, Bool.not_eq_true'] at hp
    cases v with
    | arr items =>
      cases items with
      | nil => simpa [jsonScan] using ih hp.2
      | cons first others =>
        have hfirst : noTxnKeys first = true := by
          have := hp.1.2
          simp only [noTxnKeys, noTxnKeysItems, Bool.and_eq_true] at this
          exact this.1
        simp only [jsonScan, looksLikeTransaction_of_noTxnKeys first hfirst, Bool.and_false,
          Bool.false_eq_true, if_false]
        exact ih hp.2
    | _ => simpa [jsonScan] using ih hp.2

/-- The JSON extractor locates nothing in a tree without transaction keys
that is not an array and has no array under `transactions` or `data`. -/
theorem jsonLocate_of_noTxnKeys (tree : JSVal) (hkeys : noTxnKeys tree = true)
    (harr : isArray tree = false) (ht : isArray (propOf tree "transactions") = false)
    (hd : isArray (propOf tree "data") = false) : jsonLocate tree = [] := by
  simp only [jsonLocate, harr, ht, hd, Bool.and_false, Bool.false_eq_true, if_false]
  cases tree with
  | obj props =>
    simp only [jsonScan_of_noTxnKeys props (by simpa [noTxnKeys] using hkeys),
      looksLikeTransaction_of_noTxnKeys _ hkeys, Bool.false_eq_true, if_false]
  | date t => rfl
  | _ => rfl

/-- One step of the recursive search passes over a value in which the deeper
search found nothing and which holds no transaction key and no `null`. -/
theorem searchStep_pass (value : JSVal) (rest : Except String (Option (List JSVal)))
    (hkeys : noTxnKeys value = true) (hnull : noNullish value = true) :
    searchStep value (.ok none) rest = rest := by
  cases value with
  | undefined => simp [noNullish] at hnull
  | null => simp [noNullish] at hnull
  | obj props =>
    simp only [searchStep, looksLikeTransaction_of_noTxnKeys _ hkeys, Bool.false_eq_true,
      if_false]
  | arr items =>
    cases items with
    | nil => rfl
    | cons first others =>
      have hfirst : noTxnKeys first = true := by
        simp only [noTxnKeys, noTxnKeysItems, Bool.and_eq_true] at hkeys
        exact hkeys.1
      have hfn : noNullish first = true := by
        simp only [noNullish, noNullishItems, Bool.and_eq_true] at hnull
        exact hnull.1
      cases first with
      | undefined => simp [noNullish] at hfn
      | null => simp [noNullish] at hfn
      | _ => simp only [searchStep, looksLikeTransaction_of_noTxnKeys _ hfirst,
          Bool.false_eq_true, if_false]
  | _ => rfl

mutual
/-- The recursive search of the XML extractor finds nothing, and does not
throw, in a tree without transaction keys and without `null`. -/
theorem searchForTransactions_none : ∀ (v : JSVal), noTxnKeys v = true →
    noNullish v = true → searchForTransactions v = .ok none
  | .obj props, hk, hn => by
    rw [searchForTransactions]
    exact searchProps_none props (by simpa [noTxnKeys] using hk) (by simpa [noNullish] using hn)
  | .arr items, hk, hn => by
    rw [searchForTransactions]
    exact searchItems_none items (by simpa [noTxnKeys] using hk) (by simpa [noNullish] using hn)
  | .undefined, _, _ => rfl
  | .null, _, _ => rfl
  | .bool _, _, _ => rfl
  | .num _, _, _ => rfl
  | .str _, _, _ => rfl
  | .date _, _, _ => rfl
/-- The same, over the properties of an object. -/
theorem searchProps_none : ∀ (props : List (String × JSVal)), noTxnKeysProps props = true →
    noNullishProps props = true → searchProps props = .ok none
  | [], _, _ => rfl
  | (key, value) :: rest, hk, hn => by
    simp only [noTxnKeysProps, Bool.and_eq_true] at hk
    simp only [noNullishProps, Bool.and_eq_true] at hn
    rw [searchProps, searchForTransactions_none value hk.1.2 hn.1,
      searchStep_pass value _ hk.1.2 hn.1]
    exact searchProps_none rest hk.2 hn.2
/-- The same, over the elements of an array. -/
theorem searchItems_none : ∀ (items : List JSVal), noTxnKeysItems items = true →
    noNullishItems items = true → searchItems items = .ok none
  | [], _, _ => rfl
  | value :: rest, hk, hn => by
    simp only [noTxnKeysItems, Bool.and_eq_true] at hk
    simp only [noNullishItems, Bool.and_eq_true] at hn
    rw [searchItems, searchForTransactions_none value hk.1 hn.1,
      searchStep_pass value _ hk.1 hn.1]
    exact searchItems_none rest hk.2 hn.2
end

/-- C15, refuted as stated: no object of the top-level array `[{foo: 1}]` has
one of the keys `amount`, `description`, `date`, and the JSON extractor
accepts it: a top-level array is located without looking at its elements, and
its element is mapped to a transaction made of the defaults. -/
theorem structured_no_shape_counterexample :
    ¬ (∀ (h : Host) (clocks : Nat → RowClock) (ticks : Nat → Tick) (tree : JSVal),
        noTxnKeys tree = true →
        (∃ message : String, parseJSONFile h clocks ticks tree = .error message
          ∧ includes message "No transaction data found" = true)
        ∧ (∃ message : String, parseXMLFile h clocks ticks tree = .error message
          ∧ includes message "No transaction data found" = true)) := by
  intro hall
  obtain ⟨⟨message, hjson, -⟩, -⟩ := hall sampleHost sampleClocks sampleTicks
    (.arr [.obj [("foo", .num (.fin 1))]]) (by decide)
  have hrun : parseJSONFile sampleHost sampleClocks sampleTicks
      (.arr [.obj [("foo", .num (.fin 1))]]) =
      .ok [.obj [("id", .str "json-0-1710374400000"), ("date", .str "2024-03-14"),
        ("description", .str "Transaction 1"), ("amount", .num (.fin 0)),
        ("type", .str "expense"), ("category", .str "Other")]] := by
    with_unfolding_all rfl
  rw [hrun] at hjson
  cases hjson

/-- C15, amended: for a truthy parsed tree in which no object has any of the
keys `amount`, `description`, `date`, the JSON extractor throws
`No transaction data found in JSON file` when the tree is not an array and
has no array under `transactions` or `data`, and the XML extractor throws
`No transaction data found in XML file` when the tree holds no `null` and has
none of the wrappers `transactions.transaction`, `data.transaction`,
`financialData.entries`.  The top-level array `[{foo: 1}]` is rejected by the
XML extractor. -/
theorem structured_no_shape_fails (h : Host) (clocks : Nat → RowClock) (ticks : Nat → Tick)
    (tree : JSVal) (htruthy : toBoolean tree = true) (hkeys : noTxnKeys tree = true) :
    (isArray tree = false → isArray (propOf tree "transactions") = false →
      isArray (propOf tree "data") = false →
      parseJSONFile h clocks ticks tree =
        .error "Failed to parse JSON file: No transaction data found in JSON file")
    ∧ (noNullish tree = true →
      toBoolean (propOf (propOf tree "transactions") "transaction") = false →
      toBoolean (propOf (propOf tree "data") "transaction") = false →
      toBoolean (propOf (propOf tree "financialData") "entries") = false →
      parseXMLFile h clocks ticks tree =
        .error "Failed to process XML data: No transaction data found in XML file")
    ∧ parseXMLFile h clocks ticks (.arr [.obj [("foo", .num (.fin 1))]]) =
        .error "Failed to process XML data: No transaction data found in XML file"
    ∧ includes "Failed to parse JSON file: No transaction data found in JSON file"
        "No transaction data found" = true
    ∧ includes "Failed to process XML data: No transaction data found in XML file"
        "No transaction data found" = true := by
  refine ⟨?_, ?_, by rfl, by decide, by decide⟩
  · intro harr ht hd
    simp only [parseJSONFile, htruthy, jsonLocate_of_noTxnKeys tree hkeys harr ht hd]
    rfl
  · intro hnull h1 h2 h3
    simp only [parseXMLFile, htruthy, xmlLocate, h1, h2, h3, Bool.and_false,
      searchForTransactions_none tree hkeys hnull]
    rfl

/-- C15 amended, at a concrete tree: `{report: {title: "Q1", rows: []}}` is
rejected by both extractors. -/
theorem structured_no_shape_fails_witness :
    parseJSONFile sampleHost sampleClocks sampleTicks
        (.obj [("report", .obj [("title", .str "Q1"), ("rows", .arr [])])]) =
      .error "Failed to parse JSON file: No transaction data found in JSON file"
    ∧ parseXMLFile sampleHost sampleClocks sampleTicks
        (.obj [("report", .obj [("title", .str "Q1"), ("rows", .arr [])])]) =
      .error "Failed to process XML data: No transaction data found in XML file" :=
  ⟨(structured_no_shape_fails sampleHost sampleClocks sampleTicks
      (.obj [("report", .obj [("title", .str "Q1"), ("rows", .arr [])])])
      (by decide) (by decide)).1 (by decide) (by decide) (by decide),
   (structured_no_shape_fails sampleHost sampleClocks sampleTicks
      (.obj [("report", .obj [("title", .str "Q1"), ("rows", .arr [])])])
      (by decide) (by decide)).2.1 (by decide) (by decide) (by decide) (by decide)⟩

/-- The root of a tree that holds one nested array is an object without
transaction keys. -/
theorem NestedArray.root_obj {root : JSVal} {depth : Nat} {items : List JSVal}
    (hn : NestedArray root depth items) :
    ∃ props, root = .obj props ∧ ∀ p ∈ props, isTxnKey p.1 = false := by
  cases hn with
  | here before after key items _ hkeys => exact ⟨_, rfl, hkeys⟩
  | deeper before after key child depth items _ hkeys _ => exact ⟨_, rfl, hkeys⟩

/-- The recursive search passes over plain properties. -/
theorem searchProps_append_plain (before rest : List (String × JSVal))
    (hplain : ∀ p ∈ before, plain p.2 = true) :
    searchProps (before ++ rest) = searchProps rest := by
  induction before with
  | nil => rfl
  | cons p more ih =>
    obtain ⟨k, v⟩ := p
    have hv : plain v = true := hplain (k, v) (by simp)
    simp only [plain, Bool.and_eq_true] at hv
    rw [List.cons_append, searchProps, searchForTransactions_none v hv.1.1 hv.1.2,
      searchStep_pass v _ hv.1.1 hv.1.2]
    exact ih (fun p hp => hplain p (by simp [hp]))

/-- The recursive search of the XML extractor reaches the nested array. -/
theorem searchForTransactions_nested {root : JSVal} {depth : Nat} {items : List JSVal}
    (hn : NestedArray root depth items) (first : JSVal) (others : List JSVal)
    (hitems : items = first :: others) (hfirst : looksLikeTransaction first = true) :
    searchForTransactions root = .ok (some items) := by
  induction hn with
  | here before after key items hplain hkeys =>
    subst hitems
    rw [searchForTransactions, searchProps_append_plain before _
      (fun p hp => hplain p (by simp [hp])), searchProps]
    cases first with
    | undefined => simp [looksLikeTransaction, propOf, isDefined] at hfirst
    | null => simp [looksLikeTransaction, propOf, isDefined] at hfirst
    | _ => simp only [searchStep, hfirst, if_true]
  | deeper before after key child depth items hplain hkeys hchild ih =>
    obtain ⟨cprops, rfl, hckeys⟩ := hchild.root_obj
    rw [searchForTransactions, searchProps_append_plain before _
      (fun p hp => hplain p (by simp [hp])), searchProps, ih hitems]
    simp only [searchStep, looksLikeTransaction_of_no_key cprops hckeys, Bool.false_eq_true,
      if_false]

/-- A falsy value is converted to a primitive without an exception. -/
theorem throwsToString_of_falsy (v : JSVal) (hv : toBoolean v = false) :
    throwsToString v = false := by
  cases ht : throwsToString v
  · rfl
  · rw [(throws_shape v ht).1] at hv; cases hv

/-- The conversion of `a || b` throws exactly when the conversion of `a`
does, for a string `b`. -/
theorem throwsToString_orElse_str (a : JSVal) (s : String) :
    throwsToString (orElse a (.str s)) = throwsToString a := by
  unfold orElse
  cases hb : toBoolean a
  · simp only [Bool.false_eq_true, if_false]
    rw [throwsToString_str, throwsToString_of_falsy a hb]
  · simp only [if_true]

/-- The inline type of a type property is a string, or the property itself
when it is truthy and not a string. -/
theorem inlineType_cases (v : JSVal) :
    (∃ s, inlineType v = .str s) ∨ (inlineType v = v ∧ toBoolean v = true) := by
  unfold inlineType orElse
  cases hb : toBoolean v
  · simp only [Bool.false_eq_true, if_false]
    split_ifs <;> exact Or.inl ⟨_, rfl⟩
  · simp only [if_true]
    cases v with
    | str s =>
      simp only
      split_ifs <;> exact Or.inl ⟨_, rfl⟩
    | _ => exact Or.inr ⟨rfl, trivial⟩

/-- The conversion of the inline type throws exactly when the conversion of
the type property does. -/
theorem throwsToString_inlineType (v : JSVal) :
    throwsToString (inlineType v) = throwsToString v := by
  rcases inlineType_cases v with ⟨s, hs⟩ | ⟨hv, -⟩
  · rw [hs, throwsToString_str]
    cases ht : throwsToString v
    · rfl
    · exfalso
      cases v with
      | arr items => simp [inlineType, orElse, toBoolean] at hs
      | obj props => simp [inlineType, orElse, toBoolean] at hs
      | _ => unfold throwsToString at ht; simp at ht
  · rw [hv]

/-- The record callback of the structured extractors returns exactly on the
elements other than `undefined` and `null` whose amount and date are
converted to a primitive without an exception. -/
theorem structuredRecord_returns (h : Host) (tag : String) (clocks : Nat → RowClock)
    (index : Nat) (x : JSVal) :
    (∃ y, structuredRecord h tag clocks index x = .ok y) ↔
      (x ≠ .undefined ∧ x ≠ .null ∧ throwsToString (propOf x "amount") = false
        ∧ throwsToString (propOf x "date") = false) := by
  have hb : ∀ v : JSVal, throwsToString v = false ∨ throwsToString v = true := by
    intro v; cases throwsToString v <;> simp
  constructor
  · rintro ⟨y, hy⟩
    have hu : x ≠ .undefined := by
      rintro rfl; simp [structuredRecord] at hy
    have hn : x ≠ .null := by
      rintro rfl; simp [structuredRecord] at hy
    refine ⟨hu, hn, ?_, ?_⟩
    · rcases hb (propOf x "amount") with h1 | h1
      · exact h1
      · exfalso
        obtain ⟨a, ha, -⟩ := structuredRecord_ok h tag clocks index x y hy
        have hdef : isDefined (propOf x "amount") = true := by
          cases hp : propOf x "amount" with
          | undefined => rw [hp] at h1; unfold throwsToString at h1; simp at h1
          | _ => rfl
        rw [hdef, if_pos rfl, (inlineAmount_cases h _).1 h1] at ha
        cases ha
    · rcases hb (propOf x "date") with h1 | h1
      · exact h1
      · exfalso
        have htruthy := (throws_shape _ h1).1
        have hnd : newDate h (propOf x "date") =
            .error "Cannot convert object to primitive value" := by
          unfold newDate; rw [h1]; rfl
        cases x with
        | undefined => exact hu rfl
        | null => exact hn rfl
        | _ =>
          simp only [structuredRecord, htruthy, if_true, hnd] at hy
          revert hy
          split <;> simp
  · rintro ⟨hu, hn, h1, h2⟩
    have ha : ∃ a, (if isDefined (propOf x "amount") then inlineAmount h (propOf x "amount")
        else .ok JSNum.zero) = .ok a := by
      split
      · exact ⟨_, (inlineAmount_cases h _).2 h1⟩
      · exact ⟨_, rfl⟩
    have hd : ∃ d, (if toBoolean (propOf x "date") then newDate h (propOf x "date")
        else .ok (some (Int.ofNat (clocks index).clock))) = .ok d := by
      split
      · exact ⟨_, newDate_of_not_throws h _ h2⟩
      · exact ⟨_, rfl⟩
    obtain ⟨a, ha⟩ := ha
    obtain ⟨d, hd⟩ := hd
    cases x with
    | undefined => exact absurd rfl hu
    | null => exact absurd rfl hn
    | _ => simp only [structuredRecord, ha, hd, Except.ok.injEq, exists_eq']

/-- An element is mapped and normalized by the structured extractors without
an exception exactly when it converts cleanly. -/
theorem structured_returns (h : Host) (tag : String) (clocks : Nat → RowClock) (k : Tick)
    (index : Nat) (x : JSVal) :
    (∃ y t, structuredRecord h tag clocks index x = .ok y
      ∧ normalizeTransaction h k y = .ok t) ↔ convertsCleanly x = true := by
  have hconv : convertsCleanly x = true ↔
      (x ≠ .undefined ∧ x ≠ .null ∧ throwsToString (propOf x "amount") = false
        ∧ throwsToString (propOf x "date") = false)
      ∧ throwsToString (propOf x "type") = false
      ∧ throwsToString (propOf x "category") = false
      ∧ throwsToString (describedBy x) = false := by
    cases x <;> simp [convertsCleanly, and_assoc]
  rw [hconv]
  constructor
  · rintro ⟨y, t, hy, ht⟩
    refine ⟨(structuredRecord_returns h tag clocks index x).mp ⟨y, hy⟩, ?_⟩
    obtain ⟨a, -, hyform⟩ := structuredRecord_ok h tag clocks index x y hy
    subst hyform
    rw [normalizeTransaction_fields] at ht
    obtain ⟨h1, -, h3, h4⟩ := (normalizedTransaction_returns h k _ _ _ _ _ _).mp ⟨t, ht⟩
    refine ⟨?_, ?_, ?_⟩
    · by_cases hs : (isDefined (propOf x "amount") && !toBoolean (propOf x "type")
          && a.neZero) = true
      · have hfalsy : toBoolean (propOf x "type") = false := by
          simp only [Bool.and_eq_true, Bool.not_eq_true'] at hs
          exact hs.1.2
        exact throwsToString_of_falsy _ hfalsy
      · rw [if_neg hs, throwsToString_inlineType] at h3
        exact h3
    · rw [throwsToString_orElse_str] at h4; exact h4
    · rw [throwsToString_orElse_str] at h1; exact h1
  · rintro ⟨hrec, h3, h4, h1⟩
    obtain ⟨y, hy⟩ := (structuredRecord_returns h tag clocks index x).mpr hrec
    obtain ⟨a, -, hyform⟩ := structuredRecord_ok h tag clocks index x y hy
    refine ⟨y, ?_⟩
    have : ∃ t, normalizeTransaction h k y = .ok t := by
      rw [hyform, normalizeTransaction_fields]
      apply (normalizedTransaction_returns h k _ _ _ _ _ _).mpr
      refine ⟨?_, throwsToString_num _, ?_, ?_⟩
      · rw [throwsToString_orElse_str]; exact h1
      · split
        · exact throwsToString_str _
        · rw [throwsToString_inlineType]; exact h3
      · rw [throwsToString_orElse_str]; exact h4
    obtain ⟨t, ht⟩ := this
    exact ⟨t, hy, ht⟩

/-- The mapping and the normalization of the structured extractors return
exactly when every located element converts cleanly, and then they give one
transaction for each element. -/
theorem structured_map_total (h : Host) (tag : String) (clocks : Nat → RowClock)
    (ticks : Nat → Tick) (items : List JSVal) :
    ((∃ mapped out : List JSVal,
        mapIdxM (structuredRecord h tag clocks) 0 items = .ok mapped
        ∧ normalizeTransactionData h ticks (.arr mapped) = .ok out) ↔
      ∀ x ∈ items, convertsCleanly x = true)
    ∧ ∀ mapped out : List JSVal,
      mapIdxM (structuredRecord h tag clocks) 0 items = .ok mapped →
      normalizeTransactionData h ticks (.arr mapped) = .ok out →
      out.length = items.length
      ∧ ∀ (i : Nat) (x : JSVal), items[i]? = some x →
          ∃ y t : JSVal, structuredRecord h tag clocks i x = .ok y
            ∧ normalizeTransaction h (ticks i) y = .ok t ∧ out[i]? = some t := by
  have hsecond : ∀ mapped out : List JSVal,
      mapIdxM (structuredRecord h tag clocks) 0 items = .ok mapped →
      normalizeTransactionData h ticks (.arr mapped) = .ok out →
      out.length = items.length
      ∧ ∀ (i : Nat) (x : JSVal), items[i]? = some x →
          ∃ y t : JSVal, structuredRecord h tag clocks i x = .ok y
            ∧ normalizeTransaction h (ticks i) y = .ok t ∧ out[i]? = some t := by
    intro mapped out hmap hnorm
    have hnorm2 : mapIdxM (fun j v => normalizeTransaction h (ticks j) v) 0 mapped = .ok out :=
      hnorm
    constructor
    · have h1 := mapIdxM_length _ _ 0 _ hnorm2
      have h2 := mapIdxM_length _ _ 0 _ hmap
      rw [h1, h2]
    · intro i x hx
      obtain ⟨y, hy, hfy⟩ := mapIdxM_getElem? _ items 0 _ hmap i x hx
      obtain ⟨t, ht, hft⟩ := mapIdxM_getElem? (fun j v => normalizeTransaction h (ticks j) v)
        _ 0 _ hnorm2 i y hy
      simp only [Nat.zero_add] at hfy hft
      exact ⟨y, t, hfy, hft, ht⟩
  refine ⟨?_, hsecond⟩
  constructor
  · rintro ⟨mapped, out, hmap, hnorm⟩ x hx
    obtain ⟨i, hi⟩ := List.mem_iff_getElem?.mp hx
    obtain ⟨y, t, hy, ht, -⟩ := (hsecond mapped out hmap hnorm).2 i x hi
    exact (structured_returns h tag clocks (ticks i) i x).mp ⟨y, t, hy, ht⟩
  · intro hall
    have hmapped : ∃ mapped, mapIdxM (structuredRecord h tag clocks) 0 items = .ok mapped := by
      apply (mapIdxM_returns _ items 0).mpr
      intro j x hx
      obtain ⟨y, t, hy, -⟩ := (structured_returns h tag clocks (ticks j) (0 + j) x).mpr
        (hall x (List.mem_iff_getElem?.mpr ⟨j, hx⟩))
      exact ⟨y, hy⟩
    obtain ⟨mapped, hmap⟩ := hmapped
    have hout : ∃ out, mapIdxM (fun j v => normalizeTransaction h (ticks j) v) 0 mapped
        = .ok out := by
      apply (mapIdxM_returns _ mapped 0).mpr
      intro j y hy
      have hlen := mapIdxM_length _ _ 0 _ hmap
      have hj : j < items.length := by
        rw [← hlen]
        exact (List.getElem?_eq_some_iff.mp hy).1
      have hx : items[j]? = some items[j] := List.getElem?_eq_getElem hj
      obtain ⟨y2, hy2, hfy2⟩ := mapIdxM_getElem? _ items 0 _ hmap j _ hx
      rw [hy] at hy2
      injection hy2 with hy2
      subst hy2
      obtain ⟨y3, t, hy3, ht⟩ := (structured_returns h tag clocks (ticks (0 + j)) (0 + j)
        items[j]).mpr (hall _ (List.getElem_mem _))
      rw [hfy2] at hy3
      injection hy3 with hy3
      subst hy3
      exact ⟨t, ht⟩
    obtain ⟨out, hnorm⟩ := hout
    exact ⟨mapped, out, hmap, hnorm⟩

/-- No property of an object whose values are not arrays is an array. -/
theorem isArray_lookupProp_of_no_array (props : List (String × JSVal))
    (hvals : ∀ p ∈ props, isArray p.2 = false) (key : String) :
    isArray (lookupProp key props) = false := by
  induction props with
  | nil => rfl
  | cons p rest ih =>
    obtain ⟨k, v⟩ := p
    by_cases hk : k = key
    · simp only [lookupProp, hk, if_true]
      exact hvals (k, v) (by simp)
    · simp only [lookupProp, hk, if_false]
      exact ih (fun p hp => hvals p (by simp [hp]))

/-- The flat scan of the JSON extractor finds nothing in an object whose
values are not arrays. -/
theorem jsonScan_of_no_array (props : List (String × JSVal))
    (hvals : ∀ p ∈ props, isArray p.2 = false) : jsonScan props = [] := by
  induction props with
  | nil => rfl
  | cons p rest ih =>
    obtain ⟨k, v⟩ := p
    have hv : isArray v = false := hvals (k, v) (by simp)
    cases v with
    | arr items => simp [isArray] at hv
    | _ => simpa [jsonScan] using ih (fun p hp => hvals p (by simp [hp]))

/-- A plain value is not an array. -/
theorem isArray_of_plain (v : JSVal) (hv : plain v = true) : isArray v = false := by
  cases v with
  | arr items => simp [plain, noArrays] at hv
  | _ => rfl

/-- The JSON extractor locates nothing in a tree whose only array lies two
or more levels below the root. -/
theorem jsonLocate_nested {root : JSVal} {depth : Nat} {items : List JSVal}
    (hn : NestedArray root depth items) (hdepth : 2 ≤ depth) : jsonLocate root = [] := by
  cases hn with
  | here before after key items hplain hkeys => omega
  | deeper before after key child d items hplain hkeys hchild =>
    obtain ⟨cprops, rfl, -⟩ := hchild.root_obj
    have hvals : ∀ p ∈ before ++ (key, JSVal.obj cprops) :: after, isArray p.2 = false := by
      intro p hp
      rcases List.mem_append.mp hp with hb | hb
      · exact isArray_of_plain _ (hplain p (by simp [hb]))
      · rcases List.mem_cons.mp hb with rfl | ha
        · rfl
        · exact isArray_of_plain _ (hplain p (by simp [ha]))
    have h1 : isArray (JSVal.obj (before ++ (key, JSVal.obj cprops) :: after)) = false := rfl
    have h2 := isArray_lookupProp_of_no_array _ hvals "transactions"
    have h3 := isArray_lookupProp_of_no_array _ hvals "data"
    simp only [jsonLocate, h1, propOf, h2, h3, Bool.and_false, Bool.false_eq_true, if_false,
      jsonScan_of_no_array _ hvals, looksLikeTransaction_of_no_key _ hkeys]

/-- The tree `{a: {b: [{amount: 1}, {amount: 2}]}}` holds one array, two
levels below the root. -/
theorem nestedArray_example :
    NestedArray (.obj [("a", .obj [("b", .arr [.obj [("amount", .num (.fin 1))],
      .obj [("amount", .num (.fin 2))]])])]) 2
      [.obj [("amount", .num (.fin 1))], .obj [("amount", .num (.fin 2))]] :=
  NestedArray.deeper [] [] "a" _ 1 _ (by simp) (by simp [isTxnKey])
    (NestedArray.here [] [] "b" _ (by simp) (by simp [isTxnKey]))

/-- C16, refuted as stated: the tree `{a: {b: [{amount: 1}, {amount: 2}]}}`
holds exactly one array, two levels below the root, whose first element has
the key `amount`; the JSON extractor, which scans only the properties of the
root, throws `No transaction data found in JSON file` on it. -/
theorem structured_nested_search_counterexample :
    ¬ (∀ (h : Host) (clocks : Nat → RowClock) (ticks : Nat → Tick) (root : JSVal)
        (depth : Nat) (first : JSVal) (others : List JSVal),
        NestedArray root depth (first :: others) → 2 ≤ depth →
        looksLikeTransaction first = true →
        isArray (propOf root "transactions") = false → isArray (propOf root "data") = false →
        (∃ out : List JSVal, parseJSONFile h clocks ticks root = .ok out
          ∧ out.length = (first :: others).length)
        ∧ (∃ out : List JSVal, parseXMLFile h clocks ticks root = .ok out
          ∧ out.length = (first :: others).length)) := by
  intro hall
  obtain ⟨⟨out, hjson, -⟩, -⟩ := hall sampleHost sampleClocks sampleTicks _ 2 _ _
    nestedArray_example (by decide) (by rfl) (by rfl) (by rfl)
  have hrun : parseJSONFile sampleHost sampleClocks sampleTicks
      (.obj [("a", .obj [("b", .arr [.obj [("amount", .num (.fin 1))],
        .obj [("amount", .num (.fin 2))]])])]) =
      .error "Failed to parse JSON file: No transaction data found in JSON file" := by
    rfl
  rw [hrun] at hjson
  cases hjson

/-- The XML extractor on a located, non-empty array: it returns what the
mapping and the normalization of the array return. -/
theorem parseXMLFile_located (h : Host) (clocks : Nat → RowClock) (ticks : Nat → Tick)
    (root first : JSVal) (others out : List JSVal) (htruthy : toBoolean root = true)
    (hloc : xmlLocate root = .ok (first :: others)) :
    parseXMLFile h clocks ticks root = .ok out ↔
      ∃ mapped, mapIdxM (structuredRecord h "xml" clocks) 0 (first :: others) = .ok mapped
        ∧ normalizeTransactionData h ticks (.arr mapped) = .ok out := by
  simp only [parseXMLFile, htruthy, hloc]
  cases hmap : mapIdxM (structuredRecord h "xml" clocks) 0 (first :: others) with
  | error e => simp
  | ok mapped =>
    cases hnorm : normalizeTransactionData h ticks (.arr mapped) with
    | error e => simp [hnorm]
    | ok res => simp [hnorm]

/-- C16, amended: when the tree is an object that holds exactly one array,
whose first element has an `amount`, `description` or `date`, below objects
without those keys, and the root has none of the wrappers
`transactions.transaction`, `data.transaction`, `financialData.entries`, the
XML extractor reaches the array by its recursive search; it returns exactly
when every element of the array converts cleanly (it is neither `undefined`
nor `null`, and none of the values that the callbacks convert is an object
with an own property `toString`), and then it returns one transaction per
element of that array, in order.  The JSON extractor scans only the
properties of the root, and throws `No transaction data found in JSON file`
when the array lies two or more levels below the root. -/
theorem structured_nested_search (h : Host) (clocks : Nat → RowClock) (ticks : Nat → Tick)
    (root : JSVal) (depth : Nat) (first : JSVal) (others : List JSVal)
    (hn : NestedArray root depth (first :: others))
    (hfirst : looksLikeTransaction first = true) :
    (toBoolean (propOf (propOf root "transactions") "transaction") = false →
      toBoolean (propOf (propOf root "data") "transaction") = false →
      toBoolean (propOf (propOf root "financialData") "entries") = false →
      ((∃ out : List JSVal, parseXMLFile h clocks ticks root = .ok out) ↔
        ∀ x ∈ first :: others, convertsCleanly x = true)
      ∧ ∀ out : List JSVal, parseXMLFile h clocks ticks root = .ok out →
        out.length = (first :: others).length
        ∧ ∀ (i : Nat) (x : JSVal), (first :: others)[i]? = some x →
            ∃ y t : JSVal, structuredRecord h "xml" clocks i x = .ok y
              ∧ normalizeTransaction h (ticks i) y = .ok t ∧ out[i]? = some t)
    ∧ (2 ≤ depth → parseJSONFile h clocks ticks root =
        .error "Failed to parse JSON file: No transaction data found in JSON file") := by
  obtain ⟨props, hroot, -⟩ := hn.root_obj
  have htruthy : toBoolean root = true := by rw [hroot]; rfl
  constructor
  · intro h1 h2 h3
    have hloc : xmlLocate root = .ok (first :: others) := by
      simp only [xmlLocate, h1, h2, h3, Bool.and_false, Bool.false_eq_true, if_false,
        searchForTransactions_nested hn first others rfl hfirst]
    obtain ⟨hiff, hpoint⟩ := structured_map_total h "xml" clocks ticks (first :: others)
    constructor
    · rw [← hiff]
      constructor
      · rintro ⟨out, hout⟩
        obtain ⟨mapped, hmap, hnorm⟩ :=
          (parseXMLFile_located h clocks ticks root first others out htruthy hloc).mp hout
        exact ⟨mapped, out, hmap, hnorm⟩
      · rintro ⟨mapped, out, hmap, hnorm⟩
        exact ⟨out, (parseXMLFile_located h clocks ticks root first others out htruthy
          hloc).mpr ⟨mapped, hmap, hnorm⟩⟩
    · intro out hout
      obtain ⟨mapped, hmap, hnorm⟩ :=
        (parseXMLFile_located h clocks ticks root first others out htruthy hloc).mp hout
      exact hpoint mapped out hmap hnorm
  · intro hdepth
    simp only [parseJSONFile, htruthy, jsonLocate_nested hn hdepth]
    rfl

/-- C16 amended, at the tree `{a: {b: [{amount: 1}, {amount: 2}]}}`: the XML
extractor returns two transactions and the JSON extractor throws. -/
theorem structured_nested_search_witness :
    (∃ out : List JSVal, parseXMLFile sampleHost sampleClocks sampleTicks
        (.obj [("a", .obj [("b", .arr [.obj [("amount", .num (.fin 1))],
          .obj [("amount", .num (.fin 2))]])])]) = .ok out ∧ out.length = 2)
    ∧ parseJSONFile sampleHost sampleClocks sampleTicks
        (.obj [("a", .obj [("b", .arr [.obj [("amount", .num (.fin 1))],
          .obj [("amount", .num (.fin 2))]])])]) =
      .error "Failed to parse JSON file: No transaction data found in JSON file" := by
  have hthm := structured_nested_search sampleHost sampleClocks sampleTicks _ 2 _ _
    nestedArray_example (by rfl)
  refine ⟨?_, hthm.2 (by decide)⟩
  obtain ⟨hiff, hpoint⟩ := hthm.1 (by rfl) (by rfl) (by rfl)
  obtain ⟨out, hout⟩ := hiff.mpr (by
    intro x hx
    simp only [List.mem_cons, List.mem_singleton, List.not_mem_nil, or_false] at hx
    rcases hx with rfl | rfl <;> with_unfolding_all rfl)
  exact ⟨out, hout, (hpoint out hout).1⟩

/-- A digit character is a decimal digit with the right value. -/
theorem digitChar_spec (d : Nat) (hd : d < 10) :
    isDecimalDigit (Nat.digitChar d) = true ∧ (Nat.digitChar d).toNat - 48 = d := by
  interval_cases d <;> exact ⟨by decide, by decide⟩

/-- The digits written by `Nat.toDigitsCore` go in front of the given ones. -/
theorem toDigitsCore_append (f : Nat) : ∀ (n : Nat) (ds : List Char),
    Nat.toDigitsCore 10 f n ds = Nat.toDigitsCore 10 f n [] ++ ds := by
  induction f with
  | zero => intro n ds; simp [Nat.toDigitsCore]
  | succ f ih =>
    intro n ds
    simp only [Nat.toDigitsCore]
    by_cases hn : n / 10 = 0
    · simp [hn]
    · simp only [hn, if_false]
      rw [ih (n / 10) (Nat.digitChar (n % 10) :: ds), ih (n / 10) [Nat.digitChar (n % 10)]]
      simp

/-- The value of a run of digits followed by one more digit. -/
theorem digitsValue_append_singleton (ds : List Char) (c : Char) :
    digitsValue (ds ++ [c]) = 10 * digitsValue ds + (c.toNat - 48) := by
  simp [digitsValue, List.foldl_append]

/-- With enough fuel `Nat.toDigitsCore` writes decimal digits whose value is
the number. -/
theorem toDigitsCore_spec (f : Nat) : ∀ (n : Nat), n < f →
    digitsValue (Nat.toDigitsCore 10 f n []) = n
    ∧ (∀ c ∈ Nat.toDigitsCore 10 f n [], isDecimalDigit c = true)
    ∧ Nat.toDigitsCore 10 f n [] ≠ [] := by
  induction f with
  | zero => intro n hn; omega
  | succ f ih =>
    intro n hn
    simp only [Nat.toDigitsCore]
    have hd := digitChar_spec (n % 10) (Nat.mod_lt _ (by decide))
    by_cases h0 : n / 10 = 0
    · simp only [h0, if_true]
      refine ⟨?_, ?_, by simp⟩
      · have hmod : n % 10 = n := by omega
        simp only [digitsValue, List.foldl, Nat.mul_zero, Nat.zero_add]
        rw [hd.2]; exact hmod
      · intro c hc
        simp only [List.mem_singleton] at hc
        rw [hc]; exact hd.1
    · simp only [h0, if_false]
      rw [toDigitsCore_append]
      obtain ⟨hv, hdig, hne⟩ := ih (n / 10) (by omega)
      refine ⟨?_, ?_, by simp [hne]⟩
      · rw [digitsValue_append_singleton, hv, hd.2]; omega
      · intro c hc
        rcases List.mem_append.mp hc with hc | hc
        · exact hdig c hc
        · simp only [List.mem_singleton] at hc
          rw [hc]; exact hd.1

/-- The decimal digits of a natural number: they are digits, there is at
least one, and their value is the number. -/
theorem natToString_spec (n : Nat) :
    digitsValue (natToString n).data = n
    ∧ (∀ c ∈ (natToString n).data, isDecimalDigit c = true)
    ∧ (natToString n).data ≠ [] := by
  have h := toDigitsCore_spec (n + 1) n (by omega)
  simpa [natToString, Nat.repr, Nat.toDigits, List.asString] using h

/-- Two numbers with the same decimal digits are equal. -/
theorem natToString_injective (m n : Nat) (h : natToString m = natToString n) : m = n := by
  have hm := (natToString_spec m).1
  have hn := (natToString_spec n).1
  rw [h] at hm
  rw [← hm, hn]

/-- Two runs of digits, each followed by a character that is not a digit and
by a tail, that make the same string are the same run. -/
theorem digits_prefix_unique (a b : List Char) (c : Char) (s t : List Char)
    (ha : ∀ x ∈ a, isDecimalDigit x = true) (hb : ∀ x ∈ b, isDecimalDigit x = true)
    (hc : isDecimalDigit c = false) (heq : a ++ c :: s = b ++ c :: t) : a = b := by
  induction a generalizing b with
  | nil =>
    cases b with
    | nil => rfl
    | cons y b =>
      simp only [List.nil_append, List.cons_append, List.cons.injEq] at heq
      have := hb y (by simp)
      rw [← heq.1, hc] at this
      cases this
  | cons x a ih =>
    cases b with
    | nil =>
      simp only [List.nil_append, List.cons_append, List.cons.injEq] at heq
      have := ha x (by simp)
      rw [heq.1, hc] at this
      cases this
    | cons y b =>
      simp only [List.cons_append, List.cons.injEq] at heq
      rw [heq.1, ih b (fun z hz => ha z (by simp [hz])) (fun z hz => hb z (by simp [hz])) heq.2]

/-- The ids `tag-index-stamp` of two different indices are different. -/
theorem generated_ids_distinct (tag : String) (i j s t : Nat) (hij : i ≠ j) :
    tag ++ "-" ++ natToString i ++ "-" ++ natToString s ≠
      tag ++ "-" ++ natToString j ++ "-" ++ natToString t := by
  intro heq
  have hdata := congrArg String.data heq
  simp only [String.data_append, List.append_assoc] at hdata
  have h1 := List.append_cancel_left hdata
  have h2 := List.append_cancel_left h1
  simp only [List.singleton_append] at h2
  have := digits_prefix_unique _ _ _ _ _ (natToString_spec i).2.1
    (natToString_spec j).2.1 (by decide) h2
  exact hij (natToString_injective i j (String.ext this))

/-- A successful run of the shared body of the tabular extractors: the rows
are mapped one by one and the mapped records are normalized one by one. -/
theorem parseTabular_ok (h : Host) (tag format : String) (clocks : Nat → RowClock)
    (ticks : Nat → Tick) (rows : List (List (String × JSVal))) (out : List JSVal)
    (hres : parseTabular h tag format clocks ticks rows = .ok out) :
    ∃ (firstRow : List (String × JSVal)) (rest : List (List (String × JSVal))),
      rows = firstRow :: rest ∧ out.length = rows.length
      ∧ ∀ (i : Nat) (row : List (String × JSVal)), rows[i]? = some row →
          ∃ y t : JSVal, tabularRow h tag (detectColumns firstRow) clocks i row = .ok y
            ∧ normalizeTransaction h (ticks i) y = .ok t ∧ out[i]? = some t := by
  cases rows with
  | nil => simp [parseTabular] at hres
  | cons firstRow rest =>
    simp only [parseTabular] at hres
    cases hmap : mapIdxE (tabularRow h tag (detectColumns firstRow) clocks) 0
        (firstRow :: rest) with
    | error e => simp [hmap] at hres
    | ok transactions =>
      cases hnorm : normalizeTransactionData h ticks (.arr transactions) with
      | error e => simp [hmap, hnorm] at hres
      | ok result =>
        simp [hmap, hnorm] at hres
        subst hres
        refine ⟨firstRow, rest, rfl, ?_, ?_⟩
        · have h1 := mapIdxE_length _ _ 0 _ hmap
          have h2 := mapIdxM_length (fun j x => normalizeTransaction h (ticks j) x)
            transactions 0 result hnorm
          rw [h2, h1]
        · intro i row hrow
          obtain ⟨y, hy, hfy⟩ := mapIdxE_getElem? _ _ 0 _ hmap i row hrow
          obtain ⟨t, ht, hft⟩ := mapIdxM_getElem?
            (fun j x => normalizeTransaction h (ticks j) x) transactions 0 result hnorm i y hy
          simp only [Nat.zero_add] at hfy hft
          exact ⟨y, t, hfy, hft, ht⟩

/-- A generated id `tag-index-stamp` is a non-empty string. -/
theorem tabular_id_truthy (tag : String) (i s : Nat) :
    toBoolean (.str (tag ++ "-" ++ natToString i ++ "-" ++ natToString s)) = true := by
  have hne : tag ++ "-" ++ natToString i ++ "-" ++ natToString s ≠ "" := by
    intro heq
    have hlen := congrArg String.length heq
    simp only [String.length_append] at hlen
    have h1 : "-".length = 1 := by decide
    have h0 : "".length = 0 := by decide
    omega
  simp [toBoolean, hne]

/-- C22: within one batch returned by the CSV or the Excel extractor the ids
are pairwise distinct: the transaction of the row at index `i` has the id
`tag-i-stamp`, whatever the readings `stamp` of the clock, and the ids of two
different indices differ. -/
theorem tabular_ids_distinct (h : Host) (clocks : Nat → RowClock) (ticks : Nat → Tick)
    (rows : List (List (String × JSVal))) (out : List JSVal) (i j : Nat) (ti tj : JSVal)
    (hi : out[i]? = some ti) (hj : out[j]? = some tj) (hij : i ≠ j) :
    (parseCSVFile h clocks ticks rows = .ok out →
      getProp ti "id" = .ok (.str ("csv" ++ "-" ++ natToString i ++ "-"
        ++ natToString (clocks i).stamp))
      ∧ getProp ti "id" ≠ getProp tj "id")
    ∧ (parseExcelFile h clocks ticks rows = .ok out →
      getProp ti "id" = .ok (.str ("excel" ++ "-" ++ natToString i ++ "-"
        ++ natToString (clocks i).stamp))
      ∧ getProp ti "id" ≠ getProp tj "id") := by
  have key : ∀ tag format : String, parseTabular h tag format clocks ticks rows = .ok out →
      ∀ (k : Nat) (t : JSVal), out[k]? = some t →
        getProp t "id" = .ok (.str (tag ++ "-" ++ natToString k ++ "-"
          ++ natToString (clocks k).stamp)) := by
    intro tag format hres k t hk
    obtain ⟨firstRow, rest, hrows, hlen, hpoint⟩ := parseTabular_ok h tag format clocks ticks
      rows out hres
    have hklt : k < rows.length := by
      rw [← hlen]
      exact (List.getElem?_eq_some_iff.mp hk).1
    obtain ⟨y, t', hy, ht', hout⟩ := hpoint k rows[k] (List.getElem?_eq_getElem hklt)
    rw [hk] at hout
    injection hout with hout
    subst hout
    obtain ⟨amount, type, hyform, -⟩ := tabularRow_ok h tag _ clocks k _ y hy
    rw [hyform] at ht'
    obtain ⟨d, a, ty, c, -, -, -, -, -, -, -, -, -, hid, -⟩ :=
      normalizeTransaction_fields_parts h _ _ _ _ _ _ _ _ ht'
    rw [hid, idOrGenerated_truthy _ _ (tabular_id_truthy tag k _)]
  have distinct : ∀ tag format : String, parseTabular h tag format clocks ticks rows = .ok out →
      getProp ti "id" ≠ getProp tj "id" := by
    intro tag format hres heq
    rw [key tag format hres i ti hi, key tag format hres j tj hj] at heq
    injection heq with heq
    injection heq with heq
    exact generated_ids_distinct tag i j _ _ hij heq
  exact ⟨fun hres => ⟨key "csv" "CSV" hres i ti hi, distinct "csv" "CSV" hres⟩,
    fun hres => ⟨key "excel" "Excel" hres i ti hi, distinct "excel" "Excel" hres⟩⟩

/-- C22, at a batch of two rows read at the same millisecond: the ids are
`csv-0-1710374400000` and `csv-1-1710374400000`. -/
theorem tabular_ids_distinct_witness :
    getProp (JSVal.obj [("id", .str "csv-0-1710374400000"), ("date", .str "2024-03-14"),
        ("description", .str "Rent"), ("amount", .num (.fin 0)), ("type", .str "expense"),
        ("category", .str "Other")]) "id" ≠
      getProp (JSVal.obj [("id", .str "csv-1-1710374400000"), ("date", .str "2024-03-14"),
        ("description", .str "Fees"), ("amount", .num (.fin 0)), ("type", .str "expense"),
        ("category", .str "Other")]) "id" :=
  ((tabular_ids_distinct utcHost (fun _ => ⟨1710374400000, 1710374400000⟩) sampleTicks
    [[("Narration", .str "Rent")], [("Narration", .str "Fees")]]
    [JSVal.obj [("id", .str "csv-0-1710374400000"), ("date", .str "2024-03-14"),
        ("description", .str "Rent"), ("amount", .num (.fin 0)), ("type", .str "expense"),
        ("category", .str "Other")],
      JSVal.obj [("id", .str "csv-1-1710374400000"), ("date", .str "2024-03-14"),
        ("description", .str "Fees"), ("amount", .num (.fin 0)), ("type", .str "expense"),
        ("category", .str "Other")]] 0 1 _ _ rfl rfl (by decide)).1
    (by with_unfolding_all rfl)).2

/-- A cell read from a row whose cells are converted to a primitive without
an exception is converted without an exception (a missing cell is
`undefined`). -/
theorem throwsToString_lookupProp (row : List (String × JSVal))
    (hrow : ∀ p ∈ row, throwsToString p.2 = false) (key : String) :
    throwsToString (lookupProp key row) = false := by
  induction row with
  | nil => unfold throwsToString; rfl
  | cons p rest ih =>
    obtain ⟨k, v⟩ := p
    by_cases hk : k = key
    · simp only [lookupProp, hk, if_true]
      exact hrow (k, v) (by simp)
    · simp only [lookupProp, hk, if_false]
      exact ih (fun p hp => hrow p (by simp [hp]))

/-- A `map` over a list of any kind returns exactly when its callback returns
on every element. -/
theorem mapIdxE_returns {α : Type} (f : Nat → α → Except String JSVal) :
    ∀ (xs : List α) (i : Nat),
      (∃ ys, mapIdxE f i xs = .ok ys) ↔
        ∀ (j : Nat) (x : α), xs[j]? = some x → ∃ y, f (i + j) x = .ok y := by
  intro xs
  induction xs with
  | nil =>
    intro i
    constructor
    · intro _ j x hj; simp at hj
    · intro _; exact ⟨[], rfl⟩
  | cons x0 xs ih =>
    intro i
    constructor
    · rintro ⟨ys, hys⟩ j x hj
      obtain ⟨y, -, hy⟩ := mapIdxE_getElem? f (x0 :: xs) i ys hys j x hj
      exact ⟨y, hy⟩
    · intro hall
      obtain ⟨y0, hy0⟩ := hall 0 x0 (by simp)
      have hrest : ∀ (j : Nat) (x : α), xs[j]? = some x → ∃ y, f (i + 1 + j) x = .ok y := by
        intro j x hj
        have := hall (j + 1) x (by simpa using hj)
        have he : i + (j + 1) = i + 1 + j := by omega
        rw [he] at this
        exact this
      obtain ⟨ys, hys⟩ := (ih (i + 1)).mpr hrest
      refine ⟨y0 :: ys, ?_⟩
      unfold mapIdxE
      simp only [Nat.add_zero] at hy0
      rw [hy0, hys]

/-- The normalizer reads the amount zero back as zero. -/
theorem normalized_zero_amount (h : Host) :
    ensurePositiveNumber h (.num JSNum.zero.abs) = .ok (JSNum.fin 0) := by
  with_unfolding_all rfl

/-- The type read from the type column is a fixed point of the type
coercion. -/
theorem normalizeTransactionType_of_type (h : Host) (type : String)
    (ht : type = "revenue" ∨ type = "expense") :
    normalizeTransactionType h (.str type) = .ok type := by
  rcases ht with rfl | rfl
  · exact normalizeTransactionType_fixed h true
  · exact normalizeTransactionType_fixed h false

/-- The final transaction of one row of the tabular extractors. -/
theorem tabular_final (h : Host) (tag : String) (cols : Columns) (clocks : Nat → RowClock)
    (k : Tick) (index : Nat) (row : List (String × JSVal)) (y t : JSVal)
    (hy : tabularRow h tag cols clocks index row = .ok y)
    (ht : normalizeTransaction h k y = .ok t) :
    getProp t "description" = .ok (.str (match truthyCell cols.descriptionColumn row with
        | some cell => strOf h cell
        | none => "Transaction " ++ natToString (index + 1)))
    ∧ (cols.amountColumn = none → getProp t "amount" = .ok (.num (.fin 0)))
    ∧ (cols.typeColumn ≠ none ∨ cols.amountColumn = none →
        getProp t "type" = .ok (.str (match truthyCell cols.typeColumn row with
          | some cell =>
            if includes (toLowerCase (strOf h cell)) "income"
                || includes (toLowerCase (strOf h cell)) "revenue"
                || includes (toLowerCase (strOf h cell)) "credit" then "revenue"
            else "expense"
          | none => "expense"))) := by
  obtain ⟨amount, type, hyform, htype, hamount, htypeval, -⟩ :=
    tabularRow_ok h tag cols clocks index row y hy
  rw [hyform] at ht
  obtain ⟨d, a, ty, c, hd, ha, hty, -, -, pa, pty, pd, -⟩ :=
    normalizeTransaction_fields_parts h _ _ _ _ _ _ _ t ht
  rw [ensureString_str] at hd
  injection hd with hd
  rw [normalizeTransactionType_of_type h type htype] at hty
  injection hty with hty
  subst hd hty
  refine ⟨pd, ?_, ?_⟩
  · intro hcol
    rw [hamount hcol, normalized_zero_amount] at ha
    injection ha with ha
    rw [pa, ← ha]
    split <;> simp [JSNum.abs, JSNum.neg]
  · intro hcol
    rw [pty]
    exact congrArg (fun s => Except.ok (JSVal.str s)) (htypeval hcol)

/-- C24, refuted as stated: in the CSV extractor the only row of
`[{Type: "Income"}]` has no amount column, so its amount is `0`, and its type
is `revenue`, read from the type column. -/
theorem tabular_row_defaults_counterexample :
    ¬ (∀ (h : Host) (clocks : Nat → RowClock) (ticks : Nat → Tick)
        (firstRow : List (String × JSVal)) (rest : List (List (String × JSVal)))
        (out : List JSVal) (i : Nat) (t : JSVal),
        parseCSVFile h clocks ticks (firstRow :: rest) = .ok out →
        (detectColumns firstRow).amountColumn = none → out[i]? = some t →
        getProp t "amount" = .ok (.num (.fin 0)) ∧ getProp t "type" = .ok (.str "expense")) := by
  intro hall
  have hrun : parseCSVFile sampleHost sampleClocks sampleTicks [[("Type", .str "Income")]] =
      .ok [.obj [("id", .str "csv-0-1710374400000"), ("date", .str "2024-03-14"),
        ("description", .str "Transaction 1"), ("amount", .num (.fin 0)),
        ("type", .str "revenue"), ("category", .str "Other")]] := by
    with_unfolding_all rfl
  have h1 := (hall sampleHost sampleClocks sampleTicks [("Type", .str "Income")] [] _ 0 _
    hrun (by decide) rfl).2
  simp [getProp, lookupProp] at h1

/-- C24, amended: a run of the CSV or of the Excel extractor that returns
gives one transaction per row, in row order, and it returns whenever the
conversion to a primitive throws on no cell (it throws on no string, number,
boolean or `Date` object, which are the cells that `csv-parser` and
`sheet_to_json` give) and no amount cell is `null`.
For the row at index `i`: when no description column was found or the
description cell is falsy, the description is `Transaction {i+1}`; when no
amount column was found, the amount is `0` and the type is the one read from
the type column (`revenue` when the type cell is truthy and holds `income`,
`revenue` or `credit`), so it is `expense` when there is no type column
either. -/
theorem tabular_row_defaults (h : Host) (clocks : Nat → RowClock) (ticks : Nat → Tick)
    (firstRow : List (String × JSVal)) (rest : List (List (String × JSVal)))
    (parse : Host → (Nat → RowClock) → (Nat → Tick) → List (List (String × JSVal)) →
      Except String (List JSVal))
    (hparse : parse = parseCSVFile ∨ parse = parseExcelFile) :
    (∀ out : List JSVal, parse h clocks ticks (firstRow :: rest) = .ok out →
      out.length = (firstRow :: rest).length
      ∧ ∀ (i : Nat) (row : List (String × JSVal)), (firstRow :: rest)[i]? = some row →
          ∃ t : JSVal, out[i]? = some t
            ∧ (truthyCell (detectColumns firstRow).descriptionColumn row = none →
                getProp t "description" = .ok (.str ("Transaction " ++ natToString (i + 1))))
            ∧ ((detectColumns firstRow).amountColumn = none →
                getProp t "amount" = .ok (.num (.fin 0))
                ∧ getProp t "type" = .ok (.str
                    (match truthyCell (detectColumns firstRow).typeColumn row with
                      | some cell =>
                        if includes (toLowerCase (strOf h cell)) "income"
                            || includes (toLowerCase (strOf h cell)) "revenue"
                            || includes (toLowerCase (strOf h cell)) "credit" then "revenue"
                        else "expense"
                      | none => "expense"))
                ∧ ((detectColumns firstRow).typeColumn = none →
                    getProp t "type" = .ok (.str "expense"))))
    ∧ ((∀ row ∈ firstRow :: rest, ∀ p ∈ row, throwsToString p.2 = false) →
        (∀ row ∈ firstRow :: rest, ∀ col : String,
          (detectColumns firstRow).amountColumn = some col → lookupProp col row ≠ .null) →
        ∃ out : List JSVal, parse h clocks ticks (firstRow :: rest) = .ok out) := by
  have key : ∀ tag format : String,
      (∀ out : List JSVal, parseTabular h tag format clocks ticks (firstRow :: rest) = .ok out →
        out.length = (firstRow :: rest).length
        ∧ ∀ (i : Nat) (row : List (String × JSVal)), (firstRow :: rest)[i]? = some row →
            ∃ t : JSVal, out[i]? = some t
              ∧ (truthyCell (detectColumns firstRow).descriptionColumn row = none →
                  getProp t "description" = .ok (.str ("Transaction " ++ natToString (i + 1))))
              ∧ ((detectColumns firstRow).amountColumn = none →
                  getProp t "amount" = .ok (.num (.fin 0))
                  ∧ getProp t "type" = .ok (.str
                      (match truthyCell (detectColumns firstRow).typeColumn row with
                        | some cell =>
                          if includes (toLowerCase (strOf h cell)) "income"
                              || includes (toLowerCase (strOf h cell)) "revenue"
                              || includes (toLowerCase (strOf h cell)) "credit" then "revenue"
                          else "expense"
                        | none => "expense"))
                  ∧ ((detectColumns firstRow).typeColumn = none →
                      getProp t "type" = .ok (.str "expense"))))
      ∧ ((∀ row ∈ firstRow :: rest, ∀ p ∈ row, throwsToString p.2 = false) →
          (∀ row ∈ firstRow :: rest, ∀ col : String,
            (detectColumns firstRow).amountColumn = some col → lookupProp col row ≠ .null) →
          ∃ out : List JSVal, parseTabular h tag format clocks ticks (firstRow :: rest)
            = .ok out) := by
    intro tag format
    constructor
    · intro out hres
      obtain ⟨first2, rest2, hrows, hlen, hpoint⟩ := parseTabular_ok h tag format clocks ticks
        _ out hres
      injection hrows with hf hr
      subst hf
      refine ⟨hlen, ?_⟩
      intro i row hrow
      obtain ⟨y, t, hy, ht, hout⟩ := hpoint i row hrow
      obtain ⟨hdesc, hamount, htype⟩ := tabular_final h tag _ clocks (ticks i) i row y t hy ht
      refine ⟨t, hout, ?_, ?_⟩
      · intro hnone
        rw [hdesc, hnone]
      · intro hcol
        refine ⟨hamount hcol, htype (Or.inr hcol), ?_⟩
        intro htc
        rw [htype (Or.inr hcol), htc]
        rfl
    · intro hprim hnull
      have hcell : ∀ row ∈ firstRow :: rest, ∀ key : String,
          throwsToString (lookupProp key row) = false := by
        intro row hmem key
        exact throwsToString_lookupProp row (hprim row hmem) key
      have hcall : ∀ row ∈ firstRow :: rest, ∀ (column : Option String) (cell : JSVal),
          truthyCell column row = some cell → callToString h cell = .ok (strOf h cell) := by
        intro row hmem column cell hc
        obtain ⟨hu, hn⟩ := truthyCell_some column row cell hc
        have hl : ∃ key, cell = lookupProp key row := by
          cases column with
          | none => simp [truthyCell] at hc
          | some key =>
            simp only [truthyCell] at hc
            split at hc
            · injection hc with hc; exact ⟨key, hc.symm⟩
            · cases hc
        obtain ⟨key, rfl⟩ := hl
        exact callToString_of_not_throws h _ hu hn (hcell row hmem key)
      have hrowok : ∀ (j : Nat) (row : List (String × JSVal)), row ∈ firstRow :: rest →
          ∃ y, tabularRow h tag (detectColumns firstRow) clocks j row = .ok y := by
        intro j row hmem
        have h1 : ∃ type1, rowType h (detectColumns firstRow) row = .ok type1 := by
          unfold rowType
          cases htc : truthyCell (detectColumns firstRow).typeColumn row with
          | none => exact ⟨_, rfl⟩
          | some cell =>
            simp only [hcall row hmem _ cell htc]
            exact ⟨_, rfl⟩
        obtain ⟨type1, h1⟩ := h1
        have h2 : ∃ p, rowAmount h (detectColumns firstRow) row type1 = .ok p := by
          unfold rowAmount
          cases hac : (detectColumns firstRow).amountColumn with
          | none => exact ⟨_, rfl⟩
          | some col =>
            simp only
            by_cases hdef : isDefined (lookupProp col row) = true
            · simp only [hdef, if_true]
              have hu : lookupProp col row ≠ .undefined := by
                intro hu; rw [hu] at hdef; simp [isDefined] at hdef
              rw [callToString_of_not_throws h _ hu (hnull row hmem col hac)
                (hcell row hmem col)]
              exact ⟨_, rfl⟩
            · simp only [hdef, Bool.false_eq_true, if_false]
              exact ⟨_, rfl⟩
        obtain ⟨⟨amount, type⟩, h2⟩ := h2
        have h3 : ∃ d, rowDate h (detectColumns firstRow) clocks j row = .ok d := by
          unfold rowDate
          cases hdc : truthyCell (detectColumns firstRow).dateColumn row with
          | none => exact ⟨_, rfl⟩
          | some cell =>
            simp only
            have hl : ∃ key, cell = lookupProp key row := by
              cases hcol : (detectColumns firstRow).dateColumn with
              | none => rw [hcol] at hdc; simp [truthyCell] at hdc
              | some key =>
                rw [hcol] at hdc
                simp only [truthyCell] at hdc
                split at hdc
                · injection hdc with hdc; exact ⟨key, hdc.symm⟩
                · cases hdc
            obtain ⟨key, rfl⟩ := hl
            exact ⟨_, newDate_of_not_throws h _ (hcell row hmem key)⟩
        obtain ⟨d, h3⟩ := h3
        have h4 : ∃ s, rowDescription h (detectColumns firstRow) j row = .ok s := by
          unfold rowDescription
          cases hdc : truthyCell (detectColumns firstRow).descriptionColumn row with
          | none => exact ⟨_, rfl⟩
          | some cell =>
            simp only [hcall row hmem _ cell hdc]
            exact ⟨_, rfl⟩
        obtain ⟨s, h4⟩ := h4
        unfold tabularRow
        simp only [h1, h2, h3, h4]
        exact ⟨_, rfl⟩
      have hmapped : ∃ mapped, mapIdxE (tabularRow h tag (detectColumns firstRow) clocks) 0
          (firstRow :: rest) = .ok mapped := by
        apply (mapIdxE_returns _ (firstRow :: rest) 0).mpr
        intro j row hj
        exact hrowok (0 + j) row (List.mem_iff_getElem?.mpr ⟨j, hj⟩)
      obtain ⟨mapped, hmap⟩ := hmapped
      have hout : ∃ out, mapIdxM (fun j v => normalizeTransaction h (ticks j) v) 0 mapped
          = .ok out := by
        apply (mapIdxM_returns _ mapped 0).mpr
        intro j y hy
        have hlen := mapIdxE_length _ _ 0 _ hmap
        have hj : j < (firstRow :: rest).length := by
          rw [← hlen]
          exact (List.getElem?_eq_some_iff.mp hy).1
        have hx : (firstRow :: rest)[j]? = some (firstRow :: rest)[j] :=
          List.getElem?_eq_getElem hj
        obtain ⟨y2, hy2, hfy2⟩ := mapIdxE_getElem? _ _ 0 _ hmap j _ hx
        rw [hy] at hy2
        injection hy2 with hy2
        subst hy2
        obtain ⟨amount, type, hyform, htype, -⟩ := tabularRow_ok h tag _ clocks _ _ y hfy2
        rw [hyform, normalizeTransaction_fields]
        apply (normalizedTransaction_returns h _ _ _ _ _ _ _).mpr
        refine ⟨throwsToString_str _, throwsToString_num _, throwsToString_str _, ?_⟩
        rw [throwsToString_orElse_str]
        exact hcell _ (List.getElem_mem _) "category"
      obtain ⟨out, hnorm⟩ := hout
      have hn2 : normalizeTransactionData h ticks (.arr mapped) = .ok out := hnorm
      exact ⟨out, by simp only [parseTabular, hmap, hn2]⟩
  rcases hparse with rfl | rfl
  · exact key "csv" "CSV"
  · exact key "excel" "Excel"

/-- C24 amended, at a concrete batch: the second row of a file without
description, amount and type column becomes `Transaction 2`, of amount `0`
and type `expense`. -/
theorem tabular_row_defaults_witness :
    ∃ t : JSVal,
      [JSVal.obj [("id", .str "csv-0-1710374400000"), ("date", .str "2024-03-14"),
          ("description", .str "Transaction 1"), ("amount", .num (.fin 0)),
          ("type", .str "expense"), ("category", .str "Other")],
        JSVal.obj [("id", .str "csv-1-1710374400001"), ("date", .str "2024-03-14"),
          ("description", .str "Transaction 2"), ("amount", .num (.fin 0)),
          ("type", .str "expense"), ("category", .str "Other")]][1]? = some t
      ∧ getProp t "description" = .ok (.str "Transaction 2")
      ∧ getProp t "amount" = .ok (.num (.fin 0))
      ∧ getProp t "type" = .ok (.str "expense") := by
  obtain ⟨t, ht, hdesc, hrest⟩ := ((tabular_row_defaults utcHost sampleClocks sampleTicks
    [("Note", .str "a")] [[("Note", .str "b")]] parseCSVFile (Or.inl rfl)).1 _
    (show parseCSVFile utcHost sampleClocks sampleTicks
        [[("Note", .str "a")], [("Note", .str "b")]] =
      .ok [JSVal.obj [("id", .str "csv-0-1710374400000"), ("date", .str "2024-03-14"),
          ("description", .str "Transaction 1"), ("amount", .num (.fin 0)),
          ("type", .str "expense"), ("category", .str "Other")],
        JSVal.obj [("id", .str "csv-1-1710374400001"), ("date", .str "2024-03-14"),
          ("description", .str "Transaction 2"), ("amount", .num (.fin 0)),
          ("type", .str "expense"), ("category", .str "Other")]] by
      with_unfolding_all rfl)).2 1 [("Note", .str "b")] rfl
  exact ⟨t, ht, hdesc rfl, (hrest rfl).1, (hrest rfl).2.2 rfl⟩

/-- C29: in the CSV and in the Excel extractor, when a type column was
found, the final type of a row is `revenue` or `expense`, and it is `revenue`
if and only if the type cell of the row is truthy (for a string: non-empty)
and its lower-cased text contains `income`, `revenue` or `credit`: the amount
takes no part.  So the type cells `Deposit`, `Sale` and `Inflow` give
`expense`, although `normalizeTransactionType` alone maps them to
`revenue`. -/
theorem tabular_type_column (h : Host) (clocks : Nat → RowClock) (ticks : Nat → Tick)
    (firstRow : List (String × JSVal)) (rest : List (List (String × JSVal)))
    (parse : Host → (Nat → RowClock) → (Nat → Tick) → List (List (String × JSVal)) →
      Except String (List JSVal))
    (hparse : parse = parseCSVFile ∨ parse = parseExcelFile)
    (col : String) (hcol : (detectColumns firstRow).typeColumn = some col)
    (out : List JSVal) (hres : parse h clocks ticks (firstRow :: rest) = .ok out)
    (i : Nat) (row : List (String × JSVal)) (hrow : (firstRow :: rest)[i]? = some row) :
    ∃ t : JSVal, out[i]? = some t
      ∧ (getProp t "type" = .ok (.str "revenue") ∨ getProp t "type" = .ok (.str "expense"))
      ∧ (getProp t "type" = .ok (.str "revenue") ↔
          toBoolean (lookupProp col row) = true
          ∧ (includes (toLowerCase (strOf h (lookupProp col row))) "income" = true
            ∨ includes (toLowerCase (strOf h (lookupProp col row))) "revenue" = true
            ∨ includes (toLowerCase (strOf h (lookupProp col row))) "credit" = true))
      ∧ (∀ s : String, lookupProp col row = .str s → s = "Deposit" ∨ s = "Sale" ∨ s = "Inflow" →
          getProp t "type" = .ok (.str "expense")
          ∧ normalizeTransactionType h (.str s) = .ok "revenue") := by
  have key : ∀ tag format : String,
      parseTabular h tag format clocks ticks (firstRow :: rest) = .ok out →
      ∃ t : JSVal, out[i]? = some t
        ∧ getProp t "type" = .ok (.str
            (if toBoolean (lookupProp col row) = true then
              (if includes (toLowerCase (strOf h (lookupProp col row))) "income"
                  || includes (toLowerCase (strOf h (lookupProp col row))) "revenue"
                  || includes (toLowerCase (strOf h (lookupProp col row))) "credit"
                then "revenue" else "expense")
            else "expense")) := by
    intro tag format hres2
    obtain ⟨first2, rest2, hrows, -, hpoint⟩ := parseTabular_ok h tag format clocks ticks
      _ out hres2
    injection hrows with hf hr
    subst hf
    obtain ⟨y, t, hy, ht, hout⟩ := hpoint i row hrow
    obtain ⟨-, -, htype⟩ := tabular_final h tag _ clocks (ticks i) i row y t hy ht
    refine ⟨t, hout, ?_⟩
    rw [htype (Or.inl (by rw [hcol]; exact Option.some_ne_none _)), hcol]
    simp only [truthyCell]
    by_cases hb : toBoolean (lookupProp col row) = true
    · simp only [hb, if_true]
    · simp only [hb, Bool.false_eq_true, if_false]
  have hkey : ∃ t : JSVal, out[i]? = some t
        ∧ getProp t "type" = .ok (.str
            (if toBoolean (lookupProp col row) = true then
              (if includes (toLowerCase (strOf h (lookupProp col row))) "income"
                  || includes (toLowerCase (strOf h (lookupProp col row))) "revenue"
                  || includes (toLowerCase (strOf h (lookupProp col row))) "credit"
                then "revenue" else "expense")
            else "expense")) := by
    rcases hparse with rfl | rfl
    · exact key "csv" "CSV" hres
    · exact key "excel" "Excel" hres
  obtain ⟨t, hout, htype⟩ := hkey
  have hne : (Except.ok (JSVal.str "expense") : Except String JSVal)
      ≠ .ok (.str "revenue") := by
    intro he
    injection he with he
    injection he with he
    exact absurd he (by decide)
  refine ⟨t, hout, ?_, ?_, ?_⟩
  · rw [htype]
    split
    · split
      · exact Or.inl rfl
      · exact Or.inr rfl
    · exact Or.inr rfl
  · rw [htype]
    by_cases hb : toBoolean (lookupProp col row) = true
    · simp only [hb, if_true, true_and]
      by_cases hk : (includes (toLowerCase (strOf h (lookupProp col row))) "income"
                  || includes (toLowerCase (strOf h (lookupProp col row))) "revenue"
                  || includes (toLowerCase (strOf h (lookupProp col row))) "credit") = true
      · simp only [hk, if_true, true_iff]
        simpa [Bool.or_eq_true, or_assoc] using hk
      · simp only [hk, Bool.false_eq_true, if_false]
        constructor
        · intro he
          exact absurd he hne
        · intro hor
          exact absurd (by simpa [Bool.or_eq_true, or_assoc] using hor) hk
    · simp only [hb, Bool.false_eq_true, if_false, false_and, iff_false]
      exact hne
  · intro s hs hmem
    rw [htype, hs]
    rcases hmem with rfl | rfl | rfl
    · exact ⟨by with_unfolding_all rfl, by with_unfolding_all rfl⟩
    · exact ⟨by with_unfolding_all rfl, by with_unfolding_all rfl⟩
    · exact ⟨by with_unfolding_all rfl, by with_unfolding_all rfl⟩

/-- C29 at a concrete batch: a row of type cell `Deposit` and amount `500`
becomes an expense. -/
theorem tabular_type_column_witness :
    ∃ t : JSVal,
      [JSVal.obj [("id", .str "csv-0-1710374400000"), ("date", .str "2024-03-14"),
          ("description", .str "Transaction 1"), ("amount", .num (.fin (-500))),
          ("type", .str "expense"), ("category", .str "Other")]][0]? = some t
      ∧ getProp t "type" = .ok (.str "expense")
      ∧ normalizeTransactionType utcHost (.str "Deposit") = .ok "revenue" := by
  obtain ⟨t, ht, -, -, hex⟩ := tabular_type_column utcHost sampleClocks sampleTicks
    [("Type", .str "Deposit"), ("Amount", .str "500")] [] parseCSVFile (Or.inl rfl)
    "Type" (by decide) _
    (show parseCSVFile utcHost sampleClocks sampleTicks
        [[("Type", .str "Deposit"), ("Amount", .str "500")]] =
      .ok [JSVal.obj [("id", .str "csv-0-1710374400000"), ("date", .str "2024-03-14"),
          ("description", .str "Transaction 1"), ("amount", .num (.fin (-500))),
          ("type", .str "expense"), ("category", .str "Other")]] by
      with_unfolding_all rfl) 0 [("Type", .str "Deposit"), ("Amount", .str "500")] rfl
  exact ⟨t, ht, hex "Deposit" rfl (Or.inl rfl)⟩

/-- C30: the found columns need not be distinct.  For the columns
`Value Date` and `Amount` both the date column and the amount column are
`Value Date`; so the row `{"Value Date": "2024-01-05", "Amount": "-1200"}`
becomes, in the CSV and in the Excel extractor, a revenue of amount `2024`,
read from the date cell, and the cell `-1200` is not read at all. -/
theorem tabular_columns_overlap :
    (∀ v w : JSVal,
      (detectColumns [("Value Date", v), ("Amount", w)]).dateColumn = some "Value Date"
      ∧ (detectColumns [("Value Date", v), ("Amount", w)]).amountColumn = some "Value Date")
    ∧ (∀ (h : Host) (clocks : Nat → RowClock) (ticks : Nat → Tick) (w : JSVal),
        parseCSVFile h clocks ticks [[("Value Date", .str "2024-01-05"), ("Amount", w)]] =
          .ok [.obj [("id", .str ("csv-0-" ++ natToString (clocks 0).stamp)),
            ("date", .str (ensureValidDate h (ticks 0).today
              (.date (h.newDate (.str "2024-01-05"))))),
            ("description", .str "Transaction 1"), ("amount", .num (.fin 2024)),
            ("type", .str "revenue"), ("category", .str "Other")]]
        ∧ parseExcelFile h clocks ticks [[("Value Date", .str "2024-01-05"), ("Amount", w)]] =
          .ok [.obj [("id", .str ("excel-0-" ++ natToString (clocks 0).stamp)),
            ("date", .str (ensureValidDate h (ticks 0).today
              (.date (h.newDate (.str "2024-01-05"))))),
            ("description", .str "Transaction 1"), ("amount", .num (.fin 2024)),
            ("type", .str "revenue"), ("category", .str "Other")]])
    ∧ parseCSVFile utcHost sampleClocks sampleTicks
        [[("Value Date", .str "2024-01-05"), ("Amount", .str "-1200")]] =
      .ok [.obj [("id", .str "csv-0-1710374400000"), ("date", .str "2024-01-05"),
        ("description", .str "Transaction 1"), ("amount", .num (.fin 2024)),
        ("type", .str "revenue"), ("category", .str "Other")]] := by
  refine ⟨fun v w => ⟨by with_unfolding_all rfl, by with_unfolding_all rfl⟩, ?_, ?_⟩
  · intro h clocks ticks w
    constructor <;> with_unfolding_all rfl
  · with_unfolding_all rfl

/-- The month and the day of a civil date are in the calendar's ranges. -/
theorem civil_bounds (z0 : Int) :
    1 ≤ (civilFromDays z0).2.1 ∧ (civilFromDays z0).2.1 ≤ 12
    ∧ 1 ≤ (civilFromDays z0).2.2 ∧ (civilFromDays z0).2.2 ≤ 31 := by
  simp only [civilFromDays, Int.fdiv_eq_ediv _ (show (0:Int) ≤ 146097 by decide),
    Int.fdiv_eq_ediv _ (show (0:Int) ≤ 1460 by decide),
    Int.fdiv_eq_ediv _ (show (0:Int) ≤ 36524 by decide),
    Int.fdiv_eq_ediv _ (show (0:Int) ≤ 146096 by decide),
    Int.fdiv_eq_ediv _ (show (0:Int) ≤ 365 by decide),
    Int.fdiv_eq_ediv _ (show (0:Int) ≤ 4 by decide),
    Int.fdiv_eq_ediv _ (show (0:Int) ≤ 100 by decide),
    Int.fdiv_eq_ediv _ (show (0:Int) ≤ 153 by decide),
    Int.fdiv_eq_ediv _ (show (0:Int) ≤ 5 by decide)]
  split <;> omega

/-- The days from 0000-01-01 to 9999-12-31 have a year from 0 to 9999. -/
theorem civil_year_bounds (z0 : Int) (h1 : -719528 ≤ z0) (h2 : z0 ≤ 2932896) :
    0 ≤ (civilFromDays z0).1 ∧ (civilFromDays z0).1 ≤ 9999 := by
  by_cases hlow : z0 < -719468
  · have hz : ∃ k : Nat, k < 60 ∧ z0 = -719528 + k := ⟨(z0 + 719528).toNat, by omega, by omega⟩
    obtain ⟨k, hk, rfl⟩ := hz
    interval_cases k <;> decide
  · simp only [civilFromDays, Int.fdiv_eq_ediv _ (show (0:Int) ≤ 146097 by decide),
      Int.fdiv_eq_ediv _ (show (0:Int) ≤ 1460 by decide),
      Int.fdiv_eq_ediv _ (show (0:Int) ≤ 36524 by decide),
      Int.fdiv_eq_ediv _ (show (0:Int) ≤ 146096 by decide),
      Int.fdiv_eq_ediv _ (show (0:Int) ≤ 365 by decide),
      Int.fdiv_eq_ediv _ (show (0:Int) ≤ 4 by decide),
      Int.fdiv_eq_ediv _ (show (0:Int) ≤ 100 by decide),
      Int.fdiv_eq_ediv _ (show (0:Int) ≤ 153 by decide),
      Int.fdiv_eq_ediv _ (show (0:Int) ≤ 5 by decide)]
    have he : (z0 + 719468) / 146097 ≤ 24 := by omega
    have he0 : 0 ≤ (z0 + 719468) / 146097 := by omega
    by_cases h24 : (z0 + 719468) / 146097 = 24
    · rw [h24]
      have hz : z0 + 719468 - 24 * 146097 ≤ 146036 := by omega
      have hz0 : 0 ≤ z0 + 719468 - 24 * 146097 := by omega
      split <;> split <;> omega
    · split <;> split <;> omega

/-- A number below `10 ^ (k + 1)` is written with at most `k + 1` digits. -/
theorem toDigitsCore_length (f : Nat) : ∀ (n k : Nat), n < f → n < 10 ^ (k + 1) →
    (Nat.toDigitsCore 10 f n []).length ≤ k + 1 := by
  induction f with
  | zero => intro n k hn; omega
  | succ f ih =>
    intro n k hn hk
    simp only [Nat.toDigitsCore]
    by_cases h0 : n / 10 = 0
    · simp [h0]
    · simp only [h0, if_false]
      rw [toDigitsCore_append]
      cases k with
      | zero => omega
      | succ k =>
        have hlt : n / 10 < 10 ^ (k + 1) := by
          rw [Nat.div_lt_iff_lt_mul (by decide)]
          rw [pow_succ] at hk
          exact hk
        have := ih (n / 10) k (by omega) hlt
        simp only [List.length_append, List.length_singleton]
        omega

/-- The decimal form of a number below `10 ^ (k + 1)` has at most `k + 1`
characters. -/
theorem natToString_length (n k : Nat) (hk : n < 10 ^ (k + 1)) :
    (natToString n).data.length ≤ k + 1 := by
  have h := toDigitsCore_length (n + 1) n k (by omega) hk
  simpa [natToString, Nat.repr, Nat.toDigits, List.asString] using h

/-- Zeros in front of a run of digits do not change its value. -/
theorem digitsValue_zeros (k : Nat) (ds : List Char) :
    digitsValue (List.replicate k (Char.ofNat 48) ++ ds) = digitsValue ds := by
  have hz : ∀ k : Nat, List.foldl (fun acc c => 10 * acc + (c.toNat - 48)) 0
      (List.replicate k (Char.ofNat 48)) = 0 := by
    intro k
    induction k with
    | zero => rfl
    | succ k ih =>
      simp only [List.replicate_succ, List.foldl_cons]
      exact ih
  simp only [digitsValue, List.foldl_append, hz]

/-- The padded decimal form of a number that fits the width: it has the
width, it is made of digits and its value is the number. -/
theorem padDigits_spec (w n : Nat) (hn : (natToString n).data.length ≤ w) :
    (padDigits w n).data.length = w
    ∧ (∀ c ∈ (padDigits w n).data, isDecimalDigit c = true)
    ∧ digitsValue (padDigits w n).data = n := by
  obtain ⟨hv, hdig, -⟩ := natToString_spec n
  have hdata : (padDigits w n).data =
      List.replicate (w - (natToString n).data.length) (Char.ofNat 48) ++ (natToString n).data := by
    show (String.mk (List.replicate (w - (natToString n).length) (Char.ofNat 48))
      ++ natToString n).data = _
    rw [String.data_append]
    rfl
  rw [hdata]
  refine ⟨?_, ?_, ?_⟩
  · simp only [List.length_append, List.length_replicate]
    omega
  · intro c hc
    rcases List.mem_append.mp hc with hc | hc
    · rw [(List.mem_replicate.mp hc).2]
      decide
    · exact hdig c hc
  · rw [digitsValue_zeros, hv]

/-- The value of a run of `k` digits is below `10 ^ k`. -/
theorem digitsValue_lt (ds : List Char) (hd : ∀ c ∈ ds, isDecimalDigit c = true) :
    digitsValue ds < 10 ^ ds.length := by
  induction ds using List.reverseRecOn with
  | nil => simp [digitsValue]
  | append_singleton ds c ih =>
    rw [digitsValue_append_singleton]
    have h1 := ih (fun x hx => hd x (by simp [hx]))
    have h2 := hd c (by simp)
    simp only [isDecimalDigit, Bool.and_eq_true, decide_eq_true_eq] at h2
    simp only [List.length_append, List.length_singleton, pow_succ]
    omega

/-- Two runs of digits of the same length and of the same value are the same
run. -/
theorem digits_unique (a : List Char) : ∀ b : List Char, a.length = b.length →
    (∀ c ∈ a, isDecimalDigit c = true) → (∀ c ∈ b, isDecimalDigit c = true) →
    digitsValue a = digitsValue b → a = b := by
  induction a using List.reverseRecOn with
  | nil =>
    intro b hlen _ _ _
    simp only [List.length_nil] at hlen
    exact (List.length_eq_zero.mp hlen.symm).symm
  | append_singleton a x ih =>
    intro b hlen ha hb hv
    rcases List.eq_nil_or_concat b with rfl | ⟨b, y, rfl⟩
    · simp at hlen
    · rw [List.concat_eq_append] at hlen hv hb ⊢
      simp only [List.length_append, List.length_singleton, Nat.add_right_cancel_iff] at hlen
      rw [digitsValue_append_singleton, digitsValue_append_singleton] at hv
      have hx := ha x (by simp)
      have hy := hb y (by simp)
      simp only [isDecimalDigit, Bool.and_eq_true, decide_eq_true_eq] at hx hy
      have hxy : x.toNat = y.toNat := by omega
      have hab : digitsValue a = digitsValue b := by omega
      have hc : x = y := by
        rw [← Char.ofNat_toNat x, ← Char.ofNat_toNat y, hxy]
      rw [ih b hlen (fun c hc => ha c (by simp [hc])) (fun c hc => hb c (by simp [hc])) hab, hc]

/-- The padded decimal form of the value of a run of digits is the run. -/
theorem padDigits_digitsValue (ds : List Char) (hne : ds ≠ [])
    (hd : ∀ c ∈ ds, isDecimalDigit c = true) :
    padDigits ds.length (digitsValue ds) = String.mk ds := by
  have hlt := digitsValue_lt ds hd
  obtain ⟨k, hk⟩ : ∃ k, ds.length = k + 1 := by
    cases ds with
    | nil => exact absurd rfl hne
    | cons c ds => exact ⟨ds.length, rfl⟩
  have hlen := natToString_length (digitsValue ds) k (by rw [← hk]; exact hlt)
  obtain ⟨h1, h2, h3⟩ := padDigits_spec ds.length (digitsValue ds) (by omega)
  exact String.ext (digits_unique _ ds h1 h2 hd h3)

/-- Four digits, a hyphen, two digits, a hyphen and two digits make a day
string. -/
theorem isDayString_parts (a b c : List Char) (ha : a.length = 4) (hb : b.length = 2)
    (hc : c.length = 2) (hda : ∀ x ∈ a, isDecimalDigit x = true)
    (hdb : ∀ x ∈ b, isDecimalDigit x = true) (hdc : ∀ x ∈ c, isDecimalDigit x = true) :
    isDayString (String.mk a ++ "-" ++ String.mk b ++ "-" ++ String.mk c) = true := by
  rcases a with _ | ⟨y1, _ | ⟨y2, _ | ⟨y3, _ | ⟨y4, _ | ⟨y5, a⟩⟩⟩⟩⟩ <;>
    simp only [List.length_nil, List.length_cons] at ha <;> try omega
  rcases b with _ | ⟨m1, _ | ⟨m2, _ | ⟨m3, b⟩⟩⟩ <;>
    simp only [List.length_nil, List.length_cons] at hb <;> try omega
  rcases c with _ | ⟨d1, _ | ⟨d2, _ | ⟨d3, c⟩⟩⟩ <;>
    simp only [List.length_nil, List.length_cons] at hc <;> try omega
  have e1 := hda y1 (by simp)
  have e2 := hda y2 (by simp)
  have e3 := hda y3 (by simp)
  have e4 := hda y4 (by simp)
  have e5 := hdb m1 (by simp)
  have e6 := hdb m2 (by simp)
  have e7 := hdc d1 (by simp)
  have e8 := hdc d2 (by simp)
  have hdata : (String.mk [y1, y2, y3, y4] ++ "-" ++ String.mk [m1, m2] ++ "-"
      ++ String.mk [d1, d2]).data = [y1, y2, y3, y4, Char.ofNat 45, m1, m2, Char.ofNat 45, d1, d2] := by
    simp only [String.data_append]
    rfl
  simp only [isDayString, hdata, List.all_cons, List.all_nil, e1, e2, e3, e4, e5, e6, e7, e8]
  decide

/-- The date part of `toISOString()` is a day string for every time value
whose year is from 0 to 9999. -/
theorem isoDateOf_day (t : Int) (h1 : -62167219200000 ≤ t) (h2 : t < 253402300800000) :
    isDayString (isoDateOf t) = true := by
  have hdays : -719528 ≤ Int.fdiv t 86400000 ∧ Int.fdiv t 86400000 ≤ 2932896 := by
    rw [Int.fdiv_eq_ediv _ (show (0:Int) ≤ 86400000 by decide)]
    omega
  obtain ⟨hy1, hy2⟩ := civil_year_bounds _ hdays.1 hdays.2
  obtain ⟨hm1, hm2, hd1, hd2⟩ := civil_bounds (Int.fdiv t 86400000)
  rcases hciv : civilFromDays (Int.fdiv t 86400000) with ⟨y, m, d⟩
  rw [hciv] at hy1 hy2 hm1 hm2 hd1 hd2
  simp only at hy1 hy2 hm1 hm2 hd1 hd2
  simp only [isoDateOf, hciv, hy1, hy2, and_self, if_true]
  obtain ⟨a1, a2, -⟩ := padDigits_spec 4 y.toNat
    (natToString_length _ 3 (by omega))
  obtain ⟨b1, b2, -⟩ := padDigits_spec 2 m.toNat
    (natToString_length _ 1 (by omega))
  obtain ⟨c1, c2, -⟩ := padDigits_spec 2 d.toNat
    (natToString_length _ 1 (by omega))
  exact isDayString_parts _ _ _ a1 b1 c1 a2 b2 c2

/-- A string that `parseIsoDate` accepts is a day string, and the date part
of `toISOString()` of its time value is the string itself. -/
theorem isoDateOf_parseIsoDate (s : String) (t : Int) (h : parseIsoDate s = some t) :
    isoDateOf t = s ∧ isDayString s = true := by
  simp only [parseIsoDate] at h
  split at h
  · rename_i y1 y2 y3 y4 s1 m1 m2 s2 d1 d2 hdata
    split at h
    · rename_i hform
      split at h
      · rename_i hciv
        injection h with h
        simp only [Bool.and_eq_true, decide_eq_true_eq, List.all_cons, List.all_nil,
          Bool.and_true] at hform
        obtain ⟨⟨⟨e1, e2, e3, e4, e5, e6, e7, e8⟩, hs1⟩, hs2⟩ := hform
        have hs1c : s1 = Char.ofNat 45 := by rw [← Char.ofNat_toNat s1, hs1]
        have hs2c : s2 = Char.ofNat 45 := by rw [← Char.ofNat_toNat s2, hs2]
        have hday : isDayString s = true := by
          simp only [isDayString, hdata, List.all_cons, List.all_nil, e1, e2, e3, e4, e5, e6,
            e7, e8, hs1, hs2]
          decide
        refine ⟨?_, hday⟩
        have hdy : ∀ c ∈ [y1, y2, y3, y4], isDecimalDigit c = true := by
          intro c hc
          simp only [List.mem_cons, List.mem_singleton, List.not_mem_nil, or_false] at hc
          rcases hc with rfl | rfl | rfl | rfl <;> assumption
        have hdm : ∀ c ∈ [m1, m2], isDecimalDigit c = true := by
          intro c hc
          simp only [List.mem_cons, List.mem_singleton, List.not_mem_nil, or_false] at hc
          rcases hc with rfl | rfl <;> assumption
        have hdd : ∀ c ∈ [d1, d2], isDecimalDigit c = true := by
          intro c hc
          simp only [List.mem_cons, List.mem_singleton, List.not_mem_nil, or_false] at hc
          rcases hc with rfl | rfl <;> assumption
        have hylt := digitsValue_lt _ hdy
        have py : padDigits 4 (Int.ofNat (digitsValue [y1, y2, y3, y4])).toNat
            = String.mk [y1, y2, y3, y4] :=
          padDigits_digitsValue [y1, y2, y3, y4] (by simp) hdy
        have pm : padDigits 2 (Int.ofNat (digitsValue [m1, m2])).toNat = String.mk [m1, m2] :=
          padDigits_digitsValue [m1, m2] (by simp) hdm
        have pd : padDigits 2 (Int.ofNat (digitsValue [d1, d2])).toNat = String.mk [d1, d2] :=
          padDigits_digitsValue [d1, d2] (by simp) hdd
        simp only [List.length_cons, List.length_nil] at hylt
        have hfd : Int.fdiv (daysFromCivil (Int.ofNat (digitsValue [y1, y2, y3, y4]))
              (Int.ofNat (digitsValue [m1, m2])) (Int.ofNat (digitsValue [d1, d2])) * 86400000)
            86400000 = daysFromCivil (Int.ofNat (digitsValue [y1, y2, y3, y4]))
              (Int.ofNat (digitsValue [m1, m2])) (Int.ofNat (digitsValue [d1, d2])) :=
          Int.mul_fdiv_cancel _ (by decide)
        have hy0 : (0 : Int) ≤ Int.ofNat (digitsValue [y1, y2, y3, y4]) := Int.ofNat_nonneg _
        have hy9 : Int.ofNat (digitsValue [y1, y2, y3, y4]) ≤ 9999 := by
          have : digitsValue [y1, y2, y3, y4] ≤ 9999 := by omega
          exact Int.ofNat_le.mpr this
        rw [← h]
        simp only [isoDateOf, hfd, hciv, hy0, hy9, and_self, if_true]
        rw [py, pm, pd]
        apply String.ext
        rw [hdata, hs1c, hs2c]
        simp only [String.data_append]
        rfl
      · cases h
    · cases h
  · cases h

/-- C23, refuted as stated: a `Date` object of the year 10000 is a valid
date, and the date part of its `toISOString()` is `+010000-01-01`, which
is not of the form `YYYY-MM-DD`. -/
theorem ensureValidDate_day_counterexample :
    ¬ (∀ (h : Host) (today : String) (date : JSVal), h.isoDate = isoDateOf →
        isDayString today = true → isDayString (ensureValidDate h today date) = true) := by
  intro hall
  have h1 := hall utcHost "2024-03-14" (.date (some 253402300800000)) rfl (by decide)
  have h2 : ensureValidDate utcHost "2024-03-14" (.date (some 253402300800000))
      = "+010000-01-01" := by decide
  rw [h2] at h1
  exact absurd h1 (by decide)

/-- C23, amended: on a host whose `toISOString` follows the calendar,
`ensureValidDate` returns the current date when the input is missing
(`undefined`, `null`, the empty string) or does not parse to a valid date, and
otherwise the date part of `toISOString()` of the parsed time value, without
time of day.  That string has the form `YYYY-MM-DD` when the year is from 0 to
9999 (so the result always has, when the current date has); and a valid ISO
date string `YYYY-MM-DD` that the host parses as such is returned as it is. -/
theorem ensureValidDate_day (h : Host) (today : String) (date : JSVal)
    (hiso : h.isoDate = isoDateOf) :
    ((date = .undefined ∨ date = .null ∨ date = .str "" ∨ h.newDate date = none) →
        ensureValidDate h today date = today)
    ∧ (∀ t : Int, toBoolean date = true → h.newDate date = some t →
        ensureValidDate h today date = isoDateOf t)
    ∧ (isDayString today = true →
        (∀ t : Int, h.newDate date = some t → -62167219200000 ≤ t ∧ t < 253402300800000) →
        isDayString (ensureValidDate h today date) = true)
    ∧ (∀ (s : String) (t : Int), date = .str s → parseIsoDate s = some t →
        h.newDate date = some t → ensureValidDate h today date = s) := by
  refine ⟨?_, ?_, ?_, ?_⟩
  · rintro (rfl | rfl | rfl | hnone)
    · rfl
    · rfl
    · rfl
    · simp only [ensureValidDate, hnone]
      split <;> rfl
  · intro t htrue hnew
    simp only [ensureValidDate, htrue, hnew, hiso, Bool.not_true, Bool.false_eq_true, if_false]
  · intro htoday hrange
    simp only [ensureValidDate]
    split
    · exact htoday
    · cases hnew : h.newDate date with
      | none => exact htoday
      | some t =>
        simp only [hiso]
        exact isoDateOf_day t (hrange t hnew).1 (hrange t hnew).2
  · intro s t hs hparse hnew
    have htrue : toBoolean date = true := by
      rw [hs]
      by_cases he : s = ""
      · rw [he] at hparse
        cases hparse
      · simpa [toBoolean] using he
    simp only [ensureValidDate, htrue, hnew, hiso, Bool.not_true, Bool.false_eq_true, if_false]
    exact (isoDateOf_parseIsoDate s t hparse).1

/-- C23 amended, at concrete inputs: the ISO date string `2024-01-05` is
returned as it is, and `undefined` gives the current date. -/
theorem ensureValidDate_day_witness :
    ensureValidDate utcHost "2024-03-14" (.str "2024-01-05") = "2024-01-05"
    ∧ ensureValidDate utcHost "2024-03-14" .undefined = "2024-03-14" :=
  ⟨(ensureValidDate_day utcHost "2024-03-14" (.str "2024-01-05") rfl).2.2.2
      "2024-01-05" 1704412800000 rfl (by decide) (by decide),
    (ensureValidDate_day utcHost "2024-03-14" .undefined rfl).1 (Or.inl rfl)⟩

/-- The records behind a successful run of `parseJSONFile`: the transaction
at index `i` is the normalized form of the mapped record at index `i`. -/
theorem parseJSONFile_ok (h : Host) (clocks : Nat → RowClock) (ticks : Nat → Tick)
    (data : JSVal) (out : List JSVal) (hres : parseJSONFile h clocks ticks data = .ok out) :
    out.length = (jsonLocate data).length
    ∧ ∀ (i : Nat) (x : JSVal), (jsonLocate data)[i]? = some x →
        ∃ y t : JSVal, structuredRecord h "json" clocks i x = .ok y
          ∧ normalizeTransaction h (ticks i) y = .ok t ∧ out[i]? = some t := by
  simp only [parseJSONFile] at hres
  cases hdata : toBoolean data with
  | false => simp [hdata] at hres
  | true =>
    cases hloc : jsonLocate data with
    | nil => simp [hdata, hloc] at hres
    | cons x0 xs =>
      cases hmap : mapIdxM (structuredRecord h "json" clocks) 0 (x0 :: xs) with
      | error e => simp [hdata, hloc, hmap] at hres
      | ok mapped =>
        cases hnorm : normalizeTransactionData h ticks (.arr mapped) with
        | error e => simp [hdata, hloc, hmap, hnorm] at hres
        | ok res2 =>
          simp [hdata, hloc, hmap, hnorm] at hres
          subst hres
          constructor
          · rw [mapIdxM_length (fun j v => normalizeTransaction h (ticks j) v) mapped 0 res2 hnorm,
              mapIdxM_length _ (x0 :: xs) 0 mapped hmap]
          · intro i x hx
            obtain ⟨y, hy, hfy⟩ := mapIdxM_getElem? _ (x0 :: xs) 0 mapped hmap i x hx
            obtain ⟨t, ht, hft⟩ := mapIdxM_getElem?
              (fun j v => normalizeTransaction h (ticks j) v) mapped 0 res2 hnorm i y hy
            rw [Nat.zero_add] at hfy hft
            exact ⟨y, t, hfy, hft, ht⟩

/-- The records behind a successful run of `parseXMLFile`. -/
theorem parseXMLFile_ok (h : Host) (clocks : Nat → RowClock) (ticks : Nat → Tick)
    (result : JSVal) (out : List JSVal) (hres : parseXMLFile h clocks ticks result = .ok out) :
    ∃ located : List JSVal, xmlLocate result = .ok located
      ∧ out.length = located.length
      ∧ ∀ (i : Nat) (x : JSVal), located[i]? = some x →
          ∃ y t : JSVal, structuredRecord h "xml" clocks i x = .ok y
            ∧ normalizeTransaction h (ticks i) y = .ok t ∧ out[i]? = some t := by
  simp only [parseXMLFile] at hres
  cases hdata : toBoolean result with
  | false => simp [hdata] at hres
  | true =>
    cases hloc : xmlLocate result with
    | error e => simp [hdata, hloc] at hres
    | ok located =>
      cases located with
      | nil => simp [hdata, hloc] at hres
      | cons x0 xs =>
        cases hmap : mapIdxM (structuredRecord h "xml" clocks) 0 (x0 :: xs) with
        | error e => simp [hdata, hloc, hmap] at hres
        | ok mapped =>
          cases hnorm : normalizeTransactionData h ticks (.arr mapped) with
          | error e => simp [hdata, hloc, hmap, hnorm] at hres
          | ok res2 =>
            simp [hdata, hloc, hmap, hnorm] at hres
            subst hres
            refine ⟨x0 :: xs, rfl, ?_, ?_⟩
            · rw [mapIdxM_length (fun j v => normalizeTransaction h (ticks j) v) mapped 0 res2
                hnorm, mapIdxM_length _ (x0 :: xs) 0 mapped hmap]
            · intro i x hx
              obtain ⟨y, hy, hfy⟩ := mapIdxM_getElem? _ (x0 :: xs) 0 mapped hmap i x hx
              obtain ⟨t, ht, hft⟩ := mapIdxM_getElem?
                (fun j v => normalizeTransaction h (ticks j) v) mapped 0 res2 hnorm i y hy
              rw [Nat.zero_add] at hfy hft
              exact ⟨y, t, hfy, hft, ht⟩

/-- The final type and amount of a record of the structured extractors whose
type field is a non-empty string: the type is the normalized inline type, and
the amount is the absolute amount with the sign of that type. -/
theorem structured_typed_final (h : Host) (tag : String) (clocks : Nat → RowClock)
    (k : Tick) (index : Nat) (x : JSVal) (s : String) (y t : JSVal)
    (hty : propOf x "type" = .str s) (hs : s ≠ "")
    (hy : structuredRecord h tag clocks index x = .ok y)
    (ht : normalizeTransaction h k y = .ok t) :
    ∃ (a : JSNum) (ty : String) (n : JSNum),
      (if isDefined (propOf x "amount") then inlineAmount h (propOf x "amount")
        else .ok JSNum.zero) = .ok a
      ∧ normalizeTransactionType h (inlineType (.str s)) = .ok ty
      ∧ ensurePositiveNumber h (.num a.abs) = .ok n
      ∧ getProp t "type" = .ok (.str ty)
      ∧ getProp t "amount" = .ok (.num (if ty = "expense" then n.abs.neg else n.abs)) := by
  have htrue : toBoolean (propOf x "type") = true := by
    rw [hty]
    simpa [toBoolean] using hs
  obtain ⟨a, ha, hyform⟩ := structuredRecord_ok h tag clocks index x y hy
  rw [htrue] at hyform
  simp only [Bool.not_true, Bool.and_false, Bool.false_and, Bool.false_eq_true,
    if_false] at hyform
  rw [hty] at hyform
  rw [hyform] at ht
  obtain ⟨d, n, ty, c, -, hn, htyn, -, -, pa, pty, -⟩ :=
    normalizeTransaction_fields_parts h _ _ _ _ _ _ _ t ht
  exact ⟨a, ty, n, ha, htyn, hn, pty, pa⟩

/-- The lower case of a character is in lower case. -/
theorem lowerChar_idem (c : Char) : ∀ x ∈ lowerChar c, lowerChar x = [x] := by
  intro x hx
  unfold lowerChar at hx
  split at hx
  · rename_i hc
    simp only [List.mem_singleton] at hx
    have hc2 : c = Char.ofNat c.toNat := (Char.ofNat_toNat c).symm
    generalize c.toNat = n at hc hx hc2
    obtain ⟨h1, h2⟩ := hc
    subst hx
    interval_cases n <;> decide
  · split at hx
    · simp only [List.mem_cons, List.mem_singleton, List.not_mem_nil, or_false] at hx
      rcases hx with rfl | rfl <;> decide
    · split at hx
      · simp only [List.mem_singleton] at hx
        subst hx
        decide
      · rename_i h1 h2 h3
        simp only [List.mem_singleton] at hx
        subst hx
        simp only [lowerChar, h1, h2, h3, if_false]

/-- Lower-casing twice is lower-casing once. -/
theorem toLowerCase_idem (s : String) : toLowerCase (toLowerCase s) = toLowerCase s := by
  have hlist : ∀ l : List Char, (l.flatMap lowerChar).flatMap lowerChar = l.flatMap lowerChar := by
    intro l
    induction l with
    | nil => rfl
    | cons c l ih =>
      simp only [List.flatMap_cons, List.flatMap_append, ih]
      congr 1
      have hsub : ∀ m : List Char, (∀ x ∈ m, lowerChar x = [x]) → m.flatMap lowerChar = m := by
        intro m
        induction m with
        | nil => intro _; rfl
        | cons a m ihm =>
          intro hm
          simp only [List.flatMap_cons, hm a (by simp), List.singleton_append]
          rw [ihm (fun x hx => hm x (by simp [hx]))]
      exact hsub _ (lowerChar_idem c)
  simp only [toLowerCase, hlist]

/-- The type coercion of the normalizer does not see the case of a type
string. -/
theorem normalizeTransactionType_lower (h : Host) (s : String) (hs : s ≠ "") :
    normalizeTransactionType h (.str (toLowerCase s)) = normalizeTransactionType h (.str s) := by
  rw [normalizeTransactionType_str, normalizeTransactionType_str]
  have h3 : toBoolean (.str s) = true := by simpa [toBoolean] using hs
  rw [h3, toLowerCase_idem]
  cases hb : toBoolean (.str (toLowerCase s)) with
  | true => rfl
  | false =>
    have he : toLowerCase s = "" := by simpa [toBoolean] using hb
    rw [he]
    rfl

/-- The normalized inline type of a non-empty type string: it is the type
that `normalizeTransactionType` gives to the string itself, unless the string
holds `expense` or `debit` and none of `income`, `revenue`, `credit`, in
which case it is `expense`. -/
theorem normalized_inline_type (h : Host) (s : String) (hs : s ≠ "") :
    normalizeTransactionType h (inlineType (.str s)) =
      if hasInlineRevenueKeyword (toLowerCase s) || !hasInlineExpenseKeyword (toLowerCase s)
      then normalizeTransactionType h (.str s) else .ok "expense" := by
  have htrue : toBoolean (.str s) = true := by simpa [toBoolean] using hs
  have hor : orElse (.str s) (.str "expense") = .str s := by
    simp only [orElse, htrue, if_true]
  simp only [inlineType, hor]
  by_cases hrev : hasInlineRevenueKeyword (toLowerCase s) = true
  · have hrev2 := hrev
    simp only [hasInlineRevenueKeyword] at hrev2
    simp only [hrev, hrev2, if_true, Bool.true_or]
    have hfix : normalizeTransactionType h (.str "revenue") = .ok "revenue" :=
      normalizeTransactionType_fixed h true
    rw [hfix, normalizeTransactionType_str, htrue]
    have hkw : hasRevenueKeyword (toLowerCase s) = true := by
      simp only [Bool.or_eq_true] at hrev2
      simp only [hasRevenueKeyword, Bool.or_eq_true]
      rcases hrev2 with (h1 | h1) | h1
      · exact Or.inl (Or.inl (Or.inl (Or.inl (Or.inl (Or.inl (Or.inr h1))))))
      · exact Or.inl (Or.inl (Or.inl (Or.inl (Or.inl (Or.inl (Or.inl h1))))))
      · exact Or.inl (Or.inl (Or.inl (Or.inl (Or.inl (Or.inr h1)))))
    rw [hkw]
    rfl
  · have hrev2 := hrev
    simp only [hasInlineRevenueKeyword] at hrev2
    simp only [hrev, hrev2, Bool.false_eq_true, if_false, Bool.false_or]
    by_cases hexp : hasInlineExpenseKeyword (toLowerCase s) = true
    · have hexp2 := hexp
      simp only [hasInlineExpenseKeyword] at hexp2
      simp only [hexp, hexp2, if_true, Bool.not_true, Bool.false_eq_true, if_false]
      exact normalizeTransactionType_fixed h false
    · have hexp2 := hexp
      simp only [hasInlineExpenseKeyword] at hexp2
      simp only [hexp, hexp2, Bool.false_eq_true, if_false, Bool.not_false, if_true]
      exact normalizeTransactionType_lower h s hs

/-- C25, refuted as stated: the JSON record `{type: "Sales Expense",
amount: 40}` becomes an expense, while `normalizeTransactionType` maps
`Sales Expense` to `revenue`. -/
theorem structured_type_coercion_counterexample :
    ¬ (∀ (h : Host) (clocks : Nat → RowClock) (ticks : Nat → Tick) (data : JSVal)
        (out : List JSVal) (i : Nat) (x t : JSVal) (s ty : String),
        parseJSONFile h clocks ticks data = .ok out → (jsonLocate data)[i]? = some x →
        propOf x "type" = .str s → s ≠ "" → out[i]? = some t →
        normalizeTransactionType h (.str s) = .ok ty →
        getProp t "type" = .ok (.str ty)) := by
  intro hall
  have hrun : parseJSONFile utcHost sampleClocks sampleTicks
      (.arr [.obj [("type", .str "Sales Expense"), ("amount", .num (.fin 40))]]) =
      .ok [.obj [("id", .str "json-0-1710374400000"), ("date", .str "2024-03-14"),
        ("description", .str "Transaction 1"), ("amount", .num (.fin (-40))),
        ("type", .str "expense"), ("category", .str "Other")]] := by
    with_unfolding_all rfl
  have h1 := hall utcHost sampleClocks sampleTicks _ _ 0
    (.obj [("type", .str "Sales Expense"), ("amount", .num (.fin 40))]) _ "Sales Expense"
    "revenue" hrun rfl rfl (by decide) rfl (by with_unfolding_all rfl)
  simp [getProp, lookupProp] at h1

/-- C25, amended: in the structured extractors (JSON and XML), for a
located record whose type field is a non-empty string `s`, the type of the
final transaction equals `normalizeTransactionType(s)` whenever the lower case
of `s` holds `income`, `revenue` or `credit`, or holds neither `expense` nor
`debit` (as for `Deposit`); otherwise it is `expense`, whatever
`normalizeTransactionType(s)` is (as for `Sales Expense`). -/
theorem structured_type_coercion (h : Host) (clocks : Nat → RowClock) (ticks : Nat → Tick)
    (out : List JSVal) (i : Nat) (x : JSVal) (s : String)
    (hty : propOf x "type" = .str s) (hs : s ≠ "") :
    (∀ data : JSVal, parseJSONFile h clocks ticks data = .ok out →
        (jsonLocate data)[i]? = some x →
        ∃ (t : JSVal) (ty : String), out[i]? = some t
          ∧ normalizeTransactionType h (.str s) = .ok ty
          ∧ getProp t "type" = .ok (.str
              (if hasInlineRevenueKeyword (toLowerCase s)
                  || !hasInlineExpenseKeyword (toLowerCase s)
                then ty else "expense")))
    ∧ (∀ (result : JSVal) (located : List JSVal),
        parseXMLFile h clocks ticks result = .ok out →
        xmlLocate result = .ok located → located[i]? = some x →
        ∃ (t : JSVal) (ty : String), out[i]? = some t
          ∧ normalizeTransactionType h (.str s) = .ok ty
          ∧ getProp t "type" = .ok (.str
              (if hasInlineRevenueKeyword (toLowerCase s)
                  || !hasInlineExpenseKeyword (toLowerCase s)
                then ty else "expense"))) := by
  have key : ∀ (tag : String) (y t : JSVal), structuredRecord h tag clocks i x = .ok y →
      normalizeTransaction h (ticks i) y = .ok t →
      ∃ ty : String, normalizeTransactionType h (.str s) = .ok ty
        ∧ getProp t "type" = .ok (.str
            (if hasInlineRevenueKeyword (toLowerCase s)
                || !hasInlineExpenseKeyword (toLowerCase s)
              then ty else "expense")) := by
    intro tag y t hy ht
    obtain ⟨a, ty2, n, -, hty2, -, pty, -⟩ :=
      structured_typed_final h tag clocks (ticks i) i x s y t hty hs hy ht
    rw [normalized_inline_type h s hs] at hty2
    have hstr := normalizeTransactionType_str h s
    refine ⟨_, hstr, ?_⟩
    rw [pty]
    split at hty2
    · rw [hstr] at hty2
      injection hty2 with hty2
      rw [← hty2]
      rename_i hc
      rw [if_pos hc]
    · injection hty2 with hty2
      rename_i hc
      rw [if_neg hc, ← hty2]
  constructor
  · intro data hres hx
    obtain ⟨y, t, hy, ht, hout⟩ := (parseJSONFile_ok h clocks ticks data out hres).2 i x hx
    obtain ⟨ty, h1, h2⟩ := key "json" y t hy ht
    exact ⟨t, ty, hout, h1, h2⟩
  · intro result located hres hloc hx
    obtain ⟨located2, hloc2, -, hpoint⟩ := parseXMLFile_ok h clocks ticks result out hres
    rw [hloc] at hloc2
    injection hloc2 with hloc2
    subst hloc2
    obtain ⟨y, t, hy, ht, hout⟩ := hpoint i x hx
    obtain ⟨ty, h1, h2⟩ := key "xml" y t hy ht
    exact ⟨t, ty, hout, h1, h2⟩

/-- C25 amended, at a concrete record: the JSON record `{type: "Deposit",
amount: 100}` becomes a revenue, as `normalizeTransactionType` has it. -/
theorem structured_type_coercion_witness :
    ∃ t : JSVal,
      [JSVal.obj [("id", .str "json-0-1710374400000"), ("date", .str "2024-03-14"),
        ("description", .str "Transaction 1"), ("amount", .num (.fin 100)),
        ("type", .str "revenue"), ("category", .str "Other")]][0]? = some t
      ∧ normalizeTransactionType utcHost (.str "Deposit") = .ok "revenue"
      ∧ getProp t "type" = .ok (.str "revenue") := by
  obtain ⟨t, ty, ht, hn, hty⟩ := (structured_type_coercion utcHost sampleClocks sampleTicks
    [JSVal.obj [("id", .str "json-0-1710374400000"), ("date", .str "2024-03-14"),
      ("description", .str "Transaction 1"), ("amount", .num (.fin 100)),
      ("type", .str "revenue"), ("category", .str "Other")]] 0
    (.obj [("type", .str "Deposit"), ("amount", .num (.fin 100))]) "Deposit" rfl
    (by decide)).1
    (.arr [.obj [("type", .str "Deposit"), ("amount", .num (.fin 100))]])
    (by with_unfolding_all rfl) rfl
  have hdep : normalizeTransactionType utcHost (.str "Deposit") = .ok "revenue" := by
    with_unfolding_all rfl
  rw [hdep] at hn
  injection hn with hn
  subst hn
  exact ⟨t, ht, hdep, hty⟩

/-- The final type and amount of a typed record of the structured
extractors, in terms of the parsed amount. -/
theorem structured_typed_amount (h : Host) (tag : String) (clocks : Nat → RowClock)
    (k : Tick) (index : Nat) (x : JSVal) (s : String) (a : JSNum) (y t : JSVal)
    (hty : propOf x "type" = .str s) (hs : s ≠ "")
    (hdef : isDefined (propOf x "amount") = true)
    (ha : inlineAmount h (propOf x "amount") = .ok a)
    (hy : structuredRecord h tag clocks index x = .ok y)
    (ht : normalizeTransaction h k y = .ok t) :
    ∃ (ty : String) (n : JSNum),
      normalizeTransactionType h (inlineType (.str s)) = .ok ty
      ∧ ensurePositiveNumber h (.num a.abs) = .ok n
      ∧ getProp t "type" = .ok (.str ty)
      ∧ getProp t "amount" = .ok (.num (if ty = "expense" then n.abs.neg else n.abs)) := by
  obtain ⟨a2, ty, n, ha2, hty2, hn, pty, pa⟩ :=
    structured_typed_final h tag clocks k index x s y t hty hs hy ht
  rw [hdef, if_pos rfl, ha] at ha2
  injection ha2 with ha2
  subst ha2
  exact ⟨ty, n, hty2, hn, pty, pa⟩

/-- C26: in the structured extractors (JSON and XML) a non-empty type
field wins over the sign of the amount.  Two located records with the same
non-empty type string whose parsed amounts are opposite get the same final
type, `revenue` or `expense`, and the same final amount; when the absolute
amount reads back as itself in the normalizer, that amount is `-|a|` for an
expense and `|a|` for a revenue. -/
theorem structured_type_wins (h : Host) (clocks : Nat → RowClock) (ticks : Nat → Tick)
    (i j : Nat) (x x' : JSVal) (s : String) (a : JSNum)
    (hty : propOf x "type" = .str s) (hty' : propOf x' "type" = .str s) (hs : s ≠ "")
    (hdef : isDefined (propOf x "amount") = true)
    (hdef' : isDefined (propOf x' "amount") = true)
    (ha : inlineAmount h (propOf x "amount") = .ok a)
    (hsign : inlineAmount h (propOf x' "amount") = .ok a.neg) :
    (∀ (data data' : JSVal) (out out' : List JSVal),
        parseJSONFile h clocks ticks data = .ok out →
        parseJSONFile h clocks ticks data' = .ok out' →
        (jsonLocate data)[i]? = some x → (jsonLocate data')[j]? = some x' →
        ∃ t t' : JSVal, out[i]? = some t ∧ out'[j]? = some t'
          ∧ getProp t "type" = getProp t' "type"
          ∧ getProp t "amount" = getProp t' "amount"
          ∧ (getProp t "type" = .ok (.str "revenue") ∨ getProp t "type" = .ok (.str "expense"))
          ∧ (ensurePositiveNumber h (.num a.abs) = .ok a.abs →
              (getProp t "type" = .ok (.str "expense") →
                getProp t "amount" = .ok (.num a.abs.neg))
              ∧ (getProp t "type" = .ok (.str "revenue") →
                getProp t "amount" = .ok (.num a.abs))))
    ∧ (∀ (result result' : JSVal) (located located' out out' : List JSVal),
        parseXMLFile h clocks ticks result = .ok out →
        parseXMLFile h clocks ticks result' = .ok out' →
        xmlLocate result = .ok located → xmlLocate result' = .ok located' →
        located[i]? = some x → located'[j]? = some x' →
        ∃ t t' : JSVal, out[i]? = some t ∧ out'[j]? = some t'
          ∧ getProp t "type" = getProp t' "type"
          ∧ getProp t "amount" = getProp t' "amount"
          ∧ (getProp t "type" = .ok (.str "revenue") ∨ getProp t "type" = .ok (.str "expense"))
          ∧ (ensurePositiveNumber h (.num a.abs) = .ok a.abs →
              (getProp t "type" = .ok (.str "expense") →
                getProp t "amount" = .ok (.num a.abs.neg))
              ∧ (getProp t "type" = .ok (.str "revenue") →
                getProp t "amount" = .ok (.num a.abs)))) := by
  have key : ∀ (tag : String) (y y' t t' : JSVal),
      structuredRecord h tag clocks i x = .ok y → normalizeTransaction h (ticks i) y = .ok t →
      structuredRecord h tag clocks j x' = .ok y' → normalizeTransaction h (ticks j) y' = .ok t' →
      getProp t "type" = getProp t' "type"
        ∧ getProp t "amount" = getProp t' "amount"
        ∧ (getProp t "type" = .ok (.str "revenue") ∨ getProp t "type" = .ok (.str "expense"))
        ∧ (ensurePositiveNumber h (.num a.abs) = .ok a.abs →
            (getProp t "type" = .ok (.str "expense") →
              getProp t "amount" = .ok (.num a.abs.neg))
            ∧ (getProp t "type" = .ok (.str "revenue") →
              getProp t "amount" = .ok (.num a.abs))) := by
    intro tag y y' t t' hy ht hy' ht'
    obtain ⟨ty, n, h0, hn, h1, h2⟩ :=
      structured_typed_amount h tag clocks (ticks i) i x s a y t hty hs hdef ha hy ht
    obtain ⟨ty', n', h0', hn', h1', h2'⟩ :=
      structured_typed_amount h tag clocks (ticks j) j x' s a.neg y' t' hty' hs hdef' hsign
        hy' ht'
    rw [JSNum.abs_neg] at hn'
    have e1 : ty' = ty := by
      rw [h0] at h0'
      injection h0' with h0'
      exact h0'.symm
    have e2 : n' = n := by
      rw [hn] at hn'
      injection hn' with hn'
      exact hn'.symm
    subst e1 e2
    refine ⟨by rw [h1, h1'], by rw [h2, h2'], ?_, ?_⟩
    · rw [h1]
      rcases normalizeTransactionType_ok h _ ty' h0 with rfl | rfl
      · exact Or.inl rfl
      · exact Or.inr rfl
    · intro hback
      rw [hn] at hback
      injection hback with hback
      subst hback
      rw [h1, h2, JSNum.abs_abs]
      constructor
      · intro he
        injection he with he
        injection he with he
        rw [if_pos he]
      · intro hr
        injection hr with hr
        injection hr with hr
        rw [if_neg (by rw [hr]; decide)]
  constructor
  · intro data data' out out' hres hres' hx hx'
    obtain ⟨y, t, hy, ht, hout⟩ := (parseJSONFile_ok h clocks ticks data out hres).2 i x hx
    obtain ⟨y', t', hy', ht', hout'⟩ :=
      (parseJSONFile_ok h clocks ticks data' out' hres').2 j x' hx'
    exact ⟨t, t', hout, hout', key "json" y y' t t' hy ht hy' ht'⟩
  · intro result result' located located' out out' hres hres' hloc hloc' hx hx'
    obtain ⟨l2, hl2, -, hpoint⟩ := parseXMLFile_ok h clocks ticks result out hres
    obtain ⟨l2', hl2', -, hpoint'⟩ := parseXMLFile_ok h clocks ticks result' out' hres'
    rw [hloc] at hl2
    rw [hloc'] at hl2'
    injection hl2 with hl2
    injection hl2' with hl2'
    subst hl2
    subst hl2'
    obtain ⟨y, t, hy, ht, hout⟩ := hpoint i x hx
    obtain ⟨y', t', hy', ht', hout'⟩ := hpoint' j x' hx'
    exact ⟨t, t', hout, hout', key "xml" y y' t t' hy ht hy' ht'⟩

/-- C26, at concrete records: in the JSON array `[{type: "expense", amount:
500}, {type: "expense", amount: -500}]` both records become an expense of
amount `-500`. -/
theorem structured_type_wins_witness :
    ∃ t t' : JSVal,
      [JSVal.obj [("id", .str "json-0-1710374400000"), ("date", .str "2024-03-14"),
          ("description", .str "Transaction 1"), ("amount", .num (.fin (-500))),
          ("type", .str "expense"), ("category", .str "Other")],
        JSVal.obj [("id", .str "json-1-1710374400001"), ("date", .str "2024-03-14"),
          ("description", .str "Transaction 2"), ("amount", .num (.fin (-500))),
          ("type", .str "expense"), ("category", .str "Other")]][0]? = some t
      ∧ [JSVal.obj [("id", .str "json-0-1710374400000"), ("date", .str "2024-03-14"),
          ("description", .str "Transaction 1"), ("amount", .num (.fin (-500))),
          ("type", .str "expense"), ("category", .str "Other")],
        JSVal.obj [("id", .str "json-1-1710374400001"), ("date", .str "2024-03-14"),
          ("description", .str "Transaction 2"), ("amount", .num (.fin (-500))),
          ("type", .str "expense"), ("category", .str "Other")]][1]? = some t'
      ∧ getProp t "type" = getProp t' "type"
      ∧ getProp t "amount" = getProp t' "amount" := by
  have hrun : parseJSONFile utcHost sampleClocks sampleTicks
      (.arr [.obj [("type", .str "expense"), ("amount", .num (.fin 500))],
        .obj [("type", .str "expense"), ("amount", .num (.fin (-500)))]]) =
      .ok [JSVal.obj [("id", .str "json-0-1710374400000"), ("date", .str "2024-03-14"),
          ("description", .str "Transaction 1"), ("amount", .num (.fin (-500))),
          ("type", .str "expense"), ("category", .str "Other")],
        JSVal.obj [("id", .str "json-1-1710374400001"), ("date", .str "2024-03-14"),
          ("description", .str "Transaction 2"), ("amount", .num (.fin (-500))),
          ("type", .str "expense"), ("category", .str "Other")]] := by
    with_unfolding_all rfl
  obtain ⟨t, t', ht, ht', h1, h2, -⟩ := (structured_type_wins utcHost sampleClocks sampleTicks
    0 1 (.obj [("type", .str "expense"), ("amount", .num (.fin 500))])
    (.obj [("type", .str "expense"), ("amount", .num (.fin (-500)))]) "expense" (.fin 500)
    rfl rfl (by decide) rfl rfl (by with_unfolding_all rfl)
    (by with_unfolding_all rfl)).1 _ _ _ _ hrun hrun rfl rfl
  exact ⟨t, t', ht, ht', h1, h2⟩

/-- C17, evaluated on the code: for the one-line text `03/14/2024 Office
Supplies Purchase $245.67` the amount pattern matches first at the digits
`03` of the date, so the image and the PDF extractor both return one
transaction of amount `-3` (an expense of 3, not of 245.67) whose description
`Office Supplies Purchase 245.67` still holds the amount. -/
theorem free_text_scenario_c (h : Host) (clocks : Nat → RowClock)
    (tableClocks : Nat → Nat → RowClock) (ticks : Nat → Tick) :
    dateRegex.matchIn "03/14/2024 Office Supplies Purchase $245.67" = some "03/14/2024"
    ∧ amountRegex.matchIn "03/14/2024 Office Supplies Purchase $245.67" = some "03"
    ∧ parseImageFile h clocks ticks "03/14/2024 Office Supplies Purchase $245.67" =
      .ok [.obj [("id", .str ("image-0-" ++ natToString (clocks 0).stamp)),
        ("date", .str (ensureValidDate h (ticks 0).today
          (.date (h.newDate (.str "03/14/2024"))))),
        ("description", .str "Office Supplies Purchase 245.67"),
        ("amount", .num (.fin (-3))), ("type", .str "expense"), ("category", .str "Other")]]
    ∧ parsePDFFile h clocks tableClocks ticks "03/14/2024 Office Supplies Purchase $245.67" =
      .ok [.obj [("id", .str ("pdf-0-" ++ natToString (clocks 0).stamp)),
        ("date", .str (ensureValidDate h (ticks 0).today
          (.date (h.newDate (.str "03/14/2024"))))),
        ("description", .str "Office Supplies Purchase 245.67"),
        ("amount", .num (.fin (-3))), ("type", .str "expense"), ("category", .str "Other")]] := by
  refine ⟨by decide, by decide, ?_, ?_⟩ <;> with_unfolding_all rfl

/-- A decimal digit is neither a dollar sign nor white space. -/
theorem digit_not_space (c : Char) (hc : isDecimalDigit c = true) :
    (c.toNat = 36) = False ∧ isStrWhiteSpace c = false := by
  simp only [isDecimalDigit, Bool.and_eq_true, decide_eq_true_eq] at hc
  constructor
  · simp only [eq_iff_iff, iff_false]; omega
  · simp only [isStrWhiteSpace, Bool.or_eq_false_iff, Bool.and_eq_false_iff,
      decide_eq_false_iff_not]
    omega

/-- The star loop matches whenever its continuation always does. -/
theorem starLoop_isSome (body : Option Char → List Char → Cont → Option (Option Char × List Char))
    (fuel : Nat) (prev : Option Char) (s : List Char) (k : Cont)
    (hk : ∀ p r, (k p r).isSome = true) : (starLoop body fuel prev s k).isSome = true := by
  cases fuel with
  | zero => exact hk prev s
  | succ fuel =>
    simp only [starLoop]
    split
    · rfl
    · exact hk prev s

/-- An optional pattern matches whenever its continuation always does. -/
theorem opt_run_isSome (a : Regex) (prev : Option Char) (s : List Char) (k : Cont)
    (hk : ∀ p r, (k p r).isSome = true) : ((Regex.opt a).run prev s k).isSome = true := by
  simp only [Regex.opt, Regex.run]
  split
  · rfl
  · exact hk prev s

/-- An optional pattern whose body does not match is skipped. -/
theorem opt_run_skip (a : Regex) (prev : Option Char) (s : List Char) (k : Cont)
    (ha : a.run prev s k = none) : (Regex.opt a).run prev s k = k prev s := by
  simp only [Regex.opt, Regex.run, ha]

/-- The amount pattern matches at every decimal digit. -/
theorem amountRegex_run_digit (prev : Option Char) (c : Char) (cs : List Char)
    (hc : isDecimalDigit c = true) :
    (amountRegex.run prev (c :: cs) (fun p r => some (p, r))).isSome = true := by
  obtain ⟨h1, h2⟩ := digit_not_space c hc
  have hcents : ∀ p r, ((Regex.cents).run p r (fun p r => some (p, r))).isSome = true :=
    fun p r => opt_run_isSome _ p r _ (fun _ _ => rfl)
  unfold amountRegex
  rw [Regex.run, opt_run_skip _ _ _ _ (by simp only [Regex.run, h1, decide_False,
    Bool.false_eq_true, if_false])]
  rw [Regex.run, opt_run_skip _ _ _ _ (by simp only [Regex.run, h2, Bool.false_eq_true,
    if_false])]
  rw [Regex.run]
  split
  · rfl
  · simp only [Regex.run, Regex.digit, hc, if_true]
    exact starLoop_isSome _ _ _ _ _ hcents

/-- The date pattern matches only at a decimal digit. -/
theorem dateRegex_run_digit (prev : Option Char) (s : List Char) (k : Cont)
    (h : (dateRegex.run prev s k).isSome = true) :
    ∃ c cs, s = c :: cs ∧ isDecimalDigit c = true := by
  cases s with
  | nil =>
    simp [dateRegex, Regex.run, Regex.digits12, Regex.digits4, Regex.digit] at h
  | cons c cs =>
    by_cases hc : isDecimalDigit c = true
    · exact ⟨c, cs, rfl, hc⟩
    · simp [dateRegex, Regex.run, Regex.digits12, Regex.digits4, Regex.digit, hc] at h

/-- The amount pattern is found in every run of characters with a digit. -/
theorem amountRegex_search (s : List Char) : ∀ prev : Option Char,
    (∃ c ∈ s, isDecimalDigit c = true) → (amountRegex.searchFrom prev s).isSome = true := by
  induction s with
  | nil => intro prev ⟨c, hc, _⟩; simp at hc
  | cons c cs ih =>
    intro prev ⟨d, hd, hdigit⟩
    simp only [Regex.searchFrom]
    split
    · rfl
    · rename_i hnone
      rcases List.mem_cons.mp hd with rfl | hd
      · have := amountRegex_run_digit prev d cs hdigit
        rw [hnone] at this
        cases this
      · exact ih (some c) ⟨d, hd, hdigit⟩

/-- The date pattern is found only in a run of characters with a digit. -/
theorem dateRegex_search (s : List Char) : ∀ prev : Option Char,
    (dateRegex.searchFrom prev s).isSome = true → ∃ c ∈ s, isDecimalDigit c = true := by
  induction s with
  | nil =>
    intro prev h
    simp only [Regex.searchFrom] at h
    split at h
    · rename_i hrun
      obtain ⟨c, cs, hs, -⟩ := dateRegex_run_digit prev [] _ (by rw [hrun]; rfl)
      cases hs
    · cases h
  | cons c cs ih =>
    intro prev h
    simp only [Regex.searchFrom] at h
    split at h
    · rename_i hrun
      obtain ⟨d, ds, hs, hd⟩ := dateRegex_run_digit prev (c :: cs) _ (by rw [hrun]; rfl)
      injection hs with h1 h2
      subst h1
      exact ⟨c, by simp, hd⟩
    · obtain ⟨d, hd, hdigit⟩ := ih (some c) h
      exact ⟨d, by simp [hd], hdigit⟩

/-- The call `s.match(re)` is not `null` exactly when the search succeeds. -/
theorem matchIn_isSome (re : Regex) (s : String) :
    (re.matchIn s).isSome = (re.searchFrom none s.data).isSome := by
  simp only [Regex.matchIn]
  split
  · rename_i heq
    rw [heq]
    rfl
  · rename_i heq
    rw [heq]
    rfl

/-- The amount pattern matches every string that holds a decimal digit. -/
theorem amountRegex_matchIn (s : String) (hs : ∃ c ∈ s.data, isDecimalDigit c = true) :
    ∃ amountStr, amountRegex.matchIn s = some amountStr := by
  have h := amountRegex_search s.data none hs
  rw [← matchIn_isSome] at h
  exact Option.isSome_iff_exists.mp h

/-- A string with a date token holds a decimal digit. -/
theorem dateRegex_matchIn (s dateStr : String) (hs : dateRegex.matchIn s = some dateStr) :
    ∃ c ∈ s.data, isDecimalDigit c = true := by
  apply dateRegex_search s.data none
  rw [← matchIn_isSome, hs]
  rfl

/-- A loop that pushes nothing has no line that gives a transaction. -/
theorem collectFrom_nil (f : Nat → String → Option JSVal) (lines : List String) :
    ∀ i : Nat, collectFrom f i lines = [] →
      ∀ j : Nat, j < lines.length → f (i + j) (lines.getD j "") = none := by
  induction lines with
  | nil => intro i _ j hj; simp at hj
  | cons line rest ih =>
    intro i hnil j hj
    simp only [collectFrom] at hnil
    split at hnil
    · cases hnil
    · rename_i hnone
      cases j with
      | zero => simpa using hnone
      | succ j =>
        have := ih (i + 1) hnil j (by simpa using hj)
        simpa [Nat.add_assoc, Nat.add_comm 1 j] using this

/-- A loop pushes nothing when no line gives a transaction. -/
theorem collectFrom_eq_nil (f : Nat → String → Option JSVal) (lines : List String) :
    ∀ i : Nat, (∀ j : Nat, j < lines.length → f (i + j) (lines.getD j "") = none) →
      collectFrom f i lines = [] := by
  induction lines with
  | nil => intro i _; rfl
  | cons line rest ih =>
    intro i hall
    have h0 := hall 0 (by simp)
    simp only [Nat.add_zero, List.getD_cons_zero] at h0
    simp only [collectFrom, h0]
    apply ih (i + 1)
    intro j hj
    have := hall (j + 1) (by simpa using hj)
    simpa [Nat.add_assoc, Nat.add_comm 1 j] using this

/-- The windowed tier pushes nothing from the index `i` on when every line
from there on is short, has no date token or finds no amount. -/
theorem windowedFrom_nil (h : Host) (tag : String) (clocks : Nat → RowClock)
    (lines : List String)
    (hall : ∀ j : Nat, j < lines.length → 10 ≤ jsLength (trim (lines.getD j "")) →
      ∀ dateStr, dateRegex.matchIn (trim (lines.getD j "")) = some dateStr →
        (findAmount lines j (trim (lines.getD j ""))).1 = none) :
    ∀ fuel i : Nat, windowedFrom h tag clocks lines fuel i = [] := by
  intro fuel
  induction fuel with
  | zero => intro i; rfl
  | succ fuel ih =>
    intro i
    simp only [windowedFrom]
    split
    · rename_i hi
      split
      · exact ih (i + 1)
      · rename_i hlen
        split
        · exact ih (i + 1)
        · rename_i dateStr hdate
          have hnone := hall i hi (by omega) dateStr hdate
          split
          · rename_i amountStr amountLine lineOffset hfind
            rw [hfind] at hnone
            cases hnone
          · exact ih (i + 1)
    · rfl

/-- C28: in the image extractor the windowed tier never contributes.  The
amount pattern matches every string that holds a decimal digit, and a string
with a date token holds one; so for a line with a date token the amount is
found on the line itself, with `lineOffset` 0 and no look-ahead, and for every
list of lines, if the first tier pushes nothing then the windowed tier
pushes nothing. -/
theorem image_windowed_tier_idle (h : Host) (clocks : Nat → RowClock) :
    (∀ s : String, (∃ c ∈ s.data, isDecimalDigit c = true) →
      ∃ amountStr, amountRegex.matchIn s = some amountStr)
    ∧ (∀ s dateStr : String, dateRegex.matchIn s = some dateStr →
        ∃ amountStr, amountRegex.matchIn s = some amountStr)
    ∧ (∀ (lines : List String) (i : Nat) (line dateStr : String),
        dateRegex.matchIn line = some dateStr →
        ∃ amountStr, amountRegex.matchIn line = some amountStr
          ∧ findAmount lines i line = (some amountStr, line, 0))
    ∧ (∀ lines : List String, imageTier1 h clocks lines = [] →
        imageTier2 h clocks lines = [])
    ∧ (∀ text : String, imageTier1 h clocks (textLines text) = [] →
        imageTier2 h clocks (textLines text) = []) := by
  have hboth : ∀ s dateStr : String, dateRegex.matchIn s = some dateStr →
      ∃ amountStr, amountRegex.matchIn s = some amountStr :=
    fun s dateStr hd => amountRegex_matchIn s (dateRegex_matchIn s dateStr hd)
  have hfind : ∀ (lines : List String) (i : Nat) (line dateStr : String),
      dateRegex.matchIn line = some dateStr →
      ∃ amountStr, amountRegex.matchIn line = some amountStr
        ∧ findAmount lines i line = (some amountStr, line, 0) := by
    intro lines i line dateStr hd
    obtain ⟨amountStr, ha⟩ := hboth line dateStr hd
    exact ⟨amountStr, ha, by simp only [findAmount, ha]⟩
  have htier : ∀ lines : List String, imageTier1 h clocks lines = [] →
      imageTier2 h clocks lines = [] := by
    intro lines h1
    apply windowedFrom_nil
    intro j hj hlen dateStr hdate
    have hnone := collectFrom_nil _ lines 0 h1 j hj
    obtain ⟨amountStr, ha⟩ := hboth _ dateStr hdate
    simp only [Nat.zero_add, imageLineCandidate, hdate, ha,
      if_neg (Nat.not_lt.mpr hlen)] at hnone
    cases hnone
  exact ⟨amountRegex_matchIn, hboth, hfind, htier, fun text => htier (textLines text)⟩

/-- The transaction objects of the free-text extractors pass the normalizer:
the type and the date are coerced, the category is `Other` and the amount
gets the sign of the type. -/
theorem candidate_normalized (h : Host) (k : Tick) (id : String) (date : Option Int)
    (description : String) (amount : JSNum) (type : String) (t : JSVal)
    (ht : normalizeTransaction h k (candidate id date description amount type) = .ok t) :
    ∃ (ty : String) (n : JSNum),
      normalizeTransactionType h (.str type) = .ok ty
      ∧ ensurePositiveNumber h (.num amount.abs) = .ok n
      ∧ getProp t "type" = .ok (.str ty)
      ∧ getProp t "category" = .ok (.str "Other")
      ∧ getProp t "date" = .ok (.str (ensureValidDate h k.today (.date date)))
      ∧ getProp t "amount" = .ok (.num (if ty = "expense" then n.abs.neg else n.abs)) := by
  simp only [candidate] at ht
  obtain ⟨d, n, ty, c, -, hn, hty, hc, -, pa, pty, -, pc, -, pdate⟩ :=
    normalizeTransaction_fields_parts h _ _ _ _ _ _ _ t ht
  rw [ensureString_str] at hc
  injection hc with hc
  subst hc
  exact ⟨ty, n, hty, hn, pty, pc, pdate, pa⟩

/-- The normalizer returns on every list of transaction objects of the
free-text extractors. -/
theorem candidates_normalize (h : Host) (ticks : Nat → Tick) (xs : List JSVal)
    (hxs : ∀ x ∈ xs, ∃ id date description amount type,
      x = candidate id date description amount type) :
    ∃ out, normalizeTransactionData h ticks (.arr xs) = .ok out := by
  show ∃ out, mapIdxM (fun i t => normalizeTransaction h (ticks i) t) 0 xs = .ok out
  apply (mapIdxM_returns _ xs 0).mpr
  intro j x hx
  obtain ⟨id, date, description, amount, type, rfl⟩ :=
    hxs x (List.mem_iff_getElem?.mpr ⟨j, hx⟩)
  simp only [candidate, normalizeTransaction_fields]
  exact (normalizedTransaction_returns h _ _ _ _ _ _ _).mpr
    ⟨throwsToString_str _, throwsToString_num _, throwsToString_str _, throwsToString_str _⟩

/-- The amount-only tier pushes one transaction for each line of five
characters at least that has an amount, and each of them is an expense dated
by the clock. -/
theorem basicFrom_spec (clocks : Nat → RowClock) (lines : List String) :
    ∀ count i : Nat,
      (basicFrom clocks count i lines).length = (lines.filter (fun line =>
          decide (5 ≤ jsLength (trim line)) && (amountRegex.matchIn (trim line)).isSome)).length
      ∧ ∀ x ∈ basicFrom clocks count i lines, ∃ (j : Nat) (description : String) (amount : JSNum),
          i ≤ j ∧ j < i + lines.length
          ∧ x = candidate (candidateId "image-basic" clocks j)
              (some (Int.ofNat (clocks j).clock)) description amount "expense" := by
  induction lines with
  | nil => intro count i; exact ⟨rfl, fun x hx => by simp [basicFrom] at hx⟩
  | cons line rest ih =>
    intro count i
    simp only [basicFrom, List.filter_cons]
    by_cases hlen : jsLength (trim line) < 5
    · obtain ⟨h1, h2⟩ := ih count (i + 1)
      have hnot : ¬ (5 ≤ jsLength (trim line)) := by omega
      simp only [hlen, if_true, hnot, decide_False, Bool.false_and, Bool.false_eq_true, if_false]
      refine ⟨h1, fun x hx => ?_⟩
      obtain ⟨j, d, a, hj1, hj2, hx⟩ := h2 x hx
      exact ⟨j, d, a, by omega, by simp only [List.length_cons]; omega, hx⟩
    · have hge : 5 ≤ jsLength (trim line) := by omega
      simp only [hlen, if_false, hge, decide_True, Bool.true_and]
      cases hm : amountRegex.matchIn (trim line) with
      | none =>
        obtain ⟨h1, h2⟩ := ih count (i + 1)
        simp only [Option.isSome_none, Bool.false_eq_true, if_false]
        refine ⟨h1, fun x hx => ?_⟩
        obtain ⟨j, d, a, hj1, hj2, hx⟩ := h2 x hx
        exact ⟨j, d, a, by omega, by simp only [List.length_cons]; omega, hx⟩
      | some amountStr =>
        simp only [Option.isSome_some, if_true]
        by_cases hd : trim (removeFirst (trim line) amountStr) = ""
        · obtain ⟨h1, h2⟩ := ih (count + 1) (i + 1)
          simp only [hd, if_true, List.length_cons, h1, List.mem_cons]
          refine ⟨trivial, fun x hx => ?_⟩
          rcases hx with rfl | hx
          · exact ⟨i, _, _, Nat.le_refl _, by omega, rfl⟩
          · obtain ⟨j, d, a, hj1, hj2, hx⟩ := h2 x hx
            exact ⟨j, d, a, by omega, by omega, hx⟩
        · obtain ⟨h1, h2⟩ := ih count (i + 1)
          simp only [hd, if_false, List.length_cons, h1, List.mem_cons]
          refine ⟨trivial, fun x hx => ?_⟩
          rcases hx with rfl | hx
          · exact ⟨i, _, _, Nat.le_refl _, by omega, rfl⟩
          · obtain ⟨j, d, a, hj1, hj2, hx⟩ := h2 x hx
            exact ⟨j, d, a, by omega, by omega, hx⟩

/-- The line at an index of a list is in the list. -/
theorem getD_mem_lines (lines : List String) (j : Nat) (hj : j < lines.length) :
    lines.getD j "" ∈ lines := by
  rw [List.getD_eq_getElem _ _ hj]
  exact List.getElem_mem _

/-- Without a date token on any line the first tier of the image extractor
and the windowed tier push nothing. -/
theorem dateless_tiers (h : Host) (tag : String) (clocks : Nat → RowClock)
    (lines : List String)
    (hnodate : ∀ line ∈ lines, dateRegex.matchIn (trim line) = none) :
    imageTier1 h clocks lines = [] ∧ windowedTier h tag clocks lines = [] := by
  constructor
  · apply collectFrom_eq_nil
    intro j hj
    have hd := hnodate _ (getD_mem_lines lines j hj)
    simp only [imageLineCandidate, hd]
    split <;> rfl
  · apply windowedFrom_nil
    intro j hj _ dateStr hdate
    rw [hnodate _ (getD_mem_lines lines j hj)] at hdate
    cases hdate

/-- C18: the fallback cascade of the image extractor.  For every non-empty
text in which no line has a date token and some line of trimmed length 5 at
least has an amount, the first tier and the windowed tier push nothing, and
the extraction returns exactly one transaction for each line of trimmed length
5 at least that has an amount.  Each of them has the type `expense`, the
category `Other`, an amount `<= 0` and the date of a clock reading: the
current date of the extractor on a host that copies a `Date` object. -/
theorem image_fallback_cascade (h : Host) (clocks : Nat → RowClock) (ticks : Nat → Tick)
    (text : String) (htext : trim text ≠ "")
    (hnodate : ∀ line ∈ textLines text, dateRegex.matchIn (trim line) = none)
    (hamount : ∃ line ∈ textLines text,
      5 ≤ jsLength (trim line) ∧ (amountRegex.matchIn (trim line)).isSome = true) :
    imageTier1 h clocks (textLines text) = []
    ∧ imageTier2 h clocks (textLines text) = []
    ∧ ∃ out : List JSVal, parseImageFile h clocks ticks text = .ok out
      ∧ out.length = ((textLines text).filter (fun line =>
          decide (5 ≤ jsLength (trim line)) && (amountRegex.matchIn (trim line)).isSome)).length
      ∧ 0 < out.length
      ∧ ∀ t ∈ out, getProp t "type" = .ok (.str "expense")
          ∧ getProp t "category" = .ok (.str "Other")
          ∧ (∃ a : JSNum, getProp t "amount" = .ok (.num a) ∧ JSNum.le a .zero = true)
          ∧ ∃ i k : Nat, i < (textLines text).length
              ∧ getProp t "date" = .ok (.str (ensureValidDate h (ticks k).today
                  (.date (some (Int.ofNat (clocks i).clock)))))
              ∧ ((∀ c : Int, h.newDate (.date (some c)) = some c) →
                  getProp t "date" = .ok (.str (h.isoDate (Int.ofNat (clocks i).clock)))) := by
  obtain ⟨h1, h2⟩ := dateless_tiers h "image-scan" clocks (textLines text) hnodate
  obtain ⟨hlen, hform⟩ := basicFrom_spec clocks (textLines text) 0 0
  have hpos : 0 < ((textLines text).filter (fun line =>
      decide (5 ≤ jsLength (trim line)) && (amountRegex.matchIn (trim line)).isSome)).length := by
    obtain ⟨line, hmem, hl, hm⟩ := hamount
    apply List.length_pos_of_mem (a := line)
    rw [List.mem_filter]
    exact ⟨hmem, by simp [hl, hm]⟩
  have htrans : imageTransactions h clocks (textLines text) = basicFrom clocks 0 0 (textLines text) := by
    have h2' : imageTier2 h clocks (textLines text) = [] := h2
    simp only [imageTransactions, h1, h2', imageTier3]
  have hcand : ∀ x ∈ basicFrom clocks 0 0 (textLines text), ∃ id date description amount type,
      x = candidate id date description amount type := by
    intro x hx
    obtain ⟨j, d, a, -, -, hxeq⟩ := hform x hx
    exact ⟨_, _, _, _, _, hxeq⟩
  obtain ⟨out, hout⟩ := candidates_normalize h ticks _ hcand
  have hne : basicFrom clocks 0 0 (textLines text) ≠ [] := by
    intro he
    rw [he] at hlen
    simp only [List.length_nil] at hlen
    omega
  have hrun : parseImageFile h clocks ticks text = .ok out := by
    have hte : text ≠ "" := by
      rintro rfl
      exact htext (by decide)
    simp only [parseImageFile, hte, htext, decide_False, Bool.or_self, Bool.false_eq_true,
      if_false, htrans]
    cases hb : basicFrom clocks 0 0 (textLines text) with
    | nil => exact absurd hb hne
    | cons x xs =>
      rw [hb] at hout
      simp only [hout]
  have hlen2 : out.length = (basicFrom clocks 0 0 (textLines text)).length :=
    mapIdxM_length (fun j v => normalizeTransaction h (ticks j) v) _ 0 out hout
  refine ⟨h1, h2, out, hrun, by rw [hlen2, hlen], by rw [hlen2, hlen]; exact hpos, ?_⟩
  intro t ht
  obtain ⟨j, x, hx, hnorm⟩ := mapIdxM_mem (fun j v => normalizeTransaction h (ticks j) v)
    _ 0 out hout t ht
  obtain ⟨i, d, a, -, hi, hxeq⟩ := hform x (List.mem_iff_getElem?.mpr ⟨_, hx⟩)
  rw [hxeq] at hnorm
  obtain ⟨ty, n, htyn, hn, hty, hcat, hdate, ha⟩ := candidate_normalized h _ _ _ _ _ _ t hnorm
  have hexp : normalizeTransactionType h (.str "expense") = .ok "expense" :=
    normalizeTransactionType_fixed h false
  rw [hexp] at htyn
  injection htyn with htyn
  subst htyn
  rw [if_pos rfl] at ha
  refine ⟨hty, hcat,
    ⟨_, ha, JSNum.neg_abs_nonpos _ (ensurePositiveNumber_not_nan h _ n hn)⟩,
    i, 0 + j, by omega, hdate, ?_⟩
  intro hcopy
  rw [hdate]
  simp only [ensureValidDate, toBoolean, hcopy, Bool.not_true, Bool.false_eq_true, if_false]

/-- C18, at a concrete text: the two lines `Coffee 4` and `Lunch 12` have
no date token, and the image extractor returns two expenses dated by the
clock. -/
theorem image_fallback_cascade_witness :
    imageTier1 utcHost sampleClocks (textLines "Coffee 4\nLunch 12") = []
    ∧ imageTier2 utcHost sampleClocks (textLines "Coffee 4\nLunch 12") = []
    ∧ parseImageFile utcHost sampleClocks sampleTicks "Coffee 4\nLunch 12" =
      .ok [.obj [("id", .str "image-basic-0-1710374400000"), ("date", .str "2024-03-14"),
          ("description", .str "Coffee"), ("amount", .num (.fin (-4))),
          ("type", .str "expense"), ("category", .str "Other")],
        .obj [("id", .str "image-basic-1-1710374400001"), ("date", .str "2024-03-14"),
          ("description", .str "Lunch"), ("amount", .num (.fin (-12))),
          ("type", .str "expense"), ("category", .str "Other")]] := by
  obtain ⟨h1, h2, -⟩ := image_fallback_cascade utcHost sampleClocks sampleTicks
    "Coffee 4\nLunch 12" (by decide) (by decide) ⟨"Coffee 4", by decide, by decide, by decide⟩
  exact ⟨h1, h2, by with_unfolding_all rfl⟩

/-- The last element of a list with one more element in front. -/
theorem getLast?_cons_or {α : Type} (a : α) (l : List α) :
    (a :: l).getLast? = match l.getLast? with
      | some c => some c
      | none => some a := by
  cases l with
  | nil => rfl
  | cons b l => rw [List.getLast?_cons_cons]; cases h : (b :: l).getLast? with
    | none => simp at h
    | some c => rfl

/-- The last element of a list is in the list. -/
theorem mem_of_getLast?_eq {α : Type} (l : List α) (a : α) (h : l.getLast? = some a) :
    a ∈ l := by
  induction l with
  | nil => cases h
  | cons b l ih =>
    rw [getLast?_cons_or] at h
    cases hl : l.getLast? with
    | none =>
      rw [hl] at h
      injection h with h
      simp [h]
    | some c =>
      rw [hl] at h
      injection h with h
      subst h
      exact List.mem_cons_of_mem _ (ih hl)

/-- The description column after the loop over the columns: the last column
that holds neither a date nor an amount and has more than five characters,
or else the column found before. -/
theorem classifyColumns_desc (whole : List String) (cols : List String) :
    ∀ (k : Nat) (dateCol amountCol descCol : Option Nat),
      (∀ j : Nat, j < cols.length → whole.getD (k + j) "" = cols.getD j "") →
      (classifyColumns k cols (dateCol, amountCol, descCol)).2.2.map (fun d => whole.getD d "")
        = match (cols.filter isLongTextColumn).getLast? with
          | some col => some col
          | none => descCol.map (fun d => whole.getD d "") := by
  induction cols with
  | nil => intro k dateCol amountCol descCol _; rfl
  | cons col rest ih =>
    intro k dateCol amountCol descCol hidx
    have hrest : ∀ j : Nat, j < rest.length → whole.getD (k + 1 + j) "" = rest.getD j "" := by
      intro j hj
      have := hidx (j + 1) (by simpa using hj)
      simpa [Nat.add_assoc, Nat.add_comm 1 j] using this
    have h0 : whole.getD k "" = col := by
      have := hidx 0 (by simp)
      simpa using this
    simp only [classifyColumns, List.filter_cons, isLongTextColumn, isTextColumn]
    by_cases hd : dateRegex.test col = true
    · simp only [hd, if_true, Bool.not_true, Bool.false_and, Bool.false_eq_true, if_false]
      exact ih (k + 1) _ _ _ hrest
    · simp only [hd, Bool.false_eq_true, if_false]
      by_cases ha : amountRegex.test col = true
      · simp only [ha, if_true, Bool.not_true, Bool.and_false, Bool.false_and,
          Bool.false_eq_true, if_false]
        exact ih (k + 1) _ _ _ hrest
      · simp only [ha, Bool.false_eq_true, if_false]
        by_cases hl : 5 < jsLength col
        · simp only [hl, if_true, Bool.not_false, Bool.and_self, decide_True]
          rw [ih (k + 1) _ _ _ hrest]
          rw [getLast?_cons_or]
          cases (rest.filter isLongTextColumn).getLast? with
          | none => simp only [Option.map_some', h0]
          | some c => rfl
        · simp only [hl, if_false, decide_False, Bool.and_false, Bool.false_eq_true]
          exact ih (k + 1) _ _ _ hrest

/-- A column of a table row is not empty. -/
theorem tableColumns_ne_empty (row col : String) (hcol : col ∈ tableColumns row) :
    col ≠ "" := by
  simp only [tableColumns, List.mem_filter, decide_eq_true_eq] at hcol
  rintro rfl
  exact hcol.2 (by decide)

/-- The description of a transaction of the table tier of the PDF extractor
(the row has a date column and an amount column): it is the last column that
holds neither a date nor an amount and has more than five characters,
whatever the lengths of the other columns are; when the row has no such
column, it is made of the columns other than the date and the amount column,
joined by a space, or is `Transaction j` when that is empty. -/
theorem tableRowCandidate_description (h : Host) (clocks : Nat → RowClock) (j : Nat)
    (row : String) (t : JSVal) (ht : tableRowCandidate h clocks j row = some t) :
    (∀ col : String, ((tableColumns row).filter isLongTextColumn).getLast? = some col →
      getProp t "description" = .ok (.str col))
    ∧ ((tableColumns row).filter isLongTextColumn = [] →
      ∃ dateCol amountCol : Nat,
        classifyColumns 0 (tableColumns row) (none, none, none)
          = (some dateCol, some amountCol, none)
        ∧ getProp t "description" = .ok (.str (orDefault
            (" ".intercalate (otherColumns dateCol amountCol 0 (tableColumns row)))
            ("Transaction " ++ natToString j)))) := by
  have hdesc := classifyColumns_desc (tableColumns row) (tableColumns row) 0 none none none
    (fun j _ => by rw [Nat.zero_add])
  simp only [tableRowCandidate] at ht
  split at ht
  · split at ht
    · rename_i dateCol amountCol descCol hclass
      rw [hclass] at hdesc
      simp only [Option.map_none'] at hdesc
      split at ht
      · rename_i dateStr amountStr hdm ham
        injection ht with ht
        subst ht
        constructor
        · intro col hlast
          rw [hlast] at hdesc
          cases descCol with
          | none => simp at hdesc
          | some d =>
            simp only [Option.map_some', Option.some.injEq] at hdesc
            have hmem : col ∈ tableColumns row :=
              (List.mem_filter.mp (mem_of_getLast?_eq _ _ hlast)).1
            have hne := tableColumns_ne_empty row col hmem
            simp only [candidate, getProp, lookupProp, tableDescription, hdesc, orDefault, hne,
              if_false]
            rfl
        · intro hnil
          rw [hnil] at hdesc
          cases descCol with
          | some d => simp at hdesc
          | none => exact ⟨dateCol, amountCol, hclass, rfl⟩
      · cases ht
    · cases ht
  · cases ht

/-- C27, evaluated on the code: the description of a table row is not the
longest of the remaining columns.  In the table row `01/02/2024  Office
supplies total  Staples  45.00` the columns `Office supplies total` and
`Staples` hold neither a date nor an amount and have more than five
characters; the code takes the later one, `Staples`, which is the shorter
one, where the claim and the comment of the code (`Assume longer text is
description`) ask for `Office supplies total`.  The PDF extractor reaches
this row by the table tier in a text whose first tier skips the row because
it holds `total`, whatever the host makes of the date.  In general the last column longer than five characters
wins, whatever the lengths are. -/
theorem table_description :
    tableColumns "01/02/2024  Office supplies total  Staples  45.00"
      = ["01/02/2024", "Office supplies total", "Staples", "45.00"]
    ∧ (∀ (h : Host) (clocks : Nat → RowClock),
        tableRowCandidate h clocks 1 "01/02/2024  Office supplies total  Staples  45.00"
          = some (candidate ("pdf-table-1-" ++ natToString (clocks 1).stamp)
              (h.newDate (.str "01/02/2024")) "Staples" (.fin 45) "expense"))
    ∧ (∀ h : Host, parsePDFFile h sampleClocks sampleTableClocks sampleTicks
        "Date  Description  Vendor  Amount\n01/02/2024  Office supplies total  Staples  45.00\nEnd"
      = .ok [.obj [("id", .str "pdf-table-1-1710374400001"),
          ("date", .str (ensureValidDate h "2024-03-14"
            (.date (h.newDate (.str "01/02/2024"))))),
          ("description", .str "Staples"), ("amount", .num (.fin (-45))),
          ("type", .str "expense"), ("category", .str "Other")]])
    ∧ jsLength "Staples" < jsLength "Office supplies total"
    ∧ ¬ (∀ (h : Host) (clocks : Nat → RowClock) (j : Nat) (row : String) (t : JSVal)
        (description : String),
        tableRowCandidate h clocks j row = some t →
        getProp t "description" = .ok (.str description) →
        ∀ col ∈ (tableColumns row).filter isTextColumn, jsLength col ≤ jsLength description)
    ∧ (∀ (h : Host) (clocks : Nat → RowClock) (j : Nat) (row : String) (t : JSVal),
        tableRowCandidate h clocks j row = some t →
        ∀ col : String, ((tableColumns row).filter isLongTextColumn).getLast? = some col →
          getProp t "description" = .ok (.str col)) := by
  refine ⟨by decide, ?_, ?_, by decide, ?_, ?_⟩
  · intro h clocks
    with_unfolding_all rfl
  · intro h
    with_unfolding_all rfl
  · intro hall
    have h1 := hall utcHost sampleClocks 1 "01/02/2024  Office supplies total  Staples  45.00"
      (candidate "pdf-table-1-1710374400001" none "Staples" (.fin 45) "expense") "Staples"
      (by with_unfolding_all rfl) rfl "Office supplies total" (by decide)
    exact absurd h1 (by decide)
  · intro h clocks j row t ht
    exact (tableRowCandidate_description h clocks j row t ht).1

/-- White space is not a word character. -/
theorem space_not_word (c : Char) (hc : isStrWhiteSpace c = true) : isWordChar c = false := by
  simp only [isStrWhiteSpace, Bool.or_eq_true, Bool.and_eq_true, decide_eq_true_eq] at hc
  simp only [isWordChar, Bool.or_eq_false_iff, Bool.and_eq_false_iff, decide_eq_false_iff_not]
  omega

/-- The character before the position after no character. -/
theorem lastOr_nil (prev : Option Char) : lastOr prev [] = prev := rfl

/-- The character before a position, one character further. -/
theorem lastOr_cons (prev : Option Char) (c : Char) (before : List Char) :
    lastOr prev (c :: before) = lastOr (some c) before := by
  simp only [lastOr, getLast?_cons_or]
  cases before.getLast? <;> rfl

/-- The character before a position after a run that is not empty. -/
theorem lastOr_append (prev : Option Char) (before more : List Char) (hm : more ≠ []) :
    lastOr prev (before ++ more) = lastOr none more := by
  induction before generalizing prev with
  | nil =>
    cases more with
    | nil => exact absurd rfl hm
    | cons c more => rw [List.nil_append, lastOr_cons, lastOr_cons]
  | cons b before ih => rw [List.cons_append, lastOr_cons, ih]

/-- After a run of white space that is not empty the character before is
not a word character. -/
theorem lastOr_spaces (prev : Option Char) (before : List Char) (w : Char) (more : List Char)
    (hw : isStrWhiteSpace w = true) (hmore : ∀ c ∈ more, isStrWhiteSpace c = true) :
    isWordAt (lastOr prev (before ++ w :: more)) = false := by
  rw [lastOr_append prev before (w :: more) (by simp)]
  have hall : ∀ c ∈ w :: more, isStrWhiteSpace c = true := by
    intro c hc
    rcases List.mem_cons.mp hc with rfl | hc
    · exact hw
    · exact hmore c hc
  cases hl : (w :: more).getLast? with
  | none => simp at hl
  | some c =>
    simp only [lastOr, hl, isWordAt]
    exact space_not_word c (hall c (mem_of_getLast?_eq _ _ hl))

/-- The greedy loop of `\s*` consumes white space only. -/
theorem starLoop_space (fuel : Nat) : ∀ (prev : Option Char) (s : List Char)
    (r : Option Char × List Char),
    starLoop (Regex.run (.char isStrWhiteSpace)) fuel prev s (fun p r => some (p, r)) = some r →
    ∃ more : List Char, s = more ++ r.2 ∧ ∀ c ∈ more, isStrWhiteSpace c = true := by
  induction fuel with
  | zero =>
    intro prev s r h
    simp only [starLoop, Option.some.injEq] at h
    subst h
    exact ⟨[], rfl, fun c hc => by simp at hc⟩
  | succ fuel ih =>
    intro prev s r h
    simp only [starLoop] at h
    cases s with
    | nil =>
      simp only [Regex.run, Option.some.injEq] at h
      subst h
      exact ⟨[], rfl, fun c hc => by simp at hc⟩
    | cons c cs =>
      simp only [Regex.run] at h
      by_cases hc : isStrWhiteSpace c = true
      · simp only [hc, if_true, List.length_cons, Nat.lt_succ_self] at h
        split at h
        · rename_i r2 hr2
          injection h with h
          subst h
          obtain ⟨more, hmore, hall⟩ := ih (some c) cs r2 hr2
          refine ⟨c :: more, by rw [hmore]; rfl, ?_⟩
          intro x hx
          rcases List.mem_cons.mp hx with rfl | hx
          · exact hc
          · exact hall x hx
        · injection h with h
          subst h
          exact ⟨[], rfl, fun c hc => by simp at hc⟩
      · simp only [hc, Bool.false_eq_true, if_false, Option.some.injEq] at h
        subst h
        exact ⟨[], rfl, fun c hc => by simp at hc⟩

/-- A column separator is a run of white space that is not empty. -/
theorem columnSeparator_run (prev : Option Char) (s : List Char) (r : Option Char × List Char)
    (h : columnSeparatorRegex.run prev s (fun p r => some (p, r)) = some r) :
    ∃ (w : Char) (more : List Char), s = w :: (more ++ r.2) ∧ isStrWhiteSpace w = true
      ∧ ∀ c ∈ more, isStrWhiteSpace c = true := by
  have htab : ∀ r : Option Char × List Char,
      tabRegex.run prev s (fun p r => some (p, r)) = some r →
      ∃ (w : Char) (more : List Char), s = w :: (more ++ r.2) ∧ isStrWhiteSpace w = true
        ∧ ∀ c ∈ more, isStrWhiteSpace c = true := by
    intro r h
    cases s with
    | nil => simp [tabRegex, Regex.run] at h
    | cons c cs =>
      simp only [tabRegex, Regex.run] at h
      by_cases hc : c.toNat = 9
      · simp only [hc, decide_True, if_true, Option.some.injEq] at h
        subst h
        refine ⟨c, [], rfl, ?_, fun c hc => by simp at hc⟩
        simp [isStrWhiteSpace, hc]
      · simp [hc] at h
  simp only [columnSeparatorRegex, Regex.run] at h
  split at h
  · rename_i r2 hr2
    injection h with h
    subst h
    cases s with
    | nil => simp [multipleSpacesRegex, Regex.run] at hr2
    | cons c cs =>
      simp only [multipleSpacesRegex, Regex.run] at hr2
      by_cases hc : isStrWhiteSpace c = true
      · simp only [hc, if_true] at hr2
        cases cs with
        | nil => simp [Regex.run] at hr2
        | cons d ds =>
          simp only [Regex.run] at hr2
          by_cases hd : isStrWhiteSpace d = true
          · simp only [hd, if_true] at hr2
            obtain ⟨more, hmore, hall⟩ := starLoop_space _ _ _ _ hr2
            refine ⟨c, d :: more, by rw [hmore]; rfl, hc, ?_⟩
            intro x hx
            rcases List.mem_cons.mp hx with rfl | hx
            · exact hd
            · exact hall x hx
          · simp [hd] at hr2
      · simp [hc] at hr2
  · exact htab r h

/-- A pattern without a star that matches at the front of a run of
characters also matches when more characters follow, if the first of them is
not a word character and the character before is of the same kind. -/
theorem run_append (re : Regex) (hsf : re.starFree = true) (tail : List Char)
    (htail : isWordAt tail.head? = false) :
    ∀ (prev prev' : Option Char) (t : List Char) (k k' : Cont),
      isWordAt prev = isWordAt prev' →
      (∀ (p p' : Option Char) (r : List Char), isWordAt p = isWordAt p' →
        (k p r).isSome = true → (k' p' (r ++ tail)).isSome = true) →
      (re.run prev t k).isSome = true → (re.run prev' (t ++ tail) k').isSome = true := by
  induction re with
  | empty =>
    intro prev prev' t k k' hp hk h
    simp only [Regex.run] at h ⊢
    exact hk prev prev' t hp h
  | char p =>
    intro prev prev' t k k' hp hk h
    cases t with
    | nil => simp [Regex.run] at h
    | cons c cs =>
      simp only [Regex.run, List.cons_append] at h ⊢
      by_cases hc : p c = true
      · simp only [hc, if_true] at h ⊢
        exact hk (some c) (some c) cs rfl h
      · simp [hc] at h
  | seq a b iha ihb =>
    intro prev prev' t k k' hp hk h
    simp only [Regex.starFree, Bool.and_eq_true] at hsf
    simp only [Regex.run] at h ⊢
    exact iha hsf.1 prev prev' t _ _ hp
      (fun p p' r hpp hr => ihb hsf.2 p p' r k k' hpp hk hr) h
  | alt a b iha ihb =>
    intro prev prev' t k k' hp hk h
    simp only [Regex.starFree, Bool.and_eq_true] at hsf
    simp only [Regex.run] at h ⊢
    cases ha' : a.run prev' (t ++ tail) k' with
    | some r => rfl
    | none =>
      simp only
      cases ha : a.run prev t k with
      | some r =>
        have := iha hsf.1 prev prev' t k k' hp hk (by rw [ha]; rfl)
        rw [ha'] at this
        cases this
      | none =>
        rw [ha] at h
        exact ihb hsf.2 prev prev' t k k' hp hk h
  | star a _ => simp [Regex.starFree] at hsf
  | wordBoundary =>
    intro prev prev' t k k' hp hk h
    simp only [Regex.run] at h ⊢
    have hhead : isWordAt (t ++ tail).head? = isWordAt t.head? := by
      cases t with
      | nil => simpa [isWordAt] using htail
      | cons c cs => rfl
    rw [hhead, ← hp]
    by_cases hb : (isWordAt prev != isWordAt t.head?) = true
    · simp only [hb, if_true] at h ⊢
      exact hk prev prev' t hp h
    · simp [hb] at h

/-- A successful search has found a match at some position. -/
theorem searchFrom_sound (re : Regex) (s : List Char) : ∀ prev : Option Char,
    (re.searchFrom prev s).isSome = true →
    ∃ before t : List Char, s = before ++ t
      ∧ (re.run (lastOr prev before) t (fun p r => some (p, r))).isSome = true := by
  induction s with
  | nil =>
    intro prev h
    refine ⟨[], [], rfl, ?_⟩
    simp only [Regex.searchFrom] at h
    rw [lastOr_nil]
    cases hr : re.run prev [] (fun p r => some (p, r)) with
    | some r => rfl
    | none => simp [hr] at h
  | cons c cs ih =>
    intro prev h
    simp only [Regex.searchFrom] at h
    cases hr : re.run prev (c :: cs) (fun p r => some (p, r)) with
    | some r => exact ⟨[], c :: cs, rfl, by rw [lastOr_nil, hr]; rfl⟩
    | none =>
      simp only [hr] at h
      obtain ⟨before, t, hs, hrun⟩ := ih (some c) h
      exact ⟨c :: before, t, by rw [hs]; rfl, by rw [lastOr_cons]; exact hrun⟩

/-- A match at some position makes the search succeed. -/
theorem searchFrom_complete (re : Regex) (before : List Char) : ∀ (prev : Option Char)
    (t : List Char),
    (re.run (lastOr prev before) t (fun p r => some (p, r))).isSome = true →
    (re.searchFrom prev (before ++ t)).isSome = true := by
  induction before with
  | nil =>
    intro prev t h
    rw [lastOr_nil] at h
    rw [List.nil_append]
    cases t with
    | nil =>
      simp only [Regex.searchFrom]
      cases hr : re.run prev [] (fun p r => some (p, r)) with
      | some r => rfl
      | none => simp [hr] at h
    | cons c cs =>
      simp only [Regex.searchFrom]
      cases hr : re.run prev (c :: cs) (fun p r => some (p, r)) with
      | some r => rfl
      | none => simp [hr] at h
  | cons b before ih =>
    intro prev t h
    rw [lastOr_cons] at h
    simp only [List.cons_append, Regex.searchFrom]
    cases hr : re.run prev (b :: (before ++ t)) (fun p r => some (p, r)) with
    | some r => rfl
    | none => exact ih (some b) t h

/-- A pattern without a star that is found in a piece of a line is found in
the line, when the characters of the line around the piece are not word
characters. -/
theorem search_piece (re : Regex) (hsf : re.starFree = true)
    (before piece after : List Char)
    (hb : isWordAt (lastOr none before) = false) (ha : isWordAt after.head? = false)
    (hfound : (re.searchFrom none piece).isSome = true) :
    (re.searchFrom none (before ++ piece ++ after)).isSome = true := by
  obtain ⟨pre, t, hpiece, hrun⟩ := searchFrom_sound re piece none hfound
  have hprev : isWordAt (lastOr none pre) = isWordAt (lastOr none (before ++ pre)) := by
    cases pre with
    | nil => rw [lastOr_nil, List.append_nil, hb]; rfl
    | cons c pre => rw [lastOr_append none before (c :: pre) (by simp)]
  have hlift := run_append re hsf after ha (lastOr none pre) (lastOr none (before ++ pre)) t
    (fun p r => some (p, r)) (fun p r => some (p, r)) hprev (fun _ _ _ _ _ => rfl) hrun
  have := searchFrom_complete re (before ++ pre) none (t ++ after) hlift
  rw [hpiece]
  simpa [List.append_assoc] using this

/-- Every piece of a line split at the column separators lies in the line
between characters that are not word characters. -/
theorem splitLoop_pieces (fuel : Nat) : ∀ (prev : Option Char) (cur rest pre : List Char),
    isWordAt (lastOr none pre) = false →
    ∀ piece ∈ splitLoop columnSeparatorRegex fuel prev cur rest,
      ∃ before after : List Char, pre ++ cur.reverse ++ rest = before ++ piece ++ after
        ∧ isWordAt (lastOr none before) = false ∧ isWordAt after.head? = false := by
  induction fuel with
  | zero =>
    intro prev cur rest pre hpre piece hpiece
    simp only [splitLoop, List.mem_singleton] at hpiece
    subst hpiece
    exact ⟨pre, [], by simp [List.append_assoc], hpre, rfl⟩
  | succ fuel ih =>
    intro prev cur rest pre hpre piece hpiece
    cases rest with
    | nil =>
      simp only [splitLoop, List.mem_singleton] at hpiece
      subst hpiece
      exact ⟨pre, [], by simp, hpre, rfl⟩
    | cons c cs =>
      simp only [splitLoop] at hpiece
      have hstep : ∀ piece ∈ splitLoop columnSeparatorRegex fuel (some c) (c :: cur) cs,
          ∃ before after : List Char, pre ++ cur.reverse ++ c :: cs = before ++ piece ++ after
            ∧ isWordAt (lastOr none before) = false ∧ isWordAt after.head? = false := by
        intro piece hp
        obtain ⟨b, a, heq, hb, ha⟩ := ih (some c) (c :: cur) cs pre hpre piece hp
        exact ⟨b, a, by rw [← heq]; simp [List.append_assoc], hb, ha⟩
      split at hpiece
      · rename_i prev' rest' hrun
        obtain ⟨w, more, hs, hw, hmore⟩ := columnSeparator_run prev (c :: cs) _ hrun
        simp only at hs
        split at hpiece
        · exact hstep piece hpiece
        · rcases List.mem_cons.mp hpiece with rfl | hpiece
          · refine ⟨pre, c :: cs, by simp [List.append_assoc], hpre, ?_⟩
            injection hs with h1 h2
            subst h1
            simp only [List.head?_cons, isWordAt]
            exact space_not_word _ hw
          · obtain ⟨b, a, heq, hb, ha⟩ := ih prev' [] rest' (pre ++ cur.reverse ++ w :: more)
              (lastOr_spaces none _ w more hw hmore) piece hpiece
            refine ⟨b, a, ?_, hb, ha⟩
            rw [← heq, hs]
            simp [List.append_assoc]
      · exact hstep piece hpiece

/-- A date token in a column of a table row is a date token of the row. -/
theorem dateRegex_column (row col : String) (hcol : col ∈ tableColumns row)
    (htest : dateRegex.test col = true) : dateRegex.test row = true := by
  simp only [tableColumns, splitRegex, List.mem_filter, List.mem_map] at hcol
  obtain ⟨⟨piece, hpiece, hmk⟩, -⟩ := hcol
  obtain ⟨before, after, heq, hb, ha⟩ := splitLoop_pieces _ none [] row.data [] rfl piece hpiece
  simp only [List.reverse_nil, List.append_nil, List.nil_append] at heq
  simp only [Regex.test] at htest ⊢
  rw [← hmk] at htest
  rw [heq]
  exact search_piece dateRegex (by decide) before piece after hb ha htest

/-- A string without a date token fails the test of the date pattern. -/
theorem test_of_matchIn_none (re : Regex) (s : String) (h : re.matchIn s = none) :
    re.test s = false := by
  have := matchIn_isSome re s
  rw [h] at this
  simp only [Regex.test]
  rw [← this]
  rfl

/-- Without a date token in any column there is no date column. -/
theorem classifyColumns_no_date (cols : List String)
    (hcols : ∀ col ∈ cols, dateRegex.test col = false) :
    ∀ (k : Nat) (amountCol descCol : Option Nat),
      (classifyColumns k cols (none, amountCol, descCol)).1 = none := by
  induction cols with
  | nil => intro k amountCol descCol; rfl
  | cons col rest ih =>
    intro k amountCol descCol
    have hrest : ∀ col ∈ rest, dateRegex.test col = false :=
      fun c hc => hcols c (List.mem_cons_of_mem _ hc)
    simp only [classifyColumns, hcols col (by simp), Bool.false_eq_true, if_false]
    split
    · exact ih hrest _ _ _
    · split
      · exact ih hrest _ _ _
      · exact ih hrest _ _ _

/-- A table row without a date token gives no transaction. -/
theorem tableRowCandidate_no_date (h : Host) (clocks : Nat → RowClock) (j : Nat) (row : String)
    (hrow : dateRegex.test row = false) : tableRowCandidate h clocks j row = none := by
  have hcols : ∀ col ∈ tableColumns row, dateRegex.test col = false := by
    intro col hcol
    cases hc : dateRegex.test col with
    | false => rfl
    | true =>
      rw [dateRegex_column row col hcol hc] at hrow
      cases hrow
  have hnone := classifyColumns_no_date (tableColumns row) hcols 0 none none
  simp only [tableRowCandidate]
  split
  · split
    · rename_i dateCol amountCol descCol hclass
      rw [hclass] at hnone
      cases hnone
    · rfl
  · rfl

/-- A table without a date token gives no transaction. -/
theorem processTable_no_date (h : Host) (clocks : Nat → RowClock) (tableRows : List String)
    (hrows : ∀ row ∈ tableRows, dateRegex.test row = false) :
    processTable h clocks tableRows = [] := by
  apply collectFrom_eq_nil
  intro j hj
  apply tableRowCandidate_no_date
  exact hrows _ (List.mem_of_mem_tail (getD_mem_lines _ j hj))

/-- Without a date token on any line the table tier pushes nothing. -/
theorem tableFrom_no_date (h : Host) (tableClocks : Nat → Nat → RowClock)
    (lines : List String) :
    ∀ (tableRows : List String) (inTable : Bool) (i : Nat),
      (∀ line ∈ lines, dateRegex.test (trim line) = false) →
      (∀ row ∈ tableRows, dateRegex.test row = false) →
      tableFrom h tableClocks tableRows inTable i lines = [] := by
  induction lines with
  | nil => intro tableRows inTable i _ _; rfl
  | cons line rest ih =>
    intro tableRows inTable i hlines hrows
    have hrest : ∀ line ∈ rest, dateRegex.test (trim line) = false :=
      fun l hl => hlines l (List.mem_cons_of_mem _ hl)
    simp only [tableFrom]
    split
    · exact ih _ _ _ hrest hrows
    · split
      · apply ih _ _ _ hrest
        intro row hrow
        rcases List.mem_append.mp hrow with hrow | hrow
        · exact hrows row hrow
        · simp only [List.mem_singleton] at hrow
          rw [hrow]
          exact hlines line (by simp)
      · split
        · split
          · rw [processTable_no_date h _ tableRows hrows, List.nil_append]
            exact ih _ _ _ hrest (fun row hrow => by simp at hrow)
          · exact ih _ _ _ hrest hrows
        · exact ih _ _ _ hrest hrows

/-- Without a date token on any line the first tier of the PDF extractor
pushes nothing. -/
theorem pdfTier1_no_date (h : Host) (clocks : Nat → RowClock) (lines : List String)
    (hnodate : ∀ line ∈ lines, dateRegex.matchIn (trim line) = none) :
    pdfTier1 h clocks lines = [] := by
  have hcand : ∀ (i : Nat) (line : String), line ∈ lines →
      pdfLineCandidate h clocks i line = none := by
    intro i line hline
    simp only [pdfLineCandidate, hnodate line hline]
    split <;> rfl
  simp only [pdfTier1]
  split
  · apply collectFrom_eq_nil
    intro j hj
    exact hcand _ _ (List.mem_of_mem_drop (getD_mem_lines _ j hj))
  · apply collectFrom_eq_nil
    intro j hj
    exact hcand _ _ (getD_mem_lines _ j hj)

/-- C19, refuted as stated: the text of the two lines `Coffee 4` and `Lunch
12` has no date token and has amounts, and the PDF extractor does not
return. -/
theorem pdf_amount_only_counterexample :
    ¬ (∀ (h : Host) (clocks : Nat → RowClock) (tableClocks : Nat → Nat → RowClock)
        (ticks : Nat → Tick) (text : String), trim text ≠ "" →
        (∀ line ∈ textLines text, dateRegex.matchIn (trim line) = none) →
        (∃ line ∈ textLines text,
          5 ≤ jsLength (trim line) ∧ (amountRegex.matchIn (trim line)).isSome = true) →
        ∃ out : List JSVal, parsePDFFile h clocks tableClocks ticks text = .ok out) := by
  intro hall
  obtain ⟨out, hout⟩ := hall utcHost sampleClocks sampleTableClocks sampleTicks
    "Coffee 4\nLunch 12" (by decide) (by decide) ⟨"Coffee 4", by decide, by decide, by decide⟩
  have hrun : parsePDFFile utcHost sampleClocks sampleTableClocks sampleTicks
      "Coffee 4\nLunch 12" =
      .error "Failed to parse PDF file: No transaction data could be extracted from PDF" := by
    with_unfolding_all rfl
  rw [hrun] at hout
  cases hout

/-- C19, amended: the PDF extractor has no amount-only tier.  Its tiers are
the line-local match, the table tier and the windowed search, and each of
them needs a date token; so for every non-empty text in which no line has a
date token, whatever amounts the lines hold, the three tiers push nothing and
the extraction fails with the message `Failed to parse PDF file: No
transaction data could be extracted from PDF`. -/
theorem pdf_no_amount_only_tier (h : Host) (clocks : Nat → RowClock)
    (tableClocks : Nat → Nat → RowClock) (ticks : Nat → Tick) (text : String)
    (htext : trim text ≠ "")
    (hnodate : ∀ line ∈ textLines text, dateRegex.matchIn (trim line) = none) :
    pdfTier1 h clocks (textLines text) = []
    ∧ pdfTableTier h tableClocks (textLines text) = []
    ∧ windowedTier h "pdf-scan" clocks (textLines text) = []
    ∧ parsePDFFile h clocks tableClocks ticks text =
      .error "Failed to parse PDF file: No transaction data could be extracted from PDF" := by
  have h1 := pdfTier1_no_date h clocks (textLines text) hnodate
  have h2 : pdfTableTier h tableClocks (textLines text) = [] :=
    tableFrom_no_date h tableClocks (textLines text) [] false 0
      (fun line hline => test_of_matchIn_none _ _ (hnodate line hline))
      (fun row hrow => by simp at hrow)
  have h3 := (dateless_tiers h "pdf-scan" clocks (textLines text) hnodate).2
  refine ⟨h1, h2, h3, ?_⟩
  have hte : text ≠ "" := by
    rintro rfl
    exact htext (by decide)
  simp only [parsePDFFile, hte, htext, decide_False, Bool.or_self, Bool.false_eq_true,
    if_false, pdfTransactions, h1, h2, h3]
  rfl

/-- C19 amended, at a concrete text: the PDF extractor fails on the two
lines `Coffee 4` and `Lunch 12`. -/
theorem pdf_no_amount_only_tier_witness :
    parsePDFFile utcHost sampleClocks sampleTableClocks sampleTicks "Coffee 4\nLunch 12" =
      .error "Failed to parse PDF file: No transaction data could be extracted from PDF" :=
  (pdf_no_amount_only_tier utcHost sampleClocks sampleTableClocks sampleTicks
    "Coffee 4\nLunch 12" (by decide) (by decide)).2.2.2

/-- The `catch` block adds no call of an extractor and no call of the
categorizer. -/
theorem failure_effects (file : Upload) (message : String) (effects : List Effect) :
    ∀ e ∈ (failure file message effects).2, e ∈ effects ∨ e = .unlink file.path := by
  intro e he
  simp only [failure] at he
  split at he
  · exact Or.inl he
  · rcases List.mem_append.mp he with he | he
    · exact Or.inl he
    · exact Or.inr (by simpa using he)

/-- The first call stays the first call through the `catch` block. -/
theorem failure_head (file : Upload) (message : String) (e : Effect) (effects : List Effect) :
    (failure file message (e :: effects)).2.head? = some e := by
  simp only [failure]
  split <;> rfl

/-- When the extension selects an extractor, `processFile` calls that
extractor first and no other extractor. -/
theorem processFile_some (h : Host) (c : Clocks) (w : FileWorld) (file : Upload)
    (extractor : Extractor)
    (hd : dispatch (toLowerCase (w.extname file.originalname)) = some extractor) :
    callsOnly extractor (processFile h c w (some file)).2 := by
  have hmem : ∀ (message : String) (effects : List Effect),
      (∀ e ∈ effects, e = .parse extractor ∨ e = .categorize ∨ e = .unlink file.path) →
      ∀ other : Extractor, Effect.parse other ∈ (failure file message effects).2 →
        other = extractor := by
    intro message effects heff other hother
    rcases failure_effects file message effects _ hother with hin | hun
    · rcases heff _ hin with h1 | h1 | h1
      · injection h1 with h1
      · cases h1
      · cases h1
    · cases hun
  unfold callsOnly
  cases hrun : runExtractor h c w extractor with
  | error message =>
    simp only [processFile, hd, hrun]
    exact ⟨failure_head _ _ _ _, hmem message _ (by simp)⟩
  | ok transactions =>
    cases hcat : categorizeTranactions (.arr transactions) with
    | error message =>
      simp only [processFile, hd, hrun, hcat]
      exact ⟨failure_head _ _ _ _, hmem message _ (by simp)⟩
    | ok categorized =>
      cases hun : w.unlink with
      | error message =>
        simp only [processFile, hd, hrun, hcat, hun]
        exact ⟨failure_head _ _ _ _, hmem message _ (by simp)⟩
      | ok u =>
        simp only [processFile, hd, hrun, hcat, hun]
        refine ⟨rfl, ?_⟩
        intro other hother
        simp only [List.mem_cons, List.mem_singleton, List.not_mem_nil, or_false] at hother
        rcases hother with h1 | h1 | h1
        · injection h1 with h1
        · cases h1
        · cases h1

/-- When the extension selects no extractor, `processFile` only deletes the
file, and answers `Unsupported file format` when the file can be deleted. -/
theorem processFile_none (h : Host) (c : Clocks) (w : FileWorld) (file : Upload)
    (hd : dispatch (toLowerCase (w.extname file.originalname)) = none) :
    (∀ e ∈ (processFile h c w (some file)).2, e = .unlink file.path)
    ∧ (∀ u : Unit, w.unlink = .ok u →
        (processFile h c w (some file)).1.status = 400
        ∧ (processFile h c w (some file)).1.message = "Unsupported file format"
        ∧ (processFile h c w (some file)).1.payload = none) := by
  cases hun : w.unlink with
  | error message =>
    simp only [processFile, hd, hun]
    refine ⟨?_, fun u hu => by cases hu⟩
    intro e he
    rcases failure_effects file message _ e he with hin | hun
    · simpa using hin
    · exact hun
  | ok u =>
    simp only [processFile, hd, hun]
    refine ⟨?_, fun _ _ => ⟨trivial, trivial, trivial⟩⟩
    intro e he
    simpa using he

/-- When the extension selects an extractor, the response and the calls of
`processFile` are those of a run in which that extractor was called with the
outcome of `runExtractor`. -/
theorem processFile_handled (h : Host) (c : Clocks) (w : FileWorld) (file : Upload)
    (extractor : Extractor)
    (hd : dispatch (toLowerCase (w.extname file.originalname)) = some extractor) :
    handledBy w file extractor (runExtractor h c w extractor)
      (processFile h c w (some file)) := by
  refine ⟨processFile_some h c w file extractor hd, ?_, ?_⟩
  · intro message hrun
    simp only [processFile, hd, hrun, failure]
    refine ⟨trivial, trivial, trivial, ?_⟩
    split <;> simp
  · intro transactions categorized hrun hcat u hun
    simp only [processFile, hd, hrun, hcat, hun]
    exact ⟨trivial, trivial, trivial, trivial⟩

/-- C20: `processFile` dispatches on the lower-cased extension of the
original name: `.xlsx` and `.xls` go to `parseExcelFile`, `.csv` to
`parseCSVFile`, `.json` to `parseJSONFile`, `.xml` to `parseXMLFile`, `.pdf`
to `parsePDFFile`, `.jpg` and `.jpeg` to `parseImageFile`.  In each case the
named extractor is called first and alone, on the decoded content of the
file; its exception becomes the answer 500 with its message, without a call
of the categorizer, and its result is what the categorizer receives and what
the success response is built from.  For every other extension no extractor
and no categorizer is called, the file is deleted, and, the deletion done,
the answer is the status 400 with the message `Unsupported file format`. -/
theorem processFile_dispatch (h : Host) (c : Clocks) (w : FileWorld) (file : Upload) :
    ((toLowerCase (w.extname file.originalname) = ".xlsx"
        ∨ toLowerCase (w.extname file.originalname) = ".xls") →
      dispatchedTo w file .excel w.sheetRows (parseExcelFile h c.rows c.ticks)
        (processFile h c w (some file)))
    ∧ (toLowerCase (w.extname file.originalname) = ".csv" →
      dispatchedTo w file .csv w.csvRows (parseCSVFile h c.rows c.ticks)
        (processFile h c w (some file)))
    ∧ (toLowerCase (w.extname file.originalname) = ".json" →
      dispatchedTo w file .json w.jsonData (parseJSONFile h c.rows c.ticks)
        (processFile h c w (some file)))
    ∧ (toLowerCase (w.extname file.originalname) = ".xml" →
      dispatchedTo w file .xml w.xmlResult (parseXMLFile h c.rows c.ticks)
        (processFile h c w (some file)))
    ∧ (toLowerCase (w.extname file.originalname) = ".pdf" →
      dispatchedTo w file .pdf w.pdfText (parsePDFFile h c.rows c.tables c.ticks)
        (processFile h c w (some file)))
    ∧ ((toLowerCase (w.extname file.originalname) = ".jpg"
        ∨ toLowerCase (w.extname file.originalname) = ".jpeg") →
      dispatchedTo w file .image w.imageText (parseImageFile h c.rows c.ticks)
        (processFile h c w (some file)))
    ∧ (toLowerCase (w.extname file.originalname) ∉
          [".xlsx", ".xls", ".csv", ".json", ".xml", ".pdf", ".jpg", ".jpeg"] →
        (∀ e ∈ (processFile h c w (some file)).2, e = .unlink file.path)
        ∧ (∀ u : Unit, w.unlink = .ok u →
            (processFile h c w (some file)).1.status = 400
            ∧ (processFile h c w (some file)).1.message = "Unsupported file format"
            ∧ (processFile h c w (some file)).1.payload = none))
    ∧ (processFile utcHost sampleAllClocks sampleWorld
          (some { path := "uploads/u1", originalname := "Report.PDF" })).2
        = [.parse .pdf, .unlink "uploads/u1"]
    ∧ (processFile utcHost sampleAllClocks sampleWorld
          (some { path := "uploads/u1", originalname := "Report.PDF" })).1.message
        = "Failed to parse PDF file: No text content found in PDF file"
    ∧ (processFile utcHost sampleAllClocks sampleWorld
          (some { path := "uploads/u3", originalname := "scan.jpg" })).1.message
        = "Failed to parse image file: No text content extracted from image"
    ∧ (processFile utcHost sampleAllClocks sampleWorld
          (some { path := "uploads/u2", originalname := "notes.txt" })).2
        = [.unlink "uploads/u2"] := by
  have key : ∀ (extractor : Extractor),
      dispatch (toLowerCase (w.extname file.originalname)) = some extractor →
      ∀ {α : Type} (decoded : Except String α) (parse : α → Except String (List JSVal)),
      (∀ message : String, decoded = .error message →
        runExtractor h c w extractor = .error message) →
      (∀ content : α, decoded = .ok content →
        runExtractor h c w extractor = parse content) →
      dispatchedTo w file extractor decoded parse (processFile h c w (some file)) := by
    intro extractor hd α decoded parse herr hok
    have hh := processFile_handled h c w file extractor hd
    constructor
    · intro message hdec
      rw [herr message hdec] at hh
      exact hh
    · intro content hdec
      rw [hok content hdec] at hh
      exact hh
  refine ⟨?_, ?_, ?_, ?_, ?_, ?_, ?_, by decide, ?_, ?_, by decide⟩
  · intro he
    refine key .excel ?_ _ _ (fun m hm => by simp only [runExtractor, hm])
      (fun x hx => by simp only [runExtractor, hx])
    rcases he with he | he <;> rw [he] <;> rfl
  · intro he
    refine key .csv ?_ _ _ (fun m hm => by simp only [runExtractor, hm])
      (fun x hx => by simp only [runExtractor, hx])
    rw [he]; rfl
  · intro he
    refine key .json ?_ _ _ (fun m hm => by simp only [runExtractor, hm])
      (fun x hx => by simp only [runExtractor, hx])
    rw [he]; rfl
  · intro he
    refine key .xml ?_ _ _ (fun m hm => by simp only [runExtractor, hm])
      (fun x hx => by simp only [runExtractor, hx])
    rw [he]; rfl
  · intro he
    refine key .pdf ?_ _ _ (fun m hm => by simp only [runExtractor, hm])
      (fun x hx => by simp only [runExtractor, hx])
    rw [he]; rfl
  · intro he
    refine key .image ?_ _ _ (fun m hm => by simp only [runExtractor, hm])
      (fun x hx => by simp only [runExtractor, hx])
    rcases he with he | he <;> rw [he] <;> rfl
  · intro hne
    simp only [List.mem_cons, List.mem_singleton, List.not_mem_nil, or_false, not_or] at hne
    obtain ⟨h1, h2, h3, h4, h5, h6, h7, h8⟩ := hne
    apply processFile_none
    simp only [dispatch, h1, h2, h3, h4, h5, h6, h7, h8, if_false]
  · with_unfolding_all rfl
  · with_unfolding_all rfl

/-- A transaction that the callback of the normalizer returns has the
canonical shape. -/
theorem normalizeTransaction_canonical (h : Host) (k : Tick) (x t : JSVal)
    (hx : normalizeTransaction h k x = .ok t) : Canonical t := by
  obtain ⟨d, a, ty, c, -, hav, htyv, -, -, ha, hty, -⟩ := normalizeTransaction_parts h k x t hx
  refine ⟨_, _, ha, hty, ?_, ?_, ?_⟩
  · exact normalizeTransactionType_ok h _ ty htyv
  · intro he
    rw [if_pos he]
    exact JSNum.neg_abs_nonpos _ (ensurePositiveNumber_not_nan h _ a hav)
  · intro hr
    have hne : ty ≠ "expense" := by
      rw [hr]; decide
    rw [if_neg hne]
    exact JSNum.abs_nonneg _ (ensurePositiveNumber_not_nan h _ a hav)

/-- Every transaction that the normalizer returns has the canonical shape. -/
theorem normalizeTransactionData_canonical (h : Host) (ticks : Nat → Tick) (input : JSVal)
    (out : List JSVal) (hres : normalizeTransactionData h ticks input = .ok out) :
    ∀ t ∈ out, Canonical t := by
  intro t ht
  cases input with
  | arr items =>
    obtain ⟨j, x, _, hx⟩ := mapIdxM_mem _ items 0 out hres t ht
    exact normalizeTransaction_canonical h _ x t hx
  | _ => simp [normalizeTransactionData] at hres

/-- Every transaction that a tabular extractor returns has the canonical
shape. -/
theorem parseTabular_canonical (h : Host) (tag format : String) (clocks : Nat → RowClock)
    (ticks : Nat → Tick) (rows : List (List (String × JSVal))) (out : List JSVal)
    (hres : parseTabular h tag format clocks ticks rows = .ok out) :
    ∀ t ∈ out, Canonical t := by
  obtain ⟨firstRow, rest, hrows, hlen, hpoint⟩ :=
    parseTabular_ok h tag format clocks ticks rows out hres
  intro t ht
  obtain ⟨i, hi, hti⟩ := List.getElem_of_mem ht
  have hi2 : i < rows.length := by rw [← hlen]; exact hi
  obtain ⟨y, t2, -, hnorm, hout⟩ := hpoint i rows[i] (List.getElem?_eq_getElem hi2)
  rw [List.getElem?_eq_getElem hi, hti] at hout
  injection hout with hout
  subst hout
  exact normalizeTransaction_canonical h _ y _ hnorm

/-- Every transaction that the JSON extractor returns has the canonical
shape. -/
theorem parseJSONFile_canonical (h : Host) (clocks : Nat → RowClock) (ticks : Nat → Tick)
    (data : JSVal) (out : List JSVal) (hres : parseJSONFile h clocks ticks data = .ok out) :
    ∀ t ∈ out, Canonical t := by
  obtain ⟨hlen, hpoint⟩ := parseJSONFile_ok h clocks ticks data out hres
  intro t ht
  obtain ⟨i, hi, hti⟩ := List.getElem_of_mem ht
  have hi2 : i < (jsonLocate data).length := by rw [← hlen]; exact hi
  obtain ⟨y, t2, -, hnorm, hout⟩ := hpoint i (jsonLocate data)[i] (List.getElem?_eq_getElem hi2)
  rw [List.getElem?_eq_getElem hi, hti] at hout
  injection hout with hout
  subst hout
  exact normalizeTransaction_canonical h _ y _ hnorm

/-- Every transaction that the XML extractor returns has the canonical
shape. -/
theorem parseXMLFile_canonical (h : Host) (clocks : Nat → RowClock) (ticks : Nat → Tick)
    (result : JSVal) (out : List JSVal) (hres : parseXMLFile h clocks ticks result = .ok out) :
    ∀ t ∈ out, Canonical t := by
  obtain ⟨located, -, hlen, hpoint⟩ := parseXMLFile_ok h clocks ticks result out hres
  intro t ht
  obtain ⟨i, hi, hti⟩ := List.getElem_of_mem ht
  have hi2 : i < located.length := by rw [← hlen]; exact hi
  obtain ⟨y, t2, -, hnorm, hout⟩ := hpoint i located[i] (List.getElem?_eq_getElem hi2)
  rw [List.getElem?_eq_getElem hi, hti] at hout
  injection hout with hout
  subst hout
  exact normalizeTransaction_canonical h _ y _ hnorm

/-- Every transaction that the image extractor returns has the canonical
shape. -/
theorem parseImageFile_canonical (h : Host) (clocks : Nat → RowClock) (ticks : Nat → Tick)
    (text : String) (out : List JSVal) (hres : parseImageFile h clocks ticks text = .ok out) :
    ∀ t ∈ out, Canonical t := by
  simp only [parseImageFile] at hres
  split at hres
  · cases hres
  · rename_i result hbody
    injection hres with hres
    subst hres
    split at hbody
    · cases hbody
    · split at hbody
      · cases hbody
      · exact normalizeTransactionData_canonical h ticks _ _ hbody

/-- Every transaction that the PDF extractor returns has the canonical
shape. -/
theorem parsePDFFile_canonical (h : Host) (clocks : Nat → RowClock)
    (tableClocks : Nat → Nat → RowClock) (ticks : Nat → Tick)
    (text : String) (out : List JSVal)
    (hres : parsePDFFile h clocks tableClocks ticks text = .ok out) :
    ∀ t ∈ out, Canonical t := by
  simp only [parsePDFFile] at hres
  split at hres
  · cases hres
  · rename_i result hbody
    injection hres with hres
    subst hres
    split at hbody
    · cases hbody
    · split at hbody
      · cases hbody
      · exact normalizeTransactionData_canonical h ticks _ _ hbody

/-- Every transaction that an extractor hands to `processFile` has the
canonical shape. -/
theorem runExtractor_canonical (h : Host) (c : Clocks) (w : FileWorld) (extractor : Extractor)
    (out : List JSVal) (hres : runExtractor h c w extractor = .ok out) :
    ∀ t ∈ out, Canonical t := by
  cases extractor with
  | excel =>
    simp only [runExtractor] at hres
    split at hres
    · cases hres
    · exact parseTabular_canonical h _ _ _ _ _ out hres
  | csv =>
    simp only [runExtractor] at hres
    split at hres
    · cases hres
    · exact parseTabular_canonical h _ _ _ _ _ out hres
  | json =>
    simp only [runExtractor] at hres
    split at hres
    · cases hres
    · exact parseJSONFile_canonical h _ _ _ out hres
  | xml =>
    simp only [runExtractor] at hres
    split at hres
    · cases hres
    · exact parseXMLFile_canonical h _ _ _ out hres
  | pdf =>
    simp only [runExtractor] at hres
    split at hres
    · cases hres
    · exact parsePDFFile_canonical h _ _ _ _ out hres
  | image =>
    simp only [runExtractor] at hres
    split at hres
    · cases hres
    · exact parseImageFile_canonical h _ _ _ out hres

/-- The callback of the categorizer changes no property other than
`category`. -/
theorem categorizeTransaction_frame (x y : JSVal) (hxy : categorizeTransaction x = .ok y)
    (key : String) (hkey : key ≠ "category") : getProp y key = getProp x key := by
  obtain ⟨props, rfl⟩ := categorizeTransaction_ok_obj x y hxy
  rw [categorizeTransaction_obj] at hxy
  split at hxy
  · injection hxy with hxy
    rw [hxy]
  · split at hxy
    · injection hxy with hxy
      subst hxy
      simp only [getProp, lookupProp_setProp_ne "category" key _ props hkey]
    · cases hxy

/-- In a list of transactions whose type is `revenue` or `expense`, the
revenues and the expenses make up the list. -/
theorem countType_total (ts : List JSVal)
    (hts : ∀ t ∈ ts, ∃ ty : String, getProp t "type" = .ok (.str ty)
      ∧ (ty = "revenue" ∨ ty = "expense")) :
    ts.length = countType "revenue" ts + countType "expense" ts := by
  induction ts with
  | nil => rfl
  | cons t rest ih =>
    have hrest := ih (fun t ht => hts t (List.mem_cons_of_mem _ ht))
    obtain ⟨ty, hty, hcase⟩ := hts t (by simp)
    have hprop : propOf t "type" = .str ty := by
      cases t <;> simp_all [getProp, propOf]
    simp only [countType, List.countP_cons, hprop, strictEqStr, List.length_cons] at hrest ⊢
    rcases hcase with rfl | rfl
    · simp only [decide_True, if_true, show ("revenue" = "expense") = False by decide,
        decide_False, Bool.false_eq_true, if_false]
      omega
    · simp only [decide_True, if_true, show ("expense" = "revenue") = False by decide,
        decide_False, Bool.false_eq_true, if_false]
      omega

/-- C21: categorization runs after normalization and keeps the canonical
shape.  `categorizeTranactions` returns a list of the same length, in the same
order, in which every property other than `category` is unchanged.  So for
every successful call of `processFile` the calls are the extractor, the
categorizer and the deletion of the file, in that order; every returned
transaction has a type that is `revenue` or `expense` and an amount with the
sign of its type; and `summary.total` is the number of transactions and
equals `summary.revenue + summary.expenses`. -/
theorem processFile_canonical (h : Host) (c : Clocks) (w : FileWorld) (file : Upload) :
    (∀ xs ys : List JSVal, categorizeTranactions (.arr xs) = .ok ys →
      ys.length = xs.length
      ∧ ∀ (i : Nat) (x y : JSVal), xs[i]? = some x → ys[i]? = some y →
          ∀ key : String, key ≠ "category" → getProp y key = getProp x key)
    ∧ (∀ (ts : List JSVal) (summary : Summary),
        (processFile h c w (some file)).1.payload = some (ts, summary) →
        (∃ extractor : Extractor,
          (processFile h c w (some file)).2
            = [.parse extractor, .categorize, .unlink file.path])
        ∧ (processFile h c w (some file)).1.status = 200
        ∧ (∀ t ∈ ts, Canonical t)
        ∧ summary.total = ts.length
        ∧ summary.total = summary.revenue + summary.expenses)
    ∧ (processFile utcHost sampleAllClocks sampleCsvWorld
          (some { path := "uploads/u1", originalname := "ledger.csv" })).1.payload
        = some ([.obj [("id", .str "csv-0-1710374400000"), ("date", .str "2024-01-05"),
            ("description", .str "Office Rent"), ("amount", .num (.fin (-1200))),
            ("type", .str "expense"), ("category", .str "Rent")]],
          { total := 1, revenue := 0, expenses := 1 }) := by
  have hframe : ∀ xs ys : List JSVal, categorizeTranactions (.arr xs) = .ok ys →
      ys.length = xs.length
      ∧ ∀ (i : Nat) (x y : JSVal), xs[i]? = some x → ys[i]? = some y →
          ∀ key : String, key ≠ "category" → getProp y key = getProp x key := by
    intro xs ys hcat
    refine ⟨mapIdxM_length _ xs 0 ys hcat, ?_⟩
    intro i x y hx hy key hkey
    obtain ⟨y2, hy2, hxy⟩ := mapIdxM_getElem? (fun _ t => categorizeTransaction t) xs 0 ys
      hcat i x hx
    rw [hy] at hy2
    injection hy2 with hy2
    subst hy2
    exact categorizeTransaction_frame x y hxy key hkey
  refine ⟨hframe, ?_, by with_unfolding_all rfl⟩
  intro ts summary hpay
  cases hd : dispatch (toLowerCase (w.extname file.originalname)) with
  | none =>
    cases hun : w.unlink with
    | error message => simp [processFile, hd, hun, failure] at hpay
    | ok u => simp [processFile, hd, hun] at hpay
  | some extractor =>
    cases hrun : runExtractor h c w extractor with
    | error message => simp [processFile, hd, hrun, failure] at hpay
    | ok transactions =>
      cases hcat : categorizeTranactions (.arr transactions) with
      | error message => simp [processFile, hd, hrun, hcat, failure] at hpay
      | ok categorized =>
        cases hun : w.unlink with
        | error message => simp [processFile, hd, hrun, hcat, hun, failure] at hpay
        | ok u =>
          simp only [processFile, hd, hrun, hcat, hun, Option.some.injEq, Prod.mk.injEq] at hpay ⊢
          obtain ⟨hts, hsum⟩ := hpay
          subst hts
          subst hsum
          have hcanon : ∀ t ∈ categorized, Canonical t := by
            intro t ht
            obtain ⟨j, x, hx, hxt⟩ := mapIdxM_mem (fun _ t => categorizeTransaction t)
              transactions 0 categorized hcat t ht
            obtain ⟨a, ty, ha, hty, hrest⟩ := runExtractor_canonical h c w extractor
              transactions hrun x (List.mem_iff_getElem?.mpr ⟨j, hx⟩)
            refine ⟨a, ty, ?_, ?_, hrest⟩
            · rw [categorizeTransaction_frame x t hxt "amount" (by decide), ha]
            · rw [categorizeTransaction_frame x t hxt "type" (by decide), hty]
          refine ⟨⟨extractor, rfl⟩, trivial, hcanon, rfl, ?_⟩
          apply countType_total
          intro t ht
          obtain ⟨a, ty, -, hty, hcase, -⟩ := hcanon t ht
          exact ⟨ty, hty, hcase⟩

end Profit
